import Mathlib

/-!
NeuroX front end (lexer, parser and AST) and runtime safety monitor

A shallow embedding of `src/compiler/lexer.c`, `src/compiler/ast.h`,
`src/compiler/parser.c` and `src/runtime/core/safety.c`.

Modelling conventions

* A C string (`const char *`) is the list of characters visible from the
  pointer up to, and excluding, the terminating NUL.  A pointer into the source
  buffer is therefore the suffix of the buffer that starts there, and the
  difference of two such pointers is the difference of the suffix lengths.
* A nullable pointer to a node is an `Option`.
* `int` line and column counters are `Int`; `size_t` lengths are `Nat`.
* The loops of the lexer, `advance` and `skip_newlines` consume input on each
  iteration; they are written as recursive functions over a counter started at
  the number of remaining characters (plus the iterations that consume none).
* The recursive-descent functions take a `fuel` argument.  One unit is spent
  per call and per loop iteration; running out gives `Outcome.out_of_fuel`.
  A C run that never returns is a run that is out of fuel for every `fuel`.
* The safety monitor keeps its state in one global struct; each function takes
  the struct and returns it changed.  The clock is an argument of the functions
  that read it, `uint64_t` arithmetic is taken modulo `2 ^ 64`, and `float`
  values are rationals.
-/

namespace NeuroX

/-! ## Tokens (`lexer.h`) -/

/-- Token tags, `token_type_t` of `lexer.h`. -/
inductive token_type_t where
  | TOKEN_IDENTIFIER | TOKEN_NUMBER | TOKEN_STRING
  | TOKEN_ROBOT | TOKEN_MOTOR | TOKEN_SERVO | TOKEN_SENSOR | TOKEN_GPIO | TOKEN_BUS
  | TOKEN_NET | TOKEN_MQTT | TOKEN_TOPIC | TOKEN_PUBLISH | TOKEN_ON | TOKEN_TASK
  | TOKEN_SCHEDULE | TOKEN_LIMITS | TOKEN_WHEN | TOKEN_IF | TOKEN_ELSE | TOKEN_LET
  | TOKEN_WAIT | TOKEN_STOP | TOKEN_TURN | TOKEN_ESTOP | TOKEN_MESSAGE | TOKEN_AS
  | TOKEN_TYPE | TOKEN_MODE | TOKEN_BROKER | TOKEN_CLIENT_ID | TOKEN_QOS
  | TOKEN_PRIORITY | TOKEN_MAX | TOKEN_MIN | TOKEN_JSON | TOKEN_NOW | TOKEN_VALUE
  | TOKEN_POWER | TOKEN_READS | TOKEN_CLOCKWISE | TOKEN_COUNTERCLOCKWISE
  | TOKEN_TYPE_PERCENT | TOKEN_TYPE_MS | TOKEN_TYPE_CM | TOKEN_TYPE_DEG | TOKEN_TYPE_HZ
  | TOKEN_TYPE_DISTANCE | TOKEN_TYPE_ANGLE | TOKEN_TYPE_SPEED
  | TOKEN_HIGH | TOKEN_MEDIUM | TOKEN_LOW
  | TOKEN_INPUT | TOKEN_OUTPUT | TOKEN_INPUT_PULLUP | TOKEN_INPUT_PULLDOWN
  | TOKEN_I2C | TOKEN_SPI | TOKEN_CAN | TOKEN_UART
  | TOKEN_PLUS | TOKEN_MINUS | TOKEN_STAR | TOKEN_SLASH | TOKEN_PERCENT | TOKEN_EQUAL
  | TOKEN_EQUAL_EQUAL | TOKEN_BANG_EQUAL | TOKEN_LESS | TOKEN_LESS_EQUAL | TOKEN_GREATER
  | TOKEN_GREATER_EQUAL | TOKEN_AMP_AMP | TOKEN_PIPE_PIPE | TOKEN_BANG | TOKEN_AT
  | TOKEN_COLON | TOKEN_DOUBLE_COLON | TOKEN_ARROW
  | TOKEN_LEFT_PAREN | TOKEN_RIGHT_PAREN | TOKEN_LEFT_BRACE | TOKEN_RIGHT_BRACE
  | TOKEN_LEFT_BRACKET | TOKEN_RIGHT_BRACKET | TOKEN_COMMA | TOKEN_DOT | TOKEN_SEMICOLON
  | TOKEN_NEWLINE | TOKEN_EOF | TOKEN_ERROR
  deriving DecidableEq, Repr

open token_type_t

/-- A token, `token_t`: `start` is the text visible from the token's start
pointer (the rest of the source buffer, or the whole static message of an error
token), of which the first `length` characters are the token's own text. -/
structure token_t where
  type : token_type_t
  start : List Char
  length : Nat
  line : Int
  column : Int
  deriving DecidableEq, Repr

/-- The lexer cursor, `lexer_t`. -/
structure lexer_t where
  source : List Char
  start : List Char
  current : List Char
  line : Int
  column : Int
  filename : Option (List Char)
  deriving DecidableEq, Repr

/-! ## Lexer (`lexer.c`) -/

/-- The keyword table `keywords[]`, in source order. -/
def keywords : List (List Char × token_type_t) :=
  [ ("robot".toList, TOKEN_ROBOT), ("motor".toList, TOKEN_MOTOR), ("servo".toList, TOKEN_SERVO),
    ("sensor".toList, TOKEN_SENSOR), ("gpio".toList, TOKEN_GPIO), ("bus".toList, TOKEN_BUS),
    ("net".toList, TOKEN_NET), ("mqtt".toList, TOKEN_MQTT), ("topic".toList, TOKEN_TOPIC),
    ("publish".toList, TOKEN_PUBLISH), ("on".toList, TOKEN_ON), ("task".toList, TOKEN_TASK),
    ("schedule".toList, TOKEN_SCHEDULE), ("limits".toList, TOKEN_LIMITS),
    ("when".toList, TOKEN_WHEN), ("if".toList, TOKEN_IF), ("else".toList, TOKEN_ELSE),
    ("let".toList, TOKEN_LET), ("wait".toList, TOKEN_WAIT), ("stop".toList, TOKEN_STOP),
    ("turn".toList, TOKEN_TURN), ("estop".toList, TOKEN_ESTOP), ("message".toList, TOKEN_MESSAGE),
    ("as".toList, TOKEN_AS), ("type".toList, TOKEN_TYPE), ("mode".toList, TOKEN_MODE),
    ("broker".toList, TOKEN_BROKER), ("client_id".toList, TOKEN_CLIENT_ID),
    ("qos".toList, TOKEN_QOS), ("priority".toList, TOKEN_PRIORITY), ("max".toList, TOKEN_MAX),
    ("min".toList, TOKEN_MIN), ("json".toList, TOKEN_JSON), ("now".toList, TOKEN_NOW),
    ("value".toList, TOKEN_VALUE), ("power".toList, TOKEN_POWER), ("reads".toList, TOKEN_READS),
    ("clockwise".toList, TOKEN_CLOCKWISE), ("counterclockwise".toList, TOKEN_COUNTERCLOCKWISE),
    ("Percent".toList, TOKEN_TYPE_PERCENT), ("ms".toList, TOKEN_TYPE_MS),
    ("cm".toList, TOKEN_TYPE_CM), ("deg".toList, TOKEN_TYPE_DEG), ("Hz".toList, TOKEN_TYPE_HZ),
    ("Distance".toList, TOKEN_TYPE_DISTANCE), ("Angle".toList, TOKEN_TYPE_ANGLE),
    ("Speed".toList, TOKEN_TYPE_SPEED),
    ("HIGH".toList, TOKEN_HIGH), ("MEDIUM".toList, TOKEN_MEDIUM), ("LOW".toList, TOKEN_LOW),
    ("Input".toList, TOKEN_INPUT), ("Output".toList, TOKEN_OUTPUT),
    ("InputPullup".toList, TOKEN_INPUT_PULLUP), ("InputPulldown".toList, TOKEN_INPUT_PULLDOWN),
    ("I2C".toList, TOKEN_I2C), ("SPI".toList, TOKEN_SPI), ("CAN".toList, TOKEN_CAN),
    ("UART".toList, TOKEN_UART) ]

/-- The NUL character that ends a C string. -/
def NUL : Char := Char.ofNat 0

/-- C `isalpha` in the "C" locale. -/
def isalpha (c : Char) : Bool := c.isAlpha

/-- C `isdigit`. -/
def isdigit (c : Char) : Bool := c.isDigit

/-- C `isalnum` in the "C" locale. -/
def isalnum (c : Char) : Bool := c.isAlphanum

namespace Lexer

/-- Start a scan session, `lexer_init`: the source is read as a C string, so
it ends at its first NUL. -/
def lexer_init (source : List Char) (filename : Option (List Char)) : lexer_t :=
  let source := source.takeWhile (fun c => c != NUL)
  { source := source, start := source, current := source, line := 1, column := 1,
    filename := filename }

/-- Whether the cursor is at the terminating NUL, `is_at_end`. -/
def is_at_end (lexer : lexer_t) : Bool := lexer.current.isEmpty

/-- Character under the cursor, `peek`. -/
def peek (lexer : lexer_t) : Char := lexer.current.headD NUL

/-- Character after the one under the cursor, `peek_next`. -/
def peek_next (lexer : lexer_t) : Char :=
  if is_at_end lexer then NUL else lexer.current.tail.headD NUL

/-- Step over one character and return it, `advance`. -/
def advance (lexer : lexer_t) : Char × lexer_t :=
  (lexer.current.headD NUL,
   { lexer with current := lexer.current.tail, column := lexer.column + 1 })

/-- Step over the character under the cursor when it is `expected`, `match`. -/
def match_ (lexer : lexer_t) (expected : Char) : Bool × lexer_t :=
  if is_at_end lexer then (false, lexer)
  else if peek lexer != expected then (false, lexer)
  else (true, { lexer with current := lexer.current.tail, column := lexer.column + 1 })

/-- Token from `start` to `current`, `make_token`. -/
def make_token (lexer : lexer_t) (type : token_type_t) : token_t :=
  let length := lexer.start.length - lexer.current.length
  { type := type, start := lexer.start, length := length, line := lexer.line,
    column := lexer.column - (length : Int) }

/-- Error token carrying a static message, `error_token`. -/
def error_token (lexer : lexer_t) (message : List Char) : token_t :=
  { type := TOKEN_ERROR, start := message, length := message.length, line := lexer.line,
    column := lexer.column }

/-- Line comment loop of `skip_whitespace`:
`while (peek != newline && !is_at_end) advance`. -/
def skip_line_comment : Nat → lexer_t → lexer_t
  | 0, lexer => lexer
  | n + 1, lexer =>
    if peek lexer != '\n' && !is_at_end lexer then skip_line_comment n (advance lexer).2
    else lexer

/-- Block comment loop of `skip_whitespace`, entered after the opening
slash and star. -/
def skip_block_comment : Nat → lexer_t → lexer_t
  | 0, lexer => lexer
  | n + 1, lexer =>
    if !is_at_end lexer then
      if peek lexer == '*' && peek_next lexer == '/' then
        (advance (advance lexer).2).2
      else
        let lexer :=
          if peek lexer == '\n' then { lexer with line := lexer.line + 1, column := 0 }
          else lexer
        skip_block_comment n (advance lexer).2
    else lexer

/-- The `for (;;)` loop of `skip_whitespace`. -/
def skip_whitespace_loop : Nat → lexer_t → lexer_t
  | 0, lexer => lexer
  | n + 1, lexer =>
    let c := peek lexer
    if c == ' ' || c == '\r' || c == '\t' then
      skip_whitespace_loop n (advance lexer).2
    else if c == '\n' then lexer
    else if c == '/' then
      if peek_next lexer == '/' then
        skip_whitespace_loop n (skip_line_comment lexer.current.length lexer)
      else if peek_next lexer == '*' then
        let lexer := (advance (advance lexer).2).2
        skip_whitespace_loop n (skip_block_comment lexer.current.length lexer)
      else lexer
    else lexer

/-- Skip blanks and comments but not newlines, `skip_whitespace`. -/
def skip_whitespace (lexer : lexer_t) : lexer_t :=
  skip_whitespace_loop (lexer.current.length + 1) lexer

/-- Keyword lookup over an explicit table: the loop of `check_keyword`. -/
def check_keyword_in : List (List Char × token_type_t) → List Char → Nat → token_type_t
  | [], _, _ => TOKEN_IDENTIFIER
  | (text, type) :: table, start, length =>
    if text.length = length ∧ start.take length = text then type
    else check_keyword_in table start length

/-- First table entry spelled like the `length` characters at `start`,
`check_keyword`. -/
def check_keyword (start : List Char) (length : Nat) : token_type_t :=
  check_keyword_in keywords start length

/-- The loop of `identifier`. -/
def identifier_loop : Nat → lexer_t → lexer_t
  | 0, lexer => lexer
  | n + 1, lexer =>
    if isalnum (peek lexer) || peek lexer == '_' then identifier_loop n (advance lexer).2
    else lexer

/-- Scan the rest of an identifier or keyword, `identifier`. -/
def identifier (lexer : lexer_t) : token_t × lexer_t :=
  let lexer := identifier_loop lexer.current.length lexer
  let type := check_keyword lexer.start (lexer.start.length - lexer.current.length)
  (make_token lexer type, lexer)

/-- The digit loops of `number`. -/
def digits_loop : Nat → lexer_t → lexer_t
  | 0, lexer => lexer
  | n + 1, lexer =>
    if isdigit (peek lexer) then digits_loop n (advance lexer).2 else lexer

/-- Scan the rest of a numeric literal, `number`. -/
def number (lexer : lexer_t) : token_t × lexer_t :=
  let lexer := digits_loop lexer.current.length lexer
  let lexer :=
    if peek lexer == '.' && isdigit (peek_next lexer) then
      let lexer := (advance lexer).2
      digits_loop lexer.current.length lexer
    else lexer
  (make_token lexer TOKEN_NUMBER, lexer)

/-- The loop of `string`. -/
def string_loop : Nat → lexer_t → lexer_t
  | 0, lexer => lexer
  | n + 1, lexer =>
    if peek lexer != '"' && !is_at_end lexer then
      let lexer :=
        if peek lexer == '\n' then { lexer with line := lexer.line + 1, column := 0 }
        else lexer
      string_loop n (advance lexer).2
    else lexer

/-- Scan the rest of a string literal, `string`. -/
def string (lexer : lexer_t) : token_t × lexer_t :=
  let lexer := string_loop lexer.current.length lexer
  if is_at_end lexer then (error_token lexer "Unterminated string".toList, lexer)
  else
    let lexer := (advance lexer).2
    (make_token lexer TOKEN_STRING, lexer)

/-- Next token, `lexer_next_token`. -/
def lexer_next_token (lexer : lexer_t) : token_t × lexer_t :=
  let lexer := skip_whitespace lexer
  let lexer := { lexer with start := lexer.current }
  if is_at_end lexer then (make_token lexer TOKEN_EOF, lexer)
  else
    let (c, lexer) := advance lexer
    if isalpha c || c == '_' then identifier lexer
    else if isdigit c then number lexer
    else if c == '(' then (make_token lexer TOKEN_LEFT_PAREN, lexer)
    else if c == ')' then (make_token lexer TOKEN_RIGHT_PAREN, lexer)
    else if c == '{' then (make_token lexer TOKEN_LEFT_BRACE, lexer)
    else if c == '}' then (make_token lexer TOKEN_RIGHT_BRACE, lexer)
    else if c == '[' then (make_token lexer TOKEN_LEFT_BRACKET, lexer)
    else if c == ']' then (make_token lexer TOKEN_RIGHT_BRACKET, lexer)
    else if c == ',' then (make_token lexer TOKEN_COMMA, lexer)
    else if c == '.' then (make_token lexer TOKEN_DOT, lexer)
    else if c == ';' then (make_token lexer TOKEN_SEMICOLON, lexer)
    else if c == '+' then (make_token lexer TOKEN_PLUS, lexer)
    else if c == '-' then
      let (m, lexer) := match_ lexer '>'
      if m then (make_token lexer TOKEN_ARROW, lexer)
      else (make_token lexer TOKEN_MINUS, lexer)
    else if c == '*' then (make_token lexer TOKEN_STAR, lexer)
    else if c == '/' then (make_token lexer TOKEN_SLASH, lexer)
    else if c == '%' then (make_token lexer TOKEN_PERCENT, lexer)
    else if c == '@' then (make_token lexer TOKEN_AT, lexer)
    else if c == '!' then
      let (m, lexer) := match_ lexer '='
      (make_token lexer (if m then TOKEN_BANG_EQUAL else TOKEN_BANG), lexer)
    else if c == '=' then
      let (m, lexer) := match_ lexer '='
      (make_token lexer (if m then TOKEN_EQUAL_EQUAL else TOKEN_EQUAL), lexer)
    else if c == '<' then
      let (m, lexer) := match_ lexer '='
      (make_token lexer (if m then TOKEN_LESS_EQUAL else TOKEN_LESS), lexer)
    else if c == '>' then
      let (m, lexer) := match_ lexer '='
      (make_token lexer (if m then TOKEN_GREATER_EQUAL else TOKEN_GREATER), lexer)
    else if c == '&' then
      let (m, lexer) := match_ lexer '&'
      if m then (make_token lexer TOKEN_AMP_AMP, lexer)
      else (error_token lexer "Unexpected character".toList, lexer)
    else if c == '|' then
      let (m, lexer) := match_ lexer '|'
      if m then (make_token lexer TOKEN_PIPE_PIPE, lexer)
      else (error_token lexer "Unexpected character".toList, lexer)
    else if c == ':' then
      let (m, lexer) := match_ lexer ':'
      if m then (make_token lexer TOKEN_DOUBLE_COLON, lexer)
      else (make_token lexer TOKEN_COLON, lexer)
    else if c == '"' then string lexer
    else if c == '\n' then
      let lexer := { lexer with line := lexer.line + 1, column := 1 }
      (make_token lexer TOKEN_NEWLINE, lexer)
    else (error_token lexer "Unexpected character".toList, lexer)

/-- Copy of the token's own text, `token_to_string`. -/
def token_to_string (token : token_t) : List Char := token.start.take token.length

end Lexer


/-! ## AST model (`ast.h`, `ast.c`) -/

/-- Expression tags, `ast_expr_type_t`. -/
inductive ast_expr_type_t where
  | EXPR_LITERAL | EXPR_IDENTIFIER | EXPR_BINARY | EXPR_UNARY | EXPR_CALL | EXPR_MEMBER
  | EXPR_UNIT
  deriving DecidableEq, Repr

/-- Statement tags, `ast_stmt_type_t`. -/
inductive ast_stmt_type_t where
  | STMT_EXPR | STMT_ASSIGN | STMT_IF | STMT_BLOCK | STMT_WAIT | STMT_RETURN
  deriving DecidableEq, Repr

/-- Declaration tags, `ast_decl_type_t`. -/
inductive ast_decl_type_t where
  | DECL_ROBOT | DECL_MOTOR | DECL_SERVO | DECL_SENSOR | DECL_GPIO | DECL_BUS | DECL_NET
  | DECL_TOPIC | DECL_LIMITS | DECL_TASK | DECL_SCHEDULE | DECL_EVENT
  deriving DecidableEq, Repr

/-- Literal payload, `ast_literal_t`.  A `double` is modelled by the exact
rational it is read from; rounding to binary floating point is not modelled. -/
inductive ast_literal_t where
  | number (value : ℚ)
  | string (value : List Char)
  | boolean (value : Bool)
  deriving DecidableEq

/-- Binary operator tags, `ast_binary_op_t`. -/
inductive ast_binary_op_t where
  | OP_ADD | OP_SUB | OP_MUL | OP_DIV | OP_MOD | OP_EQ | OP_NEQ | OP_LT | OP_LTE | OP_GT
  | OP_GTE | OP_AND | OP_OR
  deriving DecidableEq, Repr

/-- Unary operator tags, `ast_unary_op_t`. -/
inductive ast_unary_op_t where
  | OP_NEG | OP_NOT
  deriving DecidableEq, Repr

/-- Unit tags, `ast_unit_type_t`. -/
inductive ast_unit_type_t where
  | UNIT_PERCENT | UNIT_MS | UNIT_CM | UNIT_DEG | UNIT_HZ | UNIT_DEG_PER_SEC
  deriving DecidableEq, Repr

/-- Expression node, `ast_expr_t`: one constructor per member of the union,
each followed by the node's `line` and `column`.  Child pointers may be null. -/
inductive ast_expr_t where
  | literal (literal : ast_literal_t) (line column : Int)
  | identifier (identifier : List Char) (line column : Int)
  | binary (left : Option ast_expr_t) (op : ast_binary_op_t) (right : Option ast_expr_t)
      (line column : Int)
  | unary (op : ast_unary_op_t) (operand : Option ast_expr_t) (line column : Int)
  | call (callee : Option ast_expr_t) (args : List (Option ast_expr_t)) (line column : Int)
  | member (object : Option ast_expr_t) (member : List Char) (line column : Int)
  | unit (value : Option ast_expr_t) (unit : ast_unit_type_t) (line column : Int)

/-- The tag of an expression node, `expr->type`. -/
def ast_expr_t.type : ast_expr_t → ast_expr_type_t
  | .literal .. => .EXPR_LITERAL
  | .identifier .. => .EXPR_IDENTIFIER
  | .binary .. => .EXPR_BINARY
  | .unary .. => .EXPR_UNARY
  | .call .. => .EXPR_CALL
  | .member .. => .EXPR_MEMBER
  | .unit .. => .EXPR_UNIT

/-- Statement node, `ast_stmt_t`. -/
inductive ast_stmt_t where
  | expr (expr : Option ast_expr_t) (line column : Int)
  | assign (target : List Char) (value : Option ast_expr_t) (line column : Int)
  | if_stmt (condition : Option ast_expr_t) (then_branch else_branch : Option ast_stmt_t)
      (line column : Int)
  | block (statements : List (Option ast_stmt_t)) (line column : Int)
  | wait (duration : Option ast_expr_t) (line column : Int)
  | return_stmt (return_value : Option ast_expr_t) (line column : Int)

/-- The tag of a statement node, `stmt->type`. -/
def ast_stmt_t.type : ast_stmt_t → ast_stmt_type_t
  | .expr .. => .STMT_EXPR
  | .assign .. => .STMT_ASSIGN
  | .if_stmt .. => .STMT_IF
  | .block .. => .STMT_BLOCK
  | .wait .. => .STMT_WAIT
  | .return_stmt .. => .STMT_RETURN

/-- Type annotation, `ast_type_t`. -/
structure ast_type_t where
  name : List Char
  unit : ast_unit_type_t
  deriving DecidableEq

/-- Parameter, `ast_param_t`. -/
structure ast_param_t where
  name : List Char
  type : Option ast_type_t
  deriving DecidableEq

/-- Schedule priority, `ast_priority_t`. -/
inductive ast_priority_t where
  | PRIORITY_HIGH | PRIORITY_MEDIUM | PRIORITY_LOW
  deriving DecidableEq, Repr

/-- Event trigger kind, `ast_event_type_t`. -/
inductive ast_event_type_t where
  | EVENT_MESSAGE | EVENT_GPIO
  deriving DecidableEq, Repr

/-- Limit entry, `ast_limit_entry_t`. -/
structure ast_limit_entry_t where
  name : List Char
  value : Option ast_expr_t
  is_max : Bool

/-- Declaration node, `ast_decl_t`: one constructor per member of the
union, each followed by the node's `line` and `column`. -/
inductive ast_decl_t where
  | motor (name pin : List Char) (line column : Int)
  | servo (name pin : List Char) (line column : Int)
  | sensor (name pin : List Char) (sensor_type : Option (List Char)) (line column : Int)
  | gpio (name pin mode : List Char) (line column : Int)
  | bus (name bus_type : List Char) (address : Int) (line column : Int)
  | net (broker client_id : List Char) (use_tls : Bool) (line column : Int)
  | topic (name path : List Char) (line column : Int)
  | limits (entries : List ast_limit_entry_t) (line column : Int)
  | task (name : List Char) (params : List ast_param_t) (body : Option ast_stmt_t)
      (line column : Int)
  | schedule (name : List Char) (frequency : Option ast_expr_t) (priority : ast_priority_t)
      (body : Option ast_stmt_t) (line column : Int)
  | event (type : ast_event_type_t) (source var_name : List Char)
      (handler : Option ast_stmt_t) (line column : Int)

/-- The tag of a declaration node, `decl->type`. -/
def ast_decl_t.type : ast_decl_t → ast_decl_type_t
  | .motor .. => .DECL_MOTOR
  | .servo .. => .DECL_SERVO
  | .sensor .. => .DECL_SENSOR
  | .gpio .. => ast_decl_type_t.DECL_GPIO
  | .bus .. => .DECL_BUS
  | .net .. => .DECL_NET
  | .topic .. => .DECL_TOPIC
  | .limits .. => .DECL_LIMITS
  | .task .. => .DECL_TASK
  | .schedule .. => .DECL_SCHEDULE
  | .event .. => .DECL_EVENT

/-- The program unit, `ast_robot_t`; `decl_count` is the length of
`declarations`, which holds no null entry. -/
structure ast_robot_t where
  name : List Char
  declarations : List ast_decl_t

/-- Fresh robot with no declarations, `ast_robot_create`. -/
def ast_robot_create (name : List Char) : ast_robot_t := { name := name, declarations := [] }

/-! ### Destructors (`ast.c`) -/

/-- A block of heap memory handed to `NEUROX_FREE` through a non-null
pointer: a text buffer with its content, a node, or an array of child
pointers. -/
inductive heap_block where
  | text (content : List Char)
  | expr_node | stmt_node | decl_node | param_node | type_node | robot_node
  | expr_array | stmt_array | param_array | decl_array
  deriving DecidableEq, Repr

mutual

/-- The blocks that `ast_expr_free` hands to `NEUROX_FREE`, in call order.
The argument array of a call is a null pointer exactly when the call has no
argument, as `parse_call` builds it. -/
def ast_expr_free : Option ast_expr_t → List heap_block
  | none => []
  | some expr => ast_expr_free_node expr
termination_by structural expr => expr

/-- The `switch` of `ast_expr_free` on a node, followed by `NEUROX_FREE(expr)`. -/
def ast_expr_free_node : ast_expr_t → List heap_block
  | .literal literal _ _ =>
    (match literal with
     | .string value => [.text value]
     | _ => []) ++ [.expr_node]
  | .identifier identifier _ _ => [.text identifier, .expr_node]
  | .binary left _ right _ _ => ast_expr_free left ++ ast_expr_free right ++ [.expr_node]
  | .unary _ operand _ _ => ast_expr_free operand ++ [.expr_node]
  | .call callee args _ _ =>
    ast_expr_free callee ++ ast_expr_free_args args ++
      (if args.isEmpty then [] else [.expr_array]) ++ [.expr_node]
  | .member object member _ _ => ast_expr_free object ++ [.text member, .expr_node]
  | .unit value _ _ _ => ast_expr_free value ++ [.expr_node]
termination_by structural expr => expr

/-- The loop of `ast_expr_free` over the arguments of a call. -/
def ast_expr_free_args : List (Option ast_expr_t) → List heap_block
  | [] => []
  | arg :: args => ast_expr_free arg ++ ast_expr_free_args args
termination_by structural args => args

end

mutual

/-- The blocks that `ast_stmt_free` hands to `NEUROX_FREE`, in call order.
The statement array of a block is never null, as `parse_block` builds it. -/
def ast_stmt_free : Option ast_stmt_t → List heap_block
  | none => []
  | some stmt => ast_stmt_free_node stmt
termination_by structural stmt => stmt

/-- The `switch` of `ast_stmt_free` on a node, followed by `NEUROX_FREE(stmt)`. -/
def ast_stmt_free_node : ast_stmt_t → List heap_block
  | .expr expr _ _ => ast_expr_free expr ++ [.stmt_node]
  | .assign target value _ _ => [.text target] ++ ast_expr_free value ++ [.stmt_node]
  | .if_stmt condition then_branch else_branch _ _ =>
    ast_expr_free condition ++ ast_stmt_free then_branch ++ ast_stmt_free else_branch ++
      [.stmt_node]
  | .block statements _ _ => ast_stmt_free_statements statements ++ [.stmt_array, .stmt_node]
  | .wait duration _ _ => ast_expr_free duration ++ [.stmt_node]
  | .return_stmt return_value _ _ => ast_expr_free return_value ++ [.stmt_node]
termination_by structural stmt => stmt

/-- The loop of `ast_stmt_free` over the statements of a block. -/
def ast_stmt_free_statements : List (Option ast_stmt_t) → List heap_block
  | [] => []
  | stmt :: statements => ast_stmt_free stmt ++ ast_stmt_free_statements statements
termination_by structural statements => statements

end

/-- The parameter loop of `ast_decl_free`: the name, the type struct when
there is one, and the parameter struct. -/
def ast_decl_free_params : List ast_param_t → List heap_block
  | [] => []
  | param :: params =>
    [.text param.name] ++
      (match param.type with
       | some _ => [.type_node]
       | none => []) ++
      [.param_node] ++ ast_decl_free_params params

/-- The blocks that `ast_decl_free` hands to `NEUROX_FREE`, in call order.
The parameter array of a task is a null pointer exactly when the task has no
parameter, as `parse_task_decl` builds it.  Only the motor, task and schedule
kinds have a `case`; all others fall to `default`. -/
def ast_decl_free : Option ast_decl_t → List heap_block
  | none => []
  | some (.motor name pin _ _) => [.text name, .text pin, .decl_node]
  | some (.task name params body _ _) =>
    [.text name] ++ ast_decl_free_params params ++
      (if params.isEmpty then [] else [.param_array]) ++ ast_stmt_free body ++ [.decl_node]
  | some (.schedule name frequency _ body _ _) =>
    [.text name] ++ ast_expr_free frequency ++ ast_stmt_free body ++ [.decl_node]
  | some _ => [.decl_node]

/-- The blocks that `ast_robot_free` hands to `NEUROX_FREE`, in call order.
The declarations array is handed over whether or not the robot has a
declaration: it is never a null pointer, as `parser_parse` builds it. -/
def ast_robot_free : Option ast_robot_t → List heap_block
  | none => []
  | some robot =>
    [.text robot.name] ++ (robot.declarations.map (fun decl => ast_decl_free (some decl))).flatten ++
      [.decl_array, .robot_node]

/-! ## `strtod` (C library) -/

/-- Value of a decimal digit character. -/
def digit_value (c : Char) : Nat := c.toNat - 48

/-- Value of a hexadecimal digit character, if it is one. -/
def hex_value (c : Char) : Option Nat :=
  if c.isDigit then some (c.toNat - 48)
  else if 97 ≤ c.toNat ∧ c.toNat ≤ 102 then some (c.toNat - 87)
  else if 65 ≤ c.toNat ∧ c.toNat ≤ 70 then some (c.toNat - 55)
  else none

/-- Read leading decimal digits: accumulated value, number of digits read, rest. -/
def read_digits : List Char → Nat → Nat → Nat × Nat × List Char
  | [], acc, k => (acc, k, [])
  | c :: cs, acc, k =>
    if isdigit c then read_digits cs (acc * 10 + digit_value c) (k + 1) else (acc, k, c :: cs)

/-- Read leading hexadecimal digits: accumulated value, number read, rest. -/
def read_hex_digits : List Char → Nat → Nat → Nat × Nat × List Char
  | [], acc, k => (acc, k, [])
  | c :: cs, acc, k =>
    match hex_value c with
    | some v => read_hex_digits cs (acc * 16 + v) (k + 1)
    | none => (acc, k, c :: cs)

/-- Optional exponent part: the marker `lower` or `upper`, an optional sign and
at least one decimal digit; `0` when the text has no well-formed exponent. -/
def read_exponent (lower upper : Char) : List Char → Int
  | [] => 0
  | c :: cs =>
    if c == lower || c == upper then
      let signed : Bool × List Char :=
        match cs with
        | '-' :: r => (true, r)
        | '+' :: r => (false, r)
        | r => (false, r)
      let d := read_digits signed.2 0 0
      if d.2.1 = 0 then 0 else if signed.1 then - (d.1 : Int) else (d.1 : Int)
    else 0

/-- The rational `mantissa * base ^ exponent`. -/
def scale (mantissa base : Nat) (exponent : Int) : ℚ :=
  if 0 ≤ exponent then mkRat (mantissa * base ^ exponent.toNat) 1
  else mkRat mantissa (base ^ (- exponent).toNat)

/-- Decimal form of `strtod`: digits, optional fraction, optional exponent. -/
def strtod_decimal (s : List Char) : ℚ :=
  let i := read_digits s 0 0
  let f : Nat × Nat × List Char :=
    match i.2.2 with
    | '.' :: r => read_digits r i.1 0
    | r => (i.1, 0, r)
  scale f.1 10 (read_exponent 'e' 'E' f.2.2 - (f.2.1 : Int))

/-- Hexadecimal form of `strtod`, entered after `0x`: hexadecimal digits,
optional fraction (at least one digit in all), optional binary exponent. -/
def strtod_hex (s : List Char) : Option ℚ :=
  let i := read_hex_digits s 0 0
  let f : Nat × Nat × List Char :=
    match i.2.2 with
    | '.' :: r => read_hex_digits r i.1 0
    | r => (i.1, 0, r)
  if i.2.1 + f.2.1 = 0 then none
  else some (scale f.1 2 (read_exponent 'p' 'P' f.2.2 - 4 * (f.2.1 : Int)))

/-- Modelled from the C standard: `strtod(nptr, NULL)` for text that starts
with a digit, which is how the parser calls it (on the start of a NUMBER
token).  It reads the longest decimal or hexadecimal floating constant at the
start of the text, which may extend past the token that the lexer cut there. -/
def strtod (nptr : List Char) : ℚ :=
  match nptr with
  | '0' :: x :: rest =>
    if x == 'x' || x == 'X' then
      match strtod_hex rest with
      | some v => v
      | none => 0
    else strtod_decimal nptr
  | _ => strtod_decimal nptr


/-! ## Diagnostics (`common.h`) -/

/-- Error codes, `neurox_error_t`. -/
inductive neurox_error_t where
  | NEUROX_OK | NEUROX_ERROR_MEMORY | NEUROX_ERROR_SYNTAX | NEUROX_ERROR_TYPE
  | NEUROX_ERROR_SEMANTIC | NEUROX_ERROR_IO | NEUROX_ERROR_RUNTIME
  deriving DecidableEq, Repr

/-- A diagnostic record, `neurox_diagnostic_t`. -/
structure neurox_diagnostic_t where
  filename : Option (List Char)
  line : Int
  column : Int
  message : List Char
  error_code : neurox_error_t
  deriving DecidableEq, Repr

/-! ## Parser (`parser.h`, `parser.c`) -/

/-- The parser state, `parser_t`.  `lexer` is the cursor that `parser->lexer`
points to.  `diagnostics` is not a field of the C struct: it is the log of the
records handed to `neurox_report_error` since `parser_init`, oldest first. -/
structure parser_t where
  lexer : lexer_t
  current : token_t
  previous : token_t
  had_error : Bool
  panic_mode : Bool
  diagnostics : List neurox_diagnostic_t
  deriving DecidableEq, Repr

/-- How a call of a parsing function ends: it returns `value` in state
`parser`, or the fuel ran out in state `parser`, or it read through a null
pointer in state `parser`. -/
inductive Outcome (α : Type) where
  | done (value : α) (parser : parser_t)
  | out_of_fuel (parser : parser_t)
  | null_deref (parser : parser_t)

/-- The parser state in which a call ended. -/
def Outcome.state {α : Type} : Outcome α → parser_t
  | .done _ parser => parser
  | .out_of_fuel parser => parser
  | .null_deref parser => parser

/-- Continue a call that returned with `f`; a call that ended early stays ended. -/
def Outcome.bind {α β : Type} (o : Outcome α) (f : α → parser_t → Outcome β) : Outcome β :=
  match o with
  | .done value parser => f value parser
  | .out_of_fuel parser => .out_of_fuel parser
  | .null_deref parser => .null_deref parser

/-- A parsing computation over the parser state. -/
def ParseM (α : Type) : Type := parser_t → Outcome α

/-- Return `value` without touching the state. -/
def ParseM.pure {α : Type} (value : α) : ParseM α := fun parser => .done value parser

/-- Sequencing: run `x`, then `f` on its value. -/
def ParseM.bind {α β : Type} (x : ParseM α) (f : α → ParseM β) : ParseM β := fun parser =>
  (x parser).bind f

instance : Monad ParseM where
  pure := ParseM.pure
  bind := ParseM.bind

namespace Parser

open Lexer (lexer_next_token token_to_string)

/-- Report at `token` unless in panic mode, `error_at`. -/
def error_at (parser : parser_t) (token : token_t) (message : List Char) : parser_t :=
  if parser.panic_mode then parser
  else
    { parser with
      panic_mode := true
      diagnostics := parser.diagnostics ++
        [{ filename := parser.lexer.filename, line := token.line, column := token.column,
           message := message, error_code := .NEUROX_ERROR_SYNTAX }]
      had_error := true }

/-- Report at the previous token, `error`. -/
def error (parser : parser_t) (message : List Char) : parser_t :=
  error_at parser parser.previous message

/-- Report at the current token, `error_at_current`. -/
def error_at_current (parser : parser_t) (message : List Char) : parser_t :=
  error_at parser parser.current message

/-- The `for (;;)` loop of `advance`: fetch tokens until one is not an error
token, reporting each error token's message. -/
def advance_loop : Nat → parser_t → parser_t
  | 0, parser => parser
  | n + 1, parser =>
    let r := lexer_next_token parser.lexer
    let parser := { parser with current := r.1, lexer := r.2 }
    if parser.current.type != TOKEN_ERROR then parser
    else advance_loop n (error_at_current parser parser.current.start)

/-- Move to the next token that is not an error token, `advance`. -/
def advance (parser : parser_t) : parser_t :=
  advance_loop (parser.lexer.current.length + 1) { parser with previous := parser.current }

/-- Whether the current token has tag `type`, `check`. -/
def check (parser : parser_t) (type : token_type_t) : Bool := parser.current.type == type

/-- Consume the current token when it has tag `type`, `match`. -/
def match_ (parser : parser_t) (type : token_type_t) : Bool × parser_t :=
  if !check parser type then (false, parser) else (true, advance parser)

/-- Consume a token of tag `type` or report `message`, `consume`. -/
def consume (parser : parser_t) (type : token_type_t) (message : List Char) : parser_t :=
  if parser.current.type == type then advance parser
  else error_at_current parser message

/-- The loop of `skip_newlines`. -/
def skip_newlines_loop : Nat → parser_t → parser_t
  | 0, parser => parser
  | n + 1, parser =>
    let r := match_ parser TOKEN_NEWLINE
    if r.1 then skip_newlines_loop n r.2 else r.2

/-- Consume newline tokens, `skip_newlines`. -/
def skip_newlines (parser : parser_t) : parser_t :=
  skip_newlines_loop (parser.lexer.current.length + 2) parser

/-! ### The primitives as computations -/

/-- The computation of `match`. -/
def matchM (type : token_type_t) : ParseM Bool := fun parser =>
  .done (match_ parser type).1 (match_ parser type).2

/-- The computation of `check`. -/
def checkM (type : token_type_t) : ParseM Bool := fun parser => .done (check parser type) parser

/-- The computation of `consume`. -/
def consumeM (type : token_type_t) (message : String) : ParseM Unit := fun parser =>
  .done () (consume parser type message.toList)

/-- The computation of `error`. -/
def errorM (message : String) : ParseM Unit := fun parser =>
  .done () (error parser message.toList)

/-- The computation of `skip_newlines`. -/
def skip_newlinesM : ParseM Unit := fun parser => .done () (skip_newlines parser)

/-- Read `parser->previous`. -/
def previousM : ParseM token_t := fun parser => .done parser.previous parser

/-- Read `parser->had_error`. -/
def had_errorM : ParseM Bool := fun parser => .done parser.had_error parser

/-- End the run for lack of fuel. -/
def out_of_fuelM {α : Type} : ParseM α := fun parser => .out_of_fuel parser

/-- End the run at a read through a null pointer. -/
def null_derefM {α : Type} : ParseM α := fun parser => .null_deref parser

/-- C's short-circuit `a || b` over computations. -/
def orM (a b : ParseM Bool) : ParseM Bool := do
  if ← a then pure true else b

/-- The length `previous.length - 2` of `parse_primary`, in `size_t` arithmetic. -/
def string_literal_length (length : Nat) : Nat := (length + 2 ^ 64 - 2) % 2 ^ 64

/-! ### Expressions -/

mutual

/-- Literal, identifier or parenthesised expression, `parse_primary`. -/
def parse_primary : Nat → ParseM (Option ast_expr_t)
  | 0 => out_of_fuelM
  | fuel + 1 => do
    if ← matchM TOKEN_NUMBER then
      let previous ← previousM
      pure (some (.literal (.number (strtod previous.start)) previous.line previous.column))
    else if ← matchM TOKEN_STRING then
      let previous ← previousM
      let len := string_literal_length previous.length
      pure (some (.literal (.string ((previous.start.drop 1).take len))
        previous.line previous.column))
    else if ← matchM TOKEN_IDENTIFIER then
      let previous ← previousM
      pure (some (.identifier (token_to_string previous) previous.line previous.column))
    else if ← matchM TOKEN_LEFT_PAREN then
      let expr ← parse_expression fuel
      consumeM TOKEN_RIGHT_PAREN "Expected ')' after expression"
      pure expr
    else
      errorM "Expected expression"
      pure none

/-- The argument loop of `parse_call`:
`do args[arg_count++] = parse_expression(); while (match(COMMA))`. -/
def parse_call_args : Nat → List (Option ast_expr_t) → ParseM (List (Option ast_expr_t))
  | 0, _ => out_of_fuelM
  | fuel + 1, args => do
    let arg ← parse_expression fuel
    let args := args ++ [arg]
    if ← matchM TOKEN_COMMA then parse_call_args fuel args else pure args

/-- The `while (true)` loop of `parse_call` over the expression built so far. -/
def parse_call_loop : Nat → Option ast_expr_t → ParseM (Option ast_expr_t)
  | 0, _ => out_of_fuelM
  | fuel + 1, expr => do
    if ← matchM TOKEN_LEFT_PAREN then
      let args ← (do
        if !(← checkM TOKEN_RIGHT_PAREN) then parse_call_args fuel [] else pure [])
      consumeM TOKEN_RIGHT_PAREN "Expected ')' after arguments"
      parse_call_loop fuel (some (.call expr args 0 0))
    else if ← matchM TOKEN_DOT then
      consumeM TOKEN_IDENTIFIER "Expected property name after '.'"
      let previous ← previousM
      parse_call_loop fuel (some (.member expr (token_to_string previous) 0 0))
    else pure expr

/-- Postfix calls and member accesses, `parse_call`. -/
def parse_call : Nat → ParseM (Option ast_expr_t)
  | 0 => out_of_fuelM
  | fuel + 1 => do
    let expr ← parse_primary fuel
    parse_call_loop fuel expr

/-- Prefix `-` and `!`, `parse_unary`. -/
def parse_unary : Nat → ParseM (Option ast_expr_t)
  | 0 => out_of_fuelM
  | fuel + 1 => do
    if ← orM (matchM TOKEN_MINUS) (matchM TOKEN_BANG) then
      let op ← previousM
      let operand ← parse_unary fuel
      pure (some (.unary (if op.type == TOKEN_MINUS then .OP_NEG else .OP_NOT) operand 0 0))
    else parse_call fuel

/-- The loop of `parse_factor` over the expression built so far. -/
def parse_factor_loop : Nat → Option ast_expr_t → ParseM (Option ast_expr_t)
  | 0, _ => out_of_fuelM
  | fuel + 1, expr => do
    if ← orM (matchM TOKEN_STAR) (orM (matchM TOKEN_SLASH) (matchM TOKEN_PERCENT)) then
      let op ← previousM
      let right ← parse_unary fuel
      let binop : ast_binary_op_t :=
        if op.type == TOKEN_STAR then .OP_MUL
        else if op.type == TOKEN_SLASH then .OP_DIV
        else .OP_MOD
      parse_factor_loop fuel (some (.binary expr binop right 0 0))
    else pure expr

/-- Level of `*`, `/` and `%`, `parse_factor`. -/
def parse_factor : Nat → ParseM (Option ast_expr_t)
  | 0 => out_of_fuelM
  | fuel + 1 => do
    let expr ← parse_unary fuel
    parse_factor_loop fuel expr

/-- The loop of `parse_term` over the expression built so far. -/
def parse_term_loop : Nat → Option ast_expr_t → ParseM (Option ast_expr_t)
  | 0, _ => out_of_fuelM
  | fuel + 1, expr => do
    if ← orM (matchM TOKEN_PLUS) (matchM TOKEN_MINUS) then
      let op ← previousM
      let right ← parse_factor fuel
      let binop : ast_binary_op_t := if op.type == TOKEN_PLUS then .OP_ADD else .OP_SUB
      parse_term_loop fuel (some (.binary expr binop right 0 0))
    else pure expr

/-- Level of `+` and `-`, `parse_term`. -/
def parse_term : Nat → ParseM (Option ast_expr_t)
  | 0 => out_of_fuelM
  | fuel + 1 => do
    let expr ← parse_factor fuel
    parse_term_loop fuel expr

/-- The loop of `parse_comparison` over the expression built so far. -/
def parse_comparison_loop : Nat → Option ast_expr_t → ParseM (Option ast_expr_t)
  | 0, _ => out_of_fuelM
  | fuel + 1, expr => do
    if ← orM (matchM TOKEN_LESS) (orM (matchM TOKEN_LESS_EQUAL)
        (orM (matchM TOKEN_GREATER) (matchM TOKEN_GREATER_EQUAL))) then
      let op ← previousM
      let right ← parse_term fuel
      let binop : ast_binary_op_t :=
        if op.type == TOKEN_LESS then .OP_LT
        else if op.type == TOKEN_LESS_EQUAL then .OP_LTE
        else if op.type == TOKEN_GREATER then .OP_GT
        else .OP_GTE
      parse_comparison_loop fuel (some (.binary expr binop right 0 0))
    else pure expr

/-- Level of `<`, `<=`, `>` and `>=`, `parse_comparison`. -/
def parse_comparison : Nat → ParseM (Option ast_expr_t)
  | 0 => out_of_fuelM
  | fuel + 1 => do
    let expr ← parse_term fuel
    parse_comparison_loop fuel expr

/-- The loop of `parse_equality` over the expression built so far. -/
def parse_equality_loop : Nat → Option ast_expr_t → ParseM (Option ast_expr_t)
  | 0, _ => out_of_fuelM
  | fuel + 1, expr => do
    if ← orM (matchM TOKEN_EQUAL_EQUAL) (matchM TOKEN_BANG_EQUAL) then
      let op ← previousM
      let right ← parse_comparison fuel
      let binop : ast_binary_op_t := if op.type == TOKEN_EQUAL_EQUAL then .OP_EQ else .OP_NEQ
      parse_equality_loop fuel (some (.binary expr binop right 0 0))
    else pure expr

/-- Level of `==` and `!=`, `parse_equality`. -/
def parse_equality : Nat → ParseM (Option ast_expr_t)
  | 0 => out_of_fuelM
  | fuel + 1 => do
    let expr ← parse_comparison fuel
    parse_equality_loop fuel expr

/-- An expression, `parse_expression`. -/
def parse_expression : Nat → ParseM (Option ast_expr_t)
  | 0 => out_of_fuelM
  | fuel + 1 => parse_equality fuel

end

/-! ### Statements -/

mutual

/-- The loop of `parse_block` over the statements collected so far; a null
statement is stored like any other. -/
def parse_block_loop : Nat → List (Option ast_stmt_t) → ParseM (List (Option ast_stmt_t))
  | 0, _ => out_of_fuelM
  | fuel + 1, statements => do
    if !(← checkM TOKEN_RIGHT_BRACE) && !(← checkM TOKEN_EOF) then
      let stmt ← parse_statement fuel
      skip_newlinesM
      parse_block_loop fuel (statements ++ [stmt])
    else pure statements

/-- Statements up to the closing brace or the end of input, `parse_block`;
the block node is never null. -/
def parse_block : Nat → ParseM ast_stmt_t
  | 0 => out_of_fuelM
  | fuel + 1 => do
    skip_newlinesM
    let statements ← parse_block_loop fuel []
    pure (.block statements 0 0)

/-- An `if` statement after its keyword, `parse_if_statement`. -/
def parse_if_statement : Nat → ParseM (Option ast_stmt_t)
  | 0 => out_of_fuelM
  | fuel + 1 => do
    let condition ← Parser.parse_expression fuel
    consumeM TOKEN_LEFT_BRACE "Expected '\x7b' after if condition"
    skip_newlinesM
    let then_branch ← parse_block fuel
    consumeM TOKEN_RIGHT_BRACE "Expected '\x7d' after if body"
    let else_branch ← (do
      if ← matchM TOKEN_ELSE then
        consumeM TOKEN_LEFT_BRACE "Expected '\x7b' after else"
        skip_newlinesM
        let else_branch ← parse_block fuel
        consumeM TOKEN_RIGHT_BRACE "Expected '\x7d' after else body"
        pure (some else_branch)
      else pure none)
    pure (some (.if_stmt condition (some then_branch) else_branch 0 0))

/-- One statement, `parse_statement`.  The assignment branch reads
`expr->type` without a null check. -/
def parse_statement : Nat → ParseM (Option ast_stmt_t)
  | 0 => out_of_fuelM
  | fuel + 1 => do
    skip_newlinesM
    if ← matchM TOKEN_IF then parse_if_statement fuel
    else if ← matchM TOKEN_WAIT then
      consumeM TOKEN_LEFT_PAREN "Expected '(' after 'wait'"
      let duration ← Parser.parse_expression fuel
      consumeM TOKEN_RIGHT_PAREN "Expected ')' after wait duration"
      pure (some (.wait duration 0 0))
    else
      let expr ← Parser.parse_expression fuel
      if ← matchM TOKEN_EQUAL then
        match expr with
        | none => null_derefM
        | some (.identifier identifier _ _) =>
          let value ← Parser.parse_expression fuel
          pure (some (.assign identifier value 0 0))
        | some (.member _ _ _ _) =>
          let value ← Parser.parse_expression fuel
          pure (some (.assign "member".toList value 0 0))
        | some _ =>
          errorM "Invalid assignment target"
          pure none
      else pure (some (.expr expr 0 0))

end

/-! ### Declarations -/

/-- A motor declaration after its keyword, `parse_motor_decl`. -/
def parse_motor_decl : ParseM (Option ast_decl_t) := do
  consumeM TOKEN_IDENTIFIER "Expected motor name"
  let name := token_to_string (← previousM)
  consumeM TOKEN_ON "Expected 'on' after motor name"
  consumeM TOKEN_IDENTIFIER "Expected pin identifier"
  let pin := token_to_string (← previousM)
  pure (some (.motor name pin 0 0))

/-- A sensor declaration after its keyword, `parse_sensor_decl`. -/
def parse_sensor_decl : ParseM (Option ast_decl_t) := do
  consumeM TOKEN_IDENTIFIER "Expected sensor name"
  let name := token_to_string (← previousM)
  consumeM TOKEN_ON "Expected 'on' after sensor name"
  consumeM TOKEN_IDENTIFIER "Expected pin identifier"
  let pin := token_to_string (← previousM)
  let sensor_type ← (do
    if ← matchM TOKEN_TYPE then
      consumeM TOKEN_IDENTIFIER "Expected sensor type"
      pure (some (token_to_string (← previousM)))
    else pure none)
  pure (some (.sensor name pin sensor_type 0 0))

/-- The parameter loop of `parse_task_decl`:
`do ... params[param_count++] = param; while (match(COMMA))`. -/
def parse_task_params : Nat → List ast_param_t → ParseM (List ast_param_t)
  | 0, _ => out_of_fuelM
  | fuel + 1, params => do
    consumeM TOKEN_IDENTIFIER "Expected parameter name"
    let name := token_to_string (← previousM)
    let type ← (do
      if ← matchM TOKEN_COLON then
        consumeM TOKEN_IDENTIFIER "Expected type name"
        pure (some { name := token_to_string (← previousM), unit := .UNIT_PERCENT : ast_type_t })
      else pure none)
    let params := params ++ [{ name := name, type := type }]
    if ← matchM TOKEN_COMMA then parse_task_params fuel params else pure params

/-- A task declaration after its keyword, `parse_task_decl`. -/
def parse_task_decl : Nat → ParseM (Option ast_decl_t)
  | 0 => out_of_fuelM
  | fuel + 1 => do
    consumeM TOKEN_IDENTIFIER "Expected task name"
    let name := token_to_string (← previousM)
    consumeM TOKEN_LEFT_PAREN "Expected '(' after task name"
    let params ← (do
      if !(← checkM TOKEN_RIGHT_PAREN) then parse_task_params fuel [] else pure [])
    consumeM TOKEN_RIGHT_PAREN "Expected ')' after parameters"
    consumeM TOKEN_LEFT_BRACE "Expected '\x7b' before task body"
    skip_newlinesM
    let body ← parse_block fuel
    consumeM TOKEN_RIGHT_BRACE "Expected '\x7d' after task body"
    pure (some (.task name params (some body) 0 0))

/-- A schedule declaration after its keyword, `parse_schedule_decl`. -/
def parse_schedule_decl : Nat → ParseM (Option ast_decl_t)
  | 0 => out_of_fuelM
  | fuel + 1 => do
    consumeM TOKEN_IDENTIFIER "Expected schedule name"
    let name := token_to_string (← previousM)
    consumeM TOKEN_AT "Expected '@' after schedule name"
    let frequency ← parse_expression fuel
    let priority ← (do
      if ← matchM TOKEN_PRIORITY then
        if ← matchM TOKEN_HIGH then pure ast_priority_t.PRIORITY_HIGH
        else if ← matchM TOKEN_MEDIUM then pure ast_priority_t.PRIORITY_MEDIUM
        else if ← matchM TOKEN_LOW then pure ast_priority_t.PRIORITY_LOW
        else
          errorM "Expected priority level (HIGH, MEDIUM, LOW)"
          pure ast_priority_t.PRIORITY_MEDIUM
      else pure ast_priority_t.PRIORITY_MEDIUM)
    consumeM TOKEN_LEFT_BRACE "Expected '\x7b' before schedule body"
    skip_newlinesM
    let body ← parse_block fuel
    consumeM TOKEN_RIGHT_BRACE "Expected '\x7d' after schedule body"
    pure (some (.schedule name frequency priority (some body) 0 0))

/-- One declaration, dispatched on its keyword, `parse_declaration`. -/
def parse_declaration : Nat → ParseM (Option ast_decl_t)
  | 0 => out_of_fuelM
  | fuel + 1 => do
    skip_newlinesM
    if ← matchM TOKEN_MOTOR then parse_motor_decl
    else if ← matchM TOKEN_SENSOR then parse_sensor_decl
    else if ← matchM TOKEN_TASK then parse_task_decl fuel
    else if ← matchM TOKEN_SCHEDULE then parse_schedule_decl fuel
    else
      errorM "Expected declaration"
      pure none

/-- Prime the lookahead, `parser_init`.  The argument `parser` is the memory
of the struct before the call; what it holds in `current` is what `advance`
copies into `previous`. -/
def parser_init (parser : parser_t) (lexer : lexer_t) : parser_t :=
  advance { parser with lexer := lexer, had_error := false, panic_mode := false,
                        diagnostics := [] }

/-- The declaration loop of `parser_parse` over the robot built so far; a null
declaration is not stored. -/
def parser_parse_loop : Nat → ast_robot_t → ParseM ast_robot_t
  | 0, _ => out_of_fuelM
  | fuel + 1, robot => do
    if !(← checkM TOKEN_RIGHT_BRACE) && !(← checkM TOKEN_EOF) then
      let decl ← parse_declaration fuel
      let robot : ast_robot_t :=
        match decl with
        | some decl => { robot with declarations := robot.declarations ++ [decl] }
        | none => robot
      skip_newlinesM
      parser_parse_loop fuel robot
    else pure robot

/-- Parse a whole program unit, `parser_parse`: the robot, or null when an
error was reported. -/
def parser_parse : Nat → ParseM (Option ast_robot_t)
  | 0 => out_of_fuelM
  | fuel + 1 => do
    skip_newlinesM
    consumeM TOKEN_ROBOT "Expected 'robot' keyword"
    consumeM TOKEN_IDENTIFIER "Expected robot name"
    let name := token_to_string (← previousM)
    let robot := ast_robot_create name
    consumeM TOKEN_LEFT_BRACE "Expected '\x7b' after robot name"
    skip_newlinesM
    let robot ← parser_parse_loop fuel robot
    consumeM TOKEN_RIGHT_BRACE "Expected '\x7d' after robot body"
    if ← had_errorM then pure none else pure (some robot)

/-- The unspecified memory of a `parser_t` before `parser_init`, built around
the token left in its `current` slot. -/
def parser_memory (garbage : token_t) : parser_t :=
  { lexer := Lexer.lexer_init [] none, current := garbage, previous := garbage,
    had_error := false, panic_mode := false, diagnostics := [] }

/-- Lex and parse `source` the way the tests and tools do: `lexer_init`,
`parser_init`, `parser_parse`. -/
def parse_source (fuel : Nat) (memory : parser_t) (source : List Char)
    (filename : Option (List Char)) : Outcome (Option ast_robot_t) :=
  parser_parse fuel (parser_init memory (Lexer.lexer_init source filename))

end Parser

/-! ## Safety monitor (`runtime/core/safety.h`, `safety.c`) -/

/-- Safety states, `nrx_safety_state_t`. -/
inductive nrx_safety_state_t where
  | NRX_SAFETY_NORMAL | NRX_SAFETY_WARNING | NRX_SAFETY_FAULT | NRX_SAFETY_ESTOP
  deriving DecidableEq, Repr

/-- Fault codes, `nrx_fault_code_t`. -/
inductive nrx_fault_code_t where
  | NRX_FAULT_NONE | NRX_FAULT_LIMIT_EXCEEDED | NRX_FAULT_WATCHDOG | NRX_FAULT_ESTOP
  | NRX_FAULT_SENSOR | NRX_FAULT_MOTOR | NRX_FAULT_COMMUNICATION | NRX_FAULT_POWER
  deriving DecidableEq, Repr

/-- Limit types, `nrx_limit_type_t`. -/
inductive nrx_limit_type_t where
  | NRX_LIMIT_SPEED | NRX_LIMIT_TURN_RATE | NRX_LIMIT_ACCELERATION | NRX_LIMIT_POWER
  deriving DecidableEq, Repr

/-- A limit, `nrx_limit_t`.  The `float` bounds are taken as rationals (no NaN,
no infinity, no rounding). -/
structure nrx_limit_t where
  type : nrx_limit_type_t
  min_value : ℚ
  max_value : ℚ
  enabled : Bool
  deriving DecidableEq, Repr

/-- The configuration, `nrx_safety_config_t`.  `limits` is the array of
`limit_count` entries.  Of a handler only its presence is kept: a handler is
taken to return without calling into the monitor. -/
structure nrx_safety_config_t where
  limits : List nrx_limit_t
  enable_estop : Bool
  enable_watchdog : Bool
  watchdog_timeout_ms : Nat
  fault_handler : Bool
  estop_handler : Bool
  deriving DecidableEq, Repr

/-- A call of one of the two handlers of the configuration. -/
inductive handler_call where
  | fault_handler (fault : nrx_fault_code_t)
  | estop_handler
  deriving DecidableEq, Repr

/-- The global `g_safety` of `safety.c`.  `handler_calls` is not a field of the C
struct: it is the log of the handler calls made so far, oldest first.  What
the functions print on `stderr` is not modelled. -/
structure safety_t where
  config : nrx_safety_config_t
  state : nrx_safety_state_t
  current_fault : nrx_fault_code_t
  last_watchdog_feed_us : Nat
  initialized : Bool
  handler_calls : List handler_call
  deriving DecidableEq, Repr

namespace Safety

open nrx_safety_state_t nrx_fault_code_t nrx_limit_type_t

/-- The zero-initialised static `g_safety` before any call. -/
def g_safety : safety_t :=
  { config := { limits := [], enable_estop := false, enable_watchdog := false,
                watchdog_timeout_ms := 0, fault_handler := false, estop_handler := false },
    state := NRX_SAFETY_NORMAL, current_fault := NRX_FAULT_NONE, last_watchdog_feed_us := 0,
    initialized := false, handler_calls := [] }

/-- Set up the monitor, `nrx_safety_init`; `config` may be null, `now` is what
`nrx_time_now_us` returns. -/
def nrx_safety_init (config : Option nrx_safety_config_t) (now : Nat) : safety_t :=
  { config :=
      match config with
      | some config => config
      | none => { limits := [], enable_estop := true, enable_watchdog := false,
                  watchdog_timeout_ms := 1000, fault_handler := false, estop_handler := false }
    state := NRX_SAFETY_NORMAL, current_fault := NRX_FAULT_NONE,
    last_watchdog_feed_us := now % 2 ^ 64, initialized := true, handler_calls := [] }

/-- The state, `nrx_safety_get_state`. -/
def nrx_safety_get_state (g : safety_t) : nrx_safety_state_t := g.state

/-- Overwrite the state, `nrx_safety_set_state`. -/
def nrx_safety_set_state (g : safety_t) (state : nrx_safety_state_t) : safety_t :=
  { g with state := state }

/-- Emergency stop, `nrx_safety_estop`. -/
def nrx_safety_estop (g : safety_t) : safety_t :=
  let g := { g with state := NRX_SAFETY_ESTOP, current_fault := NRX_FAULT_ESTOP }
  if g.config.estop_handler then { g with handler_calls := g.handler_calls ++ [.estop_handler] }
  else g

/-- Raise a fault, `nrx_safety_fault`; the message goes to `stderr` only. -/
def nrx_safety_fault (g : safety_t) (fault : nrx_fault_code_t) (_message : Option (List Char)) :
    safety_t :=
  let g := { g with current_fault := fault, state := NRX_SAFETY_FAULT }
  let g :=
    if g.config.fault_handler then
      { g with handler_calls := g.handler_calls ++ [.fault_handler fault] }
    else g
  if fault = NRX_FAULT_ESTOP ∨ fault = NRX_FAULT_WATCHDOG then nrx_safety_estop g else g

/-- One round of the monitor, `nrx_safety_update`; `now` is what
`nrx_time_now_us` returns.  The subtraction is that of `uint64_t`. -/
def nrx_safety_update (g : safety_t) (now : Nat) : safety_t :=
  if !g.initialized then g
  else if g.config.enable_watchdog then
    let elapsed_ms := ((now % 2 ^ 64 + 2 ^ 64 - g.last_watchdog_feed_us) % 2 ^ 64) / 1000
    if elapsed_ms > g.config.watchdog_timeout_ms then
      nrx_safety_fault g NRX_FAULT_WATCHDOG (some "Watchdog timeout".toList)
    else g
  else g

/-- Clear a fault, `nrx_safety_clear_fault`. -/
def nrx_safety_clear_fault (g : safety_t) : safety_t :=
  if g.state ≠ NRX_SAFETY_ESTOP then
    { g with current_fault := NRX_FAULT_NONE, state := NRX_SAFETY_NORMAL }
  else g

/-- The current fault, `nrx_safety_get_fault`. -/
def nrx_safety_get_fault (g : safety_t) : nrx_fault_code_t := g.current_fault

/-- Leave the emergency stop, `nrx_safety_estop_reset`. -/
def nrx_safety_estop_reset (g : safety_t) : safety_t :=
  if g.state = NRX_SAFETY_ESTOP then
    { g with state := NRX_SAFETY_NORMAL, current_fault := NRX_FAULT_NONE }
  else g

/-- Whether the monitor is in emergency stop, `nrx_safety_is_estopped`. -/
def nrx_safety_is_estopped (g : safety_t) : Bool := g.state == NRX_SAFETY_ESTOP

/-- The loop of `nrx_safety_check_limit` over the entries from index `i` on. -/
def check_limit_loop : List nrx_limit_t → nrx_limit_type_t → ℚ → safety_t → Bool × safety_t
  | [], _, _, g => (true, g)
  | limit :: rest, type, value, g =>
    if limit.type = type ∧ limit.enabled = true then
      if value < limit.min_value ∨ value > limit.max_value then
        (false, nrx_safety_fault g NRX_FAULT_LIMIT_EXCEEDED (some "Limit exceeded".toList))
      else check_limit_loop rest type value g
    else check_limit_loop rest type value g

/-- Check a value against the enabled limits of its type,
`nrx_safety_check_limit`: the verdict and the monitor afterwards. -/
def nrx_safety_check_limit (g : safety_t) (type : nrx_limit_type_t) (value : ℚ) :
    Bool × safety_t :=
  check_limit_loop g.config.limits type value g

/-- The first loop of `nrx_safety_set_limit`: the array with the first entry of
type `type` overwritten, or nothing when there is no such entry. -/
def set_limit_loop : List nrx_limit_t → nrx_limit_type_t → ℚ → ℚ → Option (List nrx_limit_t)
  | [], _, _, _ => none
  | limit :: rest, type, min_val, max_val =>
    if limit.type = type then
      some ({ limit with min_value := min_val, max_value := max_val, enabled := true } :: rest)
    else (set_limit_loop rest type min_val max_val).map (fun rest => limit :: rest)

/-- Set or add a limit, `nrx_safety_set_limit`. -/
def nrx_safety_set_limit (g : safety_t) (type : nrx_limit_type_t) (min_val max_val : ℚ) :
    safety_t :=
  match set_limit_loop g.config.limits type min_val max_val with
  | some limits => { g with config := { g.config with limits := limits } }
  | none =>
    { g with config := { g.config with limits := g.config.limits ++
        [{ type := type, min_value := min_val, max_value := max_val, enabled := true }] } }

/-- Feed the watchdog, `nrx_safety_watchdog_feed`. -/
def nrx_safety_watchdog_feed (g : safety_t) (now : Nat) : safety_t :=
  { g with last_watchdog_feed_us := now % 2 ^ 64 }

/-- Switch the watchdog, `nrx_safety_watchdog_enable`. -/
def nrx_safety_watchdog_enable (g : safety_t) (enable : Bool) (now : Nat) : safety_t :=
  let g := { g with config := { g.config with enable_watchdog := enable } }
  if enable then nrx_safety_watchdog_feed g now else g

end Safety

/-! ## Vocabulary of the statements -/

/-- Whether a call ended otherwise than for lack of fuel. -/
def Outcome.finished {α : Type} : Outcome α → Bool
  | .out_of_fuel _ => false
  | _ => true

/-- Whether a call ended at a read through a null pointer. -/
def Outcome.is_null_deref {α : Type} : Outcome α → Bool
  | .null_deref _ => true
  | _ => false

/-- Whether a call returned the null robot pointer. -/
def Outcome.returned_null {α : Type} : Outcome (Option α) → Bool
  | .done none _ => true
  | _ => false

/-- Whether a call returned a robot. -/
def Outcome.returned_robot {α : Type} : Outcome (Option α) → Bool
  | .done (some _) _ => true
  | _ => false

/-- The priorities of the schedule declarations of the robot that a call
returned, in order; empty when the call returned no robot. -/
def Outcome.priorities : Outcome (Option ast_robot_t) → List ast_priority_t
  | .done (some robot) _ =>
    robot.declarations.filterMap (fun decl =>
      match decl with
      | .schedule _ _ priority _ _ _ => some priority
      | _ => none)
  | _ => []

/-- What a parameter owns: its name, its type struct and the type's name
when it is typed, and its own struct. -/
def ast_param_owned (param : ast_param_t) : List heap_block :=
  [.text param.name] ++
    (match param.type with
     | some type => [.text type.name, .type_node]
     | none => []) ++
    [.param_node]

/-- What a declaration of one of the four kinds that the parser builds
owns: its texts, its parameters with what they own and their array, its
children with everything that their own destructors release, and its own
node.  The other kinds are listed with their node only. -/
def ast_decl_owned : ast_decl_t → List heap_block
  | .motor name pin _ _ => [.text name, .text pin, .decl_node]
  | .sensor name pin sensor_type _ _ =>
    [.text name, .text pin] ++
      (match sensor_type with
       | some type => [.text type]
       | none => []) ++
      [.decl_node]
  | .task name params body _ _ =>
    [.text name] ++ (params.map ast_param_owned).flatten ++
      (if params.isEmpty then [] else [.param_array]) ++ ast_stmt_free body ++ [.decl_node]
  | .schedule name frequency _ body _ _ =>
    [.text name] ++ ast_expr_free frequency ++ ast_stmt_free body ++ [.decl_node]
  | _ => [.decl_node]

/-- For each declaration of the robot that a call returned, what
`ast_decl_free` releases. -/
def Outcome.released : Outcome (Option ast_robot_t) → List (List heap_block)
  | .done (some robot) _ => robot.declarations.map (fun decl => ast_decl_free (some decl))
  | _ => []

/-- For each declaration of the robot that a call returned, what it owns. -/
def Outcome.owned : Outcome (Option ast_robot_t) → List (List heap_block)
  | .done (some robot) _ => robot.declarations.map ast_decl_owned
  | _ => []

mutual

/-- Whether an expression, possibly null, holds no boolean literal, no AND or OR
node and no unit node, at any depth. -/
def core_expr : Option ast_expr_t → Bool
  | none => true
  | some expr => core_expr_node expr
termination_by structural expr => expr

/-- The same for a node. -/
def core_expr_node : ast_expr_t → Bool
  | .literal literal _ _ =>
    (match literal with
     | .boolean _ => false
     | _ => true)
  | .identifier _ _ _ => true
  | .binary left op right _ _ =>
    decide (op ≠ .OP_AND) && decide (op ≠ .OP_OR) && core_expr left && core_expr right
  | .unary _ operand _ _ => core_expr operand
  | .call callee args _ _ => core_expr callee && core_expr_args args
  | .member object _ _ _ => core_expr object
  | .unit _ _ _ _ => false
termination_by structural expr => expr

/-- The same for the arguments of a call. -/
def core_expr_args : List (Option ast_expr_t) → Bool
  | [] => true
  | arg :: args => core_expr arg && core_expr_args args
termination_by structural args => args

end

mutual

/-- Whether a statement, possibly null, holds no return statement at any depth,
and only expressions as above. -/
def core_stmt : Option ast_stmt_t → Bool
  | none => true
  | some stmt => core_stmt_node stmt
termination_by structural stmt => stmt

/-- The same for a node. -/
def core_stmt_node : ast_stmt_t → Bool
  | .expr expr _ _ => core_expr expr
  | .assign _ value _ _ => core_expr value
  | .if_stmt condition then_branch else_branch _ _ =>
    core_expr condition && core_stmt then_branch && core_stmt else_branch
  | .block statements _ _ => core_stmt_statements statements
  | .wait duration _ _ => core_expr duration
  | .return_stmt _ _ _ => false
termination_by structural stmt => stmt

/-- The same for the statements of a block. -/
def core_stmt_statements : List (Option ast_stmt_t) → Bool
  | [] => true
  | stmt :: statements => core_stmt stmt && core_stmt_statements statements
termination_by structural statements => statements

end

/-- Whether a declaration is a motor, a sensor, a task or a schedule, with a
frequency and a body as above. -/
def core_decl : ast_decl_t → Bool
  | .motor _ _ _ _ => true
  | .sensor _ _ _ _ _ => true
  | .task _ _ body _ _ => core_stmt body
  | .schedule _ frequency _ body _ _ => core_expr frequency && core_stmt body
  | _ => false

/-- The value that a call returned, if it returned. -/
def Outcome.value {α : Type} : Outcome α → Option α
  | .done value _ => some value
  | _ => none

/-- The declarations of the robot that a call returned, in order; empty when the
call returned no robot. -/
def Outcome.declarations : Outcome (Option ast_robot_t) → List ast_decl_t
  | .done (some robot) _ => robot.declarations
  | _ => []

namespace Lexer

/-- The text `rest` does not start with a blank or a slash: `skip_whitespace`
stops in front of it. -/
def starts_token (rest : List Char) : Prop :=
  ∀ c, rest.head? = some c → c ≠ ' ' ∧ c ≠ '\r' ∧ c ≠ '\t' ∧ c ≠ '/'

/-- The text `rest` does not continue an identifier. -/
def ends_word (rest : List Char) : Prop :=
  ∀ c, rest.head? = some c → (isalnum c || c == '_') = false

/-- The cursor after one more call of `lexer_next_token`. -/
def after_token (lexer : lexer_t) : lexer_t := (lexer_next_token lexer).2

/-- The token returned by call number `k` (counted from 0) on `lexer`. -/
def nth_token (k : Nat) (lexer : lexer_t) : token_t :=
  (lexer_next_token (after_token^[k] lexer)).1

/-- What a call that finds a character to scan returns: a token other than
end-of-input and a cursor inside `base`. -/
structure Scanned (base : List Char) (r : token_t × lexer_t) : Prop where
  type : r.1.type ≠ TOKEN_EOF
  suffix : r.2.current <:+ base

/-- A decimal numeral: one or more digits, optionally followed by a point
and one or more digits. -/
def is_numeral (w : List Char) : Bool :=
  let whole := w.takeWhile isdigit
  let tail := w.dropWhile isdigit
  !whole.isEmpty &&
    (tail.isEmpty || (tail.head? == some '.' && !tail.tail.isEmpty && tail.tail.all isdigit))

/-- The texts that count as blanks and comments in front of a token:
spaces, tabs and carriage returns, closed block comments (the body ends at the
first star-slash), and at the end possibly one line comment, which holds no
line break. -/
inductive Skipped : List Char → Prop
  | nil : Skipped []
  | blank (c : Char) (t : List Char) :
      c = ' ' ∨ c = '\r' ∨ c = '\t' → Skipped t → Skipped (c :: t)
  | block_comment (body t : List Char) :
      ¬ ['*', '/'] <:+: body → Skipped t → Skipped ('/' :: '*' :: (body ++ '*' :: '/' :: t))
  | line_comment (body : List Char) : '\n' ∉ body → Skipped ('/' :: '/' :: body)

/-- The operator spellings of one and two characters that share a first
character, each with its token type. -/
def operator_spellings : List (List Char × token_type_t) :=
  [ ("==".toList, TOKEN_EQUAL_EQUAL), ("!=".toList, TOKEN_BANG_EQUAL),
    ("<=".toList, TOKEN_LESS_EQUAL), (">=".toList, TOKEN_GREATER_EQUAL),
    ("&&".toList, TOKEN_AMP_AMP), ("||".toList, TOKEN_PIPE_PIPE),
    ("::".toList, TOKEN_DOUBLE_COLON), ("->".toList, TOKEN_ARROW),
    ("=".toList, TOKEN_EQUAL), ("!".toList, TOKEN_BANG), ("<".toList, TOKEN_LESS),
    (">".toList, TOKEN_GREATER), (":".toList, TOKEN_COLON), ("-".toList, TOKEN_MINUS) ]

/-- The characters with which `lexer_next_token` starts a token other than a
word or a number. -/
def punctuation : List Char :=
  ['(', ')', '{', '}', '[', ']', ',', '.', ';', '+', '-', '*', '/', '%', '@', '!', '=', '<',
   '>', '&', '|', ':', '"', '\n']

/-- A character of the source text that is no blank and starts no token. -/
def starts_no_token (c : Char) : Bool :=
  !(isalpha c || c == '_' || isdigit c || punctuation.contains c ||
      c == ' ' || c == '\r' || c == '\t') && c != NUL

/-- A non-empty run of letters, digits and underscores that starts with a
letter or an underscore. -/
def is_word (w : List Char) : Bool :=
  match w with
  | [] => false
  | c :: cs => (isalpha c || c == '_') && cs.all (fun d => isalnum d || d == '_')

/-- Line and column, both counted from 1, of the character at `offset` in
`source`: the line is one more than the number of line breaks in front of it,
the column one more than the number of characters between it and the last of
these line breaks (or the start of the text). -/
def line_column (source : List Char) (offset : Nat) : Int × Int :=
  (((source.take offset).count '\n' : Nat) + 1,
   (((source.take offset).reverse.takeWhile (fun c => c != '\n')).length : Nat) + 1)

/-- Line and column of the first character of the token that the last call on
`lexer` returned: the character `lexer.start` points to. -/
def first_character (lexer : lexer_t) : Int × Int :=
  line_column lexer.source (lexer.source.length - lexer.start.length)

/-- The text an error token carries is one of the two messages of the lexer. -/
structure ErrorText (r : token_t × lexer_t) : Prop where
  text : r.1.type = TOKEN_ERROR →
    r.1.start = "Unexpected character".toList ∨ r.1.start = "Unterminated string".toList

/-- Line and column after reading the character `c` at line and column `pos`: a
line break starts the next line at column 1, any other character moves one
column on. -/
def advance_position (pos : Int × Int) (c : Char) : Int × Int :=
  if c = '\n' then (pos.1 + 1, 1) else (pos.1, pos.2 + 1)

/-- The position invariant of the lexer: the cursor is inside the source, and
`line` and `column` are the line and column, counted from 1, of the character
under the cursor. -/
def Positioned (lx : lexer_t) : Prop :=
  lx.current <:+ lx.source ∧
    (lx.line, lx.column) = line_column lx.source (lx.source.length - lx.current.length)

/-- The cursor `lx'` is reached from `lx` by reading some text character by
character, with line and column kept up to date; source and token start are
untouched. -/
structure Tracks (lx lx' : lexer_t) : Prop where
  source : lx'.source = lx.source
  start : lx'.start = lx.start
  text : ∃ text, lx.current = text ++ lx'.current ∧
    (lx'.line, lx'.column) = text.foldl advance_position (lx.line, lx.column)

/-- The first `advance` of a call of `lexer_next_token`: from `l0` over the
character `c` to `l2`. -/
structure First (l0 : lexer_t) (c : Char) (l2 : lexer_t) : Prop where
  current : l0.current = c :: l2.current
  line : l2.line = l0.line
  column : l2.column = l0.column + 1
  source : l2.source = l0.source
  start : l2.start = l0.start

/-- What a call of `lexer_next_token` returns, seen from the cursor `l0` at the
start of the token: the cursor afterwards is reached by reading the token's
text; a token that is no error token is made from that cursor; and a string
token starts with a double quote and ends with the first one after it. -/
structure Located (l0 : lexer_t) (r : token_t × lexer_t) : Prop where
  tracks : Tracks l0 r.2
  token : r.1.type ≠ TOKEN_ERROR → r.1 = make_token r.2 r.1.type
  string : r.1.type = TOKEN_STRING →
    ∃ body, l0.current = '"' :: (body ++ '"' :: r.2.current) ∧ '"' ∉ body

/-- Whether the text starts malformed, that is with something that is no token:
a `&` or a `|` that is not doubled, a double quote that no later double quote
closes, or a character that is no letter, digit or underscore and starts no
punctuation or operator.  It is applied to the text left after the blanks and
comments; the empty text is not malformed, it is the end of the input. -/
def malformed_start : List Char → Bool
  | [] => false
  | c :: rest =>
    if c = '&' ∨ c = '|' then rest.head? != some c
    else if c = '"' then !rest.contains '"'
    else !(isalpha c || c == '_' || isdigit c || punctuation.contains c)

/-- The result is an error token exactly when `bad` holds. -/
structure ErrorIff (bad : Prop) (r : token_t × lexer_t) : Prop where
  iff : r.1.type = TOKEN_ERROR ↔ bad

end Lexer

namespace Parser

open Lexer (lexer_next_token token_to_string ends_word check_keyword)

/-- The token tags that the parser passes to `match` or `consume`:
the only tags under which `advance` is called after `parser_init`. -/
def parser_tokens : List token_type_t :=
  [TOKEN_NUMBER, TOKEN_STRING, TOKEN_IDENTIFIER, TOKEN_LEFT_PAREN, TOKEN_RIGHT_PAREN,
   TOKEN_COMMA, TOKEN_DOT, TOKEN_MINUS, TOKEN_BANG, TOKEN_STAR, TOKEN_SLASH, TOKEN_PERCENT,
   TOKEN_PLUS, TOKEN_LESS, TOKEN_LESS_EQUAL, TOKEN_GREATER, TOKEN_GREATER_EQUAL,
   TOKEN_EQUAL_EQUAL, TOKEN_BANG_EQUAL, TOKEN_LEFT_BRACE, TOKEN_RIGHT_BRACE, TOKEN_IF,
   TOKEN_ELSE, TOKEN_WAIT, TOKEN_EQUAL, TOKEN_ON, TOKEN_TYPE, TOKEN_COLON, TOKEN_AT,
   TOKEN_PRIORITY, TOKEN_HIGH, TOKEN_MEDIUM, TOKEN_LOW, TOKEN_MOTOR, TOKEN_SENSOR, TOKEN_TASK,
   TOKEN_SCHEDULE, TOKEN_ROBOT, TOKEN_NEWLINE]

/-- A state property is stable when reporting an error keeps it and consuming
a token the parser asks for keeps it. -/
structure Stable (I : parser_t → Prop) : Prop where
  error_at : ∀ p t m, I p → I (error_at p t m)
  advance : ∀ p, I p → p.current.type ∈ parser_tokens → I (advance p)

/-- What a computation guarantees for a stable property `I`: it holds in the
state where the call ends, and a call that ends at a null read was preceded by
a state with `I` whose lookahead was `=`. -/
def Post (I : parser_t → Prop) {α : Type} (o : Outcome α) : Prop :=
  I o.state ∧ (o.is_null_deref = true → ∃ p, I p ∧ p.current.type = TOKEN_EQUAL)

/-- The computation `x` keeps `I`. -/
structure Sat (I : parser_t → Prop) {α : Type} (x : ParseM α) : Prop where
  post : ∀ p, I p → Post I (x p)

/-- The computation `x` keeps `I` when run after an `=` was the lookahead. -/
structure SatAfterEqual (I : parser_t → Prop) {α : Type} (x : ParseM α) : Prop where
  post : ∀ p, I p → (∃ p', I p' ∧ p'.current.type = TOKEN_EQUAL) → Post I (x p)

/-- The error discipline: the two flags agree and the log holds one record
exactly when they are set. -/
def Inv (p : parser_t) : Prop :=
  p.had_error = p.panic_mode ∧ p.diagnostics.length = if p.had_error then 1 else 0

/-- What parser code guarantees between a state `p` and a later state `q`:
the discipline is kept, a set flag stays set, the log only grows. -/
def Keeps (p q : parser_t) : Prop :=
  (Inv p → Inv q) ∧ (p.had_error = true → q.had_error = true) ∧
    p.diagnostics <+: q.diagnostics

/-- The computation `y` agrees with `x` wherever `x` ends otherwise than for lack of fuel. -/
structure Ext {α : Type} (x y : ParseM α) : Prop where
  ext : ∀ p, (x p).finished = true → y p = x p

/-- With enough fuel, `f` run from `p` returns `a` in state `q`. -/
def Converges {α : Type} (f : Nat → ParseM α) (p : parser_t) (a : α) (q : parser_t) : Prop :=
  ∃ n, ∀ fuel, n ≤ fuel → f fuel p = .done a q

/-- Operator table of `parse_factor`. -/
def factor_op (t : token_type_t) : Option ast_binary_op_t :=
  if t = TOKEN_STAR then some .OP_MUL
  else if t = TOKEN_SLASH then some .OP_DIV
  else if t = TOKEN_PERCENT then some .OP_MOD
  else none

/-- Operator table of `parse_term`. -/
def term_op (t : token_type_t) : Option ast_binary_op_t :=
  if t = TOKEN_PLUS then some .OP_ADD
  else if t = TOKEN_MINUS then some .OP_SUB
  else none

/-- Operator table of `parse_comparison`. -/
def comparison_op (t : token_type_t) : Option ast_binary_op_t :=
  if t = TOKEN_LESS then some .OP_LT
  else if t = TOKEN_LESS_EQUAL then some .OP_LTE
  else if t = TOKEN_GREATER then some .OP_GT
  else if t = TOKEN_GREATER_EQUAL then some .OP_GTE
  else none

/-- Operator table of `parse_equality`. -/
def equality_op (t : token_type_t) : Option ast_binary_op_t :=
  if t = TOKEN_EQUAL_EQUAL then some .OP_EQ
  else if t = TOKEN_BANG_EQUAL then some .OP_NEQ
  else none

/-- A chain of operators of one table, each followed by an operand that
`operand` parses: the part of the input that one precedence loop consumes. -/
inductive Chain (operand : Nat → ParseM (Option ast_expr_t))
    (ops : token_type_t → Option ast_binary_op_t) :
    parser_t → List (ast_binary_op_t × Option ast_expr_t) → parser_t → Prop where
  | nil (p : parser_t) : Chain operand ops p [] p
  | cons {p q r : parser_t} {op : ast_binary_op_t} {e : Option ast_expr_t}
      {rest : List (ast_binary_op_t × Option ast_expr_t)} :
      ops p.current.type = some op → Converges operand (advance p) e q →
      Chain operand ops q rest r → Chain operand ops p ((op, e) :: rest) r

/-- The left fold of a chain onto a first operand. -/
def left_fold (first : Option ast_expr_t) (chain : List (ast_binary_op_t × Option ast_expr_t)) :
    Option ast_expr_t :=
  chain.foldl (fun acc oe => some (.binary acc oe.1 oe.2 0 0)) first

/-- The precedence levels of binary operators, loosest first. -/
inductive level where
  | equality | comparison | term | factor
  deriving DecidableEq, Repr

/-- The function that parses the operands of a level: the next tighter level. -/
def level.operand : level → Nat → ParseM (Option ast_expr_t)
  | .equality => parse_comparison
  | .comparison => parse_term
  | .term => parse_factor
  | .factor => parse_unary

/-- The operator table of a level. -/
def level.op : level → token_type_t → Option ast_binary_op_t
  | .equality => equality_op
  | .comparison => comparison_op
  | .term => term_op
  | .factor => factor_op

/-- The levels that are not tighter than a level: their loops run on the
token that follows a chain of that level. -/
def level.outer : level → List level
  | .equality => [.equality]
  | .comparison => [.comparison, .equality]
  | .term => [.term, .comparison, .equality]
  | .factor => [.factor, .term, .comparison, .equality]

/-- The lexer cursor and lookahead of `p` are those reached from `p0` by
consuming `i` tokens, for some `i ≤ N`. -/
def Within (p0 : parser_t) (N : Nat) (p : parser_t) : Prop :=
  ∃ i, i ≤ N ∧ p.lexer = (advance^[i] p0).lexer ∧ p.current = (advance^[i] p0).current

/-- Certificate that the parser cannot get past the `N`-th lookahead after
`p0`: none of the lookaheads up to it is `}`, end of input or `=`, and the
`N`-th is a token that the parser never consumes. -/
def stuck_within (p0 : parser_t) (N : Nat) : Bool :=
  (List.range (N + 1)).all (fun i =>
    (advance^[i] p0).current.type != TOKEN_RIGHT_BRACE &&
    (advance^[i] p0).current.type != TOKEN_EOF &&
    (advance^[i] p0).current.type != TOKEN_EQUAL) &&
  !(parser_tokens.contains (advance^[N] p0).current.type)

/-- No error has been reported. -/
structure Clean (p : parser_t) : Prop where
  had_error : p.had_error = false
  panic_mode : p.panic_mode = false
  diagnostics : p.diagnostics = []

/-- The lookahead of `p` has tag `t` and text `w`, the lexer stands in front
of `rest`, and no error has been reported. -/
structure At (p : parser_t) (t : token_type_t) (w rest : List Char) : Prop where
  type : p.current.type = t
  text : token_to_string p.current = w
  rest : p.lexer.current = rest
  clean : Clean p

/-- A non-empty run of letters, digits and underscores that starts with a
letter or underscore and that the keyword table does not hold. -/
def is_plain_identifier (w : List Char) : Bool :=
  match w with
  | [] => false
  | c :: cs =>
    (isalpha c || c == '_') && cs.all (fun d => isalnum d || d == '_') &&
      (check_keyword w w.length == TOKEN_IDENTIFIER)

/-- Blanks and line breaks only. -/
def is_blank (ws : List Char) : Bool := ws.all (fun c => c == ' ' || c == '\n')

/-- The text `robot R {ws1 motor n on pin ws2}`. -/
def motor_robot_source (R ws1 n pin ws2 : List Char) : List Char :=
  "robot ".toList ++ (R ++ (" \x7b".toList ++ (ws1 ++ ("motor ".toList ++ (n ++
    (" on ".toList ++ (pin ++ (ws2 ++ "\x7d".toList))))))))

/-- The garbage token used in the sample runs. -/
def sample_garbage : token_t :=
  { type := TOKEN_EOF, start := [], length := 0, line := 0, column := 0 }

/-- The parser primed on the text `text`, as the tests set it up. -/
def parser_on (text : String) : parser_t :=
  parser_init (parser_memory sample_garbage) (Lexer.lexer_init text.toList none)

/-- The declaration keywords that the lexer knows and `parse_declaration`
has no branch for. -/
def unsupported_declarations : List String :=
  ["servo", "gpio", "bus", "net", "topic", "limits", "when"]

/-- A robot whose body starts with the declaration keyword `keyword`. -/
def unsupported_source (keyword : String) : String :=
  "robot R \x7b " ++ keyword ++ " s on P \x7d"

/-- The record that `advance` files for the next token of `lexer` when that
token is an error token: the token's text as message, at the token's line and
column, under the file name of the lexer. -/
def lexical_diagnostic (lexer : lexer_t) : neurox_diagnostic_t :=
  { filename := (Lexer.after_token lexer).filename, line := (Lexer.nth_token 0 lexer).line,
    column := (Lexer.nth_token 0 lexer).column, message := (Lexer.nth_token 0 lexer).start,
    error_code := .NEUROX_ERROR_SYNTAX }

/-- A comma-separated list of expressions, read from `p` up to `q`, where
no comma follows: the part of the input that the argument loop of `parse_call`
consumes, with the arguments in source order. -/
inductive Arguments : parser_t → List (Option ast_expr_t) → parser_t → Prop where
  | last {p q : parser_t} {e : Option ast_expr_t} :
      Converges parse_expression p e q → q.current.type ≠ TOKEN_COMMA → Arguments p [e] q
  | cons {p q r : parser_t} {e : Option ast_expr_t} {rest : List (Option ast_expr_t)} :
      Converges parse_expression p e q → q.current.type = TOKEN_COMMA →
      Arguments (advance q) rest r → Arguments p (e :: rest) r

/-- A chain of postfixes read from `p` up to `q`, applied from left to
right to the expression `e` with result `result`: no postfix when the lookahead
is neither `(` nor `.`; an empty argument list `()`; an argument list closed by
`)`; or `.` followed by an identifier. -/
inductive Postfixes : parser_t → Option ast_expr_t → parser_t → Option ast_expr_t → Prop where
  | stop (p : parser_t) (e : Option ast_expr_t) :
      p.current.type ≠ TOKEN_LEFT_PAREN → p.current.type ≠ TOKEN_DOT → Postfixes p e p e
  | call_empty {p q : parser_t} {e result : Option ast_expr_t} :
      p.current.type = TOKEN_LEFT_PAREN → (advance p).current.type = TOKEN_RIGHT_PAREN →
      Postfixes (advance (advance p)) (some (.call e [] 0 0)) q result →
      Postfixes p e q result
  | call {p s q : parser_t} {e result : Option ast_expr_t} {args : List (Option ast_expr_t)} :
      p.current.type = TOKEN_LEFT_PAREN → (advance p).current.type ≠ TOKEN_RIGHT_PAREN →
      Arguments (advance p) args s → s.current.type = TOKEN_RIGHT_PAREN →
      Postfixes (advance s) (some (.call e args 0 0)) q result →
      Postfixes p e q result
  | member {p q : parser_t} {e result : Option ast_expr_t} :
      p.current.type = TOKEN_DOT → (advance p).current.type = TOKEN_IDENTIFIER →
      Postfixes (advance (advance p))
        (some (.member e (token_to_string (advance p).current) 0 0)) q result →
      Postfixes p e q result

/-- The statements of a block, read from `p` up to the closing brace or the
end of input at `q`: the part of the input that the loop of `parse_block`
consumes, newlines after each statement included. -/
inductive Statements : parser_t → List (Option ast_stmt_t) → parser_t → Prop where
  | nil (p : parser_t) :
      p.current.type = TOKEN_RIGHT_BRACE ∨ p.current.type = TOKEN_EOF → Statements p [] p
  | cons {p q r : parser_t} {stmt : Option ast_stmt_t} {rest : List (Option ast_stmt_t)} :
      p.current.type ≠ TOKEN_RIGHT_BRACE → p.current.type ≠ TOKEN_EOF →
      Converges parse_statement p stmt q → Statements (skip_newlines q) rest r →
      Statements p (stmt :: rest) r

/-- A declaration that wires a name to a pin: `motor n on p` or
`sensor n on p [type t]`. -/
inductive pin_decl where
  | motor (name pin : List Char)
  | sensor (name pin : List Char) (sensor_type : Option (List Char))

/-- The source text of a pin declaration. -/
def pin_decl.text : pin_decl → List Char
  | .motor name pin => "motor ".toList ++ (name ++ (" on ".toList ++ pin))
  | .sensor name pin none => "sensor ".toList ++ (name ++ (" on ".toList ++ pin))
  | .sensor name pin (some type) =>
    "sensor ".toList ++ (name ++ (" on ".toList ++ (pin ++ (" type ".toList ++ type))))

/-- The declaration node that a pin declaration stands for. -/
def pin_decl.node : pin_decl → ast_decl_t
  | .motor name pin => .motor name pin 0 0
  | .sensor name pin sensor_type => .sensor name pin sensor_type 0 0

/-- Name, pin and type are identifiers that are not keywords. -/
def pin_decl.well_formed : pin_decl → Bool
  | .motor name pin => is_plain_identifier name && is_plain_identifier pin
  | .sensor name pin none => is_plain_identifier name && is_plain_identifier pin
  | .sensor name pin (some type) =>
    is_plain_identifier name && is_plain_identifier pin && is_plain_identifier type

/-- The text of a robot body: each declaration behind its own run of blanks
and line breaks, followed by `tail`. -/
def hardware_body : List (List Char × pin_decl) → List Char → List Char
  | [], tail => tail
  | (ws, decl) :: rest, tail => ws ++ (decl.text ++ hardware_body rest tail)

/-- The text `robot R {` body `ws }`. -/
def hardware_source (R : List Char) (body : List (List Char × pin_decl)) (ws : List Char) :
    List Char :=
  "robot ".toList ++ (R ++ (" \x7b".toList ++ hardware_body body (ws ++ "\x7d".toList)))

/-- What a diagnostic shows to the user: file name, line, column, message. -/
def shown (d : neurox_diagnostic_t) : Option (List Char) × Int × Int × List Char :=
  (d.filename, d.line, d.column, d.message)

/-- Line and column of a token. -/
def position (t : token_t) : Int × Int := (t.line, t.column)

/-- The binary operators: token, operator tag of the node, precedence level. -/
def binary_operators : List (token_type_t × ast_binary_op_t × level) :=
  [(TOKEN_PLUS, .OP_ADD, .term), (TOKEN_MINUS, .OP_SUB, .term),
   (TOKEN_STAR, .OP_MUL, .factor), (TOKEN_SLASH, .OP_DIV, .factor),
   (TOKEN_PERCENT, .OP_MOD, .factor),
   (TOKEN_LESS, .OP_LT, .comparison), (TOKEN_LESS_EQUAL, .OP_LTE, .comparison),
   (TOKEN_GREATER, .OP_GT, .comparison), (TOKEN_GREATER_EQUAL, .OP_GTE, .comparison),
   (TOKEN_EQUAL_EQUAL, .OP_EQ, .equality), (TOKEN_BANG_EQUAL, .OP_NEQ, .equality)]

/-- The unit and type keywords that may follow a numeral. -/
def unit_keywords : List token_type_t :=
  [TOKEN_TYPE_PERCENT, TOKEN_TYPE_MS, TOKEN_TYPE_CM, TOKEN_TYPE_DEG, TOKEN_TYPE_HZ,
   TOKEN_TYPE_DISTANCE, TOKEN_TYPE_ANGLE, TOKEN_TYPE_SPEED]

/-- The token in the `previous` slot at the point where `parser_parse`, entered in
state `p`, copies the robot name: after `skip_newlines` and the two calls of
`consume` for `robot` and for the name. -/
def robot_name_token (p : parser_t) : token_t :=
  (consume (consume (skip_newlines p) TOKEN_ROBOT "Expected 'robot' keyword".toList)
    TOKEN_IDENTIFIER "Expected robot name".toList).previous

/-- Every value that the computation returns satisfies `G`. -/
structure Yields {α : Type} (G : α → Prop) (x : ParseM α) : Prop where
  post : ∀ p a q, x p = .done a q → G a

end Parser

namespace Safety

open nrx_safety_state_t nrx_fault_code_t nrx_limit_type_t

/-- A call of one of the functions that an emergency stop is to outlast, with
its arguments and, where the function reads the clock, the time it reads. -/
inductive safety_call where
  | fault (code : nrx_fault_code_t) (message : Option (List Char))
  | clear_fault
  | check_limit (type : nrx_limit_type_t) (value : ℚ)
  | update (now : Nat)
  | watchdog_feed (now : Nat)
  | watchdog_enable (enable : Bool) (now : Nat)

/-- The monitor after the call. -/
def safety_call.run (g : safety_t) : safety_call → safety_t
  | .fault code message => nrx_safety_fault g code message
  | .clear_fault => nrx_safety_clear_fault g
  | .check_limit type value => (nrx_safety_check_limit g type value).2
  | .update now => nrx_safety_update g now
  | .watchdog_feed now => nrx_safety_watchdog_feed g now
  | .watchdog_enable enable now => nrx_safety_watchdog_enable g enable now

/-- The monitor after a sequence of calls, first call first. -/
def run_calls (g : safety_t) (calls : List safety_call) : safety_t :=
  calls.foldl safety_call.run g

/-- Whether the call raises no fault other than an emergency stop or a watchdog
fault: it is not `nrx_safety_fault` with another code, and not a limit check
that fails. -/
def safety_call.raises_no_other_fault (g : safety_t) : safety_call → Bool
  | .fault code _ => code = NRX_FAULT_ESTOP ∨ code = NRX_FAULT_WATCHDOG
  | .check_limit type value => (nrx_safety_check_limit g type value).1
  | _ => true

/-- Whether no call of the sequence, made one after the other from `g`, raises a
fault other than an emergency stop or a watchdog fault. -/
def raise_no_other_fault : safety_t → List safety_call → Bool
  | _, [] => true
  | g, c :: rest => c.raises_no_other_fault g && raise_no_other_fault (c.run g) rest

end Safety

/-! ## Lexer lemmas -/

namespace Lexer

theorem skip_whitespace_loop_spaces (sp rest : List Char) (hsp : ∀ c ∈ sp, c = ' ')
    (hrest : starts_token rest) :
    ∀ (n : Nat) (lx : lexer_t), lx.current = sp ++ rest → sp.length < n →
      skip_whitespace_loop n lx =
        { lx with current := rest, column := lx.column + (sp.length : Int) } := by
  induction sp with
  | nil =>
    intro n lx hcur hn
    obtain ⟨m, rfl⟩ : ∃ m, n = m + 1 := ⟨n - 1, by simp at hn; omega⟩
    simp only [List.nil_append] at hcur
    have hlx : ({ lx with current := rest, column := lx.column + ((([] : List Char).length : Nat) : Int) } : lexer_t) = lx := by
      cases lx; simp at hcur ⊢; exact hcur.symm
    rw [hlx]
    cases rest with
    | nil =>
      simp [skip_whitespace_loop, peek, hcur, NUL]
    | cons c cs =>
      obtain ⟨h1, h2, h3, h4⟩ := hrest c rfl
      simp [skip_whitespace_loop, peek, hcur, h1, h2, h3, h4]
  | cons s sp ih =>
    intro n lx hcur hn
    obtain ⟨m, rfl⟩ : ∃ m, n = m + 1 := ⟨n - 1, by simp at hn; omega⟩
    have hs : s = ' ' := hsp s (List.mem_cons_self _ _)
    subst hs
    have := ih (fun c hc => hsp c (List.mem_cons_of_mem _ hc)) m
      { lx with current := sp ++ rest, column := lx.column + 1 } rfl (by simp at hn; omega)
    simp only [skip_whitespace_loop, peek, hcur, List.cons_append, List.headD_cons, advance,
      List.tail_cons]
    simp only [beq_self_eq_true, Bool.true_or, if_true]
    rw [this]
    simp only [List.length_cons, Nat.cast_add, Nat.cast_one]
    congr 1
    omega

theorem skip_whitespace_spaces (sp rest : List Char) (hsp : ∀ c ∈ sp, c = ' ')
    (hrest : starts_token rest) (lx : lexer_t) (hcur : lx.current = sp ++ rest) :
    skip_whitespace lx = { lx with current := rest, column := lx.column + (sp.length : Int) } := by
  unfold skip_whitespace
  exact skip_whitespace_loop_spaces sp rest hsp hrest _ lx hcur (by rw [hcur]; simp; omega)

theorem identifier_loop_word (cs rest : List Char)
    (hcs : ∀ d ∈ cs, (isalnum d || d == '_') = true) (hrest : ends_word rest) :
    ∀ (n : Nat) (lx : lexer_t), lx.current = cs ++ rest → cs.length ≤ n →
      identifier_loop n lx =
        { lx with current := rest, column := lx.column + (cs.length : Int) } := by
  induction cs with
  | nil =>
    intro n lx hcur _
    simp only [List.nil_append] at hcur
    have hlx : ({ lx with current := rest, column := lx.column + ((([] : List Char).length : Nat) : Int) } : lexer_t) = lx := by
      cases lx; simp at hcur ⊢; exact hcur.symm
    rw [hlx]
    cases n with
    | zero => rfl
    | succ m =>
      cases rest with
      | nil => simp [identifier_loop, peek, hcur, NUL, isalnum]
      | cons c cs =>
        have := hrest c rfl
        simp only [Bool.or_eq_false_iff] at this
        simp [identifier_loop, peek, hcur, this.1, this.2]
  | cons d cs ih =>
    intro n lx hcur hn
    obtain ⟨m, rfl⟩ : ∃ m, n = m + 1 := ⟨n - 1, by simp at hn; omega⟩
    have hd := hcs d (List.mem_cons_self _ _)
    have := ih (fun c hc => hcs c (List.mem_cons_of_mem _ hc)) m
      { lx with current := cs ++ rest, column := lx.column + 1 } rfl (by simp at hn; omega)
    simp only [identifier_loop, peek, hcur, List.cons_append, List.headD_cons, advance,
      List.tail_cons, hd, if_true]
    rw [this]
    simp only [List.length_cons, Nat.cast_add, Nat.cast_one]
    congr 1
    omega

theorem check_keyword_in_append (table : List (List Char × token_type_t)) (w rest : List Char) :
    check_keyword_in table (w ++ rest) w.length = check_keyword_in table w w.length := by
  induction table with
  | nil => rfl
  | cons e table ih =>
    obtain ⟨text, type⟩ := e
    simp only [check_keyword_in, List.take_left', List.take_length, ih]

theorem check_keyword_append (w rest : List Char) :
    check_keyword (w ++ rest) w.length = check_keyword w w.length :=
  check_keyword_in_append keywords w rest

/-- Lexing a word: blanks, then a letter or underscore followed by letters,
digits and underscores, up to a character that is none of these. -/
theorem lexer_next_token_word (sp : List Char) (c : Char) (cs rest : List Char)
    (hsp : ∀ d ∈ sp, d = ' ') (hc : (isalpha c || c == '_') = true)
    (hcs : ∀ d ∈ cs, (isalnum d || d == '_') = true) (hrest : ends_word rest)
    (lx : lexer_t) (hcur : lx.current = sp ++ (c :: cs ++ rest)) :
    lexer_next_token lx =
      ({ type := check_keyword (c :: cs) (cs.length + 1), start := c :: cs ++ rest,
         length := cs.length + 1, line := lx.line, column := lx.column + (sp.length : Int) },
       { lx with start := c :: cs ++ rest, current := rest,
                 column := lx.column + (sp.length : Int) + 1 + (cs.length : Int) }) := by
  have hst : starts_token (c :: cs ++ rest) := by
    intro d hd
    simp only [List.cons_append, List.head?_cons, Option.some.injEq] at hd
    subst hd
    refine ⟨?_, ?_, ?_, ?_⟩ <;> rintro rfl <;>
      simp [isalpha, Char.isAlpha, Char.isUpper, Char.isLower] at hc
  have hk := check_keyword_append (c :: cs) rest
  simp only [List.length_cons] at hk
  unfold lexer_next_token
  rw [skip_whitespace_spaces sp _ hsp hst lx hcur]
  simp only [is_at_end, List.cons_append, List.isEmpty_cons, Bool.false_eq_true, if_false,
    advance, List.headD_cons, List.tail_cons, hc, if_true, identifier]
  rw [identifier_loop_word cs rest hcs hrest _ _ rfl (by simp)]
  simp only [make_token, List.length_cons, List.length_append]
  have h1 : cs.length + rest.length + 1 - rest.length = cs.length + 1 := by omega
  rw [h1]
  rw [show c :: (cs ++ rest) = (c :: cs) ++ rest from rfl, hk]
  congr 2
  push_cast
  omega

theorem lexer_next_token_left_brace (sp rest : List Char) (hsp : ∀ d ∈ sp, d = ' ')
    (lx : lexer_t) (hcur : lx.current = sp ++ '{' :: rest) :
    lexer_next_token lx =
      ({ type := TOKEN_LEFT_BRACE, start := '{' :: rest, length := 1, line := lx.line,
         column := lx.column + (sp.length : Int) },
       { lx with start := '{' :: rest, current := rest,
                 column := lx.column + (sp.length : Int) + 1 }) := by
  have hst : starts_token ('{' :: rest) := by
    intro d hd
    simp only [List.head?_cons, Option.some.injEq] at hd
    subst hd
    decide
  unfold lexer_next_token
  rw [skip_whitespace_spaces sp _ hsp hst lx hcur]
  simp [is_at_end, advance, isalpha, isdigit, make_token]

theorem lexer_next_token_right_brace (sp rest : List Char) (hsp : ∀ d ∈ sp, d = ' ')
    (lx : lexer_t) (hcur : lx.current = sp ++ '}' :: rest) :
    lexer_next_token lx =
      ({ type := TOKEN_RIGHT_BRACE, start := '}' :: rest, length := 1, line := lx.line,
         column := lx.column + (sp.length : Int) },
       { lx with start := '}' :: rest, current := rest,
                 column := lx.column + (sp.length : Int) + 1 }) := by
  have hst : starts_token ('}' :: rest) := by
    intro d hd
    simp only [List.head?_cons, Option.some.injEq] at hd
    subst hd
    decide
  unfold lexer_next_token
  rw [skip_whitespace_spaces sp _ hsp hst lx hcur]
  simp [is_at_end, advance, isalpha, isdigit, make_token]

theorem lexer_next_token_newline (sp rest : List Char) (hsp : ∀ d ∈ sp, d = ' ')
    (lx : lexer_t) (hcur : lx.current = sp ++ '\n' :: rest) :
    lexer_next_token lx =
      ({ type := TOKEN_NEWLINE, start := '\n' :: rest, length := 1, line := lx.line + 1,
         column := 0 },
       { lx with start := '\n' :: rest, current := rest, line := lx.line + 1,
                 column := 1 }) := by
  have hst : starts_token ('\n' :: rest) := by
    intro d hd
    simp only [List.head?_cons, Option.some.injEq] at hd
    subst hd
    decide
  unfold lexer_next_token
  rw [skip_whitespace_spaces sp _ hsp hst lx hcur]
  simp [is_at_end, advance, isalpha, isdigit, make_token]

theorem lexer_next_token_end (lx : lexer_t) (hcur : lx.current = []) :
    (lexer_next_token lx).1.type = TOKEN_EOF := by
  unfold lexer_next_token
  simp [skip_whitespace, skip_whitespace_loop, hcur, peek, NUL, is_at_end, make_token]

end Lexer

/-! ## Parser lemmas and theorems -/

namespace Parser

open Lexer (lexer_next_token token_to_string ends_word check_keyword
  lexer_next_token_word lexer_next_token_left_brace lexer_next_token_right_brace
  lexer_next_token_newline lexer_next_token_end)

theorem bind_run {α β : Type} (x : ParseM α) (f : α → ParseM β) (p : parser_t) :
    (x >>= f) p = (x p).bind f := rfl

theorem pure_run {α : Type} (a : α) (p : parser_t) : (pure a : ParseM α) p = .done a p := rfl

theorem ite_run {α : Type} (c : Prop) [Decidable c] (a b : ParseM α) (p : parser_t) :
    (if c then a else b) p = if c then a p else b p := by
  split <;> rfl

/-! ### Stable properties are kept by all parser code -/

section stable
variable {I : parser_t → Prop}

theorem stable_match (hI : Stable I) (p : parser_t) (t : token_type_t) (ht : t ∈ parser_tokens) (h : I p) :
    I (match_ p t).2 := by
  unfold match_ check
  split
  · exact h
  · rename_i hc
    refine hI.advance p h ?_
    have : p.current.type = t := by simpa using hc
    rw [this]; exact ht

theorem stable_consume (hI : Stable I) (p : parser_t) (t : token_type_t) (m : List Char)
    (ht : t ∈ parser_tokens) (h : I p) : I (consume p t m) := by
  unfold consume
  split
  · rename_i hc
    refine hI.advance p h ?_
    have : p.current.type = t := by simpa using hc
    rw [this]; exact ht
  · exact hI.error_at _ _ _ h

theorem stable_skip_newlines_loop (hI : Stable I) (n : Nat) (p : parser_t) (h : I p) :
    I (skip_newlines_loop n p) := by
  induction n generalizing p with
  | zero => exact h
  | succ n ih =>
    simp only [skip_newlines_loop]
    split
    · exact ih _ (stable_match hI p _ (by decide) h)
    · exact stable_match hI p _ (by decide) h

theorem stable_skip_newlines (hI : Stable I) (p : parser_t) (h : I p) : I (skip_newlines p) :=
  stable_skip_newlines_loop hI _ p h

theorem sat_pure {α : Type} (a : α) : Sat I (pure a : ParseM α) :=
  ⟨fun _ h => ⟨h, fun hn => by cases hn⟩⟩

theorem sat_bind {α β : Type} {x : ParseM α} {f : α → ParseM β} (hx : Sat I x)
    (hf : ∀ a, Sat I (f a)) : Sat I (x >>= f) := by
  refine ⟨fun p h => ?_⟩
  have h1 := hx.post p h
  rw [bind_run]
  cases hxp : x p with
  | done a q =>
    rw [hxp] at h1
    exact (hf a).post q h1.1
  | out_of_fuel q => rw [hxp] at h1; exact ⟨h1.1, fun hn => by cases hn⟩
  | null_deref q => rw [hxp] at h1; exact h1

theorem sat_ite {α : Type} (c : Prop) [Decidable c] {a b : ParseM α} (ha : Sat I a)
    (hb : Sat I b) : Sat I (if c then a else b) := by
  split <;> assumption

theorem sat_matchM (hI : Stable I) (t : token_type_t) (ht : t ∈ parser_tokens) : Sat I (matchM t) :=
  ⟨fun p h => ⟨stable_match hI p t ht h, fun hn => by cases hn⟩⟩

theorem sat_checkM (t : token_type_t) : Sat I (checkM t) :=
  ⟨fun _ h => ⟨h, fun hn => by cases hn⟩⟩

theorem sat_consumeM (hI : Stable I) (t : token_type_t) (m : String) (ht : t ∈ parser_tokens) :
    Sat I (consumeM t m) :=
  ⟨fun p h => ⟨stable_consume hI p t _ ht h, fun hn => by cases hn⟩⟩

theorem sat_errorM (hI : Stable I) (m : String) : Sat I (errorM m) :=
  ⟨fun _ h => ⟨hI.error_at _ _ _ h, fun hn => by cases hn⟩⟩

theorem sat_skip_newlinesM (hI : Stable I) : Sat I skip_newlinesM :=
  ⟨fun p h => ⟨stable_skip_newlines_loop hI _ p h, fun hn => by cases hn⟩⟩

theorem sat_previousM : Sat I previousM := ⟨fun _ h => ⟨h, fun hn => by cases hn⟩⟩

theorem sat_had_errorM : Sat I had_errorM := ⟨fun _ h => ⟨h, fun hn => by cases hn⟩⟩

theorem sat_out_of_fuelM {α : Type} : Sat I (out_of_fuelM : ParseM α) :=
  ⟨fun _ h => ⟨h, fun hn => by cases hn⟩⟩

theorem sat_orM {a b : ParseM Bool} (ha : Sat I a) (hb : Sat I b) : Sat I (orM a b) :=
  sat_bind ha (fun _ => sat_ite _ (sat_pure _) hb)

theorem sat_after_equal_null {α : Type} : SatAfterEqual I (null_derefM : ParseM α) :=
  ⟨fun _ h he => ⟨h, fun _ => he⟩⟩

theorem sat_after_equal_of_sat {α : Type} {x : ParseM α} (hx : Sat I x) : SatAfterEqual I x :=
  ⟨fun p h _ => hx.post p h⟩

theorem sat_guard_equal (hI : Stable I) {α : Type} {a b : ParseM α} (ha : SatAfterEqual I a) (hb : Sat I b) :
    Sat I (matchM TOKEN_EQUAL >>= fun c => if c = true then a else b) := by
  refine ⟨fun p h => ?_⟩
  have hm := stable_match hI p TOKEN_EQUAL (by decide) h
  simp only [bind_run, matchM, Outcome.bind, ite_run]
  split
  · rename_i hc
    refine ha.post _ hm ⟨p, h, ?_⟩
    unfold match_ check at hc
    split at hc
    · cases hc
    · rename_i hc2
      simpa using hc2
  · exact hb.post _ hm

/-- Every expression function keeps every stable property. -/
theorem sat_expression (hI : Stable I) (fuel : Nat) :
    Sat I (parse_primary fuel) ∧ (∀ a, Sat I (parse_call_args fuel a)) ∧
    (∀ e, Sat I (parse_call_loop fuel e)) ∧ Sat I (parse_call fuel) ∧
    Sat I (parse_unary fuel) ∧
    (∀ e, Sat I (parse_factor_loop fuel e)) ∧ Sat I (parse_factor fuel) ∧
    (∀ e, Sat I (parse_term_loop fuel e)) ∧ Sat I (parse_term fuel) ∧
    (∀ e, Sat I (parse_comparison_loop fuel e)) ∧ Sat I (parse_comparison fuel) ∧
    (∀ e, Sat I (parse_equality_loop fuel e)) ∧ Sat I (parse_equality fuel) ∧
    Sat I (parse_expression fuel) := by
  induction fuel with
  | zero =>
    refine ⟨?_, ?_, ?_, ?_, ?_, ?_, ?_, ?_, ?_, ?_, ?_, ?_, ?_, ?_⟩ <;> intros <;>
      first
      | (rw [parse_primary]; exact sat_out_of_fuelM)
      | (rw [parse_call_args]; exact sat_out_of_fuelM)
      | (rw [parse_call_loop]; exact sat_out_of_fuelM)
      | (rw [parse_call]; exact sat_out_of_fuelM)
      | (rw [parse_unary]; exact sat_out_of_fuelM)
      | (rw [parse_factor_loop]; exact sat_out_of_fuelM)
      | (rw [parse_factor]; exact sat_out_of_fuelM)
      | (rw [parse_term_loop]; exact sat_out_of_fuelM)
      | (rw [parse_term]; exact sat_out_of_fuelM)
      | (rw [parse_comparison_loop]; exact sat_out_of_fuelM)
      | (rw [parse_comparison]; exact sat_out_of_fuelM)
      | (rw [parse_equality_loop]; exact sat_out_of_fuelM)
      | (rw [parse_equality]; exact sat_out_of_fuelM)
      | (rw [parse_expression]; exact sat_out_of_fuelM)
  | succ n ih =>
    obtain ⟨h1, h2, h3, h4, h5, h6, h7, h8, h9, h10, h11, h12, h13, h14⟩ := ih
    refine ⟨?_, ?_, ?_, ?_, ?_, ?_, ?_, ?_, ?_, ?_, ?_, ?_, ?_, ?_⟩ <;> intros <;>
      (first
        | rw [parse_primary] | rw [parse_call_args] | rw [parse_call_loop] | rw [parse_call]
        | rw [parse_unary] | rw [parse_factor_loop] | rw [parse_factor] | rw [parse_term_loop]
        | rw [parse_term] | rw [parse_comparison_loop] | rw [parse_comparison]
        | rw [parse_equality_loop] | rw [parse_equality] | rw [parse_expression]) <;>
      repeat (first
        | assumption
        | exact h2 _ | exact h3 _ | exact h6 _ | exact h8 _ | exact h10 _ | exact h12 _
        | exact sat_pure _
        | exact sat_matchM hI _ (by decide)
        | exact sat_checkM _
        | exact sat_consumeM hI _ _ (by decide)
        | exact sat_errorM hI _
        | exact sat_previousM
        | refine sat_bind ?_ ?_
        | refine sat_ite _ ?_ ?_
        | refine sat_orM ?_ ?_
        | intro _
        | dsimp only)

/-- Every statement function keeps every stable property. -/
theorem sat_statement (hI : Stable I) (fuel : Nat) :
    (∀ l, Sat I (parse_block_loop fuel l)) ∧ Sat I (parse_block fuel) ∧
    Sat I (parse_if_statement fuel) ∧ Sat I (parse_statement fuel) := by
  induction fuel with
  | zero =>
    refine ⟨?_, ?_, ?_, ?_⟩ <;> intros <;>
      first
      | (rw [parse_block_loop]; exact sat_out_of_fuelM)
      | (rw [parse_block]; exact sat_out_of_fuelM)
      | (rw [parse_if_statement]; exact sat_out_of_fuelM)
      | (rw [parse_statement]; exact sat_out_of_fuelM)
  | succ n ih =>
    obtain ⟨h1, h2, h3, h4⟩ := ih
    have he := (sat_expression hI n).2.2.2.2.2.2.2.2.2.2.2.2.2
    refine ⟨?_, ?_, ?_, ?_⟩ <;> intros <;>
      (first
        | rw [parse_block_loop] | rw [parse_block] | rw [parse_if_statement]
        | rw [parse_statement]) <;>
      repeat (first
        | assumption
        | exact h1 _
        | exact sat_pure _
        | exact sat_matchM hI _ (by decide)
        | exact sat_checkM _
        | exact sat_consumeM hI _ _ (by decide)
        | exact sat_errorM hI _
        | exact sat_skip_newlinesM hI
        | exact sat_after_equal_null
        | refine sat_guard_equal hI ?_ ?_
        | refine sat_bind ?_ ?_
        | refine sat_ite _ ?_ ?_
        | split
        | refine sat_after_equal_of_sat ?_
        | intro _
        | dsimp only)

theorem sat_motor_decl (hI : Stable I) : Sat I parse_motor_decl := by
  unfold parse_motor_decl
  repeat (first
    | exact sat_pure _
    | exact sat_consumeM hI _ _ (by decide)
    | exact sat_previousM
    | refine sat_bind ?_ ?_
    | intro _
    | dsimp only)

theorem sat_sensor_decl (hI : Stable I) : Sat I parse_sensor_decl := by
  unfold parse_sensor_decl
  repeat (first
    | exact sat_pure _
    | exact sat_matchM hI _ (by decide)
    | exact sat_consumeM hI _ _ (by decide)
    | exact sat_previousM
    | refine sat_bind ?_ ?_
    | refine sat_ite _ ?_ ?_
    | intro _
    | dsimp only)

theorem sat_task_params (hI : Stable I) (fuel : Nat) : ∀ l, Sat I (parse_task_params fuel l) := by
  induction fuel with
  | zero => intro l; rw [parse_task_params]; exact sat_out_of_fuelM
  | succ n ih =>
    intro l
    rw [parse_task_params]
    repeat (first
      | exact ih _
      | exact sat_pure _
      | exact sat_matchM hI _ (by decide)
      | exact sat_consumeM hI _ _ (by decide)
      | exact sat_previousM
      | refine sat_bind ?_ ?_
      | refine sat_ite _ ?_ ?_
      | intro _
      | dsimp only)

theorem sat_task_decl (hI : Stable I) (fuel : Nat) : Sat I (parse_task_decl fuel) := by
  cases fuel with
  | zero => rw [parse_task_decl]; exact sat_out_of_fuelM
  | succ n =>
    have hb := (sat_statement hI n).2.1
    rw [parse_task_decl]
    repeat (first
      | assumption
      | exact sat_task_params hI _ _
      | exact sat_pure _
      | exact sat_checkM _
      | exact sat_consumeM hI _ _ (by decide)
      | exact sat_previousM
      | exact sat_skip_newlinesM hI
      | refine sat_bind ?_ ?_
      | refine sat_ite _ ?_ ?_
      | intro _
      | dsimp only)

theorem sat_schedule_decl (hI : Stable I) (fuel : Nat) : Sat I (parse_schedule_decl fuel) := by
  cases fuel with
  | zero => rw [parse_schedule_decl]; exact sat_out_of_fuelM
  | succ n =>
    have hb := (sat_statement hI n).2.1
    have he := (sat_expression hI n).2.2.2.2.2.2.2.2.2.2.2.2.2
    rw [parse_schedule_decl]
    repeat (first
      | assumption
      | exact sat_pure _
      | exact sat_matchM hI _ (by decide)
      | exact sat_consumeM hI _ _ (by decide)
      | exact sat_errorM hI _
      | exact sat_previousM
      | exact sat_skip_newlinesM hI
      | refine sat_bind ?_ ?_
      | refine sat_ite _ ?_ ?_
      | intro _
      | dsimp only)

theorem sat_declaration (hI : Stable I) (fuel : Nat) : Sat I (parse_declaration fuel) := by
  cases fuel with
  | zero => rw [parse_declaration]; exact sat_out_of_fuelM
  | succ n =>
    rw [parse_declaration]
    repeat (first
      | exact sat_motor_decl hI
      | exact sat_sensor_decl hI
      | exact sat_task_decl hI _
      | exact sat_schedule_decl hI _
      | exact sat_pure _
      | exact sat_matchM hI _ (by decide)
      | exact sat_errorM hI _
      | exact sat_skip_newlinesM hI
      | refine sat_bind ?_ ?_
      | refine sat_ite _ ?_ ?_
      | intro _
      | dsimp only)

theorem sat_parse_loop (hI : Stable I) (fuel : Nat) : ∀ r, Sat I (parser_parse_loop fuel r) := by
  induction fuel with
  | zero => intro r; rw [parser_parse_loop]; exact sat_out_of_fuelM
  | succ n ih =>
    intro r
    rw [parser_parse_loop]
    repeat (first
      | exact ih _
      | exact sat_declaration hI _
      | exact sat_pure _
      | exact sat_checkM _
      | exact sat_skip_newlinesM hI
      | refine sat_bind ?_ ?_
      | refine sat_ite _ ?_ ?_
      | intro _
      | dsimp only)

theorem sat_parser_parse (hI : Stable I) (fuel : Nat) : Sat I (parser_parse fuel) := by
  cases fuel with
  | zero => rw [parser_parse]; exact sat_out_of_fuelM
  | succ n =>
    rw [parser_parse]
    repeat (first
      | exact sat_parse_loop hI _ _
      | exact sat_pure _
      | exact sat_consumeM hI _ _ (by decide)
      | exact sat_previousM
      | exact sat_had_errorM
      | exact sat_skip_newlinesM hI
      | refine sat_bind ?_ ?_
      | refine sat_ite _ ?_ ?_
      | intro _
      | dsimp only)

end stable

/-! ### The error discipline -/

theorem Keeps.refl (p : parser_t) : Keeps p p :=
  ⟨id, id, List.prefix_refl _⟩

theorem Keeps.trans {p q r : parser_t} (h₁ : Keeps p q) (h₂ : Keeps q r) : Keeps p r :=
  ⟨fun h => h₂.1 (h₁.1 h), fun h => h₂.2.1 (h₁.2.1 h), h₁.2.2.trans h₂.2.2⟩

theorem keeps_error_at (p : parser_t) (t : token_t) (m : List Char) :
    Keeps p (error_at p t m) := by
  unfold error_at
  split
  · exact Keeps.refl p
  · rename_i h
    refine ⟨?_, fun _ => rfl, List.prefix_append _ _⟩
    rintro ⟨h1, h2⟩
    have h3 : p.had_error = false := by rw [h1]; simpa using h
    simp [Inv, h3] at h2 ⊢
    simp [h2]

theorem keeps_advance_loop (n : Nat) (p : parser_t) : Keeps p (advance_loop n p) := by
  induction n generalizing p with
  | zero => exact Keeps.refl p
  | succ n ih =>
    simp only [advance_loop]
    split
    · exact ⟨id, id, List.prefix_refl _⟩
    · refine Keeps.trans ?_ (ih _)
      refine Keeps.trans (q := { p with current := (Lexer.lexer_next_token p.lexer).1,
                                        lexer := (Lexer.lexer_next_token p.lexer).2 }) ?_ ?_
      · exact ⟨id, id, List.prefix_refl _⟩
      · exact keeps_error_at _ _ _

theorem keeps_advance (p : parser_t) : Keeps p (advance p) :=
  Keeps.trans (q := { p with previous := p.current }) ⟨id, id, List.prefix_refl _⟩
    (keeps_advance_loop _ _)

theorem stable_keeps (p : parser_t) : Stable (Keeps p) :=
  ⟨fun q t m h => h.trans (keeps_error_at q t m), fun q h _ => h.trans (keeps_advance q)⟩

theorem keeps_parser_parse (fuel : Nat) (p : parser_t) :
    Keeps p (parser_parse fuel p).state :=
  ((sat_parser_parse (stable_keeps p) fuel).post p (Keeps.refl p)).1

theorem inv_parser_init (memory : parser_t) (lexer : lexer_t) :
    Inv (parser_init memory lexer) := by
  unfold parser_init
  exact (keeps_advance _).1 ⟨rfl, rfl⟩

theorem inv_iff (p : parser_t) (h : Inv p) :
    p.had_error = p.panic_mode ∧ p.diagnostics.length ≤ 1 ∧
      (p.diagnostics.length = 1 ↔ p.had_error = true) := by
  obtain ⟨h1, h2⟩ := h
  refine ⟨h1, ?_, ?_⟩
  · rw [h2]; split <;> simp
  · rw [h2]; cases p.had_error <;> simp

/-- Claim C3 (first-error-only reporting).  For every source text and every amount
of fuel, the parser state after `parser_init` and the state in which
`parser_parse` ends (returned, or cut off at any point for lack of fuel) have
`had_error = panic_mode`, at most one diagnostic in the log, and exactly one
diagnostic if and only if `had_error` is set.  Moreover `parser_parse` run from
any state that obeys this discipline ends in a state that obeys it, keeps
`had_error` set if it was set, and only appends to the log. -/
theorem first_error_only (fuel : Nat) (memory : parser_t) (source : List Char)
    (filename : Option (List Char)) :
    (∀ p : parser_t, p = parser_init memory (Lexer.lexer_init source filename) ∨
        p = (parse_source fuel memory source filename).state →
      p.had_error = p.panic_mode ∧ p.diagnostics.length ≤ 1 ∧
        (p.diagnostics.length = 1 ↔ p.had_error = true)) ∧
    (∀ p : parser_t,
      (p.had_error = p.panic_mode ∧
        p.diagnostics.length = if p.had_error then 1 else 0) →
      ((parser_parse fuel p).state.had_error = (parser_parse fuel p).state.panic_mode ∧
        (parser_parse fuel p).state.diagnostics.length =
          if (parser_parse fuel p).state.had_error then 1 else 0) ∧
      (p.had_error = true → (parser_parse fuel p).state.had_error = true) ∧
      p.diagnostics <+: (parser_parse fuel p).state.diagnostics) := by
  have h0 := inv_parser_init memory (Lexer.lexer_init source filename)
  refine ⟨?_, ?_⟩
  · rintro p (rfl | rfl)
    · exact inv_iff _ h0
    · exact inv_iff _ ((keeps_parser_parse fuel _).1 h0)
  · intro p hp
    have h := keeps_parser_parse fuel p
    exact ⟨h.1 hp, h.2.1, h.2.2⟩

/-- Claim C4.  Whenever `parser_parse`, run after `parser_init` on any source,
returns, it returns null if and only if `had_error` is set, which holds if and
only if a diagnostic was emitted since `parser_init`; with `had_error` clear it
returns a robot. -/
theorem parse_null_iff_error (fuel : Nat) (memory : parser_t) (source : List Char)
    (filename : Option (List Char)) (result : Option ast_robot_t) (parser : parser_t)
    (h : parse_source fuel memory source filename = .done result parser) :
    (result = none ↔ parser.had_error = true) ∧
    (parser.had_error = true ↔ parser.diagnostics.length = 1) ∧
    (parser.had_error = false ↔ parser.diagnostics = []) ∧
    (parser.had_error = false → ∃ robot, result = some robot) := by
  have hinv : Inv parser := by
    have h1 := keeps_parser_parse fuel
      (parser_init memory (Lexer.lexer_init source filename))
    unfold parse_source at h
    rw [h] at h1
    exact h1.1 (inv_parser_init _ _)
  have hres : result = none ↔ parser.had_error = true := by
    unfold parse_source at h
    cases fuel with
    | zero => simp [parser_parse, out_of_fuelM] at h
    | succ k =>
      simp only [parser_parse, bind_run, skip_newlinesM, consumeM, previousM, had_errorM,
        Outcome.bind] at h
      split at h
      · rename_i robot q hq
        rw [ite_run] at h
        split at h
        · rename_i he
          simp only [pure_run, Outcome.done.injEq] at h
          obtain ⟨rfl, rfl⟩ := h
          exact ⟨fun _ => he, fun _ => rfl⟩
        · rename_i he
          simp only [pure_run, Outcome.done.injEq] at h
          obtain ⟨rfl, rfl⟩ := h
          exact ⟨fun h => (by cases h), fun h => absurd h he⟩
      · cases h
      · cases h
  have h3 := inv_iff parser hinv
  refine ⟨hres, h3.2.2.symm, ?_, ?_⟩
  · obtain ⟨_, h2⟩ := hinv
    cases he : parser.had_error <;> simp [he] at h2 ⊢
    · exact h2
    · intro h0; simp [h0] at h2
  · intro he
    cases result with
    | none => rw [hres.mp rfl] at he; cases he
    | some r => exact ⟨r, rfl⟩

/-! ### Fuel monotonicity -/

theorem ext_refl {α : Type} (x : ParseM α) : Ext x x := ⟨fun _ _ => rfl⟩

theorem ext_oof {α : Type} (y : ParseM α) : Ext out_of_fuelM y :=
  ⟨fun p h => by simp [out_of_fuelM, Outcome.finished] at h⟩

theorem ext_bind {α β : Type} {x x' : ParseM α} {f f' : α → ParseM β} (hx : Ext x x')
    (hf : ∀ a, Ext (f a) (f' a)) : Ext (x >>= f) (x' >>= f') := by
  refine ⟨fun p h => ?_⟩
  rw [bind_run] at h
  rw [bind_run, bind_run]
  cases hxp : x p with
  | done a q =>
    rw [hxp] at h
    rw [hx.ext p (by rw [hxp]; rfl), hxp]
    exact (hf a).ext q h
  | out_of_fuel q => rw [hxp] at h; cases h
  | null_deref q =>
    rw [hx.ext p (by rw [hxp]; rfl), hxp]
    rfl

theorem ext_ite {α : Type} (c : Prop) [Decidable c] {a b a' b' : ParseM α} (ha : Ext a a')
    (hb : Ext b b') : Ext (if c then a else b) (if c then a' else b') := by
  split <;> assumption

theorem ext_orM {a b a' b' : ParseM Bool} (ha : Ext a a') (hb : Ext b b') :
    Ext (orM a b) (orM a' b') :=
  ext_bind ha (fun _ => ext_ite _ (ext_refl _) hb)

/-- One more unit of fuel does not change how an expression function ends,
once it ends otherwise than for lack of fuel. -/
theorem ext_expression (n : Nat) :
    Ext (parse_primary n) (parse_primary (n + 1)) ∧
    (∀ a, Ext (parse_call_args n a) (parse_call_args (n + 1) a)) ∧
    (∀ e, Ext (parse_call_loop n e) (parse_call_loop (n + 1) e)) ∧
    Ext (parse_call n) (parse_call (n + 1)) ∧
    Ext (parse_unary n) (parse_unary (n + 1)) ∧
    (∀ e, Ext (parse_factor_loop n e) (parse_factor_loop (n + 1) e)) ∧
    Ext (parse_factor n) (parse_factor (n + 1)) ∧
    (∀ e, Ext (parse_term_loop n e) (parse_term_loop (n + 1) e)) ∧
    Ext (parse_term n) (parse_term (n + 1)) ∧
    (∀ e, Ext (parse_comparison_loop n e) (parse_comparison_loop (n + 1) e)) ∧
    Ext (parse_comparison n) (parse_comparison (n + 1)) ∧
    (∀ e, Ext (parse_equality_loop n e) (parse_equality_loop (n + 1) e)) ∧
    Ext (parse_equality n) (parse_equality (n + 1)) ∧
    Ext (parse_expression n) (parse_expression (n + 1)) := by
  induction n with
  | zero =>
    refine ⟨?_, ?_, ?_, ?_, ?_, ?_, ?_, ?_, ?_, ?_, ?_, ?_, ?_, ?_⟩ <;> intros <;>
      first
      | (rw [parse_primary]; exact ext_oof _)
      | (rw [parse_call_args]; exact ext_oof _)
      | (rw [parse_call_loop]; exact ext_oof _)
      | (rw [parse_call]; exact ext_oof _)
      | (rw [parse_unary]; exact ext_oof _)
      | (rw [parse_factor_loop]; exact ext_oof _)
      | (rw [parse_factor]; exact ext_oof _)
      | (rw [parse_term_loop]; exact ext_oof _)
      | (rw [parse_term]; exact ext_oof _)
      | (rw [parse_comparison_loop]; exact ext_oof _)
      | (rw [parse_comparison]; exact ext_oof _)
      | (rw [parse_equality_loop]; exact ext_oof _)
      | (rw [parse_equality]; exact ext_oof _)
      | (rw [parse_expression]; exact ext_oof _)
  | succ n ih =>
    obtain ⟨h1, h2, h3, h4, h5, h6, h7, h8, h9, h10, h11, h12, h13, h14⟩ := ih
    refine ⟨?_, ?_, ?_, ?_, ?_, ?_, ?_, ?_, ?_, ?_, ?_, ?_, ?_, ?_⟩ <;> intros <;>
      (first
        | rw [parse_primary, parse_primary] | rw [parse_call_args, parse_call_args]
        | rw [parse_call_loop, parse_call_loop] | rw [parse_call, parse_call]
        | rw [parse_unary, parse_unary] | rw [parse_factor_loop, parse_factor_loop]
        | rw [parse_factor, parse_factor] | rw [parse_term_loop, parse_term_loop]
        | rw [parse_term, parse_term] | rw [parse_comparison_loop, parse_comparison_loop]
        | rw [parse_comparison, parse_comparison]
        | rw [parse_equality_loop, parse_equality_loop] | rw [parse_equality, parse_equality]
        | rw [parse_expression, parse_expression]) <;>
      repeat (first
        | assumption
        | exact h2 _ | exact h3 _ | exact h6 _ | exact h8 _ | exact h10 _ | exact h12 _
        | with_reducible exact ext_refl _
        | refine ext_bind ?_ ?_
        | refine ext_ite _ ?_ ?_
        | refine ext_orM ?_ ?_
        | intro _
        | dsimp only)

/-- The same for the statement functions. -/
theorem ext_statement (n : Nat) :
    (∀ l, Ext (parse_block_loop n l) (parse_block_loop (n + 1) l)) ∧
    Ext (parse_block n) (parse_block (n + 1)) ∧
    Ext (parse_if_statement n) (parse_if_statement (n + 1)) ∧
    Ext (parse_statement n) (parse_statement (n + 1)) := by
  induction n with
  | zero =>
    refine ⟨?_, ?_, ?_, ?_⟩ <;> intros <;>
      first
      | (rw [parse_block_loop]; exact ext_oof _)
      | (rw [parse_block]; exact ext_oof _)
      | (rw [parse_if_statement]; exact ext_oof _)
      | (rw [parse_statement]; exact ext_oof _)
  | succ n ih =>
    obtain ⟨h1, h2, h3, h4⟩ := ih
    have he := (ext_expression n).2.2.2.2.2.2.2.2.2.2.2.2.2
    refine ⟨?_, ?_, ?_, ?_⟩ <;> intros <;>
      (first
        | rw [parse_block_loop, parse_block_loop] | rw [parse_block, parse_block]
        | rw [parse_if_statement, parse_if_statement]
        | rw [parse_statement, parse_statement]) <;>
      repeat (first
        | assumption
        | exact h1 _
        | with_reducible exact ext_refl _
        | refine ext_bind ?_ ?_
        | refine ext_ite _ ?_ ?_
        | split
        | intro _
        | dsimp only)

theorem ext_task_params (n : Nat) :
    ∀ l, Ext (parse_task_params n l) (parse_task_params (n + 1) l) := by
  induction n with
  | zero => intro l; rw [parse_task_params]; exact ext_oof _
  | succ n ih =>
    intro l
    rw [parse_task_params, parse_task_params]
    repeat (first
      | exact ih _
      | with_reducible exact ext_refl _
      | refine ext_bind ?_ ?_
      | refine ext_ite _ ?_ ?_
      | intro _
      | dsimp only)

theorem ext_task_decl (n : Nat) : Ext (parse_task_decl n) (parse_task_decl (n + 1)) := by
  cases n with
  | zero => rw [parse_task_decl]; exact ext_oof _
  | succ n =>
    have hb := (ext_statement n).2.1
    rw [parse_task_decl, parse_task_decl]
    repeat (first
      | assumption
      | exact ext_task_params _ _
      | with_reducible exact ext_refl _
      | refine ext_bind ?_ ?_
      | refine ext_ite _ ?_ ?_
      | intro _
      | dsimp only)

theorem ext_schedule_decl (n : Nat) :
    Ext (parse_schedule_decl n) (parse_schedule_decl (n + 1)) := by
  cases n with
  | zero => rw [parse_schedule_decl]; exact ext_oof _
  | succ n =>
    have hb := (ext_statement n).2.1
    have he := (ext_expression n).2.2.2.2.2.2.2.2.2.2.2.2.2
    rw [parse_schedule_decl, parse_schedule_decl]
    repeat (first
      | assumption
      | with_reducible exact ext_refl _
      | refine ext_bind ?_ ?_
      | refine ext_ite _ ?_ ?_
      | intro _
      | dsimp only)

theorem ext_declaration (n : Nat) :
    Ext (parse_declaration n) (parse_declaration (n + 1)) := by
  cases n with
  | zero => rw [parse_declaration]; exact ext_oof _
  | succ n =>
    rw [parse_declaration, parse_declaration]
    repeat (first
      | exact ext_task_decl _
      | exact ext_schedule_decl _
      | with_reducible exact ext_refl _
      | refine ext_bind ?_ ?_
      | refine ext_ite _ ?_ ?_
      | intro _
      | dsimp only)

theorem ext_parse_loop (n : Nat) :
    ∀ r, Ext (parser_parse_loop n r) (parser_parse_loop (n + 1) r) := by
  induction n with
  | zero => intro r; rw [parser_parse_loop]; exact ext_oof _
  | succ n ih =>
    intro r
    rw [parser_parse_loop, parser_parse_loop]
    repeat (first
      | exact ih _
      | exact ext_declaration _
      | with_reducible exact ext_refl _
      | refine ext_bind ?_ ?_
      | refine ext_ite _ ?_ ?_
      | intro _
      | dsimp only)

theorem ext_parser_parse (n : Nat) : Ext (parser_parse n) (parser_parse (n + 1)) := by
  cases n with
  | zero => rw [parser_parse]; exact ext_oof _
  | succ n =>
    rw [parser_parse, parser_parse]
    repeat (first
      | exact ext_parse_loop _ _
      | with_reducible exact ext_refl _
      | refine ext_bind ?_ ?_
      | refine ext_ite _ ?_ ?_
      | intro _
      | dsimp only)

/-- Fuel monotonicity in the form used below: a result reached with `n`
units is reached with any larger amount. -/
theorem done_mono {α : Type} {f : Nat → ParseM α} (hf : ∀ n, Ext (f n) (f (n + 1)))
    {n : Nat} {p q : parser_t} {a : α} (h : f n p = .done a q) :
    ∀ m, n ≤ m → f m p = .done a q := by
  intro m hm
  induction m, hm using Nat.le_induction with
  | base => exact h
  | succ m _ ih => rw [(hf m).ext p (by rw [ih]; rfl), ih]

/-! ### Runs that never return -/

theorem error_at_cursor (p : parser_t) (t : token_t) (m : List Char) :
    (error_at p t m).lexer = p.lexer ∧ (error_at p t m).current = p.current := by
  unfold error_at
  split <;> exact ⟨rfl, rfl⟩

theorem advance_loop_cursor (n : Nat) (p q : parser_t) (hl : p.lexer = q.lexer)
    (hc : p.current = q.current) :
    (advance_loop n p).lexer = (advance_loop n q).lexer ∧
      (advance_loop n p).current = (advance_loop n q).current := by
  induction n generalizing p q with
  | zero => exact ⟨hl, hc⟩
  | succ n ih =>
    simp only [advance_loop, hl]
    split
    · exact ⟨rfl, rfl⟩
    · refine ih _ _ ?_ ?_
      · unfold error_at_current
        rw [(error_at_cursor _ _ _).1, (error_at_cursor _ _ _).1]
      · unfold error_at_current
        rw [(error_at_cursor _ _ _).2, (error_at_cursor _ _ _).2]

theorem advance_cursor (p q : parser_t) (hl : p.lexer = q.lexer) (hc : p.current = q.current) :
    (advance p).lexer = (advance q).lexer ∧ (advance p).current = (advance q).current := by
  have hn : p.lexer.current.length = q.lexer.current.length := by rw [hl]
  unfold advance
  rw [hn]
  exact advance_loop_cursor _ _ _ hl hc

theorem stuck_within_spec {p0 : parser_t} {N : Nat} (h : stuck_within p0 N = true) :
    (∀ i, i ≤ N → (advance^[i] p0).current.type ≠ TOKEN_RIGHT_BRACE ∧
      (advance^[i] p0).current.type ≠ TOKEN_EOF ∧
      (advance^[i] p0).current.type ≠ TOKEN_EQUAL) ∧
    (advance^[N] p0).current.type ∉ parser_tokens := by
  unfold stuck_within at h
  rw [Bool.and_eq_true, List.all_eq_true] at h
  refine ⟨fun i hi => ?_, ?_⟩
  · have := h.1 i (List.mem_range.mpr (by omega))
    simp only [Bool.and_eq_true, bne_iff_ne, ne_eq] at this
    exact ⟨this.1.1, this.1.2, this.2⟩
  · simpa using h.2

theorem stable_within {p0 : parser_t} {N : Nat} (h : stuck_within p0 N = true) :
    Stable (Within p0 N) := by
  obtain ⟨_, hdead⟩ := stuck_within_spec h
  refine ⟨?_, ?_⟩
  · rintro p t m ⟨i, hi, hl, hc⟩
    exact ⟨i, hi, by rw [(error_at_cursor _ _ _).1, hl], by rw [(error_at_cursor _ _ _).2, hc]⟩
  · rintro p ⟨i, hi, hl, hc⟩ ht
    rcases Nat.lt_or_ge i N with hlt | hge
    · refine ⟨i + 1, hlt, ?_, ?_⟩
      · rw [Function.iterate_succ_apply']; exact (advance_cursor _ _ hl hc).1
      · rw [Function.iterate_succ_apply']; exact (advance_cursor _ _ hl hc).2
    · have hiN : i = N := by omega
      subst hiN
      rw [hc] at ht
      exact absurd ht hdead

theorem within_open {p0 : parser_t} {N : Nat} (h : stuck_within p0 N = true) {p : parser_t}
    (hp : Within p0 N p) :
    p.current.type ≠ TOKEN_RIGHT_BRACE ∧ p.current.type ≠ TOKEN_EOF ∧
      p.current.type ≠ TOKEN_EQUAL := by
  obtain ⟨i, hi, _, hc⟩ := hp
  rw [hc]
  exact (stuck_within_spec h).1 i hi

theorem oof_bind {α β : Type} {o : Outcome α} {f : α → ParseM β}
    (h : ∃ q, o = .out_of_fuel q) : ∃ q, o.bind f = .out_of_fuel q := by
  obtain ⟨q, rfl⟩ := h
  exact ⟨q, rfl⟩

/-- The declaration loop never exits while the parser is held before a token
it cannot consume. -/
theorem parse_loop_stuck {p0 : parser_t} {N : Nat} (h : stuck_within p0 N = true)
    (fuel : Nat) : ∀ (r : ast_robot_t) (p : parser_t), Within p0 N p →
      ∃ q, parser_parse_loop fuel r p = .out_of_fuel q := by
  have hI := stable_within h
  induction fuel with
  | zero => intro r p _; exact ⟨p, rfl⟩
  | succ n ih =>
    intro r p hp
    obtain ⟨h1, h2, _⟩ := within_open h hp
    have hc : (!check p TOKEN_RIGHT_BRACE && !check p TOKEN_EOF) = true := by
      simp [check, h1, h2]
    simp only [parser_parse_loop, bind_run, checkM, Outcome.bind, hc, if_true,
      skip_newlinesM]
    have hd := (sat_declaration hI n).post p hp
    cases hdp : parse_declaration n p with
    | done d q =>
      rw [hdp] at hd
      exact ih _ _ (stable_skip_newlines hI _ hd.1)
    | out_of_fuel q => exact ⟨q, rfl⟩
    | null_deref q =>
      rw [hdp] at hd
      obtain ⟨p', hp', he⟩ := hd.2 rfl
      exact absurd he (within_open h hp').2.2

/-- A parse that reaches a token the parser has no production for, before any
closing brace, never returns: it is out of fuel for every amount of fuel. -/
theorem never_returns {p0 : parser_t} {N : Nat} (h : stuck_within p0 N = true)
    (fuel : Nat) : ∃ q, parser_parse fuel p0 = .out_of_fuel q := by
  have hI := stable_within h
  cases fuel with
  | zero => exact ⟨p0, rfl⟩
  | succ n =>
    simp only [parser_parse, bind_run, skip_newlinesM, consumeM, previousM, Outcome.bind]
    have h0 : Within p0 N p0 := ⟨0, Nat.zero_le _, rfl, rfl⟩
    have h1 := stable_skip_newlines hI _ h0
    have h2 := stable_consume hI _ TOKEN_ROBOT "Expected 'robot' keyword".toList (by decide) h1
    have h3 := stable_consume hI _ TOKEN_IDENTIFIER "Expected robot name".toList (by decide) h2
    have h4 := stable_consume hI _ TOKEN_LEFT_BRACE "Expected '\x7b' after robot name".toList
      (by decide) h3
    have h5 := stable_skip_newlines hI _ h4
    obtain ⟨q, hq⟩ := parse_loop_stuck h n _ _ h5
    exact ⟨q, by rw [hq]⟩

/-! ### Precedence climbing -/

theorem match_ok {p : parser_t} {t : token_type_t} (h : p.current.type = t) :
    match_ p t = (true, advance p) := by
  simp [match_, check, h]

theorem match_fail {p : parser_t} {t : token_type_t} (h : p.current.type ≠ t) :
    match_ p t = (false, p) := by
  simp [match_, check, h]

theorem error_at_previous (p : parser_t) (t : token_t) (m : List Char) :
    (error_at p t m).previous = p.previous := by
  unfold error_at
  split <;> rfl

theorem advance_loop_previous (n : Nat) (p : parser_t) :
    (advance_loop n p).previous = p.previous := by
  induction n generalizing p with
  | zero => rfl
  | succ n ih =>
    simp only [advance_loop]
    split
    · rfl
    · rw [ih]; unfold error_at_current; rw [error_at_previous]

theorem advance_previous (p : parser_t) : (advance p).previous = p.current := by
  unfold advance
  rw [advance_loop_previous]

theorem factor_loop_exit (k : Nat) (acc : Option ast_expr_t) (p : parser_t)
    (h : factor_op p.current.type = none) : parse_factor_loop (k + 1) acc p = .done acc p := by
  unfold factor_op at h
  split at h; · cases h
  split at h; · cases h
  split at h; · cases h
  rename_i h1 h2 h3
  simp [parse_factor_loop, bind_run, orM, matchM, match_fail, h1, h2, h3, Outcome.bind, pure_run,
    ite_run]

theorem factor_loop_step (k : Nat) (acc : Option ast_expr_t) (p : parser_t) (op : ast_binary_op_t)
    (h : factor_op p.current.type = some op) :
    parse_factor_loop (k + 1) acc p =
      (parse_unary k (advance p)).bind
        (fun right q => parse_factor_loop k (some (.binary acc op right 0 0)) q) := by
  unfold factor_op at h
  split at h
  · rename_i h1
    cases h
    simp [parse_factor_loop, bind_run, orM, matchM, match_ok, h1, Outcome.bind, pure_run,
      ite_run, previousM, advance_previous]
  split at h
  · rename_i h1 h2
    cases h
    simp [parse_factor_loop, bind_run, orM, matchM, match_ok, match_fail, h1, h2, Outcome.bind,
      pure_run, ite_run, previousM, advance_previous]
  split at h
  · rename_i h1 h2 h3
    cases h
    simp [parse_factor_loop, bind_run, orM, matchM, match_ok, match_fail, h1, h2, h3,
      Outcome.bind, pure_run, ite_run, previousM, advance_previous]
  · cases h

theorem term_loop_exit (k : Nat) (acc : Option ast_expr_t) (p : parser_t)
    (h : term_op p.current.type = none) : parse_term_loop (k + 1) acc p = .done acc p := by
  unfold term_op at h
  split at h; · cases h
  split at h; · cases h
  rename_i h1 h2
  simp [parse_term_loop, bind_run, orM, matchM, match_fail, h1, h2, Outcome.bind, pure_run,
    ite_run]

theorem term_loop_step (k : Nat) (acc : Option ast_expr_t) (p : parser_t) (op : ast_binary_op_t)
    (h : term_op p.current.type = some op) :
    parse_term_loop (k + 1) acc p =
      (parse_factor k (advance p)).bind
        (fun right q => parse_term_loop k (some (.binary acc op right 0 0)) q) := by
  unfold term_op at h
  split at h
  · rename_i h1
    cases h
    simp [parse_term_loop, bind_run, orM, matchM, match_ok, h1, Outcome.bind, pure_run,
      ite_run, previousM, advance_previous]
  split at h
  · rename_i h1 h2
    cases h
    simp [parse_term_loop, bind_run, orM, matchM, match_ok, match_fail, h1, h2, Outcome.bind,
      pure_run, ite_run, previousM, advance_previous]
  · cases h

theorem comparison_loop_exit (k : Nat) (acc : Option ast_expr_t) (p : parser_t)
    (h : comparison_op p.current.type = none) :
    parse_comparison_loop (k + 1) acc p = .done acc p := by
  unfold comparison_op at h
  split at h; · cases h
  split at h; · cases h
  split at h; · cases h
  split at h; · cases h
  rename_i h1 h2 h3 h4
  simp [parse_comparison_loop, bind_run, orM, matchM, match_fail, h1, h2, h3, h4, Outcome.bind,
    pure_run, ite_run]

theorem comparison_loop_step (k : Nat) (acc : Option ast_expr_t) (p : parser_t)
    (op : ast_binary_op_t) (h : comparison_op p.current.type = some op) :
    parse_comparison_loop (k + 1) acc p =
      (parse_term k (advance p)).bind
        (fun right q => parse_comparison_loop k (some (.binary acc op right 0 0)) q) := by
  unfold comparison_op at h
  split at h
  · rename_i h1
    cases h
    simp [parse_comparison_loop, bind_run, orM, matchM, match_ok, h1, Outcome.bind, pure_run,
      ite_run, previousM, advance_previous]
  split at h
  · rename_i h1 h2
    cases h
    simp [parse_comparison_loop, bind_run, orM, matchM, match_ok, match_fail, h1, h2,
      Outcome.bind, pure_run, ite_run, previousM, advance_previous]
  split at h
  · rename_i h1 h2 h3
    cases h
    simp [parse_comparison_loop, bind_run, orM, matchM, match_ok, match_fail, h1, h2, h3,
      Outcome.bind, pure_run, ite_run, previousM, advance_previous]
  split at h
  · rename_i h1 h2 h3 h4
    cases h
    simp [parse_comparison_loop, bind_run, orM, matchM, match_ok, match_fail, h1, h2, h3, h4,
      Outcome.bind, pure_run, ite_run, previousM, advance_previous]
  · cases h

theorem equality_loop_exit (k : Nat) (acc : Option ast_expr_t) (p : parser_t)
    (h : equality_op p.current.type = none) :
    parse_equality_loop (k + 1) acc p = .done acc p := by
  unfold equality_op at h
  split at h; · cases h
  split at h; · cases h
  rename_i h1 h2
  simp [parse_equality_loop, bind_run, orM, matchM, match_fail, h1, h2, Outcome.bind, pure_run,
    ite_run]

theorem equality_loop_step (k : Nat) (acc : Option ast_expr_t) (p : parser_t)
    (op : ast_binary_op_t) (h : equality_op p.current.type = some op) :
    parse_equality_loop (k + 1) acc p =
      (parse_comparison k (advance p)).bind
        (fun right q => parse_equality_loop k (some (.binary acc op right 0 0)) q) := by
  unfold equality_op at h
  split at h
  · rename_i h1
    cases h
    simp [parse_equality_loop, bind_run, orM, matchM, match_ok, h1, Outcome.bind, pure_run,
      ite_run, previousM, advance_previous]
  split at h
  · rename_i h1 h2
    cases h
    simp [parse_equality_loop, bind_run, orM, matchM, match_ok, match_fail, h1, h2,
      Outcome.bind, pure_run, ite_run, previousM, advance_previous]
  · cases h

/-- A loop with the given step and exit behaviour folds a chain to the left. -/
theorem chain_converges {operand : Nat → ParseM (Option ast_expr_t)}
    {ops : token_type_t → Option ast_binary_op_t}
    {loop : Nat → Option ast_expr_t → ParseM (Option ast_expr_t)}
    (hstep : ∀ k acc p op, ops p.current.type = some op →
      loop (k + 1) acc p = (operand k (advance p)).bind
        (fun right q => loop k (some (.binary acc op right 0 0)) q))
    (hexit : ∀ k acc p, ops p.current.type = none → loop (k + 1) acc p = .done acc p)
    {p q : parser_t} {chain : List (ast_binary_op_t × Option ast_expr_t)}
    (hc : Chain operand ops p chain q) (hend : ops q.current.type = none) :
    ∀ acc, Converges (fun fuel => loop fuel acc) p (left_fold acc chain) q := by
  induction hc with
  | nil p =>
    intro acc
    refine ⟨1, fun fuel hf => ?_⟩
    obtain ⟨k, rfl⟩ : ∃ k, fuel = k + 1 := ⟨fuel - 1, by omega⟩
    exact hexit k acc p hend
  | @cons p q r op e rest hop hoperand _ ih =>
    intro acc
    obtain ⟨n1, h1⟩ := hoperand
    obtain ⟨n2, h2⟩ := ih hend (some (.binary acc op e 0 0))
    refine ⟨max n1 n2 + 1, fun fuel hf => ?_⟩
    obtain ⟨k, rfl⟩ : ∃ k, fuel = k + 1 := ⟨fuel - 1, by omega⟩
    show loop (k + 1) acc p = _
    rw [hstep k acc _ _ hop, h1 k (by omega)]
    exact h2 k (by omega)

/-- A level that parses one operand and then runs its loop. -/
theorem level_converges {operand level : Nat → ParseM (Option ast_expr_t)}
    {loop : Nat → Option ast_expr_t → ParseM (Option ast_expr_t)}
    (hdef : ∀ k, level (k + 1) = operand k >>= loop k)
    {p q r : parser_t} {a b : Option ast_expr_t} (h1 : Converges operand p a q)
    (h2 : Converges (fun fuel => loop fuel a) q b r) : Converges level p b r := by
  obtain ⟨n1, h1⟩ := h1
  obtain ⟨n2, h2⟩ := h2
  refine ⟨max n1 n2 + 1, fun fuel hf => ?_⟩
  obtain ⟨k, rfl⟩ : ∃ k, fuel = k + 1 := ⟨fuel - 1, by omega⟩
  rw [hdef, bind_run, h1 k (by omega)]
  exact h2 k (by omega)

theorem factor_converges {p q r : parser_t} {a : Option ast_expr_t}
    {chain : List (ast_binary_op_t × Option ast_expr_t)} (h1 : Converges parse_unary p a q)
    (h2 : Chain parse_unary factor_op q chain r) (hend : factor_op r.current.type = none) :
    Converges parse_factor p (left_fold a chain) r :=
  level_converges (fun k => by rw [parse_factor]) h1
    (chain_converges factor_loop_step factor_loop_exit h2 hend a)

theorem term_converges {p q r : parser_t} {a : Option ast_expr_t}
    {chain : List (ast_binary_op_t × Option ast_expr_t)} (h1 : Converges parse_factor p a q)
    (h2 : Chain parse_factor term_op q chain r) (hend : term_op r.current.type = none) :
    Converges parse_term p (left_fold a chain) r :=
  level_converges (fun k => by rw [parse_term]) h1
    (chain_converges term_loop_step term_loop_exit h2 hend a)

theorem comparison_converges {p q r : parser_t} {a : Option ast_expr_t}
    {chain : List (ast_binary_op_t × Option ast_expr_t)} (h1 : Converges parse_term p a q)
    (h2 : Chain parse_term comparison_op q chain r)
    (hend : comparison_op r.current.type = none) :
    Converges parse_comparison p (left_fold a chain) r :=
  level_converges (fun k => by rw [parse_comparison]) h1
    (chain_converges comparison_loop_step comparison_loop_exit h2 hend a)

theorem equality_converges {p q r : parser_t} {a : Option ast_expr_t}
    {chain : List (ast_binary_op_t × Option ast_expr_t)} (h1 : Converges parse_comparison p a q)
    (h2 : Chain parse_comparison equality_op q chain r)
    (hend : equality_op r.current.type = none) :
    Converges parse_equality p (left_fold a chain) r :=
  level_converges (fun k => by rw [parse_equality]) h1
    (chain_converges equality_loop_step equality_loop_exit h2 hend a)

theorem expression_converges {p q : parser_t} {a : Option ast_expr_t}
    (h : Converges parse_equality p a q) : Converges parse_expression p a q := by
  obtain ⟨n, h⟩ := h
  refine ⟨n + 1, fun fuel hf => ?_⟩
  obtain ⟨k, rfl⟩ : ∃ k, fuel = k + 1 := ⟨fuel - 1, by omega⟩
  rw [parse_expression]
  exact h k (by omega)

/-- Claim C6 (left associativity).  For every precedence level `l`, every first
operand and every chain of operators of that level, each followed by an operand
(operands being what the next tighter level parses), ending before a token
that is no operator of that level or of a looser one, `parse_expression`
returns the left fold of the chain, for every sufficient amount of fuel. -/
theorem left_associative (l : level) (p q r : parser_t) (first : Option ast_expr_t)
    (chain : List (ast_binary_op_t × Option ast_expr_t))
    (hfirst : Converges l.operand p first q) (hchain : Chain l.operand l.op q chain r)
    (hend : ∀ l' ∈ l.outer, l'.op r.current.type = none) :
    Converges parse_expression p (left_fold first chain) r := by
  have nil_fold : ∀ a : Option ast_expr_t, left_fold a [] = a := fun _ => rfl
  cases l with
  | equality =>
    exact expression_converges
      (equality_converges hfirst hchain (hend .equality (by simp [level.outer])))
  | comparison =>
    have h1 := comparison_converges hfirst hchain (hend .comparison (by simp [level.outer]))
    have h2 := equality_converges h1 (Chain.nil r) (hend .equality (by simp [level.outer]))
    rw [nil_fold] at h2
    exact expression_converges h2
  | term =>
    have h1 := term_converges hfirst hchain (hend .term (by simp [level.outer]))
    have h2 := comparison_converges h1 (Chain.nil r) (hend .comparison (by simp [level.outer]))
    rw [nil_fold] at h2
    have h3 := equality_converges h2 (Chain.nil r) (hend .equality (by simp [level.outer]))
    rw [nil_fold] at h3
    exact expression_converges h3
  | factor =>
    have h0 := factor_converges hfirst hchain (hend .factor (by simp [level.outer]))
    have h1 := term_converges h0 (Chain.nil r) (hend .term (by simp [level.outer]))
    rw [nil_fold] at h1
    have h2 := comparison_converges h1 (Chain.nil r) (hend .comparison (by simp [level.outer]))
    rw [nil_fold] at h2
    have h3 := equality_converges h2 (Chain.nil r) (hend .equality (by simp [level.outer]))
    rw [nil_fold] at h3
    exact expression_converges h3

theorem parse_primary_number (k : Nat) (p : parser_t) (h : p.current.type = TOKEN_NUMBER) :
    parse_primary (k + 1) p =
      .done (some (.literal (.number (strtod p.current.start)) p.current.line p.current.column))
        (advance p) := by
  simp [parse_primary, bind_run, matchM, match_ok, h, Outcome.bind, pure_run, ite_run, previousM,
    advance_previous]

theorem parse_primary_identifier (k : Nat) (p : parser_t)
    (h : p.current.type = TOKEN_IDENTIFIER) :
    parse_primary (k + 1) p =
      .done (some (.identifier (Lexer.token_to_string p.current) p.current.line
        p.current.column)) (advance p) := by
  have h1 : p.current.type ≠ TOKEN_NUMBER := by rw [h]; decide
  have h2 : p.current.type ≠ TOKEN_STRING := by rw [h]; decide
  simp [parse_primary, bind_run, matchM, match_ok, match_fail, h, h1, h2, Outcome.bind, pure_run,
    ite_run, previousM, advance_previous]

/-- A primary expression that is not null starts with a number, a string, an
identifier or an opening parenthesis. -/
theorem parse_primary_start {n : Nat} {p q : parser_t} {a : ast_expr_t}
    (h : parse_primary n p = .done (some a) q) :
    p.current.type = TOKEN_NUMBER ∨ p.current.type = TOKEN_STRING ∨
      p.current.type = TOKEN_IDENTIFIER ∨ p.current.type = TOKEN_LEFT_PAREN := by
  cases n with
  | zero => simp [parse_primary, out_of_fuelM] at h
  | succ k =>
    by_cases h1 : p.current.type = TOKEN_NUMBER
    · exact Or.inl h1
    by_cases h2 : p.current.type = TOKEN_STRING
    · exact Or.inr (Or.inl h2)
    by_cases h3 : p.current.type = TOKEN_IDENTIFIER
    · exact Or.inr (Or.inr (Or.inl h3))
    by_cases h4 : p.current.type = TOKEN_LEFT_PAREN
    · exact Or.inr (Or.inr (Or.inr h4))
    simp [parse_primary, bind_run, matchM, match_fail, h1, h2, h3, h4, Outcome.bind, pure_run,
      ite_run, errorM] at h

theorem call_loop_exit (k : Nat) (e : Option ast_expr_t) (p : parser_t)
    (h1 : p.current.type ≠ TOKEN_LEFT_PAREN) (h2 : p.current.type ≠ TOKEN_DOT) :
    parse_call_loop (k + 1) e p = .done e p := by
  simp [parse_call_loop, bind_run, matchM, match_fail, h1, h2, Outcome.bind, pure_run, ite_run]

/-- A primary operand that no postfix follows is what `parse_unary` returns. -/
theorem unary_of_primary {p q : parser_t} {a : ast_expr_t}
    (h : Converges parse_primary p (some a) q) (h1 : q.current.type ≠ TOKEN_LEFT_PAREN)
    (h2 : q.current.type ≠ TOKEN_DOT) : Converges parse_unary p (some a) q := by
  obtain ⟨n, h⟩ := h
  have hs := parse_primary_start (h n (Nat.le_refl n))
  have hm : p.current.type ≠ TOKEN_MINUS := by
    rcases hs with hs | hs | hs | hs <;> rw [hs] <;> decide
  have hb : p.current.type ≠ TOKEN_BANG := by
    rcases hs with hs | hs | hs | hs <;> rw [hs] <;> decide
  refine ⟨n + 2, fun fuel hf => ?_⟩
  obtain ⟨k, rfl⟩ : ∃ k, fuel = k + 2 := ⟨fuel - 2, by omega⟩
  simp only [parse_unary, parse_call, bind_run, orM, matchM, match_fail hm, match_fail hb,
    Outcome.bind, pure_run, ite_run]
  simp only [Bool.false_eq_true, if_false]
  rw [h k (by omega)]
  obtain ⟨j, rfl⟩ : ∃ j, k = j + 1 := by
    cases k with
    | zero => have := h 0 (by omega); simp [parse_primary, out_of_fuelM] at this
    | succ j => exact ⟨j, rfl⟩
  exact call_loop_exit j _ q h1 h2

theorem converges_number {p : parser_t} {v : ℚ} {l c : Int} (ht : p.current.type = TOKEN_NUMBER)
    (hv : strtod p.current.start = v) (hl : p.current.line = l) (hc : p.current.column = c) :
    Converges parse_primary p (some (.literal (.number v) l c)) (advance p) := by
  refine ⟨1, fun fuel hf => ?_⟩
  obtain ⟨k, rfl⟩ : ∃ k, fuel = k + 1 := ⟨fuel - 1, by omega⟩
  rw [parse_primary_number k p ht, hv, hl, hc]

theorem factor_of_primary {p q : parser_t} {a : ast_expr_t}
    (h : Converges parse_primary p (some a) q) (h1 : q.current.type ≠ TOKEN_LEFT_PAREN)
    (h2 : q.current.type ≠ TOKEN_DOT) (h3 : factor_op q.current.type = none) :
    Converges parse_factor p (some a) q :=
  factor_converges (unary_of_primary h h1 h2) (Chain.nil q) h3

/-- Claim C5 (operator precedence).  Let `a`, `b`, `c` be primary operands:
`parse_primary` returns `a` from state `p` leaving state `q`, returns `b` after
the token at `q` is consumed leaving `r`, and returns `c` after the token at
`r` is consumed leaving `s`, where the lookahead at `s` is no postfix and no
binary operator.  If the tokens at `q` and `r` are `+` and `*`,
`parse_expression` from `p` returns ADD(a, MUL(b, c)); if they are `*` and `+`,
it returns ADD(MUL(a, b), c).  Both hold for every sufficient amount of fuel. -/
theorem precedence (p q r s : parser_t) (a b c : ast_expr_t)
    (ha : Converges parse_primary p (some a) q)
    (hb : Converges parse_primary (advance q) (some b) r)
    (hc : Converges parse_primary (advance r) (some c) s)
    (hend : s.current.type ≠ TOKEN_LEFT_PAREN ∧ s.current.type ≠ TOKEN_DOT ∧
      ∀ l : level, l.op s.current.type = none) :
    (q.current.type = TOKEN_PLUS → r.current.type = TOKEN_STAR →
      Converges parse_expression p
        (some (.binary (some a) .OP_ADD
          (some (.binary (some b) .OP_MUL (some c) 0 0)) 0 0)) s) ∧
    (q.current.type = TOKEN_STAR → r.current.type = TOKEN_PLUS →
      Converges parse_expression p
        (some (.binary (some (.binary (some a) .OP_MUL (some b) 0 0)) .OP_ADD
          (some c) 0 0)) s) := by
  obtain ⟨hs1, hs2, hs⟩ := hend
  have uc := unary_of_primary hc hs1 hs2
  refine ⟨fun hq hr => ?_, fun hq hr => ?_⟩
  · have ua := unary_of_primary ha (by rw [hq]; decide) (by rw [hq]; decide)
    have ub := unary_of_primary hb (by rw [hr]; decide) (by rw [hr]; decide)
    have fa := factor_converges ua (Chain.nil q) (by rw [hq]; rfl)
    have fbc := factor_converges ub
      (Chain.cons (by rw [hr]; rfl) uc (Chain.nil s)) (hs .factor)
    have t := term_converges fa (Chain.cons (by rw [hq]; rfl) fbc (Chain.nil s)) (hs .term)
    have cmp := comparison_converges t (Chain.nil s) (hs .comparison)
    exact expression_converges (equality_converges cmp (Chain.nil s) (hs .equality))
  · have ua := unary_of_primary ha (by rw [hq]; decide) (by rw [hq]; decide)
    have ub := unary_of_primary hb (by rw [hr]; decide) (by rw [hr]; decide)
    have fab := factor_converges ua
      (Chain.cons (by rw [hq]; rfl) ub (Chain.nil r)) (by rw [hr]; rfl)
    have fc := factor_converges uc (Chain.nil s) (hs .factor)
    have t := term_converges fab (Chain.cons (by rw [hr]; rfl) fc (Chain.nil s)) (hs .term)
    have cmp := comparison_converges t (Chain.nil s) (hs .comparison)
    exact expression_converges (equality_converges cmp (Chain.nil s) (hs .equality))

/-- Witness of C5: parsing `1 + 2 * 3` yields `1 + (2 * 3)`. -/
theorem precedence_witness :
    (advance (parser_on "1 + 2 * 3")).current.type = TOKEN_PLUS ∧
    (advance (advance (advance (parser_on "1 + 2 * 3")))).current.type = TOKEN_STAR ∧
    Converges parse_expression (parser_on "1 + 2 * 3")
      (some (.binary (some (.literal (.number 1) 1 1)) .OP_ADD
        (some (.binary (some (.literal (.number 2) 1 5)) .OP_MUL
          (some (.literal (.number 3) 1 9)) 0 0)) 0 0))
      (advance (advance (advance (advance (advance (parser_on "1 + 2 * 3")))))) :=
  ⟨by decide!, by decide!,
    (precedence (parser_on "1 + 2 * 3") _ _ _ _ _ _
      (converges_number (by decide!) (by decide!) (by decide!) (by decide!))
      (converges_number (by decide!) (by decide!) (by decide!) (by decide!))
      (converges_number (by decide!) (by decide!) (by decide!) (by decide!))
      ⟨by decide!, by decide!, by
        have h : (advance (advance (advance (advance (advance
            (parser_on "1 + 2 * 3")))))).current.type = TOKEN_EOF := by decide!
        intro l; rw [h]; cases l <;> rfl⟩).1 (by decide!) (by decide!)⟩

/-- Witness of C6: parsing `10 - 3 - 2` yields SUB(SUB(10, 3), 2). -/
theorem left_associative_witness :
    Converges parse_expression (parser_on "10 - 3 - 2")
      (some (.binary (some (.binary (some (.literal (.number 10) 1 1)) .OP_SUB
          (some (.literal (.number 3) 1 6)) 0 0)) .OP_SUB
        (some (.literal (.number 2) 1 10)) 0 0))
      (advance (advance (advance (advance (advance (parser_on "10 - 3 - 2")))))) :=
  left_associative .term (parser_on "10 - 3 - 2") _ _ _
    [(.OP_SUB, some (.literal (.number 3) 1 6)), (.OP_SUB, some (.literal (.number 2) 1 10))]
    (factor_of_primary (converges_number (by decide!) (by decide!) (by decide!) (by decide!))
      (by decide!) (by decide!) (by decide!))
    (Chain.cons (by decide!)
      (factor_of_primary (converges_number (by decide!) (by decide!) (by decide!) (by decide!))
        (by decide!) (by decide!) (by decide!))
      (Chain.cons (by decide!)
        (factor_of_primary (converges_number (by decide!) (by decide!) (by decide!) (by decide!))
          (by decide!) (by decide!) (by decide!))
        (Chain.nil _)))
    (by
      have h : (advance (advance (advance (advance (advance
          (parser_on "10 - 3 - 2")))))).current.type = TOKEN_EOF := by decide!
      intro l hl; rw [h]; cases l <;> rfl)

/-! ### A robot with one motor -/

theorem advance_token (p : parser_t) (tok : token_t) (lx : lexer_t)
    (h : lexer_next_token p.lexer = (tok, lx)) (hne : tok.type ≠ TOKEN_ERROR) :
    advance p = { p with previous := p.current, current := tok, lexer := lx } := by
  unfold advance
  simp [advance_loop, h, hne]

theorem consume_ok {p : parser_t} {t : token_type_t} (m : List Char) (h : p.current.type = t) :
    consume p t m = advance p := by
  simp [consume, h]

theorem skip_newlines_loop_id {p : parser_t} (n : Nat) (h : p.current.type ≠ TOKEN_NEWLINE) :
    skip_newlines_loop (n + 1) p = p := by
  simp [skip_newlines_loop, match_fail h]

theorem skip_newlines_loop_step {p : parser_t} (n : Nat) (h : p.current.type = TOKEN_NEWLINE) :
    skip_newlines_loop (n + 1) p = skip_newlines_loop n (advance p) := by
  simp [skip_newlines_loop, match_ok h]

theorem skip_newlines_id {p : parser_t} (h : p.current.type ≠ TOKEN_NEWLINE) :
    skip_newlines p = p :=
  skip_newlines_loop_id _ h

theorem at_word (sp : List Char) (c : Char) (cs rest : List Char)
    (hsp : ∀ d ∈ sp, d = ' ') (hc : (isalpha c || c == '_') = true)
    (hcs : ∀ d ∈ cs, (isalnum d || d == '_') = true) (hrest : ends_word rest)
    {p : parser_t} (hp : Clean p) (hcur : p.lexer.current = sp ++ (c :: cs ++ rest))
    (hk : check_keyword (c :: cs) (cs.length + 1) ≠ TOKEN_ERROR) :
    At (advance p) (check_keyword (c :: cs) (cs.length + 1)) (c :: cs) rest ∧
      (advance p).previous = p.current := by
  rw [advance_token p _ _ (lexer_next_token_word sp c cs rest hsp hc hcs hrest _ hcur) hk]
  refine ⟨⟨rfl, ?_, rfl, ⟨hp.1, hp.2, hp.3⟩⟩, rfl⟩
  simp [token_to_string]

theorem at_left_brace (sp rest : List Char) (hsp : ∀ d ∈ sp, d = ' ')
    {p : parser_t} (hp : Clean p) (hcur : p.lexer.current = sp ++ '{' :: rest) :
    At (advance p) TOKEN_LEFT_BRACE ['{'] rest ∧ (advance p).previous = p.current := by
  rw [advance_token p _ _ (lexer_next_token_left_brace sp rest hsp _ hcur) (by simp)]
  exact ⟨⟨rfl, rfl, rfl, ⟨hp.1, hp.2, hp.3⟩⟩, rfl⟩

theorem at_right_brace (sp rest : List Char) (hsp : ∀ d ∈ sp, d = ' ')
    {p : parser_t} (hp : Clean p) (hcur : p.lexer.current = sp ++ '}' :: rest) :
    At (advance p) TOKEN_RIGHT_BRACE ['}'] rest ∧ (advance p).previous = p.current := by
  rw [advance_token p _ _ (lexer_next_token_right_brace sp rest hsp _ hcur) (by simp)]
  exact ⟨⟨rfl, rfl, rfl, ⟨hp.1, hp.2, hp.3⟩⟩, rfl⟩

theorem at_newline (sp rest : List Char) (hsp : ∀ d ∈ sp, d = ' ')
    {p : parser_t} (hp : Clean p) (hcur : p.lexer.current = sp ++ '\n' :: rest) :
    At (advance p) TOKEN_NEWLINE ['\n'] rest := by
  rw [advance_token p _ _ (lexer_next_token_newline sp rest hsp _ hcur) (by simp)]
  exact ⟨rfl, rfl, rfl, ⟨hp.1, hp.2, hp.3⟩⟩

theorem clean_advance_end {p : parser_t} (hp : Clean p) (hcur : p.lexer.current = []) :
    Clean (advance p) ∧ (advance p).current.type = TOKEN_EOF := by
  have h := lexer_next_token_end p.lexer hcur
  rw [advance_token p (lexer_next_token p.lexer).1 (lexer_next_token p.lexer).2 rfl
    (by rw [h]; decide)]
  exact ⟨⟨hp.1, hp.2, hp.3⟩, h⟩

theorem blank_split (ws : List Char) (hws : ∀ c ∈ ws, c = ' ' ∨ c = '\n') :
    (∀ c ∈ ws, c = ' ') ∨
      ∃ sp ws', ws = sp ++ '\n' :: ws' ∧ (∀ c ∈ sp, c = ' ') ∧
        (∀ c ∈ ws', c = ' ' ∨ c = '\n') := by
  induction ws with
  | nil => exact Or.inl (fun c hc => by cases hc)
  | cons a ws ih =>
    have ha := hws a (List.mem_cons_self _ _)
    have hws' : ∀ c ∈ ws, c = ' ' ∨ c = '\n' := fun c hc => hws c (List.mem_cons_of_mem _ hc)
    rcases ha with ha | ha
    · rcases ih hws' with h | ⟨sp, ws', h1, h2, h3⟩
      · left
        intro c hc
        rcases List.mem_cons.mp hc with rfl | hc
        · exact ha
        · exact h c hc
      · right
        refine ⟨a :: sp, ws', by rw [h1]; rfl, ?_, h3⟩
        intro c hc
        rcases List.mem_cons.mp hc with rfl | hc
        · exact ha
        · exact h2 c hc
    · right
      exact ⟨[], ws, (by rw [ha]; rfl), fun c hc => (by cases hc), hws'⟩

/-- Skipping newline tokens across blanks and line breaks: what holds after
consuming the first token behind any run of blanks holds after
`skip_newlines`. -/
theorem skip_newlines_loop_blank (rest : List Char) (P : parser_t → Prop)
    (hP : ∀ (p : parser_t) (sp : List Char), Clean p → p.lexer.current = sp ++ rest →
      (∀ c ∈ sp, c = ' ') → P (advance p) ∧ (advance p).current.type ≠ TOKEN_NEWLINE) :
    ∀ (k : Nat) (ws : List Char), ws.length ≤ k → (∀ c ∈ ws, c = ' ' ∨ c = '\n') →
      ∀ (n : Nat) (p : parser_t), ws.length + 1 ≤ n → Clean p →
        p.lexer.current = ws ++ rest → P (skip_newlines_loop n (advance p)) := by
  intro k
  induction k with
  | zero =>
    intro ws hk hws n p hn hp hcur
    have : ws = [] := List.length_eq_zero.mp (by omega)
    subst this
    obtain ⟨m, rfl⟩ : ∃ m, n = m + 1 := ⟨n - 1, by omega⟩
    have h := hP p [] hp hcur (fun c hc => by cases hc)
    rw [skip_newlines_loop_id m h.2]
    exact h.1
  | succ k ih =>
    intro ws hk hws n p hn hp hcur
    obtain ⟨m, rfl⟩ : ∃ m, n = m + 1 := ⟨n - 1, by omega⟩
    rcases blank_split ws hws with hsp | ⟨sp, ws', h1, h2, h3⟩
    · have h := hP p ws hp hcur hsp
      rw [skip_newlines_loop_id m h.2]
      exact h.1
    · subst h1
      have hat := at_newline sp (ws' ++ rest) h2 hp (by rw [hcur]; simp)
      rw [skip_newlines_loop_step m hat.type]
      simp only [List.length_append, List.length_cons] at hk hn
      exact ih ws' (by omega) h3 m _ (by omega) hat.clean hat.rest

theorem skip_newlines_blank (ws rest : List Char) (P : parser_t → Prop)
    (hP : ∀ (p : parser_t) (sp : List Char), Clean p → p.lexer.current = sp ++ rest →
      (∀ c ∈ sp, c = ' ') → P (advance p) ∧ (advance p).current.type ≠ TOKEN_NEWLINE)
    (hws : ∀ c ∈ ws, c = ' ' ∨ c = '\n') (p : parser_t) (hp : Clean p)
    (hcur : p.lexer.current = ws ++ rest) : P (skip_newlines (advance p)) := by
  unfold skip_newlines
  rcases blank_split ws hws with hsp | ⟨sp, ws', h1, h2, h3⟩
  · have h := hP p ws hp hcur hsp
    rw [skip_newlines_loop_id _ h.2]
    exact h.1
  · subst h1
    have hat := at_newline sp (ws' ++ rest) h2 hp (by rw [hcur]; simp)
    rw [hat.rest, show (ws' ++ rest).length + 2 = ((ws' ++ rest).length + 1) + 1 from rfl,
      skip_newlines_loop_step _ hat.type]
    refine skip_newlines_loop_blank rest P hP ws'.length ws' (Nat.le_refl _) h3 _ _ ?_
      hat.clean hat.rest
    simp only [List.length_append]
    omega

/-- The run of `parser_parse` over the token sequence
`robot IDENT { motor IDENT on IDENT }`, newlines allowed inside the braces. -/
theorem parser_parse_motor (k : Nat) (p0 p4 p9 : parser_t)
    (h0 : p0.current.type = TOKEN_ROBOT)
    (h1 : (advance p0).current.type = TOKEN_IDENTIFIER)
    (h2 : (advance (advance p0)).current.type = TOKEN_LEFT_BRACE)
    (hp4 : skip_newlines (advance (advance (advance p0))) = p4)
    (h4 : p4.current.type = TOKEN_MOTOR)
    (h5 : (advance p4).current.type = TOKEN_IDENTIFIER)
    (h6 : (advance (advance p4)).current.type = TOKEN_ON)
    (h7 : (advance (advance (advance p4))).current.type = TOKEN_IDENTIFIER)
    (hp9 : skip_newlines (advance (advance (advance (advance p4)))) = p9)
    (h9 : p9.current.type = TOKEN_RIGHT_BRACE)
    (herr : (advance p9).had_error = false) :
    parser_parse (k + 3) p0 =
      .done (some { name := token_to_string (advance p0).current,
                    declarations := [.motor (token_to_string (advance p4).current)
                      (token_to_string (advance (advance (advance p4))).current) 0 0] })
        (advance p9) := by
  have n0 : p0.current.type ≠ TOKEN_NEWLINE := by rw [h0]; decide
  have n4 : p4.current.type ≠ TOKEN_NEWLINE := by rw [h4]; decide
  have hloop2 : parser_parse_loop (k + 1)
      { name := token_to_string (advance p0).current,
        declarations := [.motor (token_to_string (advance p4).current)
          (token_to_string (advance (advance (advance p4))).current) 0 0] } p9 =
      .done { name := token_to_string (advance p0).current,
              declarations := [.motor (token_to_string (advance p4).current)
                (token_to_string (advance (advance (advance p4))).current) 0 0] } p9 := by
    rw [parser_parse_loop]
    simp only [bind_run, checkM, check, h9, Outcome.bind, pure_run, ite_run]
    simp
  have hdecl : parse_declaration (k + 1) p4 =
      .done (some (.motor (token_to_string (advance p4).current)
          (token_to_string (advance (advance (advance p4))).current) 0 0))
        (advance (advance (advance (advance p4)))) := by
    rw [parse_declaration]
    simp only [bind_run, skip_newlinesM, Outcome.bind]
    simp only [skip_newlines_id n4]
    simp only [matchM, match_ok h4]
    simp only [Outcome.bind, ite_run, if_true]
    simp only [parse_motor_decl]
    simp only [bind_run, consumeM, Outcome.bind]
    simp only [consume_ok _ h5]
    simp only [previousM, Outcome.bind, consume_ok _ h6, consume_ok _ h7, advance_previous,
      pure_run]
  have hloop1 : parser_parse_loop (k + 2)
      { name := token_to_string (advance p0).current, declarations := [] } p4 =
      .done { name := token_to_string (advance p0).current,
              declarations := [.motor (token_to_string (advance p4).current)
                (token_to_string (advance (advance (advance p4))).current) 0 0] } p9 := by
    rw [parser_parse_loop]
    simp only [bind_run, checkM, check, Outcome.bind, ite_run, hdecl, skip_newlinesM, hp9]
    have hc : (!p4.current.type == TOKEN_RIGHT_BRACE && !p4.current.type == TOKEN_EOF) = true := by
      rw [h4]; decide
    rw [if_pos hc]
    exact hloop2
  rw [parser_parse]
  simp only [bind_run, skip_newlinesM, consumeM, previousM, had_errorM, Outcome.bind, pure_run,
    ite_run, skip_newlines_id n0, consume_ok _ h0, consume_ok _ h1, consume_ok _ h2, hp4,
    advance_previous, ast_robot_create, hloop1, consume_ok _ h9, herr]
  simp

theorem plain_identifier_spec {w : List Char} (h : is_plain_identifier w = true) :
    ∃ c cs, w = c :: cs ∧ (isalpha c || c == '_') = true ∧
      (∀ d ∈ cs, (isalnum d || d == '_') = true) ∧
      check_keyword (c :: cs) (cs.length + 1) = TOKEN_IDENTIFIER := by
  cases w with
  | nil => simp [is_plain_identifier] at h
  | cons c cs =>
    simp only [is_plain_identifier, Bool.and_eq_true, List.all_eq_true, beq_iff_eq,
      List.length_cons] at h
    exact ⟨c, cs, rfl, h.1.1, h.1.2, h.2⟩

theorem blank_spec {ws : List Char} (h : is_blank ws = true) :
    ∀ c ∈ ws, c = ' ' ∨ c = '\n' := by
  intro c hc
  have := List.all_eq_true.mp h c hc
  simpa using this

theorem alnum_ne_nul {d : Char} (h : (isalnum d || d == '_') = true) : (d != NUL) = true := by
  rw [bne_iff_ne]
  rintro rfl
  revert h
  decide

theorem alpha_alnum {c : Char} (h : (isalpha c || c == '_') = true) :
    (isalnum c || c == '_') = true := by
  simp only [Bool.or_eq_true, isalpha, isalnum, Char.isAlphanum] at h ⊢
  rcases h with h | h
  · exact Or.inl (Or.inl h)
  · exact Or.inr h

theorem ends_word_blank (ws rest : List Char) (hws : ∀ c ∈ ws, c = ' ' ∨ c = '\n')
    (hrest : ends_word rest) : ends_word (ws ++ rest) := by
  cases ws with
  | nil => exact hrest
  | cons a ws =>
    intro c hc
    simp only [List.cons_append, List.head?_cons, Option.some.injEq] at hc
    subst hc
    rcases hws a (List.mem_cons_self _ _) with rfl | rfl <;> decide

theorem At.retype {p : parser_t} {t t' : token_type_t} {w rest : List Char} (h : At p t w rest)
    (e : t = t') : At p t' w rest := e ▸ h

/-- Claim C7.  For all identifiers `R`, `n` and `pin` that are not keywords and
all runs `ws1`, `ws2` of blanks and line breaks, parsing
`robot R {ws1 motor n on pin ws2}` with at least 3 units of fuel returns a
robot named `R` whose declarations are exactly one motor with name `n` and pin
`pin`, with no error flagged and no diagnostic emitted; this holds for every
prior content of the parser struct and every file name. -/
theorem parse_motor_robot (R n pin ws1 ws2 : List Char) (memory : parser_t)
    (filename : Option (List Char)) (hR : is_plain_identifier R = true)
    (hn : is_plain_identifier n = true) (hpin : is_plain_identifier pin = true)
    (h1 : is_blank ws1 = true) (h2 : is_blank ws2 = true) (fuel : Nat) (hfuel : 3 ≤ fuel) :
    ∃ q, parse_source fuel memory (motor_robot_source R ws1 n pin ws2) filename =
        .done (some { name := R, declarations := [.motor n pin 0 0] }) q ∧
      q.had_error = false ∧ q.diagnostics = [] := by
  obtain ⟨cR, csR, rfl, hR1, hR2, hR3⟩ := plain_identifier_spec hR
  obtain ⟨cn, csn, rfl, hn1, hn2, hn3⟩ := plain_identifier_spec hn
  obtain ⟨cp, csp, rfl, hp1, hp2, hp3⟩ := plain_identifier_spec hpin
  have hw1 := blank_spec h1
  have hw2 := blank_spec h2
  obtain ⟨k, rfl⟩ : ∃ k, fuel = k + 3 := ⟨fuel - 3, by omega⟩
  -- the pieces of the source, from the end
  generalize hr7 : ws2 ++ ['}'] = r7
  generalize hr6 : ' ' :: (cp :: csp ++ r7) = r6
  generalize hr5 : ' ' :: ('o' :: ['n'] ++ r6) = r5
  generalize hr4 : ' ' :: (cn :: csn ++ r5) = r4
  generalize hr3 : 'm' :: ['o', 't', 'o', 'r'] ++ r4 = r3
  generalize hr1 : ' ' :: '{' :: (ws1 ++ r3) = r1
  generalize hr0 : ' ' :: (cR :: csR ++ r1) = r0
  have hsrc : motor_robot_source (cR :: csR) ws1 (cn :: csn) (cp :: csp) ws2 =
      'r' :: ['o', 'b', 'o', 't'] ++ r0 := by
    subst hr0 hr1 hr3 hr4 hr5 hr6 hr7
    rfl
  have e7 : ends_word r7 := by
    subst hr7
    exact ends_word_blank ws2 _ hw2 (by intro c hc; simp at hc; subst hc; decide)
  have e6 : ends_word r6 := by subst hr6; intro c hc; simp at hc; subst hc; decide
  have e5 : ends_word r5 := by subst hr5; intro c hc; simp at hc; subst hc; decide
  have e4 : ends_word r4 := by subst hr4; intro c hc; simp at hc; subst hc; decide
  have e1 : ends_word r1 := by subst hr1; intro c hc; simp at hc; subst hc; decide
  have e0 : ends_word r0 := by subst hr0; intro c hc; simp at hc; subst hc; decide
  -- the source holds no NUL, so the lexer sees all of it
  have hnul : ∀ x ∈ 'r' :: ['o', 'b', 'o', 't'] ++ r0, (x != NUL) = true := by
    subst hr0 hr1 hr3 hr4 hr5 hr6 hr7
    have hb : ∀ c : Char, c = ' ' ∨ c = '\n' → (c != NUL) = true := by
      rintro c (rfl | rfl) <;> decide
    simp only [List.cons_append, List.nil_append, List.forall_mem_cons, List.forall_mem_append]
    refine ⟨by decide, by decide, by decide, by decide, by decide, by decide,
      alnum_ne_nul (alpha_alnum hR1), fun x hx => alnum_ne_nul (hR2 x hx), by decide, by decide,
      fun x hx => hb x (hw1 x hx), by decide, by decide, by decide, by decide, by decide,
      by decide, alnum_ne_nul (alpha_alnum hn1), fun x hx => alnum_ne_nul (hn2 x hx),
      by decide, by decide, by decide, by decide, alnum_ne_nul (alpha_alnum hp1),
      fun x hx => alnum_ne_nul (hp2 x hx), fun x hx => hb x (hw2 x hx), by decide,
      fun x hx => (by cases hx)⟩
  have hm0 : Clean { memory with
      lexer := Lexer.lexer_init ('r' :: ['o', 'b', 'o', 't'] ++ r0) filename,
      had_error := false, panic_mode := false, diagnostics := [] } := ⟨rfl, rfl, rfl⟩
  have hcur0 : (Lexer.lexer_init ('r' :: ['o', 'b', 'o', 't'] ++ r0) filename).current =
      [] ++ ('r' :: ['o', 'b', 'o', 't'] ++ r0) := by
    unfold Lexer.lexer_init
    exact List.takeWhile_eq_self_iff.mpr hnul
  have hcur0' : ({ memory with
      lexer := Lexer.lexer_init ('r' :: ['o', 'b', 'o', 't'] ++ r0) filename,
      had_error := false, panic_mode := false, diagnostics := [] } : parser_t).lexer.current =
      [] ++ ('r' :: ['o', 'b', 'o', 't'] ++ r0) := hcur0
  clear hcur0
  unfold parse_source parser_init
  rw [hsrc]
  revert hcur0'
  generalize ({ memory with
      lexer := Lexer.lexer_init ('r' :: ['o', 'b', 'o', 't'] ++ r0) filename,
      had_error := false, panic_mode := false, diagnostics := [] } : parser_t) = m0 at hm0 ⊢
  intro hcur0
  -- token by token
  have a0 : At _ TOKEN_ROBOT _ _ :=
    ((at_word [] 'r' ['o', 'b', 'o', 't'] r0 (fun _ h => by cases h) (by decide)
      (by decide) e0 hm0 hcur0 (by decide)).1).retype (by decide)
  have a1 := ((at_word [' '] cR csR r1 (by simp) hR1 hR2 e1 a0.clean
    (by rw [a0.rest, ← hr0]; rfl) (by rw [hR3]; decide)).1).retype hR3
  have a2 := (at_left_brace [' '] (ws1 ++ r3) (by simp) a1.clean
    (by rw [a1.rest, ← hr1]; rfl)).1
  have a4 := skip_newlines_blank ws1 r3
    (fun q => At q TOKEN_MOTOR ['m', 'o', 't', 'o', 'r'] r4)
    (fun p sp hp hcur hsp => by
      have h := (at_word sp 'm' ['o', 't', 'o', 'r'] r4 hsp (by decide) (by decide) e4 hp
        (by rw [hcur, ← hr3]) (by decide)).1
      exact ⟨h.retype (by decide), by rw [h.type]; decide⟩)
    hw1 _ a2.clean a2.rest
  have a5 := ((at_word [' '] cn csn r5 (by simp) hn1 hn2 e5 a4.clean
    (by rw [a4.rest, ← hr4]; rfl) (by rw [hn3]; decide)).1).retype hn3
  have a6 := ((at_word [' '] 'o' ['n'] r6 (by simp) (by decide) (by decide) e6 a5.clean
    (by rw [a5.rest, ← hr5]; rfl) (by decide)).1).retype
      (show Lexer.check_keyword ['o', 'n'] (['n'].length + 1) = TOKEN_ON by decide)
  have a7 := ((at_word [' '] cp csp r7 (by simp) hp1 hp2 e7 a6.clean
    (by rw [a6.rest, ← hr6]; rfl) (by rw [hp3]; decide)).1).retype hp3
  have a9 := skip_newlines_blank ws2 ['}']
    (fun q => At q TOKEN_RIGHT_BRACE ['}'] [])
    (fun p sp hp hcur hsp => by
      have h := (at_right_brace sp [] hsp hp hcur).1
      exact ⟨h, by rw [h.type]; decide⟩)
    hw2 _ a7.clean (by rw [a7.rest, ← hr7])
  have hend := clean_advance_end a9.clean a9.rest
  refine ⟨_, ?_, hend.1.had_error, hend.1.diagnostics⟩
  rw [parser_parse_motor k _ _ _ a0.type a1.type a2.type rfl a4.type a5.type a6.type a7.type
    rfl a9.type hend.1.had_error, a1.text, a5.text, a7.text]

/-! ### The claims on concrete sources -/

theorem done_of_returned_null {α : Type} {o : Outcome (Option α)}
    (h : o.returned_null = true) : o = .done none o.state := by
  cases o with
  | done a q =>
    cases a with
    | none => rfl
    | some _ => cases h
  | out_of_fuel q => cases h
  | null_deref q => cases h

/-- Claim C1 is refuted by the code.  On `robot R { servo s on P }` the
run of `parser_parse` after `parser_init` never returns: for every amount of
fuel it is cut off for lack of fuel.  `parse_declaration` reports
`Expected declaration` and returns null without consuming the `servo` token, so
the condition of the declaration loop of `parser_parse` never changes. -/
theorem parse_does_not_terminate (fuel : Nat) :
    ∃ q, parser_parse fuel (parser_on "robot R \x7b servo s on P \x7d") = .out_of_fuel q :=
  never_returns (N := 3) (by decide!) fuel

/-- Claim C2 is refuted by the code.  For each declaration keyword
without a production (servo, gpio, bus, net, topic, limits, when) the parse of
`robot R { <keyword> s on P }` never returns, so no failure value is returned;
the one diagnostic `Expected declaration` is emitted and `had_error` is set
when the run is cut off after 3 units of fuel. -/
theorem unsupported_declaration_never_returns :
    ∀ keyword ∈ unsupported_declarations,
      (∀ fuel, ∃ q,
        parser_parse fuel (parser_on (unsupported_source keyword)) = .out_of_fuel q) ∧
      (parser_parse 3 (parser_on (unsupported_source keyword))).state.had_error = true ∧
      (parser_parse 3 (parser_on (unsupported_source keyword))).state.diagnostics.map
          (fun d => d.message) = ["Expected declaration".toList] := by
  have cert : ∀ keyword ∈ unsupported_declarations,
      stuck_within (parser_on (unsupported_source keyword)) 3 = true ∧
      (parser_parse 3 (parser_on (unsupported_source keyword))).state.had_error = true ∧
      (parser_parse 3 (parser_on (unsupported_source keyword))).state.diagnostics.map
          (fun d => d.message) = ["Expected declaration".toList] := by
    decide!
  intro keyword hk
  exact ⟨never_returns (cert keyword hk).1, (cert keyword hk).2⟩

/-- Witness of C2 at the keyword `servo`. -/
theorem unsupported_declaration_never_returns_witness :
    "servo" ∈ unsupported_declarations ∧
    (∀ fuel, ∃ q,
      parser_parse fuel (parser_on (unsupported_source "servo")) = .out_of_fuel q) ∧
    (parser_parse 3 (parser_on (unsupported_source "servo"))).state.had_error = true ∧
    (parser_parse 3 (parser_on (unsupported_source "servo"))).state.diagnostics.map
        (fun d => d.message) = ["Expected declaration".toList] :=
  ⟨by decide, unsupported_declaration_never_returns "servo" (by decide)⟩

/-- Witness of C3 on `robot R { servo s on P }`, cut off after 3 units of
fuel: an error has been flagged there and the discipline holds. -/
theorem first_error_only_witness :
    (parse_source 3 (parser_memory sample_garbage) "robot R \x7b servo s on P \x7d".toList
      none).state.had_error = true ∧
    ((parse_source 3 (parser_memory sample_garbage) "robot R \x7b servo s on P \x7d".toList
        none).state.had_error =
      (parse_source 3 (parser_memory sample_garbage) "robot R \x7b servo s on P \x7d".toList
        none).state.panic_mode ∧
     (parse_source 3 (parser_memory sample_garbage) "robot R \x7b servo s on P \x7d".toList
        none).state.diagnostics.length ≤ 1 ∧
     ((parse_source 3 (parser_memory sample_garbage) "robot R \x7b servo s on P \x7d".toList
        none).state.diagnostics.length = 1 ↔
      (parse_source 3 (parser_memory sample_garbage) "robot R \x7b servo s on P \x7d".toList
        none).state.had_error = true)) :=
  ⟨by decide!,
    (first_error_only 3 (parser_memory sample_garbage) "robot R \x7b servo s on P \x7d".toList
      none).1 _ (Or.inr rfl)⟩

/-- Witness of C4 on the source `motor`: the parse returns null, and an
error is flagged with one diagnostic. -/
theorem parse_null_iff_error_witness :
    (parse_source 4 (parser_memory sample_garbage) "motor".toList none).returned_null = true ∧
    (parse_source 4 (parser_memory sample_garbage) "motor".toList none).state.had_error = true ∧
    (parse_source 4 (parser_memory sample_garbage) "motor".toList
      none).state.diagnostics.length = 1 :=
  have h : (parse_source 4 (parser_memory sample_garbage) "motor".toList
      none).returned_null = true := by decide!
  have t := parse_null_iff_error 4 (parser_memory sample_garbage) "motor".toList none none _
    (done_of_returned_null h)
  ⟨h, t.1.mp rfl, t.2.1.mp (t.1.mp rfl)⟩

/-- Witness of C7 on `robot TestBot { motor m1 on M1 }` and on the text of
`test_parse_minimal`, which has line breaks inside the braces. -/
theorem parse_motor_robot_witness :
    (motor_robot_source "TestBot".toList " ".toList "m1".toList "M1".toList " ".toList =
        "robot TestBot \x7b motor m1 on M1 \x7d".toList ∧
      ∃ q, parse_source 3 (parser_memory sample_garbage)
          (motor_robot_source "TestBot".toList " ".toList "m1".toList "M1".toList " ".toList)
          none =
          .done (some { name := "TestBot".toList,
                        declarations := [.motor "m1".toList "M1".toList 0 0] }) q ∧
        q.had_error = false ∧ q.diagnostics = []) ∧
    (motor_robot_source "TestBot".toList "\n  ".toList "m1".toList "M1".toList "\n".toList =
        "robot TestBot \x7b\n  motor m1 on M1\n\x7d".toList ∧
      ∃ q, parse_source 3 (parser_memory sample_garbage)
          (motor_robot_source "TestBot".toList "\n  ".toList "m1".toList "M1".toList
            "\n".toList)
          (some "test".toList) =
          .done (some { name := "TestBot".toList,
                        declarations := [.motor "m1".toList "M1".toList 0 0] }) q ∧
        q.had_error = false ∧ q.diagnostics = []) :=
  ⟨⟨by decide,
      parse_motor_robot _ _ _ _ _ _ _ (by decide!) (by decide!) (by decide!) (by decide!)
        (by decide!) 3 (Nat.le_refl 3)⟩,
    ⟨by decide,
      parse_motor_robot _ _ _ _ _ _ _ (by decide!) (by decide!) (by decide!) (by decide!)
        (by decide!) 3 (Nat.le_refl 3)⟩⟩

/-- Claim C8 is refuted by the code.  On
`robot TestBot { task move(speed: Percent) { wait(100) } }` the parse never
returns, so no robot is produced: `Percent` is a keyword of the lexer, not an
identifier, `Expected type name` is reported, and `parse_block` then loops on
the `Percent` token, which no statement consumes (allocation is taken to
succeed always; the C loop adds one statement node per round). -/
theorem task_with_percent_never_returns :
    (∀ fuel, ∃ q, parser_parse fuel
      (parser_on "robot TestBot \x7b task move(speed: Percent) \x7b wait(100) \x7d \x7d") =
        .out_of_fuel q) ∧
    (advance^[8] (parser_on
      "robot TestBot \x7b task move(speed: Percent) \x7b wait(100) \x7d \x7d")).current.type =
        TOKEN_TYPE_PERCENT ∧
    (parser_parse 12 (parser_on
      "robot TestBot \x7b task move(speed: Percent) \x7b wait(100) \x7d \x7d")).state.diagnostics.map
        (fun d => d.message) = ["Expected type name".toList] :=
  ⟨never_returns (N := 8) (by decide!), by decide!, by decide!⟩

/-- Claim C9 is refuted by the code.  On
`robot TestBot { schedule main @ 10 priority HIGH { stop() } }` the parse never
returns, so no robot is produced: `stop` is a keyword of the lexer, not an
identifier, `Expected expression` is reported, and `parse_block` then loops on
the `stop` token, which no statement consumes (allocation is taken to succeed
always; the C loop adds one statement node per round). -/
theorem schedule_with_stop_never_returns :
    (∀ fuel, ∃ q, parser_parse fuel
      (parser_on "robot TestBot \x7b schedule main @ 10 priority HIGH \x7b stop() \x7d \x7d") =
        .out_of_fuel q) ∧
    (advance^[10] (parser_on
      "robot TestBot \x7b schedule main @ 10 priority HIGH \x7b stop() \x7d \x7d")).current.type =
        TOKEN_STOP ∧
    (parser_parse 30 (parser_on
      "robot TestBot \x7b schedule main @ 10 priority HIGH \x7b stop() \x7d \x7d")).state.diagnostics.map
        (fun d => d.message) = ["Expected expression".toList] :=
  ⟨never_returns (N := 10) (by decide!), by decide!, by decide!⟩

/-- Claim C10 is refuted by the code.  On the two sources of
`test_parse_task` and `test_parse_schedule` the parse never returns, so no
robot is produced.  The first is held at the keyword token `Percent` (before
`100ms` is reached), the second at the unit token `Hz` that follows `10`,
where `Expected '{' before schedule body` is reported. -/
theorem unit_suffix_tests_never_return :
    (∀ fuel, ∃ q, parser_parse fuel (parser_on
      "robot TestBot \x7b\n  task move(speed: Percent) \x7b\n    wait(100ms)\n  \x7d\n\x7d") =
        .out_of_fuel q) ∧
    (∀ fuel, ∃ q, parser_parse fuel (parser_on
      "robot TestBot \x7b\n  schedule main @ 10Hz priority HIGH \x7b\n    stop()\n  \x7d\n\x7d") =
        .out_of_fuel q) ∧
    (advance^[8] (parser_on
      "robot TestBot \x7b\n  schedule main @ 10Hz priority HIGH \x7b\n    stop()\n  \x7d\n\x7d")).current.type =
        TOKEN_TYPE_HZ ∧
    (parser_parse 30 (parser_on
      "robot TestBot \x7b\n  schedule main @ 10Hz priority HIGH \x7b\n    stop()\n  \x7d\n\x7d")).state.diagnostics.map
        (fun d => d.message) = ["Expected '\x7b' before schedule body".toList] :=
  ⟨never_returns (N := 9) (by decide!), never_returns (N := 8) (by decide!), by decide!,
    by decide!⟩

end Parser

/-! ## Lexer theorems -/

namespace Lexer

theorem advance_current (lx : lexer_t) : (advance lx).2.current = lx.current.tail := rfl

theorem skip_line_comment_suffix :
    ∀ (n : Nat) (lx : lexer_t), (skip_line_comment n lx).current <:+ lx.current := by
  intro n
  induction n with
  | zero => intro lx; exact List.suffix_refl _
  | succ n ih =>
    intro lx
    unfold skip_line_comment
    split
    · exact (ih _).trans (List.tail_suffix _)
    · exact List.suffix_refl _

theorem skip_block_comment_suffix :
    ∀ (n : Nat) (lx : lexer_t), (skip_block_comment n lx).current <:+ lx.current := by
  intro n
  induction n with
  | zero => intro lx; exact List.suffix_refl _
  | succ n ih =>
    intro lx
    unfold skip_block_comment
    split
    · split
      · exact (List.tail_suffix _).trans (List.tail_suffix _)
      · refine (ih _).trans ?_
        simp only [advance_current]
        split <;> exact List.tail_suffix _
    · exact List.suffix_refl _

theorem skip_whitespace_loop_suffix :
    ∀ (n : Nat) (lx : lexer_t), (skip_whitespace_loop n lx).current <:+ lx.current := by
  intro n
  induction n with
  | zero => intro lx; exact List.suffix_refl _
  | succ n ih =>
    intro lx
    unfold skip_whitespace_loop
    dsimp only
    split
    · exact (ih _).trans (List.tail_suffix _)
    · split
      · exact List.suffix_refl _
      · split
        · split
          · exact (ih _).trans (skip_line_comment_suffix _ _)
          · split
            · exact (ih _).trans ((skip_block_comment_suffix _ _).trans
                ((List.tail_suffix _).trans (List.tail_suffix _)))
            · exact List.suffix_refl _
        · exact List.suffix_refl _

theorem skip_whitespace_suffix (lx : lexer_t) : (skip_whitespace lx).current <:+ lx.current :=
  skip_whitespace_loop_suffix _ lx

theorem identifier_loop_suffix :
    ∀ (n : Nat) (lx : lexer_t), (identifier_loop n lx).current <:+ lx.current := by
  intro n
  induction n with
  | zero => intro lx; exact List.suffix_refl _
  | succ n ih =>
    intro lx
    unfold identifier_loop
    split
    · exact (ih _).trans (List.tail_suffix _)
    · exact List.suffix_refl _

theorem digits_loop_suffix :
    ∀ (n : Nat) (lx : lexer_t), (digits_loop n lx).current <:+ lx.current := by
  intro n
  induction n with
  | zero => intro lx; exact List.suffix_refl _
  | succ n ih =>
    intro lx
    unfold digits_loop
    split
    · exact (ih _).trans (List.tail_suffix _)
    · exact List.suffix_refl _

theorem string_loop_suffix :
    ∀ (n : Nat) (lx : lexer_t), (string_loop n lx).current <:+ lx.current := by
  intro n
  induction n with
  | zero => intro lx; exact List.suffix_refl _
  | succ n ih =>
    intro lx
    unfold string_loop
    split
    · refine (ih _).trans ?_
      simp only [advance_current]
      split <;> exact List.tail_suffix _
    · exact List.suffix_refl _

theorem match_suffix (lx : lexer_t) (c : Char) : (match_ lx c).2.current <:+ lx.current := by
  unfold match_
  split
  · exact List.suffix_refl _
  · split
    · exact List.suffix_refl _
    · exact List.tail_suffix _

theorem check_keyword_in_mem (table : List (List Char × token_type_t)) (start : List Char)
    (length : Nat) :
    check_keyword_in table start length = TOKEN_IDENTIFIER ∨
      ∃ e ∈ table, e.2 = check_keyword_in table start length := by
  induction table with
  | nil => exact Or.inl rfl
  | cons e table ih =>
    obtain ⟨text, type⟩ := e
    unfold check_keyword_in
    split
    · exact Or.inr ⟨(text, type), List.mem_cons_self _ _, rfl⟩
    · rcases ih with h | ⟨e, he, h⟩
      · exact Or.inl h
      · exact Or.inr ⟨e, List.mem_cons_of_mem _ he, h⟩

theorem check_keyword_ne_eof (start : List Char) (length : Nat) :
    check_keyword start length ≠ TOKEN_EOF := by
  have htable : ∀ e ∈ keywords, e.2 ≠ TOKEN_EOF := by decide
  intro h
  rcases check_keyword_in_mem keywords start length with h' | ⟨e, he, h'⟩
  · unfold check_keyword at h
    rw [h'] at h
    cases h
  · exact htable e he (h'.trans h)


theorem identifier_type (lx : lexer_t) : (identifier lx).1.type ≠ TOKEN_EOF :=
  check_keyword_ne_eof _ _

theorem identifier_suffix (lx : lexer_t) : (identifier lx).2.current <:+ lx.current :=
  identifier_loop_suffix _ lx

theorem number_type (lx : lexer_t) : (number lx).1.type ≠ TOKEN_EOF := by
  simp [number, make_token]

theorem number_suffix (lx : lexer_t) : (number lx).2.current <:+ lx.current := by
  unfold number
  dsimp only
  split
  · exact (digits_loop_suffix _ _).trans ((List.tail_suffix _).trans (digits_loop_suffix _ _))
  · exact digits_loop_suffix _ _

theorem string_type (lx : lexer_t) : (string lx).1.type ≠ TOKEN_EOF := by
  unfold string
  dsimp only
  split <;> simp [make_token, error_token]

theorem string_suffix (lx : lexer_t) : (string lx).2.current <:+ lx.current := by
  unfold string
  dsimp only
  split
  · exact string_loop_suffix _ _
  · exact (List.tail_suffix _).trans (string_loop_suffix _ _)

theorem scanned_ite {base : List Char} {c : Prop} [Decidable c] {a b : token_t × lexer_t}
    (ha : c → Scanned base a) (hb : ¬c → Scanned base b) :
    Scanned base (if c then a else b) := by
  split
  · exact ha (by assumption)
  · exact hb (by assumption)

theorem scanned_make (l : lexer_t) (t : token_type_t) (h : t ≠ TOKEN_EOF) :
    Scanned l.current (make_token l t, l) :=
  ⟨h, List.suffix_refl _⟩

theorem scanned_error (l : lexer_t) (message : List Char) :
    Scanned l.current (error_token l message, l) :=
  ⟨by simp [error_token], List.suffix_refl _⟩

theorem scanned_match (l : lexer_t) (c : Char) (t : token_type_t) (h : t ≠ TOKEN_EOF) :
    Scanned l.current (make_token (match_ l c).2 t, (match_ l c).2) :=
  ⟨h, match_suffix _ _⟩

theorem scanned_match_error (l : lexer_t) (c : Char) (message : List Char) :
    Scanned l.current (error_token (match_ l c).2 message, (match_ l c).2) :=
  ⟨by simp [error_token], match_suffix _ _⟩

/-- A call that finds input left after the blanks and comments returns a
token other than end-of-input and moves the cursor past at least one
character. -/
theorem lexer_next_token_not_end (lx : lexer_t) (h : (skip_whitespace lx).current ≠ []) :
    Scanned (skip_whitespace lx).current.tail (lexer_next_token lx) := by
  have he : (skip_whitespace lx).current.isEmpty = false := by
    cases hc : (skip_whitespace lx).current with
    | nil => exact absurd hc h
    | cons _ _ => rfl
  unfold lexer_next_token
  simp only [is_at_end, he, Bool.false_eq_true, if_false]
  rcases hadv : advance _ with ⟨c, l2⟩
  have hbase : (skip_whitespace lx).current.tail = l2.current :=
    congrArg (fun p => p.2.current) hadv
  rw [hbase]
  dsimp only
  clear hadv hbase he h
  refine scanned_ite (fun _ => ⟨identifier_type _, identifier_suffix _⟩) (fun _ => ?_)
  refine scanned_ite (fun _ => ⟨number_type _, number_suffix _⟩) (fun _ => ?_)
  refine scanned_ite (fun _ => scanned_make _ _ (by decide)) (fun _ => ?_)
  refine scanned_ite (fun _ => scanned_make _ _ (by decide)) (fun _ => ?_)
  refine scanned_ite (fun _ => scanned_make _ _ (by decide)) (fun _ => ?_)
  refine scanned_ite (fun _ => scanned_make _ _ (by decide)) (fun _ => ?_)
  refine scanned_ite (fun _ => scanned_make _ _ (by decide)) (fun _ => ?_)
  refine scanned_ite (fun _ => scanned_make _ _ (by decide)) (fun _ => ?_)
  refine scanned_ite (fun _ => scanned_make _ _ (by decide)) (fun _ => ?_)
  refine scanned_ite (fun _ => scanned_make _ _ (by decide)) (fun _ => ?_)
  refine scanned_ite (fun _ => scanned_make _ _ (by decide)) (fun _ => ?_)
  refine scanned_ite (fun _ => scanned_make _ _ (by decide)) (fun _ => ?_)
  refine scanned_ite (fun _ => scanned_ite (fun _ => scanned_match _ _ _ (by decide))
    (fun _ => scanned_match _ _ _ (by decide))) (fun _ => ?_)
  refine scanned_ite (fun _ => scanned_make _ _ (by decide)) (fun _ => ?_)
  refine scanned_ite (fun _ => scanned_make _ _ (by decide)) (fun _ => ?_)
  refine scanned_ite (fun _ => scanned_make _ _ (by decide)) (fun _ => ?_)
  refine scanned_ite (fun _ => scanned_make _ _ (by decide)) (fun _ => ?_)
  refine scanned_ite (fun _ => scanned_match _ _ _ (by split <;> decide)) (fun _ => ?_)
  refine scanned_ite (fun _ => scanned_match _ _ _ (by split <;> decide)) (fun _ => ?_)
  refine scanned_ite (fun _ => scanned_match _ _ _ (by split <;> decide)) (fun _ => ?_)
  refine scanned_ite (fun _ => scanned_match _ _ _ (by split <;> decide)) (fun _ => ?_)
  refine scanned_ite (fun _ => scanned_ite (fun _ => scanned_match _ _ _ (by decide))
    (fun _ => scanned_match_error _ _ _)) (fun _ => ?_)
  refine scanned_ite (fun _ => scanned_ite (fun _ => scanned_match _ _ _ (by decide))
    (fun _ => scanned_match_error _ _ _)) (fun _ => ?_)
  refine scanned_ite (fun _ => scanned_ite (fun _ => scanned_match _ _ _ (by decide))
    (fun _ => scanned_match _ _ _ (by decide))) (fun _ => ?_)
  refine scanned_ite (fun _ => ⟨string_type _, string_suffix _⟩) (fun _ => ?_)
  refine scanned_ite (fun _ => ⟨by simp [make_token], List.suffix_refl _⟩) (fun _ => ?_)
  exact scanned_error _ _

theorem skip_whitespace_nil (lx : lexer_t) (h : lx.current = []) : skip_whitespace lx = lx := by
  simp [skip_whitespace, skip_whitespace_loop, h, peek, NUL]

theorem lexer_next_token_at_end (lx : lexer_t) (h : (skip_whitespace lx).current = []) :
    lexer_next_token lx =
      (make_token { skip_whitespace lx with start := [] } TOKEN_EOF,
       { skip_whitespace lx with start := [] }) := by
  unfold lexer_next_token
  simp [is_at_end, h]

/-- End-of-input is returned exactly when nothing but blanks and comments is left. -/
theorem eof_iff (lx : lexer_t) :
    (lexer_next_token lx).1.type = TOKEN_EOF ↔ (skip_whitespace lx).current = [] := by
  constructor
  · intro h
    by_contra hne
    exact (lexer_next_token_not_end lx hne).type h
  · intro h
    rw [lexer_next_token_at_end lx h]
    rfl

/-- After end-of-input the lexer is at a fixed point. -/
theorem eof_fixed (lx : lexer_t) (h : (lexer_next_token lx).1.type = TOKEN_EOF) :
    lexer_next_token (after_token lx) = ((lexer_next_token lx).1, after_token lx) := by
  have h0 := (eof_iff lx).mp h
  have h1 := lexer_next_token_at_end lx h0
  have h2 : after_token lx = { skip_whitespace lx with start := [] } := by
    unfold after_token
    rw [h1]
  have h3 : skip_whitespace (after_token lx) = after_token lx :=
    skip_whitespace_nil _ (by rw [h2]; exact h0)
  have h4 := lexer_next_token_at_end (after_token lx) (by rw [h3, h2]; exact h0)
  rw [h4, h3, h1, h2]

theorem after_token_iterate_fixed (lx : lexer_t)
    (h : (lexer_next_token lx).1.type = TOKEN_EOF) (k : Nat) :
    after_token^[k + 1] lx = after_token lx := by
  induction k with
  | zero => rfl
  | succ k ih =>
    rw [Function.iterate_succ_apply', ih]
    show (lexer_next_token (after_token lx)).2 = _
    rw [eof_fixed lx h]

/-- Claim C17 (idempotent tail).  Once a call of `lexer_next_token` has
returned an end-of-input token, every later call returns the same token again
(end-of-input, same line and column) and leaves the lexer state as it was. -/
theorem end_of_input_is_idempotent (lx : lexer_t)
    (h : (lexer_next_token lx).1.type = TOKEN_EOF) (k : Nat) :
    (lexer_next_token (after_token^[k + 1] lx)).1.type = TOKEN_EOF ∧
    (lexer_next_token (after_token^[k + 1] lx)).1 = (lexer_next_token lx).1 ∧
    (lexer_next_token (after_token^[k + 1] lx)).2 = after_token^[k + 1] lx := by
  rw [after_token_iterate_fixed lx h k, eof_fixed lx h]
  exact ⟨h, rfl, rfl⟩

theorem lexer_init_current (source : List Char) (filename : Option (List Char)) :
    (lexer_init source filename).current = source.takeWhile (fun c => c != NUL) := rfl

theorem lexer_init_length (source : List Char) (filename : Option (List Char)) :
    (lexer_init source filename).current.length ≤ source.length := by
  rw [lexer_init_current]
  exact (List.takeWhile_sublist _).length_le

/-- Each call returns end-of-input or consumes at least one character. -/
theorem progress (lx : lexer_t) :
    (lexer_next_token lx).1.type = TOKEN_EOF ∨
      (after_token lx).current.length < lx.current.length := by
  by_cases h : (skip_whitespace lx).current = []
  · exact Or.inl ((eof_iff lx).mpr h)
  · right
    have h1 := (lexer_next_token_not_end lx h).suffix.length_le
    have h2 := (skip_whitespace_suffix lx).length_le
    have h3 : (skip_whitespace lx).current.tail.length < (skip_whitespace lx).current.length := by
      cases hc : (skip_whitespace lx).current with
      | nil => exact absurd hc h
      | cons _ _ => simp
    unfold after_token
    omega

theorem reaches_eof : ∀ (n : Nat) (lx : lexer_t), lx.current.length ≤ n →
    ∃ k, k ≤ n ∧ (nth_token k lx).type = TOKEN_EOF := by
  intro n
  induction n with
  | zero =>
    intro lx hlen
    refine ⟨0, Nat.le_refl _, ?_⟩
    rcases progress lx with h | h
    · exact h
    · omega
  | succ n ih =>
    intro lx hlen
    rcases progress lx with h | h
    · exact ⟨0, Nat.zero_le _, h⟩
    · obtain ⟨k, hk, hk'⟩ := ih (after_token lx) (by omega)
      exact ⟨k + 1, by omega, hk'⟩

theorem digits_loop_digits (ds rest : List Char) (hds : ∀ d ∈ ds, isdigit d = true)
    (hrest : ∀ c, rest.head? = some c → isdigit c = false) :
    ∀ (n : Nat) (lx : lexer_t), lx.current = ds ++ rest → ds.length ≤ n →
      digits_loop n lx =
        { lx with current := rest, column := lx.column + (ds.length : Int) } := by
  induction ds with
  | nil =>
    intro n lx hcur _
    simp only [List.nil_append] at hcur
    have hlx : ({ lx with current := rest, column := lx.column + ((([] : List Char).length : Nat) : Int) } : lexer_t) = lx := by
      cases lx; simp at hcur ⊢; exact hcur.symm
    rw [hlx]
    cases n with
    | zero => rfl
    | succ m =>
      cases rest with
      | nil => simp [digits_loop, peek, hcur, NUL, isdigit]
      | cons c cs =>
        have := hrest c rfl
        simp [digits_loop, peek, hcur, this]
  | cons d ds ih =>
    intro n lx hcur hn
    obtain ⟨m, rfl⟩ : ∃ m, n = m + 1 := ⟨n - 1, by simp at hn; omega⟩
    have hd := hds d (List.mem_cons_self _ _)
    have := ih (fun c hc => hds c (List.mem_cons_of_mem _ hc)) m
      { lx with current := ds ++ rest, column := lx.column + 1 } rfl (by simp at hn; omega)
    simp only [digits_loop, peek, hcur, List.cons_append, List.headD_cons, advance,
      List.tail_cons, hd, if_true]
    rw [this]
    simp only [List.length_cons, Nat.cast_add, Nat.cast_one]
    congr 1
    omega

theorem digit_starts_token (d : Char) (rest : List Char) (hd : isdigit d = true) :
    starts_token (d :: rest) := by
  intro c hc
  simp only [List.head?_cons, Option.some.injEq] at hc
  subst hc
  refine ⟨?_, ?_, ?_, ?_⟩ <;> rintro rfl <;> simp [isdigit, Char.isDigit] at hd

theorem digit_not_alpha (d : Char) (hd : isdigit d = true) : (isalpha d || d == '_') = false := by
  have h3 : (d == '_') = false := by
    rw [beq_eq_false_iff_ne]
    rintro rfl
    exact absurd hd (by decide)
  simp only [isdigit, Char.isDigit, Bool.and_eq_true, decide_eq_true_eq] at hd
  have h1 : d.val.toNat ≤ 57 := hd.2
  have h2 : isalpha d = false := by
    simp only [isalpha, Char.isAlpha, Char.isUpper, Char.isLower, Bool.or_eq_false_iff,
      Bool.and_eq_false_iff, decide_eq_false_iff_not]
    constructor
    · left
      intro h
      have : (65 : Nat) ≤ d.val.toNat := h
      omega
    · left
      intro h
      have : (97 : Nat) ≤ d.val.toNat := h
      omega
  simp [h2, h3]

/-- Lexing digits up to a character that is neither a digit nor a point. -/
theorem lexer_next_token_integer (d : Char) (ds rest : List Char) (hd : isdigit d = true)
    (hds : ∀ c ∈ ds, isdigit c = true)
    (hrest : ∀ c, rest.head? = some c → isdigit c = false ∧ c ≠ '.')
    (lx : lexer_t) (hcur : lx.current = d :: ds ++ rest) :
    lexer_next_token lx =
      ({ type := TOKEN_NUMBER, start := d :: ds ++ rest, length := ds.length + 1,
         line := lx.line, column := lx.column },
       { lx with start := d :: ds ++ rest, current := rest,
                 column := lx.column + 1 + (ds.length : Int) }) := by
  have hsk := skip_whitespace_spaces [] (d :: ds ++ rest) (fun _ h => by cases h)
    (digit_starts_token d _ hd) lx (by simpa using hcur)
  have hna := digit_not_alpha d hd
  have hpt : (rest.headD NUL == '.') = false := by
    cases rest with
    | nil => simp [NUL]
    | cons c cs => simpa using (hrest c rfl).2
  unfold lexer_next_token
  rw [hsk]
  simp only [is_at_end, List.cons_append, List.isEmpty_cons, Bool.false_eq_true, if_false,
    advance, List.headD_cons, List.tail_cons, hna, hd, if_true, number, List.length_nil,
    Nat.cast_zero, add_zero]
  rw [digits_loop_digits ds rest hds (fun c hc => (hrest c hc).1) _ _ rfl (by simp)]
  simp only [peek, hpt, Bool.false_and, Bool.false_eq_true, if_false, make_token,
    List.length_cons, List.length_append]
  have h1 : ds.length + rest.length + 1 - rest.length = ds.length + 1 := by omega
  rw [h1]
  congr 2
  push_cast
  omega

/-- Lexing digits, a point and more digits up to a character that is no digit. -/
theorem lexer_next_token_decimal (d : Char) (ds : List Char) (f : Char) (fs rest : List Char)
    (hd : isdigit d = true) (hds : ∀ c ∈ ds, isdigit c = true) (hf : isdigit f = true)
    (hfs : ∀ c ∈ fs, isdigit c = true)
    (hrest : ∀ c, rest.head? = some c → isdigit c = false)
    (lx : lexer_t) (hcur : lx.current = d :: ds ++ '.' :: f :: fs ++ rest) :
    lexer_next_token lx =
      ({ type := TOKEN_NUMBER, start := d :: ds ++ '.' :: f :: fs ++ rest,
         length := ds.length + fs.length + 3, line := lx.line, column := lx.column },
       { lx with start := d :: ds ++ '.' :: f :: fs ++ rest, current := rest,
                 column := lx.column + 3 + (ds.length : Int) + (fs.length : Int) }) := by
  have hsk := skip_whitespace_spaces [] (d :: ds ++ '.' :: f :: fs ++ rest)
    (fun _ h => by cases h) (digit_starts_token d _ hd) lx (by simpa using hcur)
  have hna := digit_not_alpha d hd
  have hpoint : ∀ c, ('.' :: f :: (fs ++ rest)).head? = some c → isdigit c = false := by
    intro c hc
    simp only [List.head?_cons, Option.some.injEq] at hc
    subst hc
    decide
  unfold lexer_next_token
  rw [hsk]
  simp only [is_at_end, List.cons_append, List.isEmpty_cons, Bool.false_eq_true, if_false,
    advance, List.headD_cons, List.tail_cons, hna, hd, if_true, number, List.length_nil,
    Nat.cast_zero, add_zero, List.append_assoc]
  rw [digits_loop_digits ds ('.' :: f :: (fs ++ rest)) hds hpoint _ _ rfl (by simp)]
  simp only [peek, peek_next, is_at_end, List.headD_cons, List.isEmpty_cons, List.tail_cons,
    beq_self_eq_true, hf, Bool.and_self, Bool.false_eq_true, if_false, if_true]
  rw [digits_loop_digits (f :: fs) rest
    (fun c hc => by
      rcases List.mem_cons.mp hc with rfl | hc
      · exact hf
      · exact hfs c hc) hrest _ _ rfl (by simp)]
  simp only [make_token, List.length_cons, List.length_append]
  have h1 : ds.length + (fs.length + rest.length + 1 + 1) + 1 - rest.length =
      ds.length + fs.length + 3 := by omega
  rw [h1]
  congr 2 <;> (push_cast; omega)

theorem numeral_spec (w : List Char) (hw : is_numeral w = true) :
    ∃ d ds, isdigit d = true ∧ (∀ c ∈ ds, isdigit c = true) ∧
      (w = d :: ds ∨ ∃ f fs, isdigit f = true ∧ (∀ c ∈ fs, isdigit c = true) ∧
        w = d :: ds ++ '.' :: f :: fs) := by
  have hsplit : w.takeWhile isdigit ++ w.dropWhile isdigit = w := List.takeWhile_append_dropWhile _ _
  have hall : ∀ c ∈ w.takeWhile isdigit, isdigit c = true := fun c hc => List.mem_takeWhile_imp hc
  simp only [is_numeral, Bool.and_eq_true, Bool.not_eq_true', Bool.or_eq_true] at hw
  obtain ⟨hwhole, htail⟩ := hw
  cases hwh : w.takeWhile isdigit with
  | nil => rw [hwh] at hwhole; cases hwhole
  | cons d ds =>
    rw [hwh] at hall hsplit
    refine ⟨d, ds, hall d (List.mem_cons_self _ _),
      fun c hc => hall c (List.mem_cons_of_mem _ hc), ?_⟩
    cases htl : w.dropWhile isdigit with
    | nil =>
      left
      rw [htl] at hsplit
      simpa using hsplit.symm
    | cons p t =>
      right
      rw [htl] at htail hsplit
      rcases htail with htail | htail
      · cases htail
      · simp only [List.head?_cons, beq_iff_eq, Option.some.injEq, List.tail_cons,
          List.all_eq_true] at htail
        obtain ⟨⟨hp, hne⟩, hdig⟩ := htail
        subst hp
        cases t with
        | nil => cases hne
        | cons f fs =>
          exact ⟨f, fs, hdig f (List.mem_cons_self _ _),
            fun c hc => hdig c (List.mem_cons_of_mem _ hc), hsplit.symm⟩

theorem alpha_not_digit (c : Char) (hc : isalpha c = true) : isdigit c = false ∧ c ≠ '.' := by
  constructor
  · cases hd : isdigit c with
    | false => rfl
    | true =>
      have := digit_not_alpha c hd
      simp [hc] at this
  · rintro rfl
    exact absurd hc (by decide)

theorem lexer_init_eq (source : List Char) (filename : Option (List Char))
    (h : ∀ c ∈ source, c ≠ NUL) :
    lexer_init source filename =
      { source := source, start := source, current := source, line := 1, column := 1,
        filename := filename } := by
  have : source.takeWhile (fun c => c != NUL) = source := by
    rw [List.takeWhile_eq_self_iff]
    intro c hc
    simpa using h c hc
  simp only [lexer_init, this]

/-- Claim C13.  For every decimal numeral `w` (digits, optionally a point and
more digits) followed by a letter, `lexer_next_token` returns one NUMBER token
that starts at the cursor and whose text is exactly `w`, and leaves the cursor
at that letter; and `100ms` lexes, for every file name, to NUMBER `100`, the
unit keyword token `ms`, and end-of-input. -/
theorem number_token (w : List Char) (c : Char) (rest : List Char)
    (hw : is_numeral w = true) (hc : isalpha c = true) (lx : lexer_t)
    (hcur : lx.current = w ++ c :: rest) :
    ((lexer_next_token lx).1.type = TOKEN_NUMBER ∧
      (lexer_next_token lx).1.start = lx.current ∧
      token_to_string (lexer_next_token lx).1 = w ∧
      (after_token lx).current = c :: rest) ∧
    (∀ filename : Option (List Char),
      (nth_token 0 (lexer_init "100ms".toList filename)).type = TOKEN_NUMBER ∧
      token_to_string (nth_token 0 (lexer_init "100ms".toList filename)) = "100".toList ∧
      (nth_token 1 (lexer_init "100ms".toList filename)).type = TOKEN_TYPE_MS ∧
      token_to_string (nth_token 1 (lexer_init "100ms".toList filename)) = "ms".toList ∧
      (nth_token 2 (lexer_init "100ms".toList filename)).type = TOKEN_EOF) := by
  constructor
  · have hrest : ∀ a, (c :: rest).head? = some a → isdigit a = false ∧ a ≠ '.' := by
      intro a ha
      simp only [List.head?_cons, Option.some.injEq] at ha
      subst ha
      exact alpha_not_digit _ hc
    obtain ⟨d, ds, hd, hds, hform | ⟨f, fs, hf, hfs, hform⟩⟩ := numeral_spec w hw
    · subst hform
      have h := lexer_next_token_integer d ds (c :: rest) hd hds hrest lx hcur
      unfold after_token
      rw [h]
      refine ⟨rfl, hcur.symm, ?_, rfl⟩
      simp [token_to_string]
    · subst hform
      have h := lexer_next_token_decimal d ds f fs (c :: rest) hd hds hf hfs
        (fun a ha => (hrest a ha).1) lx hcur
      unfold after_token
      rw [h]
      refine ⟨rfl, hcur.symm, ?_, rfl⟩
      simp only [token_to_string]
      rw [show ds.length + fs.length + 3 = (d :: ds ++ '.' :: f :: fs).length by
        simp; omega]
      exact List.take_left' rfl
  · intro filename
    have h0 := lexer_init_eq "100ms".toList filename (by decide)
    have h1 := lexer_next_token_integer '1' ['0', '0'] ['m', 's'] (by decide) (by decide)
      (by decide) _ (congrArg lexer_t.current h0)
    have e1 := congrArg Prod.snd h1
    have h2 := lexer_next_token_word [] 'm' ['s'] [] (fun _ h => by cases h) (by decide)
      (by decide) (fun _ h => by cases h) _ (congrArg lexer_t.current e1)
    have e2 := congrArg Prod.snd h2
    have h3 := lexer_next_token_end _ (congrArg lexer_t.current e2)
    simp only [nth_token, Function.iterate_zero, Function.iterate_succ, Function.comp_apply,
      id_eq, after_token]
    refine ⟨?_, ?_, ?_, ?_, h3⟩
    · rw [h1]
    · rw [h1]
      rfl
    · rw [h2]
      show check_keyword ['m', 's'] 2 = TOKEN_TYPE_MS
      decide
    · rw [h2]
      rfl

/-- Witness of C13 on `3.14abc`. -/
theorem number_token_witness :
    (lexer_next_token (lexer_init "3.14abc".toList none)).1.type = TOKEN_NUMBER ∧
    token_to_string (lexer_next_token (lexer_init "3.14abc".toList none)).1 = "3.14".toList ∧
    (after_token (lexer_init "3.14abc".toList none)).current = "abc".toList :=
  have h := (number_token "3.14".toList 'a' "bc".toList (by decide) (by decide)
    (lexer_init "3.14abc".toList none) (by decide)).1
  ⟨h.1, h.2.2.1, h.2.2.2⟩

theorem string_loop_unterminated (body : List Char) (hbody : '"' ∉ body) :
    ∀ (n : Nat) (lx : lexer_t), lx.current = body → body.length ≤ n →
      (string_loop n lx).current = [] := by
  induction body with
  | nil =>
    intro n lx hcur _
    cases n with
    | zero => exact hcur
    | succ m => simp [string_loop, is_at_end, hcur]
  | cons c cs ih =>
    intro n lx hcur hn
    obtain ⟨m, rfl⟩ : ∃ m, n = m + 1 := ⟨n - 1, by simp at hn; omega⟩
    have hc : c ≠ '"' := fun h => hbody (h ▸ List.mem_cons_self _ _)
    have hcs : '"' ∉ cs := fun h => hbody (List.mem_cons_of_mem _ h)
    have hcb : (c != '"') = true := by simpa using hc
    unfold string_loop
    simp only [peek, is_at_end, hcur, List.headD_cons, List.isEmpty_cons, hcb, Bool.not_false,
      Bool.and_self, if_true]
    apply ih hcs
    · simp only [advance_current]
      split <;> simp [hcur]
    · simp at hn
      omega

/-- Claim C19.  When the next character after blanks and comments is a `"`
that no later `"` follows, `lexer_next_token` returns an ERROR token whose
text is the static message `Unterminated string`, the cursor is left at the end
of the input, and the next token is end-of-input. -/
theorem unterminated_string (lx : lexer_t) (rest : List Char)
    (hcur : (skip_whitespace lx).current = '"' :: rest) (hrest : '"' ∉ rest) :
    (lexer_next_token lx).1.type = TOKEN_ERROR ∧
    (lexer_next_token lx).1.start = "Unterminated string".toList ∧
    token_to_string (lexer_next_token lx).1 = "Unterminated string".toList ∧
    (after_token lx).current = [] ∧
    (nth_token 1 lx).type = TOKEN_EOF := by
  have hend : (string_loop rest.length
      { skip_whitespace lx with
        start := '"' :: rest, current := rest, column := (skip_whitespace lx).column + 1 }).current = [] :=
    string_loop_unterminated rest hrest _ _ rfl (Nat.le_refl _)
  have h : lexer_next_token lx =
      (error_token (string_loop rest.length
          { skip_whitespace lx with
            start := '"' :: rest, current := rest, column := (skip_whitespace lx).column + 1 }) "Unterminated string".toList,
        string_loop rest.length
          { skip_whitespace lx with
            start := '"' :: rest, current := rest, column := (skip_whitespace lx).column + 1 }) := by
    unfold lexer_next_token
    simp only [is_at_end, hcur, List.isEmpty_cons, Bool.false_eq_true, if_false, advance,
      List.headD_cons, List.tail_cons]
    simp only [show (isalpha '"' || '"' == '_') = false by decide,
      show isdigit '"' = false by decide, Bool.false_eq_true, if_false]
    simp only [show ('"' == '(') = false by decide, show ('"' == ')') = false by decide,
      show ('"' == '{') = false by decide, show ('"' == '}') = false by decide,
      show ('"' == '[') = false by decide, show ('"' == ']') = false by decide,
      show ('"' == ',') = false by decide, show ('"' == '.') = false by decide,
      show ('"' == ';') = false by decide, show ('"' == '+') = false by decide,
      show ('"' == '-') = false by decide, show ('"' == '*') = false by decide,
      show ('"' == '/') = false by decide, show ('"' == '%') = false by decide,
      show ('"' == '@') = false by decide, show ('"' == '!') = false by decide,
      show ('"' == '=') = false by decide, show ('"' == '<') = false by decide,
      show ('"' == '>') = false by decide, show ('"' == '&') = false by decide,
      show ('"' == '|') = false by decide, show ('"' == ':') = false by decide,
      Bool.false_eq_true, if_false, beq_self_eq_true, if_true]
    simp only [string, is_at_end, hend, List.isEmpty_nil, if_true]
  have hafter : (after_token lx).current = [] := by
    unfold after_token
    rw [h]
    exact hend
  refine ⟨?_, ?_, ?_, hafter, lexer_next_token_end _ hafter⟩
  · rw [h]; rfl
  · rw [h]; rfl
  · rw [h]; rfl

/-- Witness of C19 on the source `say "abc`. -/
theorem unterminated_string_witness :
    (nth_token 1 (lexer_init "say \"abc".toList none)).type = TOKEN_ERROR ∧
    token_to_string (nth_token 1 (lexer_init "say \"abc".toList none)) =
      "Unterminated string".toList ∧
    (nth_token 2 (lexer_init "say \"abc".toList none)).type = TOKEN_EOF :=
  have h := unterminated_string (after_token (lexer_init "say \"abc".toList none))
    "abc".toList (by decide!) (by decide)
  ⟨h.1, h.2.2.1, h.2.2.2.2⟩

theorem skip_line_comment_body (body rest : List Char) (hbody : '\n' ∉ body) :
    ∀ (n : Nat) (lx : lexer_t), lx.current = body ++ '\n' :: rest → body.length ≤ n →
      (skip_line_comment n lx).current = '\n' :: rest := by
  induction body with
  | nil =>
    intro n lx hcur _
    cases n with
    | zero => exact hcur
    | succ m => simp [skip_line_comment, peek, hcur]
  | cons c cs ih =>
    intro n lx hcur hn
    obtain ⟨m, rfl⟩ : ∃ m, n = m + 1 := ⟨n - 1, by simp at hn; omega⟩
    have hc : (c != '\n') = true := by
      have : c ≠ '\n' := fun h => hbody (h ▸ List.mem_cons_self _ _)
      simpa using this
    unfold skip_line_comment
    simp only [peek, is_at_end, hcur, List.cons_append, List.headD_cons, List.isEmpty_cons, hc,
      Bool.not_false, Bool.and_self, if_true]
    exact ih (fun h => hbody (List.mem_cons_of_mem _ h)) m _ (by simp [advance_current, hcur])
      (by simp at hn; omega)

theorem skip_block_comment_closed (body rest : List Char) (hbody : ¬ ['*', '/'] <:+: body) :
    ∀ (n : Nat) (lx : lexer_t), lx.current = body ++ '*' :: '/' :: rest → body.length < n →
      (skip_block_comment n lx).current = rest := by
  induction body with
  | nil =>
    intro n lx hcur hn
    obtain ⟨m, rfl⟩ : ∃ m, n = m + 1 := ⟨n - 1, by simp at hn; omega⟩
    simp [skip_block_comment, peek, peek_next, is_at_end, hcur, advance]
  | cons c cs ih =>
    intro n lx hcur hn
    obtain ⟨m, rfl⟩ : ∃ m, n = m + 1 := ⟨n - 1, by simp at hn; omega⟩
    have hcs : ¬ ['*', '/'] <:+: cs := fun h => hbody (h.trans (List.infix_cons (List.infix_refl _)))
    have hclose : (c == '*' && (cs ++ '*' :: '/' :: rest).headD NUL == '/') = false := by
      rw [Bool.and_eq_false_iff]
      by_cases h1 : c = '*'
      · right
        subst h1
        cases cs with
        | nil => simp
        | cons d ds =>
          simp only [List.cons_append, List.headD_cons, beq_eq_false_iff_ne, ne_eq]
          rintro rfl
          exact hbody ⟨[], ds, rfl⟩
      · left
        simpa using h1
    unfold skip_block_comment
    simp only [peek, peek_next, is_at_end, hcur, List.cons_append, List.headD_cons,
      List.isEmpty_cons, List.tail_cons, Bool.not_false, Bool.false_eq_true, if_false, if_true,
      hclose]
    apply ih hcs
    · simp only [advance_current]
      split <;> simp [hcur]
    · simp at hn
      omega

/-- Blanks and comments in front of a line break are stepped over up to that
line break, never beyond it. -/
theorem skip_whitespace_loop_skipped (pre : List Char) (hpre : Skipped pre) :
    ∀ (rest : List Char) (n : Nat) (lx : lexer_t), lx.current = pre ++ '\n' :: rest →
      pre.length < n → (skip_whitespace_loop n lx).current = '\n' :: rest := by
  induction hpre with
  | nil =>
    intro rest n lx hcur hn
    obtain ⟨m, rfl⟩ : ∃ m, n = m + 1 := ⟨n - 1, by simp at hn; omega⟩
    simp [skip_whitespace_loop, peek, hcur]
  | blank c t hc _ ih =>
    intro rest n lx hcur hn
    obtain ⟨m, rfl⟩ : ∃ m, n = m + 1 := ⟨n - 1, by simp at hn; omega⟩
    have hb : (c == ' ' || c == '\r' || c == '\t') = true := by
      rcases hc with rfl | rfl | rfl <;> decide
    unfold skip_whitespace_loop
    simp only [peek, hcur, List.cons_append, List.headD_cons, hb, if_true]
    exact ih rest m _ (by simp [advance_current, hcur]) (by simp at hn; omega)
  | block_comment body t hbody _ ih =>
    intro rest n lx hcur hn
    obtain ⟨m, rfl⟩ : ∃ m, n = m + 1 := ⟨n - 1, by simp at hn; omega⟩
    unfold skip_whitespace_loop
    simp only [peek, peek_next, is_at_end, hcur, List.cons_append, List.headD_cons,
      List.isEmpty_cons, List.tail_cons, Bool.false_eq_true, if_false,
      show ('/' == ' ' || '/' == '\r' || '/' == '\t') = false by decide,
      show ('/' == '\n') = false by decide, show ('*' == '/') = false by decide,
      beq_self_eq_true, if_true]
    apply ih rest m
    · exact skip_block_comment_closed body (t ++ '\n' :: rest) hbody _ _
        (by simp [advance_current, hcur]) (by simp [advance_current, hcur])
    · simp at hn
      omega
  | line_comment body hbody =>
    intro rest n lx hcur hn
    obtain ⟨m, rfl⟩ : ∃ m, n = m + 1 := ⟨n - 1, by simp at hn; omega⟩
    obtain ⟨k, rfl⟩ : ∃ k, m = k + 1 := ⟨m - 1, by simp at hn; omega⟩
    have hline : (skip_line_comment lx.current.length lx).current = '\n' :: rest :=
      skip_line_comment_body ('/' :: '/' :: body) rest
        (by
          intro h
          rcases List.mem_cons.mp h with h | h
          · exact absurd h (by decide)
          · rcases List.mem_cons.mp h with h | h
            · exact absurd h (by decide)
            · exact hbody h)
        _ lx (by simpa using hcur) (by simp [hcur])
    unfold skip_whitespace_loop
    simp only [peek, peek_next, is_at_end, hcur, List.cons_append, List.headD_cons,
      List.isEmpty_cons, List.tail_cons, Bool.false_eq_true, if_false,
      show ('/' == ' ' || '/' == '\r' || '/' == '\t') = false by decide,
      show ('/' == '\n') = false by decide, beq_self_eq_true, if_true]
    have hlen : ('/' :: '/' :: (body ++ '\n' :: rest)).length = lx.current.length := by
      rw [hcur]
      rfl
    rw [hlen]
    unfold skip_whitespace_loop
    simp [peek, hline]

theorem skip_whitespace_skipped (pre rest : List Char) (hpre : Skipped pre) (lx : lexer_t)
    (hcur : lx.current = pre ++ '\n' :: rest) :
    (skip_whitespace lx).current = '\n' :: rest :=
  skip_whitespace_loop_skipped pre hpre rest _ lx hcur (by simp [hcur]; omega)

theorem lexer_next_token_at_newline (lx : lexer_t) (rest : List Char)
    (hcur : (skip_whitespace lx).current = '\n' :: rest) :
    lexer_next_token lx =
      ({ type := TOKEN_NEWLINE, start := '\n' :: rest, length := 1,
         line := (skip_whitespace lx).line + 1, column := 0 },
       { skip_whitespace lx with
         start := '\n' :: rest, current := rest, line := (skip_whitespace lx).line + 1,
         column := 1 }) := by
  unfold lexer_next_token
  simp [is_at_end, hcur, advance, isalpha, isdigit, make_token]

theorem no_close_cons (c : Char) (cs : List Char) (hcs : ¬ ['*', '/'] <:+: cs)
    (hc : ¬ (c = '*' ∧ cs.head? = some '/')) : ¬ ['*', '/'] <:+: c :: cs := by
  intro h
  rcases List.infix_cons_iff.mp h with hp | hi
  · obtain ⟨t, ht⟩ := hp
    simp only [List.cons_append, List.nil_append, List.cons.injEq] at ht
    obtain ⟨h1, h2⟩ := ht
    exact hc ⟨h1.symm, by rw [← h2]; rfl⟩
  · exact hcs hi

/-- What the block comment loop steps over: a body without star-slash and
the star-slash that closes it, or, when no star-slash is left, everything. -/
theorem skip_block_comment_spec : ∀ (n : Nat) (lx : lexer_t), lx.current.length ≤ n →
    (∃ body rest, lx.current = body ++ '*' :: '/' :: rest ∧ ¬ ['*', '/'] <:+: body ∧
        (skip_block_comment n lx).current = rest) ∨
      (¬ ['*', '/'] <:+: lx.current ∧ (skip_block_comment n lx).current = []) := by
  intro n
  induction n with
  | zero =>
    intro lx hn
    have hcur : lx.current = [] := List.length_eq_zero.mp (Nat.le_zero.mp hn)
    right
    refine ⟨?_, hcur⟩
    rw [hcur]
    rintro ⟨s, t, h⟩
    simp at h
  | succ n ih =>
    intro lx hn
    cases hcur : lx.current with
    | nil =>
      right
      refine ⟨?_, by simp [skip_block_comment, is_at_end, hcur]⟩
      rintro ⟨s, t, h⟩
      simp at h
    | cons c cs =>
      by_cases hclose : c = '*' ∧ cs.head? = some '/'
      · left
        obtain ⟨rfl, hhead⟩ := hclose
        cases cs with
        | nil => cases hhead
        | cons d ds =>
          simp only [List.head?_cons, Option.some.injEq] at hhead
          subst hhead
          refine ⟨[], ds, rfl, ?_, ?_⟩
          · rintro ⟨s, t, h⟩
            simp at h
          · simp [skip_block_comment, is_at_end, peek, peek_next, hcur, advance]
      · have hcond : (peek lx == '*' && peek_next lx == '/') = false := by
          rw [Bool.and_eq_false_iff]
          by_cases h1 : c = '*'
          · right
            cases cs with
            | nil => simp [peek_next, is_at_end, hcur, NUL]
            | cons d ds =>
              have : d ≠ '/' := fun h => hclose ⟨h1, by rw [h]; rfl⟩
              simpa [peek_next, is_at_end, hcur] using this
          · left
            simpa [peek, hcur] using h1
        have hstep : skip_block_comment (n + 1) lx =
            skip_block_comment n
              (advance (if peek lx == '\n' then
                { lx with line := lx.line + 1, column := 0 } else lx)).2 := by
          rw [skip_block_comment]
          simp only [is_at_end, hcur, List.isEmpty_cons, Bool.not_false, if_true, hcond,
            Bool.false_eq_true, if_false]
        have hnext : (advance (if peek lx == '\n' then
            { lx with line := lx.line + 1, column := 0 } else lx)).2.current = cs := by
          simp only [advance_current]
          split <;> simp [hcur]
        rw [hstep]
        rcases ih _ (by rw [hnext]; rw [hcur] at hn; simp at hn; omega) with
          ⟨body, rest, h1, h2, h3⟩ | ⟨h1, h2⟩
        · left
          rw [hnext] at h1
          refine ⟨c :: body, rest, by rw [h1]; rfl, ?_, h3⟩
          apply no_close_cons c body h2
          rintro ⟨hc1, hc2⟩
          apply hclose
          refine ⟨hc1, ?_⟩
          rw [h1]
          cases body with
          | nil => cases hc2
          | cons b bs => exact hc2
        · right
          rw [hnext] at h1
          exact ⟨no_close_cons c cs h1 hclose, h2⟩

/-- What the line comment loop steps over: everything up to the end of the
line, and not the line break. -/
theorem skip_line_comment_spec : ∀ (n : Nat) (lx : lexer_t), lx.current.length ≤ n →
    ∃ body, '\n' ∉ body ∧ lx.current = body ++ (skip_line_comment n lx).current ∧
      ((skip_line_comment n lx).current = [] ∨
        (skip_line_comment n lx).current.head? = some '\n') := by
  intro n
  induction n with
  | zero =>
    intro lx hn
    have hcur : lx.current = [] := List.length_eq_zero.mp (Nat.le_zero.mp hn)
    exact ⟨[], by simp, by simp [skip_line_comment], Or.inl hcur⟩
  | succ n ih =>
    intro lx hn
    cases hcur : lx.current with
    | nil =>
      refine ⟨[], by simp, ?_, Or.inl ?_⟩ <;> simp [skip_line_comment, is_at_end, hcur]
    | cons c cs =>
      by_cases hc : c = '\n'
      · subst hc
        refine ⟨[], by simp, ?_, Or.inr ?_⟩ <;> simp [skip_line_comment, peek, hcur]
      · have hstep : skip_line_comment (n + 1) lx = skip_line_comment n (advance lx).2 := by
          rw [skip_line_comment]
          have : (c != '\n') = true := by simpa using hc
          simp [peek, is_at_end, hcur, this]
        have hnext : (advance lx).2.current = cs := by simp [advance_current, hcur]
        obtain ⟨body, h1, h2, h3⟩ := ih (advance lx).2
          (by rw [hnext]; rw [hcur] at hn; simp at hn; omega)
        rw [hstep]
        refine ⟨c :: body, ?_, ?_, h3⟩
        · intro h
          rcases List.mem_cons.mp h with h | h
          · exact hc h.symm
          · exact h1 h
        · rw [hnext] at h2
          rw [List.cons_append, ← h2]

theorem skip_whitespace_loop_stop (n : Nat) (lx : lexer_t)
    (h : lx.current = [] ∨ lx.current.head? = some '\n') : skip_whitespace_loop n lx = lx := by
  cases n with
  | zero => rfl
  | succ n =>
    rcases h with h | h
    · simp [skip_whitespace_loop, peek, h, NUL]
    · cases hcur : lx.current with
      | nil => simp [skip_whitespace_loop, peek, hcur, NUL]
      | cons c cs =>
        rw [hcur] at h
        simp only [List.head?_cons, Option.some.injEq] at h
        subst h
        simp [skip_whitespace_loop, peek, hcur]

/-- What `skip_whitespace` steps over: blanks and comments in the sense of
`Skipped`, or such a text followed by a block comment that is never closed and
runs to the end of the input. -/
theorem skip_whitespace_loop_spec : ∀ (n : Nat) (lx : lexer_t), lx.current.length ≤ n →
    ∃ pre, lx.current = pre ++ (skip_whitespace_loop n lx).current ∧
      (Skipped pre ∨
        ((skip_whitespace_loop n lx).current = [] ∧
          ∃ p body, pre = p ++ '/' :: '*' :: body ∧ Skipped p ∧ ¬ ['*', '/'] <:+: body)) := by
  intro n
  induction n with
  | zero =>
    intro lx _
    exact ⟨[], rfl, Or.inl Skipped.nil⟩
  | succ n ih =>
    intro lx hn
    cases hcur : lx.current with
    | nil =>
      refine ⟨[], ?_, Or.inl Skipped.nil⟩
      rw [skip_whitespace_loop_stop _ lx (Or.inl hcur), hcur]
      rfl
    | cons c cs =>
      have hlen : cs.length ≤ n := by
        rw [hcur] at hn
        simp at hn
        omega
      by_cases hb : c = ' ' ∨ c = '\r' ∨ c = '\t'
      · have hbb : (c == ' ' || c == '\r' || c == '\t') = true := by
          rcases hb with rfl | rfl | rfl <;> decide
        have hstep : skip_whitespace_loop (n + 1) lx =
            skip_whitespace_loop n (advance lx).2 := by
          rw [skip_whitespace_loop]
          simp only [peek, hcur, List.headD_cons, hbb, if_true]
        have hnext : (advance lx).2.current = cs := by simp [advance_current, hcur]
        obtain ⟨pre, h1, h2⟩ := ih (advance lx).2 (by rw [hnext]; exact hlen)
        rw [hstep]
        rw [hnext] at h1
        refine ⟨c :: pre, by rw [List.cons_append, ← h1], ?_⟩
        rcases h2 with h2 | ⟨h2, p, body, h3, h4, h5⟩
        · exact Or.inl (Skipped.blank c pre hb h2)
        · exact Or.inr ⟨h2, c :: p, body, by rw [h3]; rfl, Skipped.blank c p hb h4, h5⟩
      · have hbb : (c == ' ' || c == '\r' || c == '\t') = false := by
          simp only [not_or] at hb
          simp [hb.1, hb.2.1, hb.2.2]
        by_cases hslash : c = '/'
        · subst hslash
          by_cases hline : cs.head? = some '/'
          · -- a line comment
            have hpn : peek_next lx = '/' := by
              cases cs with
              | nil => cases hline
              | cons d ds =>
                simp only [List.head?_cons, Option.some.injEq] at hline
                simp [peek_next, is_at_end, hcur, hline]
            have hstep : skip_whitespace_loop (n + 1) lx =
                skip_whitespace_loop n (skip_line_comment lx.current.length lx) := by
              rw [skip_whitespace_loop]
              simp only [peek, hcur, List.headD_cons, hbb, Bool.false_eq_true, if_false,
                show ('/' == '\n') = false by decide, beq_self_eq_true, if_true]
              rw [← hcur]
              simp only [hpn, beq_self_eq_true, if_true]
            obtain ⟨body, h1, h2, h3⟩ := skip_line_comment_spec lx.current.length lx
              (Nat.le_refl _)
            rw [hstep, skip_whitespace_loop_stop _ _ h3]
            generalize (skip_line_comment lx.current.length lx).current = X at h2 h3 ⊢
            refine ⟨body, by rw [← hcur]; exact h2, Or.inl ?_⟩
            -- the body starts with the two slashes
            rw [hcur] at h2
            cases cs with
            | nil => cases hline
            | cons d ds =>
              simp only [List.head?_cons, Option.some.injEq] at hline
              subst hline
              cases body with
              | nil =>
                simp only [List.nil_append] at h2
                subst h2
                rcases h3 with h3 | h3 <;> cases h3
              | cons b1 body =>
                simp only [List.cons_append, List.cons.injEq] at h2
                obtain ⟨rfl, h2⟩ := h2
                cases body with
                | nil =>
                  simp only [List.nil_append] at h2
                  subst h2
                  rcases h3 with h3 | h3 <;> cases h3
                | cons b2 body =>
                  simp only [List.cons_append, List.cons.injEq] at h2
                  obtain ⟨rfl, h2⟩ := h2
                  exact Skipped.line_comment body
                    (fun h => h1 (List.mem_cons_of_mem _ (List.mem_cons_of_mem _ h)))
          · by_cases hblock : cs.head? = some '*'
            · -- a block comment
              cases cs with
              | nil => cases hblock
              | cons d ds =>
                simp only [List.head?_cons, Option.some.injEq] at hblock
                subst hblock
                have hstep : skip_whitespace_loop (n + 1) lx =
                    skip_whitespace_loop n
                      (skip_block_comment (advance (advance lx).2).2.current.length
                        (advance (advance lx).2).2) := by
                  rw [skip_whitespace_loop]
                  simp only [peek, peek_next, is_at_end, hcur, List.headD_cons,
                    List.isEmpty_cons, List.tail_cons, hbb, Bool.false_eq_true, if_false,
                    show ('/' == '\n') = false by decide, show ('*' == '/') = false by decide,
                    beq_self_eq_true, if_true]
                have hnext : (advance (advance lx).2).2.current = ds := by
                  simp [advance_current, hcur]
                rw [hstep]
                rcases skip_block_comment_spec _ (advance (advance lx).2).2 (Nat.le_refl _) with
                  ⟨body, rest, h1, h2, h3⟩ | ⟨h1, h2⟩
                · rw [hnext] at h1
                  obtain ⟨pre, h4, h5⟩ := ih
                    (skip_block_comment (advance (advance lx).2).2.current.length
                      (advance (advance lx).2).2)
                    (by
                      rw [h3]
                      rw [h1] at hlen
                      simp at hlen
                      omega)
                  rw [h3] at h4
                  refine ⟨'/' :: '*' :: (body ++ '*' :: '/' :: pre), ?_, ?_⟩
                  · rw [h1, h4]
                    simp
                  · rcases h5 with h5 | ⟨h5, p, b, h6, h7, h8⟩
                    · exact Or.inl (Skipped.block_comment body pre h2 h5)
                    · refine Or.inr ⟨h5, '/' :: '*' :: (body ++ '*' :: '/' :: p), b, ?_,
                        Skipped.block_comment body p h2 h7, h8⟩
                      rw [h6]
                      simp
                · rw [hnext] at h1
                  rw [skip_whitespace_loop_stop _ _ (Or.inl h2), h2]
                  exact ⟨'/' :: '*' :: ds, by simp,
                    Or.inr ⟨rfl, [], ds, rfl, Skipped.nil, h1⟩⟩
            · -- a slash that starts no comment
              have hstep : skip_whitespace_loop (n + 1) lx = lx := by
                rw [skip_whitespace_loop]
                cases cs with
                | nil => simp [peek, peek_next, is_at_end, hcur, NUL]
                | cons d ds =>
                  have h1 : d ≠ '/' := fun h => hline (by rw [h]; rfl)
                  have h2 : d ≠ '*' := fun h => hblock (by rw [h]; rfl)
                  simp [peek, peek_next, is_at_end, hcur, h1, h2]
              rw [hstep, hcur]
              exact ⟨[], rfl, Or.inl Skipped.nil⟩
        · have hstep : skip_whitespace_loop (n + 1) lx = lx := by
            rw [skip_whitespace_loop]
            have : (c == '/') = false := by simpa using hslash
            simp only [peek, hcur, List.headD_cons, hbb, Bool.false_eq_true, if_false, this]
            split <;> rfl
          rw [hstep, hcur]
          exact ⟨[], rfl, Or.inl Skipped.nil⟩

/-- Claim C14 (newlines are significant).  Whenever the next character after
the blanks and comments that `skip_whitespace` steps over is a line break,
`lexer_next_token` returns a NEWLINE token of length 1 that starts at that line
break, and leaves the cursor right behind it.  A line break that follows
spaces, tabs, carriage returns, closed block comments and a line comment is
not stepped over by `skip_whitespace`: it is that next character.  And what
`skip_whitespace` steps over is always such a text, or such a text followed by
a block comment that is never closed and runs to the end of the input: a line
break is stepped over only inside a block comment. -/
theorem newline_is_a_token (lx : lexer_t) (rest : List Char) :
    ((skip_whitespace lx).current = '\n' :: rest →
      (lexer_next_token lx).1.type = TOKEN_NEWLINE ∧
      (lexer_next_token lx).1.start = '\n' :: rest ∧
      (lexer_next_token lx).1.length = 1 ∧
      (after_token lx).current = rest) ∧
    (∀ pre : List Char, Skipped pre → lx.current = pre ++ '\n' :: rest →
      (skip_whitespace lx).current = '\n' :: rest ∧
      (lexer_next_token lx).1.type = TOKEN_NEWLINE ∧
      (after_token lx).current = rest) ∧
    (∃ pre, lx.current = pre ++ (skip_whitespace lx).current ∧
      (Skipped pre ∨
        ((skip_whitespace lx).current = [] ∧
          ∃ p body, pre = p ++ '/' :: '*' :: body ∧ Skipped p ∧ ¬ ['*', '/'] <:+: body))) := by
  have key : (skip_whitespace lx).current = '\n' :: rest →
      (lexer_next_token lx).1.type = TOKEN_NEWLINE ∧
      (lexer_next_token lx).1.start = '\n' :: rest ∧
      (lexer_next_token lx).1.length = 1 ∧
      (after_token lx).current = rest := by
    intro h
    unfold after_token
    rw [lexer_next_token_at_newline lx rest h]
    exact ⟨rfl, rfl, rfl, rfl⟩
  refine ⟨key, fun pre hpre hcur => ?_, skip_whitespace_loop_spec _ lx (Nat.le_succ _)⟩
  have h := skip_whitespace_skipped pre rest hpre lx hcur
  exact ⟨h, (key h).1, (key h).2.2.2⟩

theorem operator_lexes : ∀ e ∈ operator_spellings, ∀ lx : lexer_t, lx.current = e.1 →
    (lexer_next_token lx).1.type = e.2 ∧ (lexer_next_token lx).1.start = e.1 ∧
      (lexer_next_token lx).1.length = e.1.length ∧ (after_token lx).current = [] := by
  intro e he lx hcur
  simp only [operator_spellings, List.mem_cons, List.mem_singleton, List.not_mem_nil,
    or_false] at he
  rcases he with rfl | rfl | rfl | rfl | rfl | rfl | rfl | rfl | rfl | rfl | rfl | rfl | rfl | rfl
  all_goals
    simp only [String.toList] at hcur
    simp [after_token, lexer_next_token, skip_whitespace, skip_whitespace_loop, peek, peek_next,
      is_at_end, advance, match_, make_token, hcur, isalpha, isdigit]

theorem lexer_next_token_unexpected (c : Char) (rest : List Char) (lx : lexer_t)
    (hc : starts_no_token c = true) (hcur : lx.current = c :: rest) :
    lexer_next_token lx =
      ({ type := TOKEN_ERROR, start := "Unexpected character".toList, length := 20,
         line := lx.line, column := lx.column + 1 },
       { lx with start := c :: rest, current := rest, column := lx.column + 1 }) := by
  simp only [starts_no_token, punctuation, List.contains_cons, List.contains_nil,
    Bool.or_false, Bool.and_eq_true, Bool.not_eq_true', Bool.or_eq_false_iff, bne_iff_ne, ne_eq,
    beq_eq_false_iff_ne] at hc
  obtain ⟨⟨⟨⟨⟨⟨⟨ha, hu⟩, hd⟩, hp⟩, hsp⟩, hcr⟩, htab⟩, hnul⟩ := hc
  obtain ⟨p1, p2, p3, p4, p5, p6, p7, p8, p9, p10, p11, p12, p13, p14, p15, p16, p17, p18, p19,
    p20, p21, p22, p23, p24⟩ := hp
  have hst : starts_token (c :: rest) := by
    intro d hd'
    simp only [List.head?_cons, Option.some.injEq] at hd'
    subst hd'
    exact ⟨hsp, hcr, htab, p13⟩
  have hsk := skip_whitespace_spaces [] (c :: rest) (fun _ h => by cases h) hst lx
    (by simpa using hcur)
  unfold lexer_next_token
  rw [hsk]
  simp only [is_at_end, List.isEmpty_cons, Bool.false_eq_true, if_false, advance,
    List.headD_cons, List.tail_cons, ha, hu, hd, Bool.or_self,
    beq_eq_false_iff_ne.mpr p1, beq_eq_false_iff_ne.mpr p2, beq_eq_false_iff_ne.mpr p3,
    beq_eq_false_iff_ne.mpr p4, beq_eq_false_iff_ne.mpr p5, beq_eq_false_iff_ne.mpr p6,
    beq_eq_false_iff_ne.mpr p7, beq_eq_false_iff_ne.mpr p8, beq_eq_false_iff_ne.mpr p9,
    beq_eq_false_iff_ne.mpr p10, beq_eq_false_iff_ne.mpr p11, beq_eq_false_iff_ne.mpr p12,
    beq_eq_false_iff_ne.mpr p13, beq_eq_false_iff_ne.mpr p14, beq_eq_false_iff_ne.mpr p15,
    beq_eq_false_iff_ne.mpr p16, beq_eq_false_iff_ne.mpr p17, beq_eq_false_iff_ne.mpr p18,
    beq_eq_false_iff_ne.mpr p19, beq_eq_false_iff_ne.mpr p20, beq_eq_false_iff_ne.mpr p21,
    beq_eq_false_iff_ne.mpr p22, beq_eq_false_iff_ne.mpr p23, beq_eq_false_iff_ne.mpr p24,
    beq_eq_false_iff_ne.mpr hu]
  simp [error_token]

theorem lexer_next_token_lone (c : Char) (hc : c = '&' ∨ c = '|') (rest : List Char)
    (lx : lexer_t) (hcur : lx.current = c :: rest) (hrest : rest.head? ≠ some c) :
    lexer_next_token lx =
      ({ type := TOKEN_ERROR, start := "Unexpected character".toList, length := 20,
         line := lx.line, column := lx.column + 1 },
       { lx with start := c :: rest, current := rest, column := lx.column + 1 }) := by
  have hm : ∀ l : lexer_t, l.current = rest → match_ l c = (false, l) := by
    intro l hl
    unfold match_
    cases hr : rest with
    | nil => simp [is_at_end, hl, hr]
    | cons d ds =>
      have : d ≠ c := by
        intro h
        apply hrest
        rw [hr, h]
        rfl
      simp [is_at_end, peek, hl, hr, this]
  have hst : starts_token (c :: rest) := by
    intro d hd'
    simp only [List.head?_cons, Option.some.injEq] at hd'
    subst hd'
    rcases hc with rfl | rfl <;> decide
  have hsk := skip_whitespace_spaces [] (c :: rest) (fun _ h => by cases h) hst lx
    (by simpa using hcur)
  unfold lexer_next_token
  rw [hsk]
  rcases hc with rfl | rfl
  · simp [is_at_end, advance, isalpha, isdigit, hm, error_token]
  · simp [is_at_end, advance, isalpha, isdigit, hm, error_token]

theorem nth_token_zero (lx : lexer_t) : nth_token 0 lx = (lexer_next_token lx).1 := rfl

theorem nth_token_succ (k : Nat) (lx : lexer_t) :
    nth_token (k + 1) lx = nth_token k (after_token lx) := rfl

/-- Claim C18.  Each of the spellings `==`, `!=`, `<=`, `>=`, `&&`, `||`,
`::`, `->`, `=`, `!`, `<`, `>`, `:`, `-`, lexed in isolation, gives exactly one
token of its type whose text is the whole spelling, followed by end-of-input;
a lone `&`, a lone `|` and every other character that is no blank and starts
no token gives an ERROR token with the message `Unexpected character`. -/
theorem operators_and_errors (filename : Option (List Char)) :
    (∀ e ∈ operator_spellings,
      (nth_token 0 (lexer_init e.1 filename)).type = e.2 ∧
      (nth_token 0 (lexer_init e.1 filename)).length = e.1.length ∧
      token_to_string (nth_token 0 (lexer_init e.1 filename)) = e.1 ∧
      (nth_token 1 (lexer_init e.1 filename)).type = TOKEN_EOF) ∧
    (∀ c : Char, c = '&' ∨ c = '|' ∨ starts_no_token c = true →
      (nth_token 0 (lexer_init [c] filename)).type = TOKEN_ERROR ∧
      token_to_string (nth_token 0 (lexer_init [c] filename)) =
        "Unexpected character".toList ∧
      (nth_token 1 (lexer_init [c] filename)).type = TOKEN_EOF) := by
  constructor
  · intro e he
    have hnul : ∀ e ∈ operator_spellings, ∀ c ∈ e.1, c ≠ NUL := by decide
    have h0 := lexer_init_eq e.1 filename (hnul e he)
    obtain ⟨h1, h2, h3, h4⟩ := operator_lexes e he (lexer_init e.1 filename)
      (congrArg lexer_t.current h0)
    rw [nth_token_succ, nth_token_zero, nth_token_zero]
    refine ⟨h1, h3, ?_, lexer_next_token_end _ h4⟩
    rw [token_to_string, h2, h3, List.take_length]
  · intro c hc
    have hnul : ∀ d ∈ [c], d ≠ NUL := by
      intro d hd
      rw [List.mem_singleton] at hd
      subst hd
      rcases hc with rfl | rfl | hc
      · decide
      · decide
      · simp only [starts_no_token, Bool.and_eq_true, bne_iff_ne, ne_eq] at hc
        exact hc.2
    have h0 := lexer_init_eq [c] filename hnul
    have h1 : lexer_next_token (lexer_init [c] filename) =
        ({ type := TOKEN_ERROR, start := "Unexpected character".toList, length := 20,
           line := (lexer_init [c] filename).line,
           column := (lexer_init [c] filename).column + 1 },
         { lexer_init [c] filename with
           start := [c], current := [], column := (lexer_init [c] filename).column + 1 }) := by
      rcases hc with rfl | rfl | hc
      · exact lexer_next_token_lone _ (Or.inl rfl) [] _ (congrArg lexer_t.current h0)
          (by simp)
      · exact lexer_next_token_lone _ (Or.inr rfl) [] _ (congrArg lexer_t.current h0)
          (by simp)
      · exact lexer_next_token_unexpected c [] _ hc (congrArg lexer_t.current h0)
    rw [nth_token_succ, nth_token_zero, nth_token_zero]
    refine ⟨?_, ?_, lexer_next_token_end _ ?_⟩
    · rw [h1]
    · rw [h1]
      rfl
    · unfold after_token
      rw [h1]

/-- Witness of C18 on `!=` and on `#`. -/
theorem operators_and_errors_witness :
    ((nth_token 0 (lexer_init "!=".toList none)).type = TOKEN_BANG_EQUAL ∧
      (nth_token 0 (lexer_init "!=".toList none)).length = 2 ∧
      (nth_token 1 (lexer_init "!=".toList none)).type = TOKEN_EOF) ∧
    (nth_token 0 (lexer_init ['#'] none)).type = TOKEN_ERROR :=
  have h := (operators_and_errors none).1 ("!=".toList, TOKEN_BANG_EQUAL) (by decide)
  ⟨⟨h.1, h.2.1, h.2.2.2⟩, ((operators_and_errors none).2 '#' (Or.inr (Or.inr (by decide)))).1⟩

theorem word_spec {w : List Char} (h : is_word w = true) :
    ∃ c cs, w = c :: cs ∧ (isalpha c || c == '_') = true ∧
      (∀ d ∈ cs, (isalnum d || d == '_') = true) := by
  cases w with
  | nil => simp [is_word] at h
  | cons c cs =>
    simp only [is_word, Bool.and_eq_true, List.all_eq_true] at h
    exact ⟨c, cs, rfl, h.1, h.2⟩

/-- Lexing a word in isolation. -/
theorem lexer_word_alone (w : List Char) (hw : is_word w = true)
    (filename : Option (List Char)) :
    (nth_token 0 (lexer_init w filename)).type = check_keyword w w.length ∧
    (nth_token 0 (lexer_init w filename)).length = w.length ∧
    token_to_string (nth_token 0 (lexer_init w filename)) = w ∧
    (nth_token 1 (lexer_init w filename)).type = TOKEN_EOF := by
  obtain ⟨c, cs, rfl, hc, hcs⟩ := word_spec hw
  have hnul : ∀ d ∈ c :: cs, d ≠ NUL := by
    intro d hd
    have hd' : (isalnum d || d == '_') = true := by
      rcases List.mem_cons.mp hd with rfl | hd
      · exact Parser.alpha_alnum hc
      · exact hcs d hd
    simpa using Parser.alnum_ne_nul hd'
  have h0 := lexer_init_eq (c :: cs) filename hnul
  have h1 := lexer_next_token_word [] c cs [] (fun _ h => by cases h) hc hcs
    (fun _ h => by cases h) (lexer_init (c :: cs) filename)
    (by rw [congrArg lexer_t.current h0]; simp)
  rw [nth_token_succ, nth_token_zero, nth_token_zero]
  refine ⟨?_, ?_, ?_, lexer_next_token_end _ ?_⟩
  · rw [h1]
    rfl
  · rw [h1]
    rfl
  · rw [h1]
    simp [token_to_string]
  · unfold after_token
    rw [h1]

/-- Claim C11.  For every entry of the keyword table, lexing its spelling in
isolation yields as first token the token type of the entry, which is not
IDENTIFIER, with the spelling as text, and then end-of-input. -/
theorem keyword_token (filename : Option (List Char)) :
    ∀ kw ∈ keywords,
      (nth_token 0 (lexer_init kw.1 filename)).type = kw.2 ∧
      (nth_token 0 (lexer_init kw.1 filename)).type ≠ TOKEN_IDENTIFIER ∧
      token_to_string (nth_token 0 (lexer_init kw.1 filename)) = kw.1 ∧
      (nth_token 1 (lexer_init kw.1 filename)).type = TOKEN_EOF := by
  have htable : ∀ kw ∈ keywords,
      is_word kw.1 = true ∧ check_keyword kw.1 kw.1.length = kw.2 ∧
        kw.2 ≠ TOKEN_IDENTIFIER := by
    decide!
  intro kw hkw
  obtain ⟨hw, hk, hne⟩ := htable kw hkw
  obtain ⟨h1, _, h3, h4⟩ := lexer_word_alone kw.1 hw filename
  exact ⟨h1.trans hk, by rw [h1, hk]; exact hne, h3, h4⟩

/-- Witness of C11 at the keyword `schedule`. -/
theorem keyword_token_witness :
    ("schedule".toList, TOKEN_SCHEDULE) ∈ keywords ∧
    (nth_token 0 (lexer_init "schedule".toList none)).type = TOKEN_SCHEDULE ∧
    token_to_string (nth_token 0 (lexer_init "schedule".toList none)) = "schedule".toList ∧
    (nth_token 1 (lexer_init "schedule".toList none)).type = TOKEN_EOF :=
  have h := keyword_token none ("schedule".toList, TOKEN_SCHEDULE) (by decide)
  ⟨by decide, h.1, h.2.2.1, h.2.2.2⟩

/-- Claim C12 fails as stated: `42` is composed of letters, digits and
underscores and matches no keyword, and its first token is a NUMBER, not an
identifier. -/
theorem identifier_claim_fails :
    ¬ (∀ w : List Char, (∀ c ∈ w, (isalnum c || c == '_') = true) →
        check_keyword w w.length = TOKEN_IDENTIFIER →
        (nth_token 0 (lexer_init w none)).type = TOKEN_IDENTIFIER ∧
          token_to_string (nth_token 0 (lexer_init w none)) = w) := by
  intro h
  have h42 := h "42".toList (by decide) (by decide!)
  exact absurd h42.1 (by decide!)

/-- Claim C12 as amended.  For every non-empty string of letters, digits and
underscores that starts with a letter or an underscore and matches no keyword,
lexing it yields an IDENTIFIER token whose text equals the input exactly,
followed by end-of-input. -/
theorem identifier_token (w : List Char) (filename : Option (List Char))
    (hw : is_word w = true) (hk : check_keyword w w.length = TOKEN_IDENTIFIER) :
    (nth_token 0 (lexer_init w filename)).type = TOKEN_IDENTIFIER ∧
    token_to_string (nth_token 0 (lexer_init w filename)) = w ∧
    (nth_token 0 (lexer_init w filename)).length = w.length ∧
    (nth_token 1 (lexer_init w filename)).type = TOKEN_EOF := by
  obtain ⟨h1, h2, h3, h4⟩ := lexer_word_alone w hw filename
  exact ⟨h1.trans hk, h3, h2, h4⟩

/-- Witness of the amended C12 on `left_motor`. -/
theorem identifier_token_witness :
    (nth_token 0 (lexer_init "left_motor".toList none)).type = TOKEN_IDENTIFIER ∧
    token_to_string (nth_token 0 (lexer_init "left_motor".toList none)) =
      "left_motor".toList ∧
    (nth_token 1 (lexer_init "left_motor".toList none)).type = TOKEN_EOF :=
  have h := identifier_token "left_motor".toList none (by decide) (by decide!)
  ⟨h.1, h.2.1, h.2.2.2⟩

/-- Claim C15 is refuted by the code.  On the source of `test_comments` the
token after ROBOT is the NEWLINE that ends the line comment, not MOTOR; MOTOR
is the third token. -/
theorem comment_line_break_is_a_token :
    (nth_token 0 (lexer_init "robot // line comment\n/* block\ncomment */ motor".toList
      (some "test".toList))).type = TOKEN_ROBOT ∧
    (nth_token 1 (lexer_init "robot // line comment\n/* block\ncomment */ motor".toList
      (some "test".toList))).type = TOKEN_NEWLINE ∧
    (nth_token 1 (lexer_init "robot // line comment\n/* block\ncomment */ motor".toList
      (some "test".toList))).type ≠ TOKEN_MOTOR ∧
    (nth_token 2 (lexer_init "robot // line comment\n/* block\ncomment */ motor".toList
      (some "test".toList))).type = TOKEN_MOTOR := by
  decide!

/-- Claim C16 is refuted by the code.  In `a` + line break + `b` the NEWLINE
token starts at line 1, column 2 and carries line 2, column 0.  In `a #` the
ERROR token starts at column 3 and carries column 4.  The STRING token of
`"a` + line break + `b"` starts at line 1, column 1 and carries line 2, column
-2.  The ERROR token of the unterminated `"abc` starts at column 1 and carries
column 5. -/
theorem token_position_off :
    ((nth_token 1 (lexer_init "a\nb".toList none)).type = TOKEN_NEWLINE ∧
      first_character (after_token^[2] (lexer_init "a\nb".toList none)) = (1, 2) ∧
      ((nth_token 1 (lexer_init "a\nb".toList none)).line,
        (nth_token 1 (lexer_init "a\nb".toList none)).column) = (2, 0)) ∧
    ((nth_token 1 (lexer_init "a #".toList none)).type = TOKEN_ERROR ∧
      first_character (after_token^[2] (lexer_init "a #".toList none)) = (1, 3) ∧
      ((nth_token 1 (lexer_init "a #".toList none)).line,
        (nth_token 1 (lexer_init "a #".toList none)).column) = (1, 4)) ∧
    ((nth_token 0 (lexer_init "\"a\nb\"".toList none)).type = TOKEN_STRING ∧
      first_character (after_token^[1] (lexer_init "\"a\nb\"".toList none)) = (1, 1) ∧
      ((nth_token 0 (lexer_init "\"a\nb\"".toList none)).line,
        (nth_token 0 (lexer_init "\"a\nb\"".toList none)).column) = (2, -2)) ∧
    ((nth_token 0 (lexer_init "\"abc".toList none)).type = TOKEN_ERROR ∧
      first_character (after_token^[1] (lexer_init "\"abc".toList none)) = (1, 1) ∧
      ((nth_token 0 (lexer_init "\"abc".toList none)).line,
        (nth_token 0 (lexer_init "\"abc".toList none)).column) = (1, 5)) := by
  decide!

/-- Witness of C14 on two blanks and a line comment in front of a line break. -/
theorem newline_is_a_token_witness :
    (lexer_next_token (lexer_init "  // c\nx".toList none)).1.type = TOKEN_NEWLINE ∧
    (after_token (lexer_init "  // c\nx".toList none)).current = ['x'] :=
  have h := (newline_is_a_token (lexer_init "  // c\nx".toList none) ['x']).2.1
    "  // c".toList
    (Skipped.blank _ _ (Or.inl rfl) (Skipped.blank _ _ (Or.inl rfl)
      (Skipped.line_comment " c".toList (by decide))))
    (by decide)
  ⟨h.2.1, h.2.2⟩

/-- Witness of C17 on the source `robot`: the second call returns
end-of-input, and so does the fifth, in the same state. -/
theorem end_of_input_is_idempotent_witness :
    (lexer_next_token (after_token (lexer_init "robot".toList none))).1.type = TOKEN_EOF ∧
    (lexer_next_token (after_token^[3] (after_token (lexer_init "robot".toList none)))).1 =
      (lexer_next_token (after_token (lexer_init "robot".toList none))).1 ∧
    (lexer_next_token (after_token^[3] (after_token (lexer_init "robot".toList none)))).2 =
      after_token^[3] (after_token (lexer_init "robot".toList none)) :=
  have h := end_of_input_is_idempotent (after_token (lexer_init "robot".toList none))
    (by decide!) 2
  ⟨by decide!, h.2.1, h.2.2⟩

/-! ### The loop counters of the lexer

The loops of the lexer are modelled with a counter started at the number of
characters left.  No loop is ended by its counter: every counter that is at
least that number gives the same result. -/

theorem identifier_loop_counter : ∀ (n m : Nat) (lx : lexer_t), lx.current.length ≤ n →
    lx.current.length ≤ m → identifier_loop n lx = identifier_loop m lx := by
  intro n
  induction n with
  | zero =>
    intro m lx hn _
    have hcur : lx.current = [] := List.length_eq_zero.mp (Nat.le_zero.mp hn)
    cases m with
    | zero => rfl
    | succ m => simp [identifier_loop, peek, hcur, NUL, isalnum]
  | succ n ih =>
    intro m lx hn hm
    cases m with
    | zero =>
      have hcur : lx.current = [] := List.length_eq_zero.mp (Nat.le_zero.mp hm)
      simp [identifier_loop, peek, hcur, NUL, isalnum]
    | succ m =>
      unfold identifier_loop
      split
      · apply ih <;> simp only [advance_current, List.length_tail] <;> omega
      · rfl

theorem digits_loop_counter : ∀ (n m : Nat) (lx : lexer_t), lx.current.length ≤ n →
    lx.current.length ≤ m → digits_loop n lx = digits_loop m lx := by
  intro n
  induction n with
  | zero =>
    intro m lx hn _
    have hcur : lx.current = [] := List.length_eq_zero.mp (Nat.le_zero.mp hn)
    cases m with
    | zero => rfl
    | succ m => simp [digits_loop, peek, hcur, NUL, isdigit]
  | succ n ih =>
    intro m lx hn hm
    cases m with
    | zero =>
      have hcur : lx.current = [] := List.length_eq_zero.mp (Nat.le_zero.mp hm)
      simp [digits_loop, peek, hcur, NUL, isdigit]
    | succ m =>
      unfold digits_loop
      split
      · apply ih <;> simp only [advance_current, List.length_tail] <;> omega
      · rfl

theorem string_loop_counter : ∀ (n m : Nat) (lx : lexer_t), lx.current.length ≤ n →
    lx.current.length ≤ m → string_loop n lx = string_loop m lx := by
  intro n
  induction n with
  | zero =>
    intro m lx hn _
    have hcur : lx.current = [] := List.length_eq_zero.mp (Nat.le_zero.mp hn)
    cases m with
    | zero => rfl
    | succ m => simp [string_loop, is_at_end, hcur]
  | succ n ih =>
    intro m lx hn hm
    cases m with
    | zero =>
      have hcur : lx.current = [] := List.length_eq_zero.mp (Nat.le_zero.mp hm)
      simp [string_loop, is_at_end, hcur]
    | succ m =>
      unfold string_loop
      split
      · apply ih <;> simp only [advance_current] <;> split <;>
          simp only [List.length_tail] <;> omega
      · rfl

theorem skip_line_comment_counter : ∀ (n m : Nat) (lx : lexer_t), lx.current.length ≤ n →
    lx.current.length ≤ m → skip_line_comment n lx = skip_line_comment m lx := by
  intro n
  induction n with
  | zero =>
    intro m lx hn _
    have hcur : lx.current = [] := List.length_eq_zero.mp (Nat.le_zero.mp hn)
    cases m with
    | zero => rfl
    | succ m => simp [skip_line_comment, is_at_end, hcur]
  | succ n ih =>
    intro m lx hn hm
    cases m with
    | zero =>
      have hcur : lx.current = [] := List.length_eq_zero.mp (Nat.le_zero.mp hm)
      simp [skip_line_comment, is_at_end, hcur]
    | succ m =>
      unfold skip_line_comment
      split
      · apply ih <;> simp only [advance_current, List.length_tail] <;> omega
      · rfl

theorem skip_block_comment_counter : ∀ (n m : Nat) (lx : lexer_t), lx.current.length ≤ n →
    lx.current.length ≤ m → skip_block_comment n lx = skip_block_comment m lx := by
  intro n
  induction n with
  | zero =>
    intro m lx hn _
    have hcur : lx.current = [] := List.length_eq_zero.mp (Nat.le_zero.mp hn)
    cases m with
    | zero => rfl
    | succ m => simp [skip_block_comment, is_at_end, hcur]
  | succ n ih =>
    intro m lx hn hm
    cases m with
    | zero =>
      have hcur : lx.current = [] := List.length_eq_zero.mp (Nat.le_zero.mp hm)
      simp [skip_block_comment, is_at_end, hcur]
    | succ m =>
      unfold skip_block_comment
      split
      · split
        · rfl
        · apply ih <;> simp only [advance_current] <;> split <;>
            simp only [List.length_tail] <;> omega
      · rfl

theorem skip_line_comment_consumes (lx : lexer_t) (h : peek lx = '/') :
    (skip_line_comment lx.current.length lx).current.length ≤ lx.current.length - 1 := by
  cases hcur : lx.current with
  | nil => simp [peek, hcur, NUL] at h
  | cons c cs =>
    have hc : c = '/' := by simpa [peek, hcur] using h
    subst hc
    have := (skip_line_comment_suffix cs.length (advance lx).2).length_le
    simp only [advance_current, hcur, List.tail_cons] at this
    simp only [List.length_cons, skip_line_comment, peek, is_at_end, hcur, List.headD_cons,
      List.isEmpty_cons, show ('/' != '\n') = true by decide, Bool.not_false, Bool.and_self,
      if_true]
    omega

theorem skip_whitespace_loop_counter : ∀ (n m : Nat) (lx : lexer_t), lx.current.length ≤ n →
    lx.current.length ≤ m → skip_whitespace_loop n lx = skip_whitespace_loop m lx := by
  intro n
  induction n with
  | zero =>
    intro m lx hn _
    have hcur : lx.current = [] := List.length_eq_zero.mp (Nat.le_zero.mp hn)
    cases m with
    | zero => rfl
    | succ m => simp [skip_whitespace_loop, peek, hcur, NUL]
  | succ n ih =>
    intro m lx hn hm
    cases m with
    | zero =>
      have hcur : lx.current = [] := List.length_eq_zero.mp (Nat.le_zero.mp hm)
      simp [skip_whitespace_loop, peek, hcur, NUL]
    | succ m =>
      unfold skip_whitespace_loop
      dsimp only
      split
      · apply ih <;> simp only [advance_current, List.length_tail] <;> omega
      · split
        · rfl
        · split
          · rename_i hslash
            have hpeek : peek lx = '/' := by simpa using hslash
            split
            · have := skip_line_comment_consumes lx hpeek
              apply ih <;> omega
            · split
              · have := (skip_block_comment_suffix (advance (advance lx).2).2.current.length
                  (advance (advance lx).2).2).length_le
                have h2 : (advance (advance lx).2).2.current.length ≤ lx.current.length - 1 := by
                  simp only [advance_current, List.length_tail]
                  omega
                apply ih <;> omega
              · rfl
          · rfl

/-- The counter of the loop of `skip_whitespace` is never what ends it: every
counter that is at least the number of characters left gives the same result. -/
theorem skip_whitespace_counter (n : Nat) (lx : lexer_t) (hn : lx.current.length ≤ n) :
    skip_whitespace_loop n lx = skip_whitespace lx :=
  skip_whitespace_loop_counter n _ lx hn (Nat.le_succ _)

/-! ### Error tokens -/

theorem error_text_ite {c : Prop} [Decidable c] {a b : token_t × lexer_t}
    (ha : c → ErrorText a) (hb : ¬c → ErrorText b) : ErrorText (if c then a else b) := by
  split
  · exact ha (by assumption)
  · exact hb (by assumption)

theorem error_text_make (l : lexer_t) (t : token_type_t) (h : t ≠ TOKEN_ERROR) :
    ErrorText (make_token l t, l) :=
  ⟨fun h' => absurd h' h⟩

theorem error_text_error (l : lexer_t) : ErrorText (error_token l "Unexpected character".toList, l) :=
  ⟨fun _ => Or.inl rfl⟩

theorem check_keyword_ne_error (start : List Char) (length : Nat) :
    check_keyword start length ≠ TOKEN_ERROR := by
  have htable : ∀ e ∈ keywords, e.2 ≠ TOKEN_ERROR := by decide
  intro h
  rcases check_keyword_in_mem keywords start length with h' | ⟨e, he, h'⟩
  · unfold check_keyword at h
    rw [h'] at h
    cases h
  · exact htable e he (h'.trans h)

theorem error_text_identifier (l : lexer_t) : ErrorText (identifier l) :=
  ⟨fun h => absurd h (check_keyword_ne_error _ _)⟩

theorem error_text_number (l : lexer_t) : ErrorText (number l) :=
  ⟨fun h => by simp [number, make_token] at h⟩

theorem error_text_string (l : lexer_t) : ErrorText (string l) := by
  unfold string
  dsimp only
  split
  · exact ⟨fun _ => Or.inr rfl⟩
  · exact ⟨fun h => by simp [make_token] at h⟩

/-- An error token carries `Unexpected character` or `Unterminated string`. -/
theorem error_token_text (lx : lexer_t) (h : (lexer_next_token lx).1.type = TOKEN_ERROR) :
    (lexer_next_token lx).1.start = "Unexpected character".toList ∨
      (lexer_next_token lx).1.start = "Unterminated string".toList := by
  refine ErrorText.text ?_ h
  by_cases he0 : (skip_whitespace lx).current = []
  · rw [lexer_next_token_at_end lx he0]
    exact error_text_make _ _ (by decide)
  have he : (skip_whitespace lx).current.isEmpty = false := by
    cases hc : (skip_whitespace lx).current with
    | nil => exact absurd hc he0
    | cons _ _ => rfl
  unfold lexer_next_token
  simp only [is_at_end, he, Bool.false_eq_true, if_false]
  rcases hadv : advance _ with ⟨c, l2⟩
  dsimp only
  clear hadv he he0 h
  refine error_text_ite (fun _ => error_text_identifier _) (fun _ => ?_)
  refine error_text_ite (fun _ => error_text_number _) (fun _ => ?_)
  refine error_text_ite (fun _ => error_text_make _ _ (by decide)) (fun _ => ?_)
  refine error_text_ite (fun _ => error_text_make _ _ (by decide)) (fun _ => ?_)
  refine error_text_ite (fun _ => error_text_make _ _ (by decide)) (fun _ => ?_)
  refine error_text_ite (fun _ => error_text_make _ _ (by decide)) (fun _ => ?_)
  refine error_text_ite (fun _ => error_text_make _ _ (by decide)) (fun _ => ?_)
  refine error_text_ite (fun _ => error_text_make _ _ (by decide)) (fun _ => ?_)
  refine error_text_ite (fun _ => error_text_make _ _ (by decide)) (fun _ => ?_)
  refine error_text_ite (fun _ => error_text_make _ _ (by decide)) (fun _ => ?_)
  refine error_text_ite (fun _ => error_text_make _ _ (by decide)) (fun _ => ?_)
  refine error_text_ite (fun _ => error_text_make _ _ (by decide)) (fun _ => ?_)
  refine error_text_ite (fun _ => error_text_ite (fun _ => error_text_make _ _ (by decide))
    (fun _ => error_text_make _ _ (by decide))) (fun _ => ?_)
  refine error_text_ite (fun _ => error_text_make _ _ (by decide)) (fun _ => ?_)
  refine error_text_ite (fun _ => error_text_make _ _ (by decide)) (fun _ => ?_)
  refine error_text_ite (fun _ => error_text_make _ _ (by decide)) (fun _ => ?_)
  refine error_text_ite (fun _ => error_text_make _ _ (by decide)) (fun _ => ?_)
  refine error_text_ite (fun _ => error_text_make _ _ (by split <;> decide)) (fun _ => ?_)
  refine error_text_ite (fun _ => error_text_make _ _ (by split <;> decide)) (fun _ => ?_)
  refine error_text_ite (fun _ => error_text_make _ _ (by split <;> decide)) (fun _ => ?_)
  refine error_text_ite (fun _ => error_text_make _ _ (by split <;> decide)) (fun _ => ?_)
  refine error_text_ite (fun _ => error_text_ite (fun _ => error_text_make _ _ (by decide))
    (fun _ => error_text_error _)) (fun _ => ?_)
  refine error_text_ite (fun _ => error_text_ite (fun _ => error_text_make _ _ (by decide))
    (fun _ => error_text_error _)) (fun _ => ?_)
  refine error_text_ite (fun _ => error_text_ite (fun _ => error_text_make _ _ (by decide))
    (fun _ => error_text_make _ _ (by decide))) (fun _ => ?_)
  refine error_text_ite (fun _ => error_text_string _) (fun _ => ?_)
  refine error_text_ite (fun _ => error_text_make _ _ (by decide)) (fun _ => ?_)
  exact error_text_error _

end Lexer

/-! ## Parser theorems on lexical errors, expressions, statements and declarations -/

namespace Parser

open Lexer (lexer_next_token token_to_string ends_word check_keyword nth_token after_token)

/-! ### Lexical errors in `advance` -/

theorem error_at_lexer (p : parser_t) (t : token_t) (m : List Char) :
    (error_at p t m).lexer = p.lexer := by
  unfold error_at
  split <;> rfl

theorem error_at_current_eq (p : parser_t) (t : token_t) (m : List Char) :
    (error_at p t m).current = p.current := by
  unfold error_at
  split <;> rfl

/-- What the loop of `advance` does: it stops at the first token that is not an
error token. -/
theorem advance_loop_spec : ∀ (n : Nat) (p : parser_t), p.lexer.current.length < n →
    ∃ k, (advance_loop n p).current = nth_token k p.lexer ∧
      (advance_loop n p).lexer = after_token^[k + 1] p.lexer ∧
      (nth_token k p.lexer).type ≠ TOKEN_ERROR ∧
      ∀ j, j < k → (nth_token j p.lexer).type = TOKEN_ERROR := by
  intro n
  induction n with
  | zero => intro p h; omega
  | succ n ih =>
    intro p h
    unfold advance_loop
    dsimp only
    by_cases ht : (lexer_next_token p.lexer).1.type = TOKEN_ERROR
    · have hlen : (after_token p.lexer).current.length < n := by
        rcases Lexer.progress p.lexer with h' | h'
        · rw [ht] at h'
          cases h'
        · omega
      simp only [ht, bne_self_eq_false, Bool.false_eq_true, if_false]
      obtain ⟨k, h1, h2, h3, h4⟩ := ih
        (error_at_current { p with current := (lexer_next_token p.lexer).1, lexer := (lexer_next_token p.lexer).2 }
          (lexer_next_token p.lexer).1.start)
        (by
          unfold error_at_current
          rw [error_at_lexer]
          exact hlen)
      have hl : (error_at_current { p with current := (lexer_next_token p.lexer).1, lexer := (lexer_next_token p.lexer).2 }
          (lexer_next_token p.lexer).1.start).lexer = after_token p.lexer := by
        unfold error_at_current
        rw [error_at_lexer]
        rfl
      rw [hl] at h1 h2 h3 h4
      refine ⟨k + 1, ?_, ?_, ?_, ?_⟩
      · rw [Lexer.nth_token_succ]
        exact h1
      · rw [h2]
        rfl
      · rw [Lexer.nth_token_succ]
        exact h3
      · intro j hj
        cases j with
        | zero => exact ht
        | succ j =>
          rw [Lexer.nth_token_succ]
          exact h4 j (by omega)
    · have hb : ((lexer_next_token p.lexer).1.type != TOKEN_ERROR) = true := by
        simpa using ht
      simp only [hb, if_true]
      exact ⟨0, rfl, rfl, ht, fun j hj => absurd hj (by omega)⟩

/-- The lookahead after `advance` is the first following token that is not an
error token. -/
theorem advance_spec (p : parser_t) :
    ∃ k, (advance p).current = nth_token k p.lexer ∧
      (advance p).lexer = after_token^[k + 1] p.lexer ∧
      (nth_token k p.lexer).type ≠ TOKEN_ERROR ∧
      ∀ j, j < k → (nth_token j p.lexer).type = TOKEN_ERROR :=
  advance_loop_spec _ { p with previous := p.current } (Nat.lt_succ_self _)

theorem advance_not_error (p : parser_t) : (advance p).current.type ≠ TOKEN_ERROR := by
  obtain ⟨k, h1, _, h3, _⟩ := advance_spec p
  rw [h1]
  exact h3

/-- The diagnostics after the loop of `advance` extend those before it. -/
theorem advance_loop_diagnostics : ∀ (n : Nat) (p : parser_t), p.panic_mode = true →
    (advance_loop n p).diagnostics = p.diagnostics ∧ (advance_loop n p).had_error = p.had_error ∧
      (advance_loop n p).panic_mode = true := by
  intro n
  induction n with
  | zero => intro p h; exact ⟨rfl, rfl, h⟩
  | succ n ih =>
    intro p h
    unfold advance_loop
    dsimp only
    split
    · exact ⟨rfl, rfl, h⟩
    · have hq : error_at_current { p with current := (lexer_next_token p.lexer).1, lexer := (lexer_next_token p.lexer).2 }
          (lexer_next_token p.lexer).1.start = { p with current := (lexer_next_token p.lexer).1, lexer := (lexer_next_token p.lexer).2 } := by
        simp [error_at_current, error_at, h]
      rw [hq]
      exact ih _ h

/-- An error token met outside panic mode is reported with its own text and
position, and nothing is reported after it by the same `advance`. -/
theorem advance_first_error (p : parser_t) (hp : p.panic_mode = false)
    (ht : (nth_token 0 p.lexer).type = TOKEN_ERROR) :
    (advance p).had_error = true ∧ (advance p).panic_mode = true ∧
      (advance p).diagnostics = p.diagnostics ++ [lexical_diagnostic p.lexer] := by
  have ht' : (lexer_next_token p.lexer).1.type = TOKEN_ERROR := ht
  unfold advance advance_loop
  simp only [ht', bne_self_eq_false, Bool.false_eq_true, if_false]
  have hq : (error_at_current { p with
        previous := p.current, current := (lexer_next_token p.lexer).1, lexer := (lexer_next_token p.lexer).2 }
      (lexer_next_token p.lexer).1.start).panic_mode = true := by
    simp [error_at_current, error_at, hp]
  obtain ⟨h1, h2, h3⟩ := advance_loop_diagnostics p.lexer.current.length _ hq
  refine ⟨?_, h3, ?_⟩
  · rw [h2]
    simp [error_at_current, error_at, hp]
  · rw [h1]
    simp [error_at_current, error_at, hp, Lexer.nth_token_zero, after_token, lexical_diagnostic]

/-- Claim C28 (lexical errors surface through the parser).  `advance` stops at
the first following token that is not an error token, having skipped only error
tokens, so the lookahead is never an error token after `parser_init` or after
`advance`.  An error token carries `Unexpected character` or `Unterminated
string`.  An error token met outside panic mode sets `had_error` and appends
one record with that token's text, line and column.  When the first token of
the source is an error token, that record is the single diagnostic of the whole
parse, however the parse ends. -/
theorem lexical_errors_surface (memory : parser_t) (lexer : lexer_t) (p : parser_t) :
    (parser_init memory lexer).current.type ≠ TOKEN_ERROR ∧
    (advance p).current.type ≠ TOKEN_ERROR ∧
    (∃ k, (advance p).current = nth_token k p.lexer ∧
      (advance p).lexer = after_token^[k + 1] p.lexer ∧
      ∀ j, j < k → (nth_token j p.lexer).type = TOKEN_ERROR) ∧
    ((nth_token 0 p.lexer).type = TOKEN_ERROR →
      (nth_token 0 p.lexer).start = "Unexpected character".toList ∨
        (nth_token 0 p.lexer).start = "Unterminated string".toList) ∧
    (p.panic_mode = false → (nth_token 0 p.lexer).type = TOKEN_ERROR →
      (advance p).had_error = true ∧
        (advance p).diagnostics = p.diagnostics ++ [lexical_diagnostic p.lexer]) ∧
    ((nth_token 0 lexer).type = TOKEN_ERROR →
      ∀ fuel, (parser_parse fuel (parser_init memory lexer)).state.diagnostics =
        [lexical_diagnostic lexer]) := by
  refine ⟨advance_not_error _, advance_not_error _, ?_, ?_, ?_, ?_⟩
  · obtain ⟨k, h1, h2, _, h4⟩ := advance_spec p
    exact ⟨k, h1, h2, h4⟩
  · exact Lexer.error_token_text p.lexer
  · intro hp ht
    exact ⟨(advance_first_error p hp ht).1, (advance_first_error p hp ht).2.2⟩
  · intro ht fuel
    have h0 : (parser_init memory lexer).diagnostics = [lexical_diagnostic lexer] := by
      have h := advance_first_error { memory with
        lexer := lexer, had_error := false, panic_mode := false, diagnostics := [] } rfl ht
      simpa [parser_init] using h.2.2
    have hk := keeps_parser_parse fuel (parser_init memory lexer)
    have hinv := inv_iff _ (hk.1 (inv_parser_init memory lexer))
    obtain ⟨t, ht⟩ := hk.2.2
    rw [h0] at ht
    have hlen := congrArg List.length ht
    have : t = [] := by
      cases t with
      | nil => rfl
      | cons a t =>
        simp only [List.length_append, List.length_cons, List.length_nil] at hlen
        omega
    rw [← ht, this]
    rfl

theorem lexical_errors_surface_witness :
    (advance (parser_memory sample_garbage)).current.type ≠ TOKEN_ERROR ∧
    ((parser_on "# robot").diagnostics.map (fun d => (d.message, d.line, d.column)) =
      [("Unexpected character".toList, 1, 2)]) ∧
    ((parse_source 5 (parser_memory sample_garbage) "# robot".toList none).state.diagnostics =
      [lexical_diagnostic (Lexer.lexer_init "# robot".toList none)]) :=
  ⟨(lexical_errors_surface (parser_memory sample_garbage)
      (Lexer.lexer_init "# robot".toList none) (parser_memory sample_garbage)).2.1,
   by decide!,
   (lexical_errors_surface (parser_memory sample_garbage)
      (Lexer.lexer_init "# robot".toList none) (parser_memory sample_garbage)).2.2.2.2.2
      (by decide!) 5⟩

/-! ### The end of a successful parse -/

theorem done_of_returned_robot {α : Type} {o : Outcome (Option α)}
    (h : o.returned_robot = true) : ∃ a, o = .done (some a) o.state := by
  cases o with
  | done a q =>
    cases a with
    | none => cases h
    | some a => exact ⟨a, rfl⟩
  | out_of_fuel q => cases h
  | null_deref q => cases h

theorem bind_done {α β : Type} {o : Outcome α} {f : α → parser_t → Outcome β} {b : β}
    {q : parser_t} (h : o.bind f = .done b q) : ∃ a p, o = .done a p ∧ f a p = .done b q := by
  cases o with
  | done a p => exact ⟨a, p, rfl, h⟩
  | out_of_fuel p => cases h
  | null_deref p => cases h

/-- A successful `parser_parse` ends with the `consume` of the closing brace. -/
theorem parser_parse_success (fuel : Nat) (p : parser_t) (robot : ast_robot_t) (q : parser_t)
    (h : parser_parse fuel p = .done (some robot) q) :
    ∃ p1, Keeps p p1 ∧ q = consume p1 TOKEN_RIGHT_BRACE "Expected '\x7d' after robot body".toList ∧
      q.had_error = false := by
  cases fuel with
  | zero => cases h
  | succ n =>
    rw [parser_parse] at h
    simp only [bind_run, skip_newlinesM, consumeM, previousM, had_errorM, Outcome.bind] at h
    have hk := stable_keeps p
    have h3 := stable_skip_newlines hk _ (stable_consume hk _ TOKEN_LEFT_BRACE
      "Expected '\x7b' after robot name".toList (by decide)
      (stable_consume hk _ TOKEN_IDENTIFIER "Expected robot name".toList (by decide)
        (stable_consume hk _ TOKEN_ROBOT "Expected 'robot' keyword".toList (by decide)
          (stable_skip_newlines hk p (Keeps.refl p)))))
    split at h
    · rename_i value p1 hl
      have h4 : Keeps p p1 := by
        have h5 := ((sat_parse_loop hk n (ast_robot_create (token_to_string
          (consume (consume (skip_newlines p) TOKEN_ROBOT "Expected 'robot' keyword".toList)
            TOKEN_IDENTIFIER "Expected robot name".toList).previous))).post _ h3).1
        rw [hl] at h5
        exact h5
      refine ⟨p1, h4, ?_⟩
      rw [ite_run] at h
      split at h
      · cases h
      · rename_i hne
        rw [pure_run] at h
        injection h with h5 h6
        subst h6
        exact ⟨rfl, by simpa using hne⟩
    · cases h
    · cases h

/-- Claim C21 with the end-of-input clause left out.  Whenever the parse of a
source returns a robot, the last token consumed is the closing brace of the
robot body, no error was reported, and the lookahead is the first token behind
that brace that is not an error token; nothing is required of that token. -/
theorem parse_ends_behind_brace (fuel : Nat) (memory : parser_t) (source : List Char)
    (filename : Option (List Char)) (robot : ast_robot_t) (q : parser_t)
    (h : parse_source fuel memory source filename = .done (some robot) q) :
    q.previous.type = TOKEN_RIGHT_BRACE ∧ q.had_error = false ∧ q.diagnostics = [] ∧
      q.current.type ≠ TOKEN_ERROR ∧
      ∃ p1, p1.current.type = TOKEN_RIGHT_BRACE ∧ q = advance p1 := by
  obtain ⟨p1, hk, hq, herr⟩ := parser_parse_success fuel _ robot q h
  have hinv1 : Inv p1 := hk.1 (inv_parser_init memory _)
  have hinvq : Inv q := by
    have := keeps_parser_parse fuel (parser_init memory (Lexer.lexer_init source filename))
    unfold parse_source at h
    rw [h] at this
    exact this.1 (inv_parser_init memory _)
  have hbrace : p1.current.type = TOKEN_RIGHT_BRACE := by
    by_contra hne
    have hq2 : q = error_at_current p1 "Expected '\x7d' after robot body".toList := by
      rw [hq]
      simp [consume, hne]
    have : q.had_error = true := by
      rw [hq2]
      unfold error_at_current error_at
      split
      · rename_i hp
        rw [hinv1.1]
        exact hp
      · rfl
    rw [herr] at this
    cases this
  have hadv : q = advance p1 := by
    rw [hq]
    exact consume_ok _ hbrace
  refine ⟨?_, herr, ?_, ?_, p1, hbrace, hadv⟩
  · rw [hadv, advance_previous]
    exact hbrace
  · have := hinvq.2
    rw [herr] at this
    exact List.length_eq_zero.mp (by simpa using this)
  · rw [hadv]
    exact advance_not_error p1

theorem parse_ends_behind_brace_witness :
    ∃ robot q, parse_source 3 (parser_memory sample_garbage) "robot R \x7b \x7d x".toList none =
        .done (some robot) q ∧
      q.previous.type = TOKEN_RIGHT_BRACE ∧ q.current.type = TOKEN_IDENTIFIER := by
  have hr : (parse_source 3 (parser_memory sample_garbage)
      "robot R \x7b \x7d x".toList none).returned_robot = true := by decide!
  obtain ⟨robot, ho⟩ := done_of_returned_robot hr
  exact ⟨robot, _, ho, (parse_ends_behind_brace _ _ _ _ _ _ ho).1, by decide!⟩

/-- Claim C21 as stated fails.  The parse of `robot R { } x` returns a robot
and leaves the identifier `x` as the lookahead: `parser_parse` ends with the
`consume` of the closing brace and never asks for end-of-input. -/
theorem trailing_tokens_left :
    ¬ ∀ (fuel : Nat) (memory : parser_t) (source : List Char) (filename : Option (List Char))
        (robot : ast_robot_t) (q : parser_t),
        parse_source fuel memory source filename = .done (some robot) q →
          q.current.type = TOKEN_EOF := by
  intro hall
  have hr : (parse_source 3 (parser_memory sample_garbage)
      "robot R \x7b \x7d x".toList none).returned_robot = true := by decide!
  obtain ⟨robot, ho⟩ := done_of_returned_robot hr
  have h1 := hall _ _ _ _ _ _ ho
  have h2 : (parse_source 3 (parser_memory sample_garbage)
      "robot R \x7b \x7d x".toList none).state.current.type = TOKEN_IDENTIFIER := by decide!
  rw [h2] at h1
  cases h1

/-! ### Postfix chains and unary operators -/

theorem call_args_last (k : Nat) (acc : List (Option ast_expr_t)) (p q : parser_t)
    (e : Option ast_expr_t) (h : parse_expression k p = .done e q)
    (hq : q.current.type ≠ TOKEN_COMMA) :
    parse_call_args (k + 1) acc p = .done (acc ++ [e]) q := by
  simp [parse_call_args, bind_run, h, matchM, match_fail hq, Outcome.bind, pure_run, ite_run]

theorem call_args_step (k : Nat) (acc : List (Option ast_expr_t)) (p q : parser_t)
    (e : Option ast_expr_t) (h : parse_expression k p = .done e q)
    (hq : q.current.type = TOKEN_COMMA) :
    parse_call_args (k + 1) acc p = parse_call_args k (acc ++ [e]) (advance q) := by
  simp [parse_call_args, bind_run, h, matchM, match_ok hq, Outcome.bind, pure_run, ite_run]

/-- The argument loop collects a comma-separated list in source order. -/
theorem arguments_converge {p q : parser_t} {l : List (Option ast_expr_t)}
    (h : Arguments p l q) :
    ∀ acc, Converges (fun fuel => parse_call_args fuel acc) p (acc ++ l) q := by
  induction h with
  | @last p q e he hq =>
    intro acc
    obtain ⟨n, hn⟩ := he
    refine ⟨n + 1, fun fuel hf => ?_⟩
    obtain ⟨k, rfl⟩ : ∃ k, fuel = k + 1 := ⟨fuel - 1, by omega⟩
    exact call_args_last k acc p q e (hn k (by omega)) hq
  | @cons p q r e rest he hq _ ih =>
    intro acc
    obtain ⟨n, hn⟩ := he
    obtain ⟨m, hm⟩ := ih (acc ++ [e])
    refine ⟨max n m + 1, fun fuel hf => ?_⟩
    obtain ⟨k, rfl⟩ : ∃ k, fuel = k + 1 := ⟨fuel - 1, by omega⟩
    show parse_call_args (k + 1) acc p = _
    rw [call_args_step k acc p q e (hn k (by omega)) hq]
    have := hm k (by omega)
    simpa using this

theorem call_loop_call_empty (k : Nat) (e : Option ast_expr_t) (p : parser_t)
    (h1 : p.current.type = TOKEN_LEFT_PAREN)
    (h2 : (advance p).current.type = TOKEN_RIGHT_PAREN) :
    parse_call_loop (k + 1) e p =
      parse_call_loop k (some (.call e [] 0 0)) (advance (advance p)) := by
  simp [parse_call_loop, bind_run, matchM, match_ok h1, checkM, check, h2, consumeM,
    consume_ok _ h2, Outcome.bind, pure_run, ite_run]

theorem call_loop_call (k : Nat) (e : Option ast_expr_t) (p s : parser_t)
    (args : List (Option ast_expr_t)) (h1 : p.current.type = TOKEN_LEFT_PAREN)
    (h2 : (advance p).current.type ≠ TOKEN_RIGHT_PAREN)
    (h3 : parse_call_args k [] (advance p) = .done args s)
    (h4 : s.current.type = TOKEN_RIGHT_PAREN) :
    parse_call_loop (k + 1) e p = parse_call_loop k (some (.call e args 0 0)) (advance s) := by
  simp [parse_call_loop, bind_run, matchM, match_ok h1, checkM, check, h2, h3, consumeM,
    consume_ok _ h4, Outcome.bind, pure_run, ite_run]

theorem call_loop_member (k : Nat) (e : Option ast_expr_t) (p : parser_t)
    (h1 : p.current.type = TOKEN_DOT) (h2 : (advance p).current.type = TOKEN_IDENTIFIER) :
    parse_call_loop (k + 1) e p =
      parse_call_loop k (some (.member e (token_to_string (advance p).current) 0 0))
        (advance (advance p)) := by
  have h0 : p.current.type ≠ TOKEN_LEFT_PAREN := by rw [h1]; decide
  simp [parse_call_loop, bind_run, matchM, match_ok h1, match_fail h0, consumeM,
    consume_ok _ h2, previousM, advance_previous, Outcome.bind, pure_run, ite_run]

/-- The loop of `parse_call` applies a chain of postfixes from left to right. -/
theorem postfixes_converge {p q : parser_t} {e result : Option ast_expr_t}
    (h : Postfixes p e q result) :
    Converges (fun fuel => parse_call_loop fuel e) p result q := by
  induction h with
  | stop p e h1 h2 =>
    refine ⟨1, fun fuel hf => ?_⟩
    obtain ⟨k, rfl⟩ : ∃ k, fuel = k + 1 := ⟨fuel - 1, by omega⟩
    exact call_loop_exit k e p h1 h2
  | @call_empty p q e result h1 h2 _ ih =>
    obtain ⟨n, hn⟩ := ih
    refine ⟨n + 1, fun fuel hf => ?_⟩
    obtain ⟨k, rfl⟩ : ∃ k, fuel = k + 1 := ⟨fuel - 1, by omega⟩
    show parse_call_loop (k + 1) e p = _
    rw [call_loop_call_empty k e p h1 h2]
    exact hn k (by omega)
  | @call p s q e result args h1 h2 ha h4 _ ih =>
    obtain ⟨n, hn⟩ := ih
    obtain ⟨m, hm⟩ := arguments_converge ha []
    refine ⟨max n m + 1, fun fuel hf => ?_⟩
    obtain ⟨k, rfl⟩ : ∃ k, fuel = k + 1 := ⟨fuel - 1, by omega⟩
    show parse_call_loop (k + 1) e p = _
    rw [call_loop_call k e p s args h1 h2 (by simpa using hm k (by omega)) h4]
    exact hn k (by omega)
  | @member p q e result h1 h2 _ ih =>
    obtain ⟨n, hn⟩ := ih
    refine ⟨n + 1, fun fuel hf => ?_⟩
    obtain ⟨k, rfl⟩ : ∃ k, fuel = k + 1 := ⟨fuel - 1, by omega⟩
    show parse_call_loop (k + 1) e p = _
    rw [call_loop_member k e p h1 h2]
    exact hn k (by omega)

theorem call_converges {p q r : parser_t} {e result : Option ast_expr_t}
    (h1 : Converges parse_primary p e q) (h2 : Postfixes q e r result) :
    Converges parse_call p result r :=
  level_converges (fun k => by rw [parse_call]) h1 (postfixes_converge h2)

theorem unary_of_call {p q : parser_t} {a : Option ast_expr_t}
    (h : Converges parse_call p a q) (hm : p.current.type ≠ TOKEN_MINUS)
    (hb : p.current.type ≠ TOKEN_BANG) : Converges parse_unary p a q := by
  obtain ⟨n, h⟩ := h
  refine ⟨n + 1, fun fuel hf => ?_⟩
  obtain ⟨k, rfl⟩ : ∃ k, fuel = k + 1 := ⟨fuel - 1, by omega⟩
  simp only [parse_unary, bind_run, orM, matchM, match_fail hm, match_fail hb,
    Outcome.bind, pure_run, ite_run]
  simp only [Bool.false_eq_true, if_false]
  exact h k (by omega)

theorem unary_minus {p q : parser_t} {e : Option ast_expr_t}
    (hm : p.current.type = TOKEN_MINUS) (h : Converges parse_unary (advance p) e q) :
    Converges parse_unary p (some (.unary .OP_NEG e 0 0)) q := by
  obtain ⟨n, h⟩ := h
  refine ⟨n + 1, fun fuel hf => ?_⟩
  obtain ⟨k, rfl⟩ : ∃ k, fuel = k + 1 := ⟨fuel - 1, by omega⟩
  simp [parse_unary, bind_run, orM, matchM, match_ok hm, previousM, advance_previous, hm,
    h k (by omega), Outcome.bind, pure_run, ite_run]

theorem unary_bang {p q : parser_t} {e : Option ast_expr_t}
    (hb : p.current.type = TOKEN_BANG) (h : Converges parse_unary (advance p) e q) :
    Converges parse_unary p (some (.unary .OP_NOT e 0 0)) q := by
  obtain ⟨n, h⟩ := h
  have hm : p.current.type ≠ TOKEN_MINUS := by rw [hb]; decide
  refine ⟨n + 1, fun fuel hf => ?_⟩
  obtain ⟨k, rfl⟩ : ∃ k, fuel = k + 1 := ⟨fuel - 1, by omega⟩
  simp [parse_unary, bind_run, orM, matchM, match_ok hb, match_fail hm, previousM,
    advance_previous, hb, h k (by omega), Outcome.bind, pure_run, ite_run]

/-- What `parse_unary` returns is what the operand function of a level returns
when the next token is no operator of a tighter level. -/
theorem operand_of_unary (l : level) {p q : parser_t} {a : Option ast_expr_t}
    (h : Converges parse_unary p a q)
    (ht : ∀ l' : level, l' ∉ l.outer → l'.op q.current.type = none) :
    Converges l.operand p a q := by
  have nil_fold : ∀ a : Option ast_expr_t, left_fold a [] = a := fun _ => rfl
  cases l with
  | factor => exact h
  | term =>
    have h1 := factor_converges h (Chain.nil q) (ht .factor (by simp [level.outer]))
    rw [nil_fold] at h1
    exact h1
  | comparison =>
    have h1 := factor_converges h (Chain.nil q) (ht .factor (by simp [level.outer]))
    rw [nil_fold] at h1
    have h2 := term_converges h1 (Chain.nil q) (ht .term (by simp [level.outer]))
    rw [nil_fold] at h2
    exact h2
  | equality =>
    have h1 := factor_converges h (Chain.nil q) (ht .factor (by simp [level.outer]))
    rw [nil_fold] at h1
    have h2 := term_converges h1 (Chain.nil q) (ht .term (by simp [level.outer]))
    rw [nil_fold] at h2
    have h3 := comparison_converges h2 (Chain.nil q) (ht .comparison (by simp [level.outer]))
    rw [nil_fold] at h3
    exact h3

/-- A chain of one level that ends before a token that is no operator of that
level or of a looser one is what `parse_expression` folds to the left. -/
theorem expression_of_chain (l : level) {p q r : parser_t} {first : Option ast_expr_t}
    {chain : List (ast_binary_op_t × Option ast_expr_t)}
    (hfirst : Converges l.operand p first q) (hchain : Chain l.operand l.op q chain r)
    (hend : ∀ l' ∈ l.outer, l'.op r.current.type = none) :
    Converges parse_expression p (left_fold first chain) r := by
  have nil_fold : ∀ a : Option ast_expr_t, left_fold a [] = a := fun _ => rfl
  cases l with
  | equality =>
    exact expression_converges
      (equality_converges hfirst hchain (hend .equality (by simp [level.outer])))
  | comparison =>
    have h1 := comparison_converges hfirst hchain (hend .comparison (by simp [level.outer]))
    have h2 := equality_converges h1 (Chain.nil r) (hend .equality (by simp [level.outer]))
    rw [nil_fold] at h2
    exact expression_converges h2
  | term =>
    have h1 := term_converges hfirst hchain (hend .term (by simp [level.outer]))
    have h2 := comparison_converges h1 (Chain.nil r) (hend .comparison (by simp [level.outer]))
    rw [nil_fold] at h2
    have h3 := equality_converges h2 (Chain.nil r) (hend .equality (by simp [level.outer]))
    rw [nil_fold] at h3
    exact expression_converges h3
  | factor =>
    have h0 := factor_converges hfirst hchain (hend .factor (by simp [level.outer]))
    have h1 := term_converges h0 (Chain.nil r) (hend .term (by simp [level.outer]))
    rw [nil_fold] at h1
    have h2 := comparison_converges h1 (Chain.nil r) (hend .comparison (by simp [level.outer]))
    rw [nil_fold] at h2
    have h3 := equality_converges h2 (Chain.nil r) (hend .equality (by simp [level.outer]))
    rw [nil_fold] at h3
    exact expression_converges h3

/-- What `parse_unary` returns before a token that is no binary operator is what
`parse_expression` returns. -/
theorem expression_of_unary {p q : parser_t} {a : Option ast_expr_t}
    (h : Converges parse_unary p a q) (hend : ∀ l : level, l.op q.current.type = none) :
    Converges parse_expression p a q :=
  expression_of_chain .factor h (Chain.nil q) (fun l _ => hend l)

theorem converges_identifier {p : parser_t} (ht : p.current.type = TOKEN_IDENTIFIER) :
    Converges parse_primary p
      (some (.identifier (token_to_string p.current) p.current.line p.current.column))
      (advance p) := by
  refine ⟨1, fun fuel hf => ?_⟩
  obtain ⟨k, rfl⟩ : ∃ k, fuel = k + 1 := ⟨fuel - 1, by omega⟩
  exact parse_primary_identifier k p ht

theorem converges_identifier_at {p : parser_t} {name : List Char} {l c : Int}
    (ht : p.current.type = TOKEN_IDENTIFIER) (hn : token_to_string p.current = name)
    (hl : p.current.line = l) (hc : p.current.column = c) :
    Converges parse_primary p (some (.identifier name l c)) (advance p) := by
  have h := converges_identifier ht
  rw [hn, hl, hc] at h
  exact h

/-- The tokens that end an expression: no postfix and no binary operator starts
with them. -/
theorem no_operator_of_mem {t : token_type_t}
    (h : t ∈ [TOKEN_RIGHT_PAREN, TOKEN_COMMA, TOKEN_EOF, TOKEN_NEWLINE, TOKEN_LEFT_BRACE,
      TOKEN_RIGHT_BRACE, TOKEN_EQUAL, TOKEN_PRIORITY]) :
    t ≠ TOKEN_LEFT_PAREN ∧ t ≠ TOKEN_DOT ∧ ∀ l : level, l.op t = none := by
  simp only [List.mem_cons, List.mem_singleton, List.not_mem_nil, or_false] at h
  rcases h with h | h | h | h | h | h | h | h <;> subst h <;>
    exact ⟨by decide, by decide, fun l => by cases l <;> rfl⟩

/-- Claim C23 (postfix chains).  A primary expression followed by a chain of
postfixes is parsed by `parse_call`, and by `parse_expression` when no unary
operator stands in front and no binary operator follows, into the result of
applying the postfixes from left to right: an argument list wraps the
expression as the callee of a call node whose arguments are in source order,
`.name` wraps it as the object of a member node.  In particular the eight
tokens of `a.b(c).d`, for any four identifier tokens, followed by a token that
starts no postfix and no binary operator, are parsed as
MEMBER(CALL(MEMBER(a, b), [c]), d). -/
theorem postfix_chains :
    (∀ (p q r : parser_t) (e result : Option ast_expr_t),
      Converges parse_primary p e q → Postfixes q e r result →
      Converges parse_call p result r ∧
        (p.current.type ≠ TOKEN_MINUS → p.current.type ≠ TOKEN_BANG →
          (∀ l : level, l.op r.current.type = none) →
          Converges parse_expression p result r)) ∧
    (∀ p : parser_t,
      p.current.type = TOKEN_IDENTIFIER →
      (advance^[1] p).current.type = TOKEN_DOT →
      (advance^[2] p).current.type = TOKEN_IDENTIFIER →
      (advance^[3] p).current.type = TOKEN_LEFT_PAREN →
      (advance^[4] p).current.type = TOKEN_IDENTIFIER →
      (advance^[5] p).current.type = TOKEN_RIGHT_PAREN →
      (advance^[6] p).current.type = TOKEN_DOT →
      (advance^[7] p).current.type = TOKEN_IDENTIFIER →
      (advance^[8] p).current.type ≠ TOKEN_LEFT_PAREN →
      (advance^[8] p).current.type ≠ TOKEN_DOT →
      (∀ l : level, l.op (advance^[8] p).current.type = none) →
      Converges parse_expression p
        (some (.member
          (some (.call
            (some (.member
              (some (.identifier (token_to_string p.current) p.current.line p.current.column))
              (token_to_string (advance^[2] p).current) 0 0))
            [some (.identifier (token_to_string (advance^[4] p).current)
              (advance^[4] p).current.line (advance^[4] p).current.column)] 0 0))
          (token_to_string (advance^[7] p).current) 0 0))
        (advance^[8] p)) := by
  have general : ∀ (p q r : parser_t) (e result : Option ast_expr_t),
      Converges parse_primary p e q → Postfixes q e r result →
      Converges parse_call p result r ∧
        (p.current.type ≠ TOKEN_MINUS → p.current.type ≠ TOKEN_BANG →
          (∀ l : level, l.op r.current.type = none) →
          Converges parse_expression p result r) := by
    intro p q r e result h1 h2
    exact ⟨call_converges h1 h2, fun hm hb hend =>
      expression_of_unary (unary_of_call (call_converges h1 h2) hm hb) hend⟩
  refine ⟨general, ?_⟩
  intro p h0 h1 h2 h3 h4 h5 h6 h7 h8 h8' hend
  simp only [Function.iterate_succ, Function.iterate_zero, Function.comp_apply, id_eq] at *
  have hc : Converges parse_expression (advance (advance (advance (advance p))))
      (some (.identifier (token_to_string (advance (advance (advance (advance p)))).current)
        (advance (advance (advance (advance p)))).current.line
        (advance (advance (advance (advance p)))).current.column))
      (advance (advance (advance (advance (advance p))))) := by
    have hr := no_operator_of_mem (t := (advance (advance (advance (advance
      (advance p))))).current.type) (by rw [h5]; decide)
    refine ((general _ _ _ _ _ (converges_identifier h4)
      (Postfixes.stop _ _ hr.1 hr.2.1)).2 ?_ ?_ hr.2.2)
    · rw [h4]; decide
    · rw [h4]; decide
  refine ((general p _ _ _ _ (converges_identifier h0) ?_).2 ?_ ?_ hend)
  · refine Postfixes.member h1 h2 ?_
    refine Postfixes.call h3 (by rw [h4]; decide) (Arguments.last hc (by rw [h5]; decide)) h5 ?_
    exact Postfixes.member h6 h7 (Postfixes.stop _ _ h8 h8')
  · rw [h0]; decide
  · rw [h0]; decide

theorem postfix_chains_witness :
    Converges parse_expression (parser_on "a.b(c).d")
      (some (.member
        (some (.call
          (some (.member (some (.identifier ['a'] 1 1)) ['b'] 0 0))
          [some (.identifier ['c'] 1 5)] 0 0))
        ['d'] 0 0))
      (advance^[8] (parser_on "a.b(c).d")) := by
  have h := postfix_chains.2 (parser_on "a.b(c).d") (by decide!) (by decide!) (by decide!)
    (by decide!) (by decide!) (by decide!) (by decide!) (by decide!) (by decide!) (by decide!)
    (fun l => by cases l <;> decide!)
  have e0 : token_to_string (parser_on "a.b(c).d").current = ['a'] := by decide!
  have e1 : (parser_on "a.b(c).d").current.line = 1 := by decide!
  have e2 : (parser_on "a.b(c).d").current.column = 1 := by decide!
  have e3 : token_to_string (advance^[2] (parser_on "a.b(c).d")).current = ['b'] := by decide!
  have e4 : token_to_string (advance^[4] (parser_on "a.b(c).d")).current = ['c'] := by decide!
  have e5 : (advance^[4] (parser_on "a.b(c).d")).current.line = 1 := by decide!
  have e6 : (advance^[4] (parser_on "a.b(c).d")).current.column = 5 := by decide!
  have e7 : token_to_string (advance^[7] (parser_on "a.b(c).d")).current = ['d'] := by decide!
  rw [e0, e1, e2, e3, e4, e5, e6, e7] at h
  exact h

/-- A token is an operator of one level at most. -/
theorem op_of_one_level (l l' : level) (t : token_type_t) (op : ast_binary_op_t)
    (h : l.op t = some op) (hne : l' ≠ l) : l'.op t = none := by
  cases l <;> cases l' <;> first
    | exact absurd rfl hne
    | (cases t <;> first | rfl | cases h)

/-- Claim C24 (unary operators).  A `-` in front of what `parse_unary` parses
yields a NEG node and a `!` a NOT node, whatever the operand starts with, so
prefix operators nest to the right.  The operand of a unary operator is parsed
by `parse_unary`, which takes all postfixes and no binary operator: for every
binary operator `op` the tokens of `-a op b` are parsed as `op`(NEG(a), b), in
particular `-a * b` as MUL(NEG(a), b); `!-a` is parsed as NOT(NEG(a)); and
`-a.b` as NEG(MEMBER(a, b)). -/
theorem unary_operators :
    (∀ (p q : parser_t) (e : Option ast_expr_t), p.current.type = TOKEN_MINUS →
      Converges parse_unary (advance p) e q →
      Converges parse_unary p (some (.unary .OP_NEG e 0 0)) q) ∧
    (∀ (p q : parser_t) (e : Option ast_expr_t), p.current.type = TOKEN_BANG →
      Converges parse_unary (advance p) e q →
      Converges parse_unary p (some (.unary .OP_NOT e 0 0)) q) ∧
    (∀ p : parser_t,
      p.current.type = TOKEN_BANG →
      (advance^[1] p).current.type = TOKEN_MINUS →
      (advance^[2] p).current.type = TOKEN_IDENTIFIER →
      (advance^[3] p).current.type ≠ TOKEN_LEFT_PAREN →
      (advance^[3] p).current.type ≠ TOKEN_DOT →
      (∀ l : level, l.op (advance^[3] p).current.type = none) →
      Converges parse_expression p
        (some (.unary .OP_NOT (some (.unary .OP_NEG
          (some (.identifier (token_to_string (advance^[2] p).current)
            (advance^[2] p).current.line (advance^[2] p).current.column)) 0 0)) 0 0))
        (advance^[3] p)) ∧
    (∀ (p : parser_t) (l : level) (op : ast_binary_op_t),
      p.current.type = TOKEN_MINUS →
      (advance^[1] p).current.type = TOKEN_IDENTIFIER →
      l.op (advance^[2] p).current.type = some op →
      (advance^[3] p).current.type = TOKEN_IDENTIFIER →
      (advance^[4] p).current.type ≠ TOKEN_LEFT_PAREN →
      (advance^[4] p).current.type ≠ TOKEN_DOT →
      (∀ l : level, l.op (advance^[4] p).current.type = none) →
      Converges parse_expression p
        (some (.binary
          (some (.unary .OP_NEG
            (some (.identifier (token_to_string (advance^[1] p).current)
              (advance^[1] p).current.line (advance^[1] p).current.column)) 0 0))
          op
          (some (.identifier (token_to_string (advance^[3] p).current)
            (advance^[3] p).current.line (advance^[3] p).current.column)) 0 0))
        (advance^[4] p)) ∧
    (∀ p : parser_t,
      p.current.type = TOKEN_MINUS →
      (advance^[1] p).current.type = TOKEN_IDENTIFIER →
      (advance^[2] p).current.type = TOKEN_DOT →
      (advance^[3] p).current.type = TOKEN_IDENTIFIER →
      (advance^[4] p).current.type ≠ TOKEN_LEFT_PAREN →
      (advance^[4] p).current.type ≠ TOKEN_DOT →
      (∀ l : level, l.op (advance^[4] p).current.type = none) →
      Converges parse_expression p
        (some (.unary .OP_NEG
          (some (.member
            (some (.identifier (token_to_string (advance^[1] p).current)
              (advance^[1] p).current.line (advance^[1] p).current.column))
            (token_to_string (advance^[3] p).current) 0 0)) 0 0))
        (advance^[4] p)) := by
  refine ⟨fun p q e hm h => unary_minus hm h, fun p q e hb h => unary_bang hb h, ?_, ?_, ?_⟩
  · intro p h0 h1 h2 h3 h3' hend
    simp only [Function.iterate_succ, Function.iterate_zero, Function.comp_apply, id_eq] at *
    have ha := unary_of_call (call_converges (converges_identifier h2)
      (Postfixes.stop _ _ h3 h3')) (by rw [h2]; decide) (by rw [h2]; decide)
    exact expression_of_unary (unary_bang h0 (unary_minus h1 ha)) hend
  · intro p l op h0 h1 h2 h3 h4 h4' hend
    simp only [Function.iterate_succ, Function.iterate_zero, Function.comp_apply, id_eq] at *
    have hop : (advance (advance p)).current.type ≠ TOKEN_LEFT_PAREN ∧
        (advance (advance p)).current.type ≠ TOKEN_DOT := by
      constructor <;> intro hc <;> rw [hc] at h2 <;> cases l <;> cases h2
    have htight : ∀ l' : level, l' ∉ l.outer →
        l'.op (advance (advance p)).current.type = none := by
      intro l' hl'
      refine op_of_one_level l l' _ op h2 ?_
      rintro rfl
      exact hl' (by cases l' <;> simp [level.outer])
    have ha := unary_minus h0 (unary_of_call (call_converges (converges_identifier h1)
      (Postfixes.stop _ _ hop.1 hop.2)) (by rw [h1]; decide) (by rw [h1]; decide))
    have hb := unary_of_call (call_converges (converges_identifier h3)
      (Postfixes.stop _ _ h4 h4')) (by rw [h3]; decide) (by rw [h3]; decide)
    have hfirst := operand_of_unary l ha htight
    have hsecond := operand_of_unary l hb (fun l' _ => hend l')
    exact expression_of_chain l hfirst (Chain.cons h2 hsecond (Chain.nil _))
      (fun l' _ => hend l')
  · intro p h0 h1 h2 h3 h4 h4' hend
    simp only [Function.iterate_succ, Function.iterate_zero, Function.comp_apply, id_eq] at *
    have ha := unary_of_call (call_converges (converges_identifier h1)
      (Postfixes.member h2 h3 (Postfixes.stop _ _ h4 h4')))
      (by rw [h1]; decide) (by rw [h1]; decide)
    exact expression_of_unary (unary_minus h0 ha) hend

theorem unary_operators_witness :
    Converges parse_expression (parser_on "-a * b")
      (some (.binary (some (.unary .OP_NEG (some (.identifier ['a'] 1 2)) 0 0)) .OP_MUL
        (some (.identifier ['b'] 1 6)) 0 0))
      (advance^[4] (parser_on "-a * b")) ∧
    Converges parse_expression (parser_on "!-a")
      (some (.unary .OP_NOT (some (.unary .OP_NEG (some (.identifier ['a'] 1 3)) 0 0)) 0 0))
      (advance^[3] (parser_on "!-a")) ∧
    Converges parse_expression (parser_on "-a.b")
      (some (.unary .OP_NEG (some (.member (some (.identifier ['a'] 1 2)) ['b'] 0 0)) 0 0))
      (advance^[4] (parser_on "-a.b")) := by
  refine ⟨?_, ?_, ?_⟩
  · have h := unary_operators.2.2.2.1 (parser_on "-a * b") .factor .OP_MUL (by decide!)
      (by decide!) (by decide!) (by decide!) (by decide!) (by decide!)
      (fun l => by cases l <;> decide!)
    have e0 : token_to_string (advance^[1] (parser_on "-a * b")).current = ['a'] := by decide!
    have e1 : (advance^[1] (parser_on "-a * b")).current.line = 1 := by decide!
    have e2 : (advance^[1] (parser_on "-a * b")).current.column = 2 := by decide!
    have e3 : token_to_string (advance^[3] (parser_on "-a * b")).current = ['b'] := by decide!
    have e4 : (advance^[3] (parser_on "-a * b")).current.line = 1 := by decide!
    have e5 : (advance^[3] (parser_on "-a * b")).current.column = 6 := by decide!
    rw [e0, e1, e2, e3, e4, e5] at h
    exact h
  · have h := unary_operators.2.2.1 (parser_on "!-a") (by decide!) (by decide!) (by decide!)
      (by decide!) (by decide!) (fun l => by cases l <;> decide!)
    have e0 : token_to_string (advance^[2] (parser_on "!-a")).current = ['a'] := by decide!
    have e1 : (advance^[2] (parser_on "!-a")).current.line = 1 := by decide!
    have e2 : (advance^[2] (parser_on "!-a")).current.column = 3 := by decide!
    rw [e0, e1, e2] at h
    exact h
  · have h := unary_operators.2.2.2.2 (parser_on "-a.b") (by decide!) (by decide!)
      (by decide!) (by decide!) (by decide!) (by decide!) (fun l => by cases l <;> decide!)
    have e0 : token_to_string (advance^[1] (parser_on "-a.b")).current = ['a'] := by decide!
    have e1 : (advance^[1] (parser_on "-a.b")).current.line = 1 := by decide!
    have e2 : (advance^[1] (parser_on "-a.b")).current.column = 2 := by decide!
    have e3 : token_to_string (advance^[3] (parser_on "-a.b")).current = ['b'] := by decide!
    rw [e0, e1, e2, e3] at h
    exact h

/-! ### Statements -/

theorem block_loop_exit (k : Nat) (acc : List (Option ast_stmt_t)) (p : parser_t)
    (h : p.current.type = TOKEN_RIGHT_BRACE ∨ p.current.type = TOKEN_EOF) :
    parse_block_loop (k + 1) acc p = .done acc p := by
  rcases h with h | h <;>
    simp [parse_block_loop, bind_run, checkM, check, h, Outcome.bind, pure_run, ite_run]

theorem block_loop_step (k : Nat) (acc : List (Option ast_stmt_t)) (p q : parser_t)
    (stmt : Option ast_stmt_t) (h1 : p.current.type ≠ TOKEN_RIGHT_BRACE)
    (h2 : p.current.type ≠ TOKEN_EOF) (h : parse_statement k p = .done stmt q) :
    parse_block_loop (k + 1) acc p = parse_block_loop k (acc ++ [stmt]) (skip_newlines q) := by
  simp [parse_block_loop, bind_run, checkM, check, h1, h2, h, skip_newlinesM, Outcome.bind,
    pure_run, ite_run]

/-- The loop of `parse_block` collects the statements in source order. -/
theorem statements_converge {p q : parser_t} {l : List (Option ast_stmt_t)}
    (h : Statements p l q) :
    ∀ acc, Converges (fun fuel => parse_block_loop fuel acc) p (acc ++ l) q := by
  induction h with
  | nil p h =>
    intro acc
    refine ⟨1, fun fuel hf => ?_⟩
    obtain ⟨k, rfl⟩ : ∃ k, fuel = k + 1 := ⟨fuel - 1, by omega⟩
    simpa using block_loop_exit k acc p h
  | @cons p q r stmt rest h1 h2 hs _ ih =>
    intro acc
    obtain ⟨n, hn⟩ := hs
    obtain ⟨m, hm⟩ := ih (acc ++ [stmt])
    refine ⟨max n m + 1, fun fuel hf => ?_⟩
    obtain ⟨k, rfl⟩ : ∃ k, fuel = k + 1 := ⟨fuel - 1, by omega⟩
    show parse_block_loop (k + 1) acc p = _
    rw [block_loop_step k acc p q stmt h1 h2 (hn k (by omega))]
    have := hm k (by omega)
    simpa using this

/-- A block is the list of its statements. -/
theorem block_converges {p q : parser_t} {l : List (Option ast_stmt_t)}
    (h : Statements (skip_newlines p) l q) : Converges parse_block p (.block l 0 0) q := by
  obtain ⟨n, hn⟩ := statements_converge h []
  refine ⟨n + 1, fun fuel hf => ?_⟩
  obtain ⟨k, rfl⟩ : ∃ k, fuel = k + 1 := ⟨fuel - 1, by omega⟩
  have := hn k (by omega)
  simp only [List.nil_append] at this
  simp [parse_block, bind_run, skip_newlinesM, this, Outcome.bind, pure_run]

/-- An expression that no `=` follows is an expression statement. -/
theorem expression_statement {p q : parser_t} {e : Option ast_expr_t}
    (hn : p.current.type ≠ TOKEN_NEWLINE) (hi : p.current.type ≠ TOKEN_IF)
    (hw : p.current.type ≠ TOKEN_WAIT) (he : Converges parse_expression p e q)
    (hq : q.current.type ≠ TOKEN_EQUAL) :
    Converges parse_statement p (some (.expr e 0 0)) q := by
  obtain ⟨n, hn'⟩ := he
  refine ⟨n + 1, fun fuel hf => ?_⟩
  obtain ⟨k, rfl⟩ : ∃ k, fuel = k + 1 := ⟨fuel - 1, by omega⟩
  simp [parse_statement, bind_run, skip_newlinesM, skip_newlines_id hn, matchM, match_fail hi,
    match_fail hw, match_fail hq, hn' k (by omega), Outcome.bind, pure_run, ite_run]

/-- A primary expression that no postfix and no binary operator follows is what
`parse_expression` returns. -/
theorem expression_of_primary {p q : parser_t} {a : ast_expr_t}
    (h : Converges parse_primary p (some a) q) (h1 : q.current.type ≠ TOKEN_LEFT_PAREN)
    (h2 : q.current.type ≠ TOKEN_DOT) (hend : ∀ l : level, l.op q.current.type = none) :
    Converges parse_expression p (some a) q :=
  expression_of_unary (unary_of_primary h h1 h2) hend

/-- Claim C22 (assignment targets).  Let a statement start with an expression
`lhs` that is not null, followed by `=`.  When `lhs` is an identifier node,
`parse_statement` returns the assignment of the parsed right-hand side to the
identifier's name; when `lhs` is a member access, the assignment of the parsed
right-hand side to the fixed name `member`; when `lhs` is any other node, it
returns null after calling `error` with `Invalid assignment target`, which
files that diagnostic unless the parser is in panic mode already. -/
theorem assignment_targets (p q r : parser_t) (lhs : ast_expr_t) (rhs : Option ast_expr_t)
    (hn : p.current.type ≠ TOKEN_NEWLINE) (hi : p.current.type ≠ TOKEN_IF)
    (hw : p.current.type ≠ TOKEN_WAIT) (hl : Converges parse_expression p (some lhs) q)
    (he : q.current.type = TOKEN_EQUAL) :
    (∀ name line column, lhs = .identifier name line column →
      Converges parse_expression (advance q) rhs r →
      Converges parse_statement p (some (.assign name rhs 0 0)) r) ∧
    (∀ object member line column, lhs = .member object member line column →
      Converges parse_expression (advance q) rhs r →
      Converges parse_statement p (some (.assign "member".toList rhs 0 0)) r) ∧
    (lhs.type ≠ .EXPR_IDENTIFIER → lhs.type ≠ .EXPR_MEMBER →
      Converges parse_statement p none
        (error (advance q) "Invalid assignment target".toList) ∧
      ((advance q).panic_mode = false →
        (error (advance q) "Invalid assignment target".toList).had_error = true ∧
        (error (advance q) "Invalid assignment target".toList).diagnostics.map
          (fun d => d.message) =
          (advance q).diagnostics.map (fun d => d.message) ++
            ["Invalid assignment target".toList])) := by
  obtain ⟨n, hl⟩ := hl
  refine ⟨?_, ?_, ?_⟩
  · rintro name line column rfl ⟨m, hr⟩
    refine ⟨max n m + 1, fun fuel hf => ?_⟩
    obtain ⟨k, rfl⟩ : ∃ k, fuel = k + 1 := ⟨fuel - 1, by omega⟩
    simp [parse_statement, bind_run, skip_newlinesM, skip_newlines_id hn, matchM, match_fail hi,
      match_fail hw, match_ok he, hl k (by omega), hr k (by omega), Outcome.bind, pure_run,
      ite_run]
  · rintro object member line column rfl ⟨m, hr⟩
    refine ⟨max n m + 1, fun fuel hf => ?_⟩
    obtain ⟨k, rfl⟩ : ∃ k, fuel = k + 1 := ⟨fuel - 1, by omega⟩
    simp [parse_statement, bind_run, skip_newlinesM, skip_newlines_id hn, matchM, match_fail hi,
      match_fail hw, match_ok he, hl k (by omega), hr k (by omega), Outcome.bind, pure_run,
      ite_run]
  · intro h1 h2
    refine ⟨⟨n + 1, fun fuel hf => ?_⟩, fun hp => ?_⟩
    · obtain ⟨k, rfl⟩ : ∃ k, fuel = k + 1 := ⟨fuel - 1, by omega⟩
      have hl' := hl k (by omega)
      cases lhs with
      | identifier => exact absurd rfl h1
      | member => exact absurd rfl h2
      | _ =>
        simp [parse_statement, bind_run, skip_newlinesM, skip_newlines_id hn, matchM,
          match_fail hi, match_fail hw, match_ok he, hl', errorM, Outcome.bind, pure_run,
          ite_run]
    · simp [error, error_at, hp]

theorem if_statement_start (k : Nat) (p : parser_t) (hif : p.current.type = TOKEN_IF) :
    parse_statement (k + 1) p = parse_if_statement k (advance p) := by
  have hn : p.current.type ≠ TOKEN_NEWLINE := by rw [hif]; decide
  simp [parse_statement, bind_run, skip_newlinesM, skip_newlines_id hn, matchM, match_ok hif,
    Outcome.bind, ite_run]

/-- Claim C25 (`if` statements).  Let `if` be followed by an expression that
`parse_expression` parses as `condition`, an opening brace, a block that
`parse_block` parses as `then_branch`, and a closing brace.  When the token
after that brace is not `else`, `parse_statement` returns the `if` node with
that condition, that then-branch and no else-branch, in the state reached by
consuming the closing brace.  When it is `else`, followed by an opening brace,
a block that `parse_block` parses as `else_branch` and a closing brace,
`parse_statement` returns the `if` node with that else-branch, in the state
reached by consuming the second closing brace.  In both cases every `consume`
of the statement finds its token, so the statement itself reports nothing. -/
theorem if_statement (p q r : parser_t) (condition : Option ast_expr_t)
    (then_branch : ast_stmt_t) (hif : p.current.type = TOKEN_IF)
    (hc : Converges parse_expression (advance p) condition q)
    (hb1 : q.current.type = TOKEN_LEFT_BRACE)
    (ht : Converges parse_block (skip_newlines (advance q)) then_branch r)
    (hb2 : r.current.type = TOKEN_RIGHT_BRACE) :
    ((advance r).current.type ≠ TOKEN_ELSE →
      Converges parse_statement p
        (some (.if_stmt condition (some then_branch) none 0 0)) (advance r)) ∧
    (∀ (s : parser_t) (else_branch : ast_stmt_t),
      (advance r).current.type = TOKEN_ELSE →
      (advance (advance r)).current.type = TOKEN_LEFT_BRACE →
      Converges parse_block (skip_newlines (advance (advance (advance r)))) else_branch s →
      s.current.type = TOKEN_RIGHT_BRACE →
      Converges parse_statement p
        (some (.if_stmt condition (some then_branch) (some else_branch) 0 0)) (advance s)) := by
  obtain ⟨n1, hc⟩ := hc
  obtain ⟨n2, ht⟩ := ht
  refine ⟨fun he => ⟨max n1 n2 + 2, fun fuel hf => ?_⟩, ?_⟩
  · obtain ⟨k, rfl⟩ : ∃ k, fuel = k + 2 := ⟨fuel - 2, by omega⟩
    rw [if_statement_start _ p hif]
    simp [parse_if_statement, bind_run, hc k (by omega), consumeM, consume_ok _ hb1,
      skip_newlinesM, ht k (by omega), consume_ok _ hb2, matchM, match_fail he, Outcome.bind,
      pure_run, ite_run]
  · intro s else_branch he hb3 ⟨n3, hel⟩ hb4
    refine ⟨max (max n1 n2) n3 + 2, fun fuel hf => ?_⟩
    obtain ⟨k, rfl⟩ : ∃ k, fuel = k + 2 := ⟨fuel - 2, by omega⟩
    rw [if_statement_start _ p hif]
    simp [parse_if_statement, bind_run, hc k (by omega), consumeM, consume_ok _ hb1,
      skip_newlinesM, ht k (by omega), consume_ok _ hb2, matchM, match_ok he,
      consume_ok _ hb3, hel k (by omega), consume_ok _ hb4, Outcome.bind, pure_run, ite_run]

theorem assignment_targets_witness :
    Converges parse_statement (parser_on "x = 1")
      (some (.assign ['x'] (some (.literal (.number 1) 1 5)) 0 0))
      (advance^[3] (parser_on "x = 1")) ∧
    Converges parse_statement (parser_on "a.b = 1")
      (some (.assign "member".toList (some (.literal (.number 1) 1 7)) 0 0))
      (advance^[5] (parser_on "a.b = 1")) ∧
    Converges parse_statement (parser_on "2 = 1") none
      (error (advance^[2] (parser_on "2 = 1")) "Invalid assignment target".toList) ∧
    (error (advance^[2] (parser_on "2 = 1")) "Invalid assignment target".toList).diagnostics.map
      (fun d => d.message) = ["Invalid assignment target".toList] := by
  have hend : ∀ (t : token_type_t), t = TOKEN_EQUAL ∨ t = TOKEN_EOF →
      t ≠ TOKEN_LEFT_PAREN ∧ t ≠ TOKEN_DOT ∧ ∀ l : level, l.op t = none := by
    rintro t (rfl | rfl) <;> exact ⟨by decide, by decide, fun l => by cases l <;> rfl⟩
  have x1 := hend (advance^[1] (parser_on "x = 1")).current.type (Or.inl (by decide!))
  have x3 := hend (advance^[3] (parser_on "x = 1")).current.type (Or.inr (by decide!))
  have a3 := hend (advance^[3] (parser_on "a.b = 1")).current.type (Or.inl (by decide!))
  have a5 := hend (advance^[5] (parser_on "a.b = 1")).current.type (Or.inr (by decide!))
  have n1 := hend (advance^[1] (parser_on "2 = 1")).current.type (Or.inl (by decide!))
  refine ⟨?_, ?_, ?_, by decide!⟩
  · exact (assignment_targets (parser_on "x = 1") (advance^[1] (parser_on "x = 1"))
      (advance^[3] (parser_on "x = 1")) (.identifier ['x'] 1 1)
      (some (.literal (.number 1) 1 5)) (by decide!) (by decide!) (by decide!)
      (expression_of_primary
        (converges_identifier_at (by decide!) (by decide!) (by decide!) (by decide!))
        x1.1 x1.2.1 x1.2.2) (by decide!)).1 _ _ _ rfl
      (expression_of_primary
        (converges_number (by decide!) (by decide!) (by decide!) (by decide!))
        x3.1 x3.2.1 x3.2.2)
  · have ha : Converges parse_expression (parser_on "a.b = 1")
        (some (.member (some (.identifier ['a'] 1 1)) ['b'] 0 0))
        (advance^[3] (parser_on "a.b = 1")) := by
      have h0 : Converges parse_primary (parser_on "a.b = 1") (some (.identifier ['a'] 1 1))
          (advance (parser_on "a.b = 1")) :=
        converges_identifier_at (by decide!) (by decide!) (by decide!) (by decide!)
      have h := call_converges h0
        (Postfixes.member (by decide!) (by decide!) (Postfixes.stop _ _ a3.1 a3.2.1))
      have e : token_to_string (advance (advance (parser_on "a.b = 1"))).current = ['b'] := by
        decide!
      rw [e] at h
      exact expression_of_unary (unary_of_call h (by decide!) (by decide!)) a3.2.2
    exact (assignment_targets (parser_on "a.b = 1") (advance^[3] (parser_on "a.b = 1"))
      (advance^[5] (parser_on "a.b = 1")) _
      (some (.literal (.number 1) 1 7)) (by decide!) (by decide!) (by decide!)
      ha (by decide!)).2.1 _ _ _ _ rfl
      (expression_of_primary
        (converges_number (by decide!) (by decide!) (by decide!) (by decide!))
        a5.1 a5.2.1 a5.2.2)
  · exact ((assignment_targets (parser_on "2 = 1") (advance^[1] (parser_on "2 = 1"))
      (advance^[3] (parser_on "2 = 1")) (.literal (.number 2) 1 1) none
      (by decide!) (by decide!) (by decide!)
      (expression_of_primary
        (converges_number (by decide!) (by decide!) (by decide!) (by decide!))
        n1.1 n1.2.1 n1.2.2) (by decide!)).2.2 (by decide) (by decide)).1

theorem if_statement_witness :
    Converges parse_statement (parser_on "if x \x7b y \x7d else \x7b z \x7d")
      (some (.if_stmt (some (.identifier ['x'] 1 4))
        (some (.block [some (.expr (some (.identifier ['y'] 1 8)) 0 0)] 0 0))
        (some (.block [some (.expr (some (.identifier ['z'] 1 19)) 0 0)] 0 0)) 0 0))
      (advance^[9] (parser_on "if x \x7b y \x7d else \x7b z \x7d")) ∧
    (advance^[9] (parser_on "if x \x7b y \x7d else \x7b z \x7d")).had_error = false ∧
    Converges parse_statement (parser_on "if x \x7b y \x7d")
      (some (.if_stmt (some (.identifier ['x'] 1 4))
        (some (.block [some (.expr (some (.identifier ['y'] 1 8)) 0 0)] 0 0)) none 0 0))
      (advance^[5] (parser_on "if x \x7b y \x7d")) ∧
    (advance^[5] (parser_on "if x \x7b y \x7d")).had_error = false := by
  have hend : ∀ (t : token_type_t), t = TOKEN_LEFT_BRACE ∨ t = TOKEN_RIGHT_BRACE →
      t ≠ TOKEN_LEFT_PAREN ∧ t ≠ TOKEN_DOT ∧ (∀ l : level, l.op t = none) ∧ t ≠ TOKEN_EQUAL := by
    rintro t (rfl | rfl) <;>
      exact ⟨by decide, by decide, fun l => by cases l <;> rfl, by decide⟩
  -- a block with the single expression statement formed by the identifier at `p`
  have block : ∀ (p : parser_t) (name : List Char) (l c : Int),
      skip_newlines p = p → p.current.type = TOKEN_IDENTIFIER →
      token_to_string p.current = name → p.current.line = l → p.current.column = c →
      (advance p).current.type = TOKEN_RIGHT_BRACE →
      Converges parse_block (skip_newlines p)
        (.block [some (.expr (some (.identifier name l c)) 0 0)] 0 0) (advance p) := by
    intro p name l c hs ht hn hl hc hb
    have hb' := hend _ (Or.inr hb)
    have hnl : (advance p).current.type ≠ TOKEN_NEWLINE := by rw [hb]; decide
    refine block_converges ?_
    rw [hs, hs]
    refine Statements.cons (by rw [ht]; decide) (by rw [ht]; decide)
      (expression_statement (by rw [ht]; decide) (by rw [ht]; decide) (by rw [ht]; decide)
        (expression_of_primary (converges_identifier_at ht hn hl hc) hb'.1 hb'.2.1 hb'.2.2.1)
        hb'.2.2.2) ?_
    rw [skip_newlines_id hnl]
    exact Statements.nil _ (Or.inl hb)
  have c1 := hend (advance^[2] (parser_on "if x \x7b y \x7d else \x7b z \x7d")).current.type
    (Or.inl (by decide!))
  have c2 := hend (advance^[2] (parser_on "if x \x7b y \x7d")).current.type
    (Or.inl (by decide!))
  refine ⟨?_, by decide!, ?_, by decide!⟩
  · exact (if_statement (parser_on "if x \x7b y \x7d else \x7b z \x7d")
      (advance^[2] (parser_on "if x \x7b y \x7d else \x7b z \x7d"))
      (advance^[4] (parser_on "if x \x7b y \x7d else \x7b z \x7d")) _ _ (by decide!)
      (expression_of_primary
        (converges_identifier_at (by decide!) (by decide!) (by decide!) (by decide!))
        c1.1 c1.2.1 c1.2.2.1) (by decide!)
      (block (advance^[3] (parser_on "if x \x7b y \x7d else \x7b z \x7d")) ['y'] 1 8
        (by decide!) (by decide!) (by decide!) (by decide!) (by decide!) (by decide!))
      (by decide!)).2 (advance^[8] (parser_on "if x \x7b y \x7d else \x7b z \x7d")) _
      (by decide!) (by decide!)
      (block (advance^[7] (parser_on "if x \x7b y \x7d else \x7b z \x7d")) ['z'] 1 19
        (by decide!) (by decide!) (by decide!) (by decide!) (by decide!) (by decide!))
      (by decide!)
  · exact (if_statement (parser_on "if x \x7b y \x7d")
      (advance^[2] (parser_on "if x \x7b y \x7d"))
      (advance^[4] (parser_on "if x \x7b y \x7d")) _ _ (by decide!)
      (expression_of_primary
        (converges_identifier_at (by decide!) (by decide!) (by decide!) (by decide!))
        c2.1 c2.2.1 c2.2.2.1) (by decide!)
      (block (advance^[3] (parser_on "if x \x7b y \x7d")) ['y'] 1 8
        (by decide!) (by decide!) (by decide!) (by decide!) (by decide!) (by decide!))
      (by decide!)).1 (by decide!)

/-! ### A robot with motors and sensors -/

theorem ends_word_body (body : List (List Char × pin_decl)) (tail : List Char)
    (hbody : ∀ e ∈ body, is_blank e.1 = true ∧ e.1 ≠ []) (htail : ends_word tail) :
    ends_word (hardware_body body tail) := by
  cases body with
  | nil => exact htail
  | cons e rest =>
    obtain ⟨ws, decl⟩ := e
    have h := hbody (ws, decl) (List.mem_cons_self _ _)
    cases ws with
    | nil => exact absurd rfl h.2
    | cons a ws =>
      intro c hc
      simp only [hardware_body, List.cons_append, List.head?_cons, Option.some.injEq] at hc
      subst hc
      rcases blank_spec h.1 a (List.mem_cons_self _ _) with rfl | rfl <;> decide

theorem ends_word_tail (ws : List Char) (hws : is_blank ws = true) :
    ends_word (ws ++ ['}']) :=
  ends_word_blank ws _ (blank_spec hws) (by intro c hc; simp at hc; subst hc; decide)

/-- The first token of a robot body is a newline, `motor`, `sensor` or the
closing brace. -/
theorem body_first_token (body : List (List Char × pin_decl)) (ws : List Char)
    (hbody : ∀ e ∈ body, is_blank e.1 = true ∧ e.1 ≠ []) (hws : is_blank ws = true)
    (p : parser_t) (hp : Clean p) (hcur : p.lexer.current = hardware_body body (ws ++ ['}'])) :
    (advance p).current.type ∈
      [TOKEN_NEWLINE, TOKEN_MOTOR, TOKEN_SENSOR, TOKEN_RIGHT_BRACE] := by
  cases body with
  | nil =>
    rcases blank_split ws (blank_spec hws) with hsp | ⟨sp, ws', h1, h2, _⟩
    · rw [(at_right_brace ws [] hsp hp hcur).1.type]
      decide
    · subst h1
      rw [(at_newline sp (ws' ++ ['}']) h2 hp (by rw [hcur]; simp [hardware_body])).type]
      decide
  | cons e rest =>
    obtain ⟨ws1, decl⟩ := e
    have h := hbody (ws1, decl) (List.mem_cons_self _ _)
    rcases blank_split ws1 (blank_spec h.1) with hsp | ⟨sp, ws', h1, h2, _⟩
    · cases decl with
      | motor name pin =>
        have := (at_word ws1 'm' ['o', 't', 'o', 'r']
          (' ' :: (name ++ (" on ".toList ++ pin)) ++ hardware_body rest (ws ++ ['}']))
          hsp (by decide) (by decide) (by intro c hc; simp at hc; subst hc; decide) hp
          (by rw [hcur]; simp [hardware_body, pin_decl.text]) (by decide)).1.type
        rw [this]
        decide
      | sensor name pin sensor_type =>
        have := (at_word ws1 's' ['e', 'n', 's', 'o', 'r']
          ((pin_decl.sensor name pin sensor_type).text.drop 6 ++
            hardware_body rest (ws ++ ['}']))
          hsp (by decide) (by decide)
          (by cases sensor_type <;> (intro c hc; simp [pin_decl.text] at hc; subst hc; decide))
          hp
          (by rw [hcur]; cases sensor_type <;> simp [hardware_body, pin_decl.text])
          (by decide)).1.type
        rw [this]
        decide
    · subst h1
      rw [(at_newline sp (ws' ++ (decl.text ++ hardware_body rest (ws ++ ['}']))) h2 hp
        (by rw [hcur]; simp [hardware_body])).type]
      decide

theorem motor_decl_run (p : parser_t) (h5 : p.current.type = TOKEN_IDENTIFIER)
    (h6 : (advance p).current.type = TOKEN_ON)
    (h7 : (advance (advance p)).current.type = TOKEN_IDENTIFIER) :
    parse_motor_decl p =
      .done (some (.motor (token_to_string p.current)
          (token_to_string (advance (advance p)).current) 0 0))
        (advance (advance (advance p))) := by
  unfold parse_motor_decl
  rw [bind_run]
  simp only [consumeM, consume_ok _ h5, Outcome.bind]
  rw [bind_run]
  simp only [previousM, Outcome.bind, advance_previous]
  rw [bind_run]
  simp only [consumeM, consume_ok _ h6, Outcome.bind]
  rw [bind_run]
  simp only [consumeM, consume_ok _ h7, Outcome.bind]
  rw [bind_run]
  simp only [previousM, Outcome.bind, advance_previous, pure_run]

theorem sensor_decl_run (p : parser_t) (h5 : p.current.type = TOKEN_IDENTIFIER)
    (h6 : (advance p).current.type = TOKEN_ON)
    (h7 : (advance (advance p)).current.type = TOKEN_IDENTIFIER)
    (h8 : (advance (advance (advance p))).current.type ≠ TOKEN_TYPE) :
    parse_sensor_decl p =
      .done (some (.sensor (token_to_string p.current)
          (token_to_string (advance (advance p)).current) none 0 0))
        (advance (advance (advance p))) := by
  unfold parse_sensor_decl
  rw [bind_run]
  simp only [consumeM, consume_ok _ h5, Outcome.bind]
  rw [bind_run]
  simp only [previousM, Outcome.bind, advance_previous]
  rw [bind_run]
  simp only [consumeM, consume_ok _ h6, Outcome.bind]
  rw [bind_run]
  simp only [consumeM, consume_ok _ h7, Outcome.bind]
  rw [bind_run]
  simp only [previousM, Outcome.bind, advance_previous]
  rw [bind_run, bind_run]
  simp only [matchM, match_fail h8, Outcome.bind, ite_run, Bool.false_eq_true, if_false,
    pure_run]

theorem sensor_decl_type_run (p : parser_t) (h5 : p.current.type = TOKEN_IDENTIFIER)
    (h6 : (advance p).current.type = TOKEN_ON)
    (h7 : (advance (advance p)).current.type = TOKEN_IDENTIFIER)
    (h8 : (advance (advance (advance p))).current.type = TOKEN_TYPE)
    (h9 : (advance (advance (advance (advance p)))).current.type = TOKEN_IDENTIFIER) :
    parse_sensor_decl p =
      .done (some (.sensor (token_to_string p.current)
          (token_to_string (advance (advance p)).current)
          (some (token_to_string (advance (advance (advance (advance p)))).current)) 0 0))
        (advance (advance (advance (advance (advance p))))) := by
  unfold parse_sensor_decl
  rw [bind_run]
  simp only [consumeM, consume_ok _ h5, Outcome.bind]
  rw [bind_run]
  simp only [previousM, Outcome.bind, advance_previous]
  rw [bind_run]
  simp only [consumeM, consume_ok _ h6, Outcome.bind]
  rw [bind_run]
  simp only [consumeM, consume_ok _ h7, Outcome.bind]
  rw [bind_run]
  simp only [previousM, Outcome.bind, advance_previous]
  rw [bind_run, bind_run]
  simp only [matchM, match_ok h8, Outcome.bind, ite_run, if_true]
  rw [bind_run]
  simp only [consumeM, consume_ok _ h9, Outcome.bind]
  rw [bind_run]
  simp only [previousM, Outcome.bind, advance_previous, pure_run]

theorem declaration_motor (k : Nat) (p : parser_t) (h4 : p.current.type = TOKEN_MOTOR) :
    parse_declaration (k + 1) p = parse_motor_decl (advance p) := by
  have n4 : p.current.type ≠ TOKEN_NEWLINE := by rw [h4]; decide
  rw [parse_declaration, bind_run]
  simp only [skip_newlinesM, skip_newlines_id n4, Outcome.bind]
  rw [bind_run]
  simp only [matchM, match_ok h4, Outcome.bind, ite_run, if_true]

theorem declaration_sensor (k : Nat) (p : parser_t) (h4 : p.current.type = TOKEN_SENSOR) :
    parse_declaration (k + 1) p = parse_sensor_decl (advance p) := by
  have n4 : p.current.type ≠ TOKEN_NEWLINE := by rw [h4]; decide
  have m4 : p.current.type ≠ TOKEN_MOTOR := by rw [h4]; decide
  rw [parse_declaration, bind_run]
  simp only [skip_newlinesM, skip_newlines_id n4, Outcome.bind]
  rw [bind_run]
  simp only [matchM, match_fail m4, Outcome.bind, ite_run, Bool.false_eq_true, if_false]
  rw [bind_run]
  simp only [matchM, match_ok h4, Outcome.bind, ite_run, if_true]

theorem parse_declaration_motor (k : Nat) (p : parser_t) (h4 : p.current.type = TOKEN_MOTOR)
    (h5 : (advance p).current.type = TOKEN_IDENTIFIER)
    (h6 : (advance (advance p)).current.type = TOKEN_ON)
    (h7 : (advance (advance (advance p))).current.type = TOKEN_IDENTIFIER) :
    parse_declaration (k + 1) p =
      .done (some (.motor (token_to_string (advance p).current)
          (token_to_string (advance (advance (advance p))).current) 0 0))
        (advance (advance (advance (advance p)))) := by
  rw [declaration_motor k p h4, motor_decl_run _ h5 h6 h7]

theorem parse_declaration_sensor (k : Nat) (p : parser_t) (h4 : p.current.type = TOKEN_SENSOR)
    (h5 : (advance p).current.type = TOKEN_IDENTIFIER)
    (h6 : (advance (advance p)).current.type = TOKEN_ON)
    (h7 : (advance (advance (advance p))).current.type = TOKEN_IDENTIFIER)
    (h8 : (advance (advance (advance (advance p)))).current.type ≠ TOKEN_TYPE) :
    parse_declaration (k + 1) p =
      .done (some (.sensor (token_to_string (advance p).current)
          (token_to_string (advance (advance (advance p))).current) none 0 0))
        (advance (advance (advance (advance p)))) := by
  rw [declaration_sensor k p h4, sensor_decl_run _ h5 h6 h7 h8]

theorem parse_declaration_sensor_type (k : Nat) (p : parser_t)
    (h4 : p.current.type = TOKEN_SENSOR)
    (h5 : (advance p).current.type = TOKEN_IDENTIFIER)
    (h6 : (advance (advance p)).current.type = TOKEN_ON)
    (h7 : (advance (advance (advance p))).current.type = TOKEN_IDENTIFIER)
    (h8 : (advance (advance (advance (advance p)))).current.type = TOKEN_TYPE)
    (h9 : (advance (advance (advance (advance (advance p))))).current.type =
      TOKEN_IDENTIFIER) :
    parse_declaration (k + 1) p =
      .done (some (.sensor (token_to_string (advance p).current)
          (token_to_string (advance (advance (advance p))).current)
          (some (token_to_string (advance (advance (advance (advance (advance p))))).current))
          0 0))
        (advance (advance (advance (advance (advance (advance p)))))) := by
  rw [declaration_sensor k p h4, sensor_decl_type_run _ h5 h6 h7 h8 h9]

/-- One pin declaration behind a run of blanks and line breaks is parsed into
its node, and the lexer is left behind its last token. -/
theorem declaration_parsed (ws : List Char) (decl : pin_decl)
    (body : List (List Char × pin_decl)) (tail : List Char) (hws : is_blank ws = true)
    (hd : decl.well_formed = true) (hbody : ∀ e ∈ body, is_blank e.1 = true ∧ e.1 ≠ [])
    (htail : is_blank tail = true) (p : parser_t) (hp : Clean p)
    (hcur : p.lexer.current = ws ++ (decl.text ++ hardware_body body (tail ++ ['}']))) :
    ∃ p7, Clean p7 ∧ p7.lexer.current = hardware_body body (tail ++ ['}']) ∧
      (skip_newlines (advance p)).current.type ≠ TOKEN_RIGHT_BRACE ∧
      (skip_newlines (advance p)).current.type ≠ TOKEN_EOF ∧
      ∀ k, parse_declaration (k + 1) (skip_newlines (advance p)) =
        .done (some decl.node) (advance p7) := by
  have erest := ends_word_body body _ hbody (ends_word_tail tail htail)
  generalize hrest : hardware_body body (tail ++ ['}']) = rest at hcur erest
  have hfirst : ∀ p7 : parser_t, Clean p7 → p7.lexer.current = rest →
      (advance p7).current.type ≠ TOKEN_TYPE := by
    intro p7 h1 h2
    have := body_first_token body tail hbody htail p7 h1 (by rw [h2, hrest])
    intro hc
    rw [hc] at this
    revert this
    decide
  cases decl with
  | motor name pin =>
    simp only [pin_decl.well_formed, Bool.and_eq_true] at hd
    obtain ⟨cn, csn, rfl, hn1, hn2, hn3⟩ := plain_identifier_spec hd.1
    obtain ⟨cp, csp, rfl, hp1, hp2, hp3⟩ := plain_identifier_spec hd.2
    generalize hr6 : ' ' :: (cp :: csp ++ rest) = r6
    generalize hr5 : ' ' :: ('o' :: ['n'] ++ r6) = r5
    generalize hr4 : ' ' :: (cn :: csn ++ r5) = r4
    generalize hr3 : 'm' :: ['o', 't', 'o', 'r'] ++ r4 = r3
    have htext : (pin_decl.motor (cn :: csn) (cp :: csp)).text ++ rest = r3 := by
      subst hr3 hr4 hr5 hr6
      simp [pin_decl.text]
    rw [htext] at hcur
    have e6 : ends_word r6 := by subst hr6; intro c hc; simp at hc; subst hc; decide
    have e5 : ends_word r5 := by subst hr5; intro c hc; simp at hc; subst hc; decide
    have e4 : ends_word r4 := by subst hr4; intro c hc; simp at hc; subst hc; decide
    have a4 := skip_newlines_blank ws r3
      (fun q => At q TOKEN_MOTOR ['m', 'o', 't', 'o', 'r'] r4)
      (fun p sp hp hcur hsp => by
        have h := (at_word sp 'm' ['o', 't', 'o', 'r'] r4 hsp (by decide) (by decide) e4 hp
          (by rw [hcur, ← hr3]) (by decide)).1
        exact ⟨h.retype (by decide), by rw [h.type]; decide⟩)
      (blank_spec hws) _ hp hcur
    have a5 := ((at_word [' '] cn csn r5 (by simp) hn1 hn2 e5 a4.clean
      (by rw [a4.rest, ← hr4]; rfl) (by rw [hn3]; decide)).1).retype hn3
    have a6 := ((at_word [' '] 'o' ['n'] r6 (by simp) (by decide) (by decide) e6 a5.clean
      (by rw [a5.rest, ← hr5]; rfl) (by decide)).1).retype
        (show Lexer.check_keyword ['o', 'n'] (['n'].length + 1) = TOKEN_ON by decide)
    have a7 := ((at_word [' '] cp csp rest (by simp) hp1 hp2 erest a6.clean
      (by rw [a6.rest, ← hr6]; rfl) (by rw [hp3]; decide)).1).retype hp3
    refine ⟨_, a7.clean, a7.rest, by rw [a4.type]; decide, by rw [a4.type]; decide, fun k => ?_⟩
    rw [parse_declaration_motor k _ a4.type a5.type a6.type a7.type, a5.text, a7.text]
    rfl
  | sensor name pin sensor_type =>
    cases sensor_type with
    | none =>
      simp only [pin_decl.well_formed, Bool.and_eq_true] at hd
      obtain ⟨cn, csn, rfl, hn1, hn2, hn3⟩ := plain_identifier_spec hd.1
      obtain ⟨cp, csp, rfl, hp1, hp2, hp3⟩ := plain_identifier_spec hd.2
      generalize hr6 : ' ' :: (cp :: csp ++ rest) = r6
      generalize hr5 : ' ' :: ('o' :: ['n'] ++ r6) = r5
      generalize hr4 : ' ' :: (cn :: csn ++ r5) = r4
      generalize hr3 : 's' :: ['e', 'n', 's', 'o', 'r'] ++ r4 = r3
      have htext : (pin_decl.sensor (cn :: csn) (cp :: csp) none).text ++ rest = r3 := by
        subst hr3 hr4 hr5 hr6
        simp [pin_decl.text]
      rw [htext] at hcur
      have e6 : ends_word r6 := by subst hr6; intro c hc; simp at hc; subst hc; decide
      have e5 : ends_word r5 := by subst hr5; intro c hc; simp at hc; subst hc; decide
      have e4 : ends_word r4 := by subst hr4; intro c hc; simp at hc; subst hc; decide
      have a4 := skip_newlines_blank ws r3
        (fun q => At q TOKEN_SENSOR ['s', 'e', 'n', 's', 'o', 'r'] r4)
        (fun p sp hp hcur hsp => by
          have h := (at_word sp 's' ['e', 'n', 's', 'o', 'r'] r4 hsp (by decide) (by decide)
            e4 hp (by rw [hcur, ← hr3]) (by decide)).1
          exact ⟨h.retype (by decide), by rw [h.type]; decide⟩)
        (blank_spec hws) _ hp hcur
      have a5 := ((at_word [' '] cn csn r5 (by simp) hn1 hn2 e5 a4.clean
        (by rw [a4.rest, ← hr4]; rfl) (by rw [hn3]; decide)).1).retype hn3
      have a6 := ((at_word [' '] 'o' ['n'] r6 (by simp) (by decide) (by decide) e6 a5.clean
        (by rw [a5.rest, ← hr5]; rfl) (by decide)).1).retype
          (show Lexer.check_keyword ['o', 'n'] (['n'].length + 1) = TOKEN_ON by decide)
      have a7 := ((at_word [' '] cp csp rest (by simp) hp1 hp2 erest a6.clean
        (by rw [a6.rest, ← hr6]; rfl) (by rw [hp3]; decide)).1).retype hp3
      refine ⟨_, a7.clean, a7.rest, by rw [a4.type]; decide, by rw [a4.type]; decide,
        fun k => ?_⟩
      rw [parse_declaration_sensor k _ a4.type a5.type a6.type a7.type
        (hfirst _ a7.clean a7.rest), a5.text, a7.text]
      rfl
    | some type =>
      simp only [pin_decl.well_formed, Bool.and_eq_true] at hd
      obtain ⟨cn, csn, rfl, hn1, hn2, hn3⟩ := plain_identifier_spec hd.1.1
      obtain ⟨cp, csp, rfl, hp1, hp2, hp3⟩ := plain_identifier_spec hd.1.2
      obtain ⟨ct, cst, rfl, ht1, ht2, ht3⟩ := plain_identifier_spec hd.2
      generalize hr8 : ' ' :: (ct :: cst ++ rest) = r8
      generalize hr7 : ' ' :: ('t' :: ['y', 'p', 'e'] ++ r8) = r7
      generalize hr6 : ' ' :: (cp :: csp ++ r7) = r6
      generalize hr5 : ' ' :: ('o' :: ['n'] ++ r6) = r5
      generalize hr4 : ' ' :: (cn :: csn ++ r5) = r4
      generalize hr3 : 's' :: ['e', 'n', 's', 'o', 'r'] ++ r4 = r3
      have htext : (pin_decl.sensor (cn :: csn) (cp :: csp) (some (ct :: cst))).text ++ rest =
          r3 := by
        subst hr3 hr4 hr5 hr6 hr7 hr8
        simp [pin_decl.text]
      rw [htext] at hcur
      have e8 : ends_word r8 := by subst hr8; intro c hc; simp at hc; subst hc; decide
      have e7 : ends_word r7 := by subst hr7; intro c hc; simp at hc; subst hc; decide
      have e6 : ends_word r6 := by subst hr6; intro c hc; simp at hc; subst hc; decide
      have e5 : ends_word r5 := by subst hr5; intro c hc; simp at hc; subst hc; decide
      have e4 : ends_word r4 := by subst hr4; intro c hc; simp at hc; subst hc; decide
      have a4 := skip_newlines_blank ws r3
        (fun q => At q TOKEN_SENSOR ['s', 'e', 'n', 's', 'o', 'r'] r4)
        (fun p sp hp hcur hsp => by
          have h := (at_word sp 's' ['e', 'n', 's', 'o', 'r'] r4 hsp (by decide) (by decide)
            e4 hp (by rw [hcur, ← hr3]) (by decide)).1
          exact ⟨h.retype (by decide), by rw [h.type]; decide⟩)
        (blank_spec hws) _ hp hcur
      have a5 := ((at_word [' '] cn csn r5 (by simp) hn1 hn2 e5 a4.clean
        (by rw [a4.rest, ← hr4]; rfl) (by rw [hn3]; decide)).1).retype hn3
      have a6 := ((at_word [' '] 'o' ['n'] r6 (by simp) (by decide) (by decide) e6 a5.clean
        (by rw [a5.rest, ← hr5]; rfl) (by decide)).1).retype
          (show Lexer.check_keyword ['o', 'n'] (['n'].length + 1) = TOKEN_ON by decide)
      have a7 := ((at_word [' '] cp csp r7 (by simp) hp1 hp2 e7 a6.clean
        (by rw [a6.rest, ← hr6]; rfl) (by rw [hp3]; decide)).1).retype hp3
      have a8 := ((at_word [' '] 't' ['y', 'p', 'e'] r8 (by simp) (by decide) (by decide) e8
        a7.clean (by rw [a7.rest, ← hr7]; rfl) (by decide)).1).retype
          (show Lexer.check_keyword ['t', 'y', 'p', 'e'] (['y', 'p', 'e'].length + 1) =
            TOKEN_TYPE by decide)
      have a9 := ((at_word [' '] ct cst rest (by simp) ht1 ht2 erest a8.clean
        (by rw [a8.rest, ← hr8]; rfl) (by rw [ht3]; decide)).1).retype ht3
      refine ⟨_, a9.clean, a9.rest, by rw [a4.type]; decide, by rw [a4.type]; decide,
        fun k => ?_⟩
      rw [parse_declaration_sensor_type k _ a4.type a5.type a6.type a7.type a8.type a9.type,
        a5.text, a7.text, a9.text]
      rfl

theorem parse_loop_exit (k : Nat) (robot : ast_robot_t) (p : parser_t)
    (h : p.current.type = TOKEN_RIGHT_BRACE) :
    parser_parse_loop (k + 1) robot p = .done robot p := by
  rw [parser_parse_loop, bind_run]
  simp only [checkM, check, h, Outcome.bind, beq_self_eq_true, Bool.not_true, Bool.false_and,
    Bool.false_eq_true, ite_run, if_false, pure_run, bind_run]

theorem parse_loop_step (k : Nat) (robot : ast_robot_t) (p q : parser_t) (decl : ast_decl_t)
    (h1 : p.current.type ≠ TOKEN_RIGHT_BRACE) (h2 : p.current.type ≠ TOKEN_EOF)
    (hd : parse_declaration k p = .done (some decl) q) :
    parser_parse_loop (k + 1) robot p =
      parser_parse_loop k { robot with declarations := robot.declarations ++ [decl] }
        (skip_newlines q) := by
  have hc : (!p.current.type == TOKEN_RIGHT_BRACE && !p.current.type == TOKEN_EOF) = true := by
    simp [h1, h2]
  rw [parser_parse_loop]
  simp only [bind_run, checkM, check, Outcome.bind, ite_run, hc, if_true, hd, skip_newlinesM]

/-- The declaration loop over a body of pin declarations stores their nodes in
source order and stops at the closing brace. -/
theorem parse_loop_hardware (tail : List Char) (htail : is_blank tail = true) :
    ∀ (body : List (List Char × pin_decl)),
      (∀ e ∈ body, is_blank e.1 = true ∧ e.1 ≠ [] ∧ e.2.well_formed = true) →
      ∀ (k : Nat) (robot : ast_robot_t) (p : parser_t), Clean p →
        p.lexer.current = hardware_body body (tail ++ ['}']) →
        ∃ q, parser_parse_loop (k + body.length + 1) robot (skip_newlines (advance p)) =
            .done { robot with
              declarations := robot.declarations ++ body.map (fun e => e.2.node) } q ∧
          At q TOKEN_RIGHT_BRACE ['}'] [] := by
  intro body
  induction body with
  | nil =>
    intro _ k robot p hp hcur
    have a9 := skip_newlines_blank tail ['}']
      (fun q => At q TOKEN_RIGHT_BRACE ['}'] [])
      (fun p sp hp hcur hsp => by
        have h := (at_right_brace sp [] hsp hp hcur).1
        exact ⟨h, by rw [h.type]; decide⟩)
      (blank_spec htail) p hp hcur
    refine ⟨_, ?_, a9⟩
    rw [parse_loop_exit _ robot _ a9.type]
    simp only [List.length_nil, List.map_nil, List.append_nil]
  | cons e rest ih =>
    intro hbody k robot p hp hcur
    obtain ⟨ws, decl⟩ := e
    have he := hbody (ws, decl) (List.mem_cons_self _ _)
    have hrest : ∀ e ∈ rest, is_blank e.1 = true ∧ e.1 ≠ [] ∧ e.2.well_formed = true :=
      fun e h => hbody e (List.mem_cons_of_mem _ h)
    obtain ⟨p7, c7, r7, hb, hf, hdecl⟩ := declaration_parsed ws decl rest tail he.1 he.2.2
      (fun e h => ⟨(hrest e h).1, (hrest e h).2.1⟩) htail p hp hcur
    obtain ⟨q, hq, aq⟩ := ih hrest k
      { robot with declarations := robot.declarations ++ [decl.node] } p7 c7 r7
    refine ⟨q, ?_, aq⟩
    have hfuel : k + ((ws, decl) :: rest).length + 1 = (k + rest.length + 1) + 1 := by
      simp only [List.length_cons]
      omega
    rw [hfuel, parse_loop_step _ robot _ _ _ hb hf (hdecl (k + rest.length)), hq]
    simp only [List.map_cons, List.append_assoc, List.singleton_append]

/-- The run of `parser_parse` over `robot IDENT {`, a body that the declaration
loop parses into `robot`, and the closing brace. -/
theorem parser_parse_robot (k : Nat) (p0 q : parser_t) (robot : ast_robot_t)
    (h0 : p0.current.type = TOKEN_ROBOT)
    (h1 : (advance p0).current.type = TOKEN_IDENTIFIER)
    (h2 : (advance (advance p0)).current.type = TOKEN_LEFT_BRACE)
    (hloop : parser_parse_loop k
      { name := token_to_string (advance p0).current, declarations := [] }
      (skip_newlines (advance (advance (advance p0)))) = .done robot q)
    (h9 : q.current.type = TOKEN_RIGHT_BRACE) (herr : (advance q).had_error = false) :
    parser_parse (k + 1) p0 = .done (some robot) (advance q) := by
  have n0 : p0.current.type ≠ TOKEN_NEWLINE := by rw [h0]; decide
  rw [parser_parse, bind_run]
  simp only [skip_newlinesM, skip_newlines_id n0, Outcome.bind]
  rw [bind_run]
  simp only [consumeM, consume_ok _ h0, Outcome.bind]
  rw [bind_run]
  simp only [consumeM, consume_ok _ h1, Outcome.bind]
  rw [bind_run]
  simp only [previousM, advance_previous, Outcome.bind]
  rw [bind_run]
  simp only [consumeM, consume_ok _ h2, Outcome.bind]
  rw [bind_run]
  simp only [skip_newlinesM, Outcome.bind]
  rw [bind_run]
  simp only [ast_robot_create, hloop, Outcome.bind]
  rw [bind_run]
  simp only [consumeM, consume_ok _ h9, Outcome.bind]
  rw [bind_run]
  simp only [had_errorM, herr, Outcome.bind, ite_run, Bool.false_eq_true, if_false, pure_run]

/-- The text of a robot body holds no NUL. -/
theorem body_no_nul (body : List (List Char × pin_decl)) (ws : List Char)
    (hbody : ∀ e ∈ body, is_blank e.1 = true ∧ e.1 ≠ [] ∧ e.2.well_formed = true)
    (hws : is_blank ws = true) :
    ∀ x ∈ hardware_body body (ws ++ ['}']), (x != NUL) = true := by
  have hblank : ∀ c : Char, c = ' ' ∨ c = '\n' → (c != NUL) = true := by
    rintro c (rfl | rfl) <;> decide
  have hplain : ∀ w : List Char, is_plain_identifier w = true → ∀ x ∈ w, (x != NUL) = true := by
    intro w hw x hx
    obtain ⟨c, cs, rfl, h1, h2, _⟩ := plain_identifier_spec hw
    rcases List.mem_cons.mp hx with rfl | hx
    · exact alnum_ne_nul (alpha_alnum h1)
    · exact alnum_ne_nul (h2 x hx)
  have htext : ∀ d : pin_decl, d.well_formed = true → ∀ x ∈ d.text, (x != NUL) = true := by
    intro d hd
    cases d with
    | motor name pin =>
      simp only [pin_decl.well_formed, Bool.and_eq_true] at hd
      simp only [pin_decl.text, List.forall_mem_append]
      exact ⟨by decide, hplain _ hd.1, by decide, hplain _ hd.2⟩
    | sensor name pin sensor_type =>
      cases sensor_type with
      | none =>
        simp only [pin_decl.well_formed, Bool.and_eq_true] at hd
        simp only [pin_decl.text, List.forall_mem_append]
        exact ⟨by decide, hplain _ hd.1, by decide, hplain _ hd.2⟩
      | some type =>
        simp only [pin_decl.well_formed, Bool.and_eq_true] at hd
        simp only [pin_decl.text, List.forall_mem_append]
        exact ⟨by decide, hplain _ hd.1.1, by decide, hplain _ hd.1.2, by decide,
          hplain _ hd.2⟩
  induction body with
  | nil =>
    simp only [hardware_body, List.forall_mem_append]
    exact ⟨fun x hx => hblank x (blank_spec hws x hx), by decide⟩
  | cons e rest ih =>
    obtain ⟨ws1, decl⟩ := e
    have he := hbody (ws1, decl) (List.mem_cons_self _ _)
    simp only [hardware_body, List.forall_mem_append]
    exact ⟨fun x hx => hblank x (blank_spec he.1 x hx), htext decl he.2.2,
      ih (fun e h => hbody e (List.mem_cons_of_mem _ h))⟩

/-- Claim C26.  For every identifier `R` that is not a keyword, every list of
`motor n on p` and `sensor n on p [type t]` declarations whose names, pins and
types are identifiers that are not keywords, each written behind a non-empty
run of blanks and line breaks, and every run `ws` of blanks and line breaks
before the closing brace, parsing `robot R {` ... `ws }` with at least as much
fuel as there are declarations plus 2 returns a robot named `R` whose
declaration list holds exactly the nodes of those declarations, in source
order, each with its kind, name and pin and, for a sensor, its type, absent
without a `type` clause; no error is flagged and no diagnostic is emitted.
This holds for every prior content of the parser struct and every file name. -/
theorem parse_hardware_robot (R : List Char) (body : List (List Char × pin_decl))
    (ws : List Char) (memory : parser_t) (filename : Option (List Char))
    (hR : is_plain_identifier R = true)
    (hbody : ∀ e ∈ body, is_blank e.1 = true ∧ e.1 ≠ [] ∧ e.2.well_formed = true)
    (hws : is_blank ws = true) (fuel : Nat) (hfuel : body.length + 2 ≤ fuel) :
    ∃ q, parse_source fuel memory (hardware_source R body ws) filename =
        .done (some { name := R, declarations := body.map (fun e => e.2.node) }) q ∧
      q.had_error = false ∧ q.diagnostics = [] := by
  obtain ⟨cR, csR, rfl, hR1, hR2, hR3⟩ := plain_identifier_spec hR
  obtain ⟨k, rfl⟩ : ∃ k, fuel = (k + body.length + 1) + 1 :=
    ⟨fuel - body.length - 2, by omega⟩
  generalize hr2 : hardware_body body (ws ++ ['}']) = r2
  generalize hr1 : ' ' :: '{' :: r2 = r1
  generalize hr0 : ' ' :: (cR :: csR ++ r1) = r0
  have hsrc : hardware_source (cR :: csR) body ws = 'r' :: ['o', 'b', 'o', 't'] ++ r0 := by
    subst hr0 hr1 hr2
    rfl
  have e1 : ends_word r1 := by subst hr1; intro c hc; simp at hc; subst hc; decide
  have e0 : ends_word r0 := by subst hr0; intro c hc; simp at hc; subst hc; decide
  have hnul2 : ∀ x ∈ r2, (x != NUL) = true := by
    subst hr2
    exact body_no_nul body ws hbody hws
  have hnul : ∀ x ∈ 'r' :: ['o', 'b', 'o', 't'] ++ r0, (x != NUL) = true := by
    subst hr0 hr1
    simp only [List.cons_append, List.nil_append, List.forall_mem_cons, List.forall_mem_append]
    exact ⟨by decide, by decide, by decide, by decide, by decide, by decide,
      alnum_ne_nul (alpha_alnum hR1), fun x hx => alnum_ne_nul (hR2 x hx), by decide, by decide,
      hnul2⟩
  have hm0 : Clean { memory with
      lexer := Lexer.lexer_init ('r' :: ['o', 'b', 'o', 't'] ++ r0) filename,
      had_error := false, panic_mode := false, diagnostics := [] } := ⟨rfl, rfl, rfl⟩
  have hcur0 : (Lexer.lexer_init ('r' :: ['o', 'b', 'o', 't'] ++ r0) filename).current =
      [] ++ ('r' :: ['o', 'b', 'o', 't'] ++ r0) := by
    unfold Lexer.lexer_init
    exact List.takeWhile_eq_self_iff.mpr hnul
  have hcur0' : ({ memory with
      lexer := Lexer.lexer_init ('r' :: ['o', 'b', 'o', 't'] ++ r0) filename,
      had_error := false, panic_mode := false, diagnostics := [] } : parser_t).lexer.current =
      [] ++ ('r' :: ['o', 'b', 'o', 't'] ++ r0) := hcur0
  clear hcur0
  unfold parse_source parser_init
  rw [hsrc]
  revert hcur0'
  generalize ({ memory with
      lexer := Lexer.lexer_init ('r' :: ['o', 'b', 'o', 't'] ++ r0) filename,
      had_error := false, panic_mode := false, diagnostics := [] } : parser_t) = m0 at hm0 ⊢
  intro hcur0
  -- token by token
  have a0 : At _ TOKEN_ROBOT _ _ :=
    ((at_word [] 'r' ['o', 'b', 'o', 't'] r0 (fun _ h => by cases h) (by decide)
      (by decide) e0 hm0 hcur0 (by decide)).1).retype (by decide)
  have a1 := ((at_word [' '] cR csR r1 (by simp) hR1 hR2 e1 a0.clean
    (by rw [a0.rest, ← hr0]; rfl) (by rw [hR3]; decide)).1).retype hR3
  have a2 := (at_left_brace [' '] r2 (by simp) a1.clean
    (by rw [a1.rest, ← hr1]; rfl)).1
  obtain ⟨q, hq, aq⟩ := parse_loop_hardware ws hws body hbody k
    { name := token_to_string (advance (advance m0)).current, declarations := [] }
    (advance (advance (advance m0))) a2.clean (by rw [a2.rest, hr2])
  have hend := clean_advance_end aq.clean aq.rest
  refine ⟨advance q, ?_, hend.1.had_error, hend.1.diagnostics⟩
  rw [parser_parse_robot (k + body.length + 1) (advance m0) q _ a0.type a1.type a2.type hq
    aq.type hend.1.had_error, a1.text]
  simp only [List.nil_append]

theorem parse_hardware_robot_witness :
    hardware_source ['R']
        [(['\n', ' '], .motor ['a'] ['b']), (['\n', ' '], .sensor ['c'] ['d'] (some ['e'])),
          (['\n', ' '], .sensor ['f'] ['g'] none)] ['\n'] =
      "robot R \x7b\n motor a on b\n sensor c on d type e\n sensor f on g\n\x7d".toList ∧
    ∃ q, parse_source 5 (parser_memory sample_garbage)
        (hardware_source ['R']
          [(['\n', ' '], .motor ['a'] ['b']), (['\n', ' '], .sensor ['c'] ['d'] (some ['e'])),
            (['\n', ' '], .sensor ['f'] ['g'] none)] ['\n']) none =
        .done (some { name := ['R'],
                      declarations := [.motor ['a'] ['b'] 0 0, .sensor ['c'] ['d'] (some ['e']) 0 0,
                        .sensor ['f'] ['g'] none 0 0] }) q ∧
      q.had_error = false ∧ q.diagnostics = [] :=
  ⟨by decide,
   parse_hardware_robot ['R']
    [(['\n', ' '], .motor ['a'] ['b']), (['\n', ' '], .sensor ['c'] ['d'] (some ['e'])),
      (['\n', ' '], .sensor ['f'] ['g'] none)] ['\n'] (parser_memory sample_garbage) none
    (by decide) (by decide) (by decide) 5 (by decide)⟩

/-! ### The position of a diagnostic -/

/-- Claim C29 is refuted by the code.  In `robot R { task t() { wait() } }`
the expression expected after `wait(` is missing: when `parse_primary` fails,
the lookahead that cannot be consumed is the `)` at line 1, column 27, and the
previous token is the `(` at column 26.  The parse returns null and its single
diagnostic `Expected expression` carries column 26, the position of the token
before the offending one, because `error` reports at `previous`.  Likewise
`Expected declaration` in `robot R { 5 }` is reported at the `{` in column 9
while the offending `5` stands in column 11.  In general, whenever
`parse_primary` finds no expression outside panic mode, the diagnostic it files
carries the line and column of the previous token. -/
theorem diagnostic_at_previous_token :
    (parse_source 20 (parser_memory sample_garbage)
      "robot R \x7b task t() \x7b wait() \x7d \x7d".toList none).returned_null = true ∧
    (parse_source 20 (parser_memory sample_garbage)
      "robot R \x7b task t() \x7b wait() \x7d \x7d".toList none).state.diagnostics.map shown =
      [(none, 1, 26, "Expected expression".toList)] ∧
    (advance^[10] (parser_on "robot R \x7b task t() \x7b wait() \x7d \x7d")).diagnostics = [] ∧
    (advance^[10] (parser_on "robot R \x7b task t() \x7b wait() \x7d \x7d")).current.type =
      TOKEN_RIGHT_PAREN ∧
    position (advance^[10] (parser_on "robot R \x7b task t() \x7b wait() \x7d \x7d")).current =
      (1, 27) ∧
    position (advance^[10] (parser_on "robot R \x7b task t() \x7b wait() \x7d \x7d")).previous =
      (1, 26) ∧
    (parse_primary 1
      (advance^[10] (parser_on "robot R \x7b task t() \x7b wait() \x7d \x7d"))).state.diagnostics.map
        shown = [(none, 1, 26, "Expected expression".toList)] ∧
    position (advance^[3] (parser_on "robot R \x7b 5 \x7d")).current = (1, 11) ∧
    (parse_declaration 1 (advance^[3] (parser_on "robot R \x7b 5 \x7d"))).state.diagnostics.map
      shown = [(none, 1, 9, "Expected declaration".toList)] ∧
    (∀ (k : Nat) (p : parser_t), p.panic_mode = false →
      p.current.type ≠ TOKEN_NUMBER → p.current.type ≠ TOKEN_STRING →
      p.current.type ≠ TOKEN_IDENTIFIER → p.current.type ≠ TOKEN_LEFT_PAREN →
      (parse_primary (k + 1) p).state.diagnostics.map shown =
        p.diagnostics.map shown ++
          [(p.lexer.filename, p.previous.line, p.previous.column,
            "Expected expression".toList)]) := by
  refine ⟨by decide!, by decide!, by decide!, by decide!, by decide!, by decide!, by decide!,
    by decide!, by decide!, ?_⟩
  intro k p hp h1 h2 h3 h4
  simp [parse_primary, bind_run, matchM, match_fail h1, match_fail h2, match_fail h3,
    match_fail h4, errorM, error, error_at, hp, Outcome.bind, pure_run, ite_run, Outcome.state,
    shown]

/-! ### Schedule declarations -/

/-- The start of `parse_schedule_decl`: name, `@` and frequency. -/
theorem schedule_decl_start (k : Nat) (p q : parser_t) (f : Option ast_expr_t)
    (h1 : p.current.type = TOKEN_IDENTIFIER) (h2 : (advance p).current.type = TOKEN_AT)
    (hf : parse_expression k (advance (advance p)) = .done f q) :
    parse_schedule_decl (k + 1) p =
      (((do
        if ← matchM TOKEN_PRIORITY then
          if ← matchM TOKEN_HIGH then pure ast_priority_t.PRIORITY_HIGH
          else if ← matchM TOKEN_MEDIUM then pure ast_priority_t.PRIORITY_MEDIUM
          else if ← matchM TOKEN_LOW then pure ast_priority_t.PRIORITY_LOW
          else
            errorM "Expected priority level (HIGH, MEDIUM, LOW)"
            pure ast_priority_t.PRIORITY_MEDIUM
        else pure ast_priority_t.PRIORITY_MEDIUM) : ParseM ast_priority_t) q).bind
        (fun priority s =>
          (parse_block k (skip_newlines
              (consume s TOKEN_LEFT_BRACE "Expected '\x7b' before schedule body".toList))).bind
            (fun body r => .done
              (some (.schedule (token_to_string p.current) f priority (some body) 0 0))
              (consume r TOKEN_RIGHT_BRACE "Expected '\x7d' after schedule body".toList))) := by
  rw [parse_schedule_decl, bind_run]
  simp only [consumeM, consume_ok _ h1, Outcome.bind]
  rw [bind_run]
  simp only [previousM, advance_previous, Outcome.bind]
  rw [bind_run]
  simp only [consumeM, consume_ok _ h2, Outcome.bind]
  rw [bind_run]
  simp only [hf, Outcome.bind]
  rw [bind_run]
  congr 1

theorem schedule_decl_level (k : Nat) (p q : parser_t) (f : Option ast_expr_t)
    (t : token_type_t) (level : ast_priority_t)
    (ht : (t, level) ∈ [(TOKEN_HIGH, ast_priority_t.PRIORITY_HIGH),
      (TOKEN_MEDIUM, ast_priority_t.PRIORITY_MEDIUM), (TOKEN_LOW, ast_priority_t.PRIORITY_LOW)])
    (h1 : p.current.type = TOKEN_IDENTIFIER) (h2 : (advance p).current.type = TOKEN_AT)
    (hf : parse_expression k (advance (advance p)) = .done f q)
    (h3 : q.current.type = TOKEN_PRIORITY) (h4 : (advance q).current.type = t) :
    parse_schedule_decl (k + 1) p =
      (parse_block k (skip_newlines (consume (advance (advance q)) TOKEN_LEFT_BRACE
          "Expected '\x7b' before schedule body".toList))).bind
        (fun body r => .done
          (some (.schedule (token_to_string p.current) f level (some body) 0 0))
          (consume r TOKEN_RIGHT_BRACE "Expected '\x7d' after schedule body".toList)) := by
  rw [schedule_decl_start k p q f h1 h2 hf, bind_run]
  simp only [matchM, match_ok h3, Outcome.bind, ite_run, if_true]
  simp only [List.mem_cons, Prod.mk.injEq, List.mem_singleton, List.not_mem_nil, or_false] at ht
  rcases ht with ⟨rfl, rfl⟩ | ⟨rfl, rfl⟩ | ⟨rfl, rfl⟩
  · rw [bind_run]
    simp only [matchM, match_ok h4, Outcome.bind, ite_run, if_true, pure_run]
  · have n1 : (advance q).current.type ≠ TOKEN_HIGH := by rw [h4]; decide
    rw [bind_run]
    simp only [matchM, match_fail n1, Outcome.bind, ite_run, Bool.false_eq_true, if_false]
    rw [bind_run]
    simp only [matchM, match_ok h4, Outcome.bind, ite_run, if_true, pure_run]
  · have n1 : (advance q).current.type ≠ TOKEN_HIGH := by rw [h4]; decide
    have n2 : (advance q).current.type ≠ TOKEN_MEDIUM := by rw [h4]; decide
    rw [bind_run]
    simp only [matchM, match_fail n1, Outcome.bind, ite_run, Bool.false_eq_true, if_false]
    rw [bind_run]
    simp only [matchM, match_fail n2, Outcome.bind, ite_run, Bool.false_eq_true, if_false]
    rw [bind_run]
    simp only [matchM, match_ok h4, Outcome.bind, ite_run, if_true, pure_run]

theorem schedule_decl_absent (k : Nat) (p q : parser_t) (f : Option ast_expr_t)
    (h1 : p.current.type = TOKEN_IDENTIFIER) (h2 : (advance p).current.type = TOKEN_AT)
    (hf : parse_expression k (advance (advance p)) = .done f q)
    (h3 : q.current.type ≠ TOKEN_PRIORITY) :
    parse_schedule_decl (k + 1) p =
      (parse_block k (skip_newlines (consume q TOKEN_LEFT_BRACE
          "Expected '\x7b' before schedule body".toList))).bind
        (fun body r => .done
          (some (.schedule (token_to_string p.current) f .PRIORITY_MEDIUM (some body) 0 0))
          (consume r TOKEN_RIGHT_BRACE "Expected '\x7d' after schedule body".toList)) := by
  rw [schedule_decl_start k p q f h1 h2 hf, bind_run]
  simp only [matchM, match_fail h3, Outcome.bind, ite_run, Bool.false_eq_true, if_false,
    pure_run]

theorem schedule_decl_other (k : Nat) (p q : parser_t) (f : Option ast_expr_t)
    (h1 : p.current.type = TOKEN_IDENTIFIER) (h2 : (advance p).current.type = TOKEN_AT)
    (hf : parse_expression k (advance (advance p)) = .done f q)
    (h3 : q.current.type = TOKEN_PRIORITY) (n1 : (advance q).current.type ≠ TOKEN_HIGH)
    (n2 : (advance q).current.type ≠ TOKEN_MEDIUM) (n3 : (advance q).current.type ≠ TOKEN_LOW) :
    parse_schedule_decl (k + 1) p =
      (parse_block k (skip_newlines (consume
          (error (advance q) "Expected priority level (HIGH, MEDIUM, LOW)".toList)
          TOKEN_LEFT_BRACE "Expected '\x7b' before schedule body".toList))).bind
        (fun body r => .done
          (some (.schedule (token_to_string p.current) f .PRIORITY_MEDIUM (some body) 0 0))
          (consume r TOKEN_RIGHT_BRACE "Expected '\x7d' after schedule body".toList)) := by
  rw [schedule_decl_start k p q f h1 h2 hf, bind_run]
  simp only [matchM, match_ok h3, Outcome.bind, ite_run, if_true]
  rw [bind_run]
  simp only [matchM, match_fail n1, Outcome.bind, ite_run, Bool.false_eq_true, if_false]
  rw [bind_run]
  simp only [matchM, match_fail n2, Outcome.bind, ite_run, Bool.false_eq_true, if_false]
  rw [bind_run]
  simp only [matchM, match_fail n3, Outcome.bind, ite_run, Bool.false_eq_true, if_false]
  rw [bind_run]
  simp only [errorM, Outcome.bind, pure_run]

/-- What `parse_schedule_decl` does after the priority clause keeps the error
discipline of the state `s` it starts from. -/
theorem schedule_body_keeps (k : Nat) (s : parser_t) (result : ast_stmt_t → Option ast_decl_t) :
    Keeps s ((parse_block k (skip_newlines (consume s TOKEN_LEFT_BRACE
        "Expected '\x7b' before schedule body".toList))).bind
      (fun body r => .done (result body)
        (consume r TOKEN_RIGHT_BRACE "Expected '\x7d' after schedule body".toList))).state := by
  have hk := stable_keeps s
  have h1 := stable_skip_newlines hk _ (stable_consume hk s TOKEN_LEFT_BRACE
    "Expected '\x7b' before schedule body".toList (by decide) (Keeps.refl s))
  have h2 := ((sat_statement hk k).2.1.post _ h1).1
  cases hb : parse_block k (skip_newlines (consume s TOKEN_LEFT_BRACE
      "Expected '\x7b' before schedule body".toList)) with
  | done body r =>
    rw [hb] at h2
    exact stable_consume hk r TOKEN_RIGHT_BRACE _ (by decide) h2
  | out_of_fuel r => rw [hb] at h2; exact h2
  | null_deref r => rw [hb] at h2; exact h2

/-- Claim C27 is refuted by the code in its last clause.  After the name, `@`
and the frequency expression, `parse_schedule_decl` gives the node the priority
HIGH, MEDIUM or LOW when `priority` is followed by that keyword, and MEDIUM
when no `priority` follows.  When `priority` is followed by another token, the
call of `error` sets `had_error` and, outside panic mode, files `Expected
priority level (HIGH, MEDIUM, LOW)`; the offending token is not consumed.  On
`robot R { schedule s @ 10 priority max { } }` that diagnostic is the only one,
and the parse never returns: for every amount of fuel it is cut off for lack of
fuel, so it does not fail.  The loop of `parse_block` spins on `max`, which no
production consumes. -/
theorem schedule_priority_error_never_returns :
    (∀ (p q r : parser_t) (f : Option ast_expr_t) (body : ast_stmt_t) (t : token_type_t)
        (level : ast_priority_t),
      (t, level) ∈ [(TOKEN_HIGH, ast_priority_t.PRIORITY_HIGH),
        (TOKEN_MEDIUM, ast_priority_t.PRIORITY_MEDIUM),
        (TOKEN_LOW, ast_priority_t.PRIORITY_LOW)] →
      p.current.type = TOKEN_IDENTIFIER → (advance p).current.type = TOKEN_AT →
      Converges parse_expression (advance (advance p)) f q →
      q.current.type = TOKEN_PRIORITY → (advance q).current.type = t →
      (advance (advance q)).current.type = TOKEN_LEFT_BRACE →
      Converges parse_block (skip_newlines (advance (advance (advance q)))) body r →
      r.current.type = TOKEN_RIGHT_BRACE →
      Converges parse_schedule_decl p
        (some (.schedule (token_to_string p.current) f level (some body) 0 0)) (advance r)) ∧
    (∀ (p q r : parser_t) (f : Option ast_expr_t) (body : ast_stmt_t),
      p.current.type = TOKEN_IDENTIFIER → (advance p).current.type = TOKEN_AT →
      Converges parse_expression (advance (advance p)) f q →
      q.current.type = TOKEN_LEFT_BRACE →
      Converges parse_block (skip_newlines (advance q)) body r →
      r.current.type = TOKEN_RIGHT_BRACE →
      Converges parse_schedule_decl p
        (some (.schedule (token_to_string p.current) f .PRIORITY_MEDIUM (some body) 0 0))
        (advance r)) ∧
    (∀ (p q : parser_t) (f : Option ast_expr_t),
      p.current.type = TOKEN_IDENTIFIER → (advance p).current.type = TOKEN_AT →
      Converges parse_expression (advance (advance p)) f q →
      q.current.type = TOKEN_PRIORITY → (advance q).current.type ≠ TOKEN_HIGH →
      (advance q).current.type ≠ TOKEN_MEDIUM → (advance q).current.type ≠ TOKEN_LOW →
      (advance q).panic_mode = false →
      ∃ n, ∀ fuel, n ≤ fuel →
        (parse_schedule_decl fuel p).state.had_error = true ∧
        ((advance q).diagnostics.map (fun d => d.message) ++
            ["Expected priority level (HIGH, MEDIUM, LOW)".toList]) <+:
          (parse_schedule_decl fuel p).state.diagnostics.map (fun d => d.message)) ∧
    (parse_source 20 (parser_memory sample_garbage)
      "robot R \x7b schedule s @ 10 priority HIGH \x7b \x7d \x7d".toList none).priorities =
      [.PRIORITY_HIGH] ∧
    (parse_source 20 (parser_memory sample_garbage)
      "robot R \x7b schedule s @ 10 priority MEDIUM \x7b \x7d \x7d".toList none).priorities =
      [.PRIORITY_MEDIUM] ∧
    (parse_source 20 (parser_memory sample_garbage)
      "robot R \x7b schedule s @ 10 priority LOW \x7b \x7d \x7d".toList none).priorities =
      [.PRIORITY_LOW] ∧
    (parse_source 20 (parser_memory sample_garbage)
      "robot R \x7b schedule s @ 10 \x7b \x7d \x7d".toList none).priorities =
      [.PRIORITY_MEDIUM] ∧
    (parse_source 20 (parser_memory sample_garbage)
      "robot R \x7b schedule s @ 10 priority max \x7b \x7d \x7d".toList
        none).state.diagnostics.map (fun d => d.message) =
      ["Expected priority level (HIGH, MEDIUM, LOW)".toList] ∧
    ∀ fuel, ∃ q, parse_source fuel (parser_memory sample_garbage)
      "robot R \x7b schedule s @ 10 priority max \x7b \x7d \x7d".toList none =
        .out_of_fuel q := by
  refine ⟨?_, ?_, ?_, by decide!, by decide!, by decide!, by decide!, by decide!, ?_⟩
  · intro p q r f body t level ht h1 h2 ⟨n1, hf⟩ h3 h4 h5 ⟨n2, hb⟩ h6
    refine ⟨max n1 n2 + 1, fun fuel hfuel => ?_⟩
    obtain ⟨k, rfl⟩ : ∃ k, fuel = k + 1 := ⟨fuel - 1, by omega⟩
    rw [schedule_decl_level k p q f t level ht h1 h2 (hf k (by omega)) h3 h4,
      consume_ok _ h5, hb k (by omega)]
    simp only [Outcome.bind, consume_ok _ h6]
  · intro p q r f body h1 h2 ⟨n1, hf⟩ h3 ⟨n2, hb⟩ h6
    refine ⟨max n1 n2 + 1, fun fuel hfuel => ?_⟩
    obtain ⟨k, rfl⟩ : ∃ k, fuel = k + 1 := ⟨fuel - 1, by omega⟩
    rw [schedule_decl_absent k p q f h1 h2 (hf k (by omega)) (by rw [h3]; decide),
      consume_ok _ h3, hb k (by omega)]
    simp only [Outcome.bind, consume_ok _ h6]
  · intro p q f h1 h2 ⟨n1, hf⟩ h3 n1' n2 n3 hp
    refine ⟨n1 + 1, fun fuel hfuel => ?_⟩
    obtain ⟨k, rfl⟩ : ∃ k, fuel = k + 1 := ⟨fuel - 1, by omega⟩
    rw [schedule_decl_other k p q f h1 h2 (hf k (by omega)) h3 n1' n2 n3]
    have hk := schedule_body_keeps k
      (error (advance q) "Expected priority level (HIGH, MEDIUM, LOW)".toList)
      (fun body => some (.schedule (token_to_string p.current) f .PRIORITY_MEDIUM (some body)
        0 0))
    have he : (error (advance q)
        "Expected priority level (HIGH, MEDIUM, LOW)".toList).had_error = true := by
      simp [error, error_at, hp]
    have hd : (error (advance q)
        "Expected priority level (HIGH, MEDIUM, LOW)".toList).diagnostics.map
          (fun d => d.message) =
        (advance q).diagnostics.map (fun d => d.message) ++
          ["Expected priority level (HIGH, MEDIUM, LOW)".toList] := by
      simp [error, error_at, hp]
    refine ⟨hk.2.1 he, ?_⟩
    rw [← hd]
    exact hk.2.2.map _
  · exact never_returns (N := 8) (by decide!)

/-! ### What the declaration destructor releases -/

/-- Claim C30 is refuted by the code.  `ast_decl_free` has no `case` for the
sensor kind: of a sensor declaration it releases the node only, and neither
name, pin nor type.  Of a typed task parameter it releases the name, the type
struct and the parameter struct, and not the name of the type.  So for the
declarations parsed from `robot R { sensor s on p type t }` and from
`robot R { task f(a: T) { } }` what is released is not what is owned.  For
motor and schedule declarations and for tasks whose parameters are all untyped
the two agree. -/
theorem sensor_and_type_name_not_released :
    (∀ name pin sensor_type line column,
      ast_decl_free (some (.sensor name pin sensor_type line column)) = [.decl_node]) ∧
    (parse_source 20 (parser_memory sample_garbage)
      "robot R \x7b sensor s on p type t \x7d".toList none).released = [[.decl_node]] ∧
    (parse_source 20 (parser_memory sample_garbage)
      "robot R \x7b sensor s on p type t \x7d".toList none).owned =
      [[.text ['s'], .text ['p'], .text ['t'], .decl_node]] ∧
    (parse_source 20 (parser_memory sample_garbage)
      "robot R \x7b task f(a: T) \x7b \x7d \x7d".toList none).released =
      [[.text ['f'], .text ['a'], .type_node, .param_node, .param_array, .stmt_array,
        .stmt_node, .decl_node]] ∧
    (parse_source 20 (parser_memory sample_garbage)
      "robot R \x7b task f(a: T) \x7b \x7d \x7d".toList none).owned =
      [[.text ['f'], .text ['a'], .text ['T'], .type_node, .param_node, .param_array,
        .stmt_array, .stmt_node, .decl_node]] ∧
    (∀ name pin line column,
      ast_decl_free (some (.motor name pin line column)) =
        ast_decl_owned (.motor name pin line column)) ∧
    (∀ name frequency priority body line column,
      ast_decl_free (some (.schedule name frequency priority body line column)) =
        ast_decl_owned (.schedule name frequency priority body line column)) ∧
    (∀ name (names : List (List Char)) body line column,
      ast_decl_free (some (.task name (names.map (fun n => { name := n, type := none })) body
        line column)) =
        ast_decl_owned (.task name (names.map (fun n => { name := n, type := none })) body
          line column)) := by
  refine ⟨fun _ _ _ _ _ => rfl, by decide!, by decide!, by decide!, by decide!,
    fun _ _ _ _ => rfl, fun _ _ _ _ _ _ => rfl, ?_⟩
  intro name names body line column
  have hp : ast_decl_free_params (names.map (fun n => { name := n, type := none })) =
      ((names.map (fun n => ({ name := n, type := none } : ast_param_t))).map
        ast_param_owned).flatten := by
    induction names with
    | nil => rfl
    | cons n names ih =>
      simp only [List.map_cons, ast_decl_free_params, List.flatten_cons, ast_param_owned]
      rw [ih]
  simp only [ast_decl_free, ast_decl_owned, hp]

end Parser

/-! ## Lexer theorems on identifiers, strings and positions -/

namespace Lexer

theorem check_keyword_in_other (table : List (List Char × token_type_t)) (w : List Char)
    (h : ∀ kw ∈ table, kw.1 ≠ w) : check_keyword_in table w w.length = TOKEN_IDENTIFIER := by
  induction table with
  | nil => rfl
  | cons e table ih =>
    obtain ⟨text, type⟩ := e
    unfold check_keyword_in
    have hne : text ≠ w := h (text, type) (List.mem_cons_self _ _)
    have hc : ¬ (text.length = w.length ∧ w.take w.length = text) := by
      rintro ⟨_, h2⟩
      rw [List.take_length] at h2
      exact hne h2.symm
    rw [if_neg hc]
    exact ih (fun kw hkw => h kw (List.mem_cons_of_mem _ hkw))

/-- Claim C31.  Every non-empty string of letters, digits and underscores that
starts with a letter or an underscore and is not spelled exactly like an entry
of the keyword table lexes, in isolation, to one IDENTIFIER token whose text is
the whole input, followed by end-of-input.  The comparison with the table is
exact: it is by length and by characters, so a keyword in another case or with
extra characters is such a string. -/
theorem identifier_unless_keyword (w : List Char) (filename : Option (List Char))
    (hw : is_word w = true) (hk : ∀ kw ∈ keywords, kw.1 ≠ w) :
    (nth_token 0 (lexer_init w filename)).type = TOKEN_IDENTIFIER ∧
    (nth_token 0 (lexer_init w filename)).length = w.length ∧
    token_to_string (nth_token 0 (lexer_init w filename)) = w ∧
    (nth_token 1 (lexer_init w filename)).type = TOKEN_EOF := by
  obtain ⟨h1, h2, h3, h4⟩ := lexer_word_alone w hw filename
  have hid : check_keyword w w.length = TOKEN_IDENTIFIER := check_keyword_in_other keywords w hk
  exact ⟨h1.trans hid, h2, h3, h4⟩

theorem identifier_unless_keyword_witness :
    (∀ w ∈ ["Robot".toList, "hz".toList, "motor1".toList, "robots".toList, "_".toList],
      (nth_token 0 (lexer_init w none)).type = TOKEN_IDENTIFIER ∧
      token_to_string (nth_token 0 (lexer_init w none)) = w ∧
      (nth_token 1 (lexer_init w none)).type = TOKEN_EOF) ∧
    (nth_token 0 (lexer_init "robot".toList none)).type = TOKEN_ROBOT := by
  refine ⟨?_, by decide!⟩
  intro w hw
  have hword : is_word w = true ∧ ∀ kw ∈ keywords, kw.1 ≠ w := by
    revert w
    decide!
  have h := identifier_unless_keyword w none hword.1 hword.2
  exact ⟨h.1, h.2.2.1, h.2.2.2⟩

/-! ### Line and column -/

theorem position_of_text (pre : List Char) :
    ((((pre.count '\n' : Nat) : Int) + 1,
      (((pre.reverse.takeWhile (fun c => c != '\n')).length : Nat) : Int) + 1) : Int × Int) =
      pre.foldl advance_position (1, 1) := by
  induction pre using List.reverseRecOn with
  | nil => rfl
  | append_singleton pre c ih =>
    rw [List.foldl_append, ← ih]
    simp only [List.foldl_cons, List.foldl_nil, advance_position, List.reverse_append,
      List.reverse_cons, List.reverse_nil, List.nil_append, List.singleton_append,
      List.count_append, List.takeWhile_cons]
    by_cases hc : c = '\n'
    · subst hc
      simp
    · simp [hc, List.count_singleton]

theorem line_column_append (pre rest : List Char) :
    line_column (pre ++ rest) pre.length = pre.foldl advance_position (1, 1) := by
  unfold line_column
  rw [List.take_left' rfl]
  exact position_of_text pre

theorem positioned_iff (lx : lexer_t) :
    Positioned lx ↔ ∃ pre, lx.source = pre ++ lx.current ∧
      (lx.line, lx.column) = pre.foldl advance_position (1, 1) := by
  constructor
  · rintro ⟨⟨pre, hpre⟩, hpos⟩
    refine ⟨pre, hpre.symm, ?_⟩
    rw [hpos, ← hpre, List.length_append, Nat.add_sub_cancel, line_column_append]
  · rintro ⟨pre, hpre, hpos⟩
    refine ⟨⟨pre, hpre.symm⟩, ?_⟩
    rw [hpos]
    conv_rhs => rw [hpre]
    rw [List.length_append, Nat.add_sub_cancel, line_column_append]

theorem foldl_no_newline (text : List Char) (h : '\n' ∉ text) (pos : Int × Int) :
    text.foldl advance_position pos = (pos.1, pos.2 + text.length) := by
  induction text generalizing pos with
  | nil => simp
  | cons c text ih =>
    have hc : c ≠ '\n' := fun hc => h (by simp [hc])
    have ht : '\n' ∉ text := fun ht => h (List.mem_cons_of_mem _ ht)
    rw [List.foldl_cons, ih ht]
    simp only [advance_position, hc, if_false, List.length_cons]
    ext
    · rfl
    · push_cast
      ring

theorem tracks_refl (lx : lexer_t) : Tracks lx lx := ⟨rfl, rfl, [], rfl, rfl⟩

theorem tracks_trans {a b c : lexer_t} (h1 : Tracks a b) (h2 : Tracks b c) : Tracks a c := by
  obtain ⟨s1, t1, x1, hx1, hp1⟩ := h1
  obtain ⟨s2, t2, x2, hx2, hp2⟩ := h2
  refine ⟨s2.trans s1, t2.trans t1, x1 ++ x2, ?_, ?_⟩
  · rw [hx1, hx2, List.append_assoc]
  · rw [List.foldl_append, ← hp1, hp2]

theorem positioned_of_tracks {lx lx' : lexer_t} (h : Positioned lx) (ht : Tracks lx lx') :
    Positioned lx' := by
  rw [positioned_iff] at h ⊢
  obtain ⟨pre, hpre, hpos⟩ := h
  obtain ⟨hs, _, text, htext, hp⟩ := ht
  refine ⟨pre ++ text, ?_, ?_⟩
  · rw [hs, hpre, htext, List.append_assoc]
  · rw [List.foldl_append, ← hpos, hp]

/-- One `advance` over a character that is no line break. -/
theorem tracks_cons (lx : lexer_t) (c : Char) (rest : List Char) (h : lx.current = c :: rest)
    (hc : c ≠ '\n') : Tracks lx (advance lx).2 := by
  refine ⟨rfl, rfl, [c], ?_, ?_⟩
  · simp [advance, h]
  · simp [advance, advance_position, hc]

/-- One `advance` after the adjustment that the comment and string loops make
on a line break. -/
theorem tracks_cons_adjusted (lx : lexer_t) (c : Char) (rest : List Char)
    (h : lx.current = c :: rest) :
    Tracks lx (advance (if (peek lx == '\n') = true
      then { lx with line := lx.line + 1, column := 0 } else lx)).2 := by
  by_cases hc : c = '\n'
  · have hp : (peek lx == '\n') = true := by simp [peek, h, hc]
    rw [if_pos hp]
    refine ⟨rfl, rfl, [c], ?_, ?_⟩
    · simp [advance, h]
    · simp [advance, advance_position, hc]
  · have hp : ¬ (peek lx == '\n') = true := by simp [peek, h, hc]
    rw [if_neg hp]
    exact tracks_cons lx c rest h hc

theorem ne_nil_of_peek (lx : lexer_t) (h : peek lx ≠ NUL) : ∃ rest, lx.current = peek lx :: rest := by
  cases hcur : lx.current with
  | nil => exact absurd (by simp [peek, hcur]) h
  | cons c rest => exact ⟨rest, by simp [peek, hcur]⟩

theorem ne_nil_of_not_end {lx : lexer_t} (h : is_at_end lx = false) :
    ∃ rest, lx.current = peek lx :: rest := by
  cases hcur : lx.current with
  | nil => simp [is_at_end, hcur] at h
  | cons c rest => exact ⟨rest, by simp [peek, hcur]⟩

theorem skip_line_comment_tracks :
    ∀ (n : Nat) (lx : lexer_t), Tracks lx (skip_line_comment n lx) := by
  intro n
  induction n with
  | zero => intro lx; exact tracks_refl _
  | succ n ih =>
    intro lx
    unfold skip_line_comment
    split
    · rename_i h
      simp only [Bool.and_eq_true, bne_iff_ne, ne_eq, Bool.not_eq_true'] at h
      obtain ⟨rest, hr⟩ := ne_nil_of_not_end h.2
      exact tracks_trans (tracks_cons lx _ rest hr h.1) (ih _)
    · exact tracks_refl _

theorem peek_next_cons {lx : lexer_t} {c : Char} {rest : List Char} (h : lx.current = c :: rest) :
    peek_next lx = peek (advance lx).2 := by
  simp [peek_next, is_at_end, peek, advance, h]

/-- Two calls of `advance` over two characters that are no line breaks. -/
theorem tracks_two (lx : lexer_t) (rest : List Char) (h : lx.current = peek lx :: rest)
    (h1 : peek lx ≠ '\n') (h2 : peek_next lx ≠ '\n') (h3 : peek_next lx ≠ NUL) :
    Tracks lx (advance (advance lx).2).2 := by
  have hn := peek_next_cons h
  rw [hn] at h2 h3
  obtain ⟨rest2, hr2⟩ := ne_nil_of_peek _ h3
  exact tracks_trans (tracks_cons lx _ rest h h1) (tracks_cons _ _ rest2 hr2 h2)

theorem skip_block_comment_tracks :
    ∀ (n : Nat) (lx : lexer_t), Tracks lx (skip_block_comment n lx) := by
  intro n
  induction n with
  | zero => intro lx; exact tracks_refl _
  | succ n ih =>
    intro lx
    unfold skip_block_comment
    split
    · rename_i he
      simp only [Bool.not_eq_true'] at he
      obtain ⟨rest, hr⟩ := ne_nil_of_not_end he
      split
      · rename_i h
        simp only [Bool.and_eq_true, beq_iff_eq] at h
        exact tracks_two lx rest hr (by rw [h.1]; decide) (by rw [h.2]; decide)
          (by rw [h.2]; decide)
      · exact tracks_trans (tracks_cons_adjusted lx _ rest hr) (ih _)
    · exact tracks_refl _

theorem skip_whitespace_loop_tracks :
    ∀ (n : Nat) (lx : lexer_t), Tracks lx (skip_whitespace_loop n lx) := by
  intro n
  induction n with
  | zero => intro lx; exact tracks_refl _
  | succ n ih =>
    intro lx
    unfold skip_whitespace_loop
    dsimp only
    split
    · rename_i h
      simp only [Bool.or_eq_true, beq_iff_eq] at h
      obtain ⟨rest, hr⟩ := ne_nil_of_peek lx (by
        rcases h with (h | h) | h <;> rw [h] <;> decide)
      exact tracks_trans (tracks_cons lx _ rest hr (by
        rcases h with (h | h) | h <;> rw [h] <;> decide)) (ih _)
    · split
      · exact tracks_refl _
      · split
        · rename_i hs
          simp only [beq_iff_eq] at hs
          obtain ⟨rest, hr⟩ := ne_nil_of_peek lx (by rw [hs]; decide)
          split
          · exact tracks_trans (skip_line_comment_tracks _ _) (ih _)
          · split
            · rename_i hstar
              simp only [beq_iff_eq] at hstar
              exact tracks_trans (tracks_trans
                (tracks_two lx rest hr (by rw [hs]; decide) (by rw [hstar]; decide)
                  (by rw [hstar]; decide))
                (skip_block_comment_tracks _ _)) (ih _)
            · exact tracks_refl _
        · exact tracks_refl _

theorem skip_whitespace_tracks (lx : lexer_t) : Tracks lx (skip_whitespace lx) :=
  skip_whitespace_loop_tracks _ lx

theorem isalnum_ne {c : Char} (h : (isalnum c || c == '_') = true) : c ≠ '\n' ∧ c ≠ NUL := by
  constructor <;> rintro rfl <;> revert h <;> decide

theorem isdigit_ne {c : Char} (h : isdigit c = true) : c ≠ '\n' ∧ c ≠ NUL := by
  constructor <;> rintro rfl <;> revert h <;> decide

theorem isalpha_ne {c : Char} (h : (isalpha c || c == '_') = true) : c ≠ '\n' ∧ c ≠ '"' := by
  constructor <;> rintro rfl <;> revert h <;> decide

theorem identifier_loop_tracks :
    ∀ (n : Nat) (lx : lexer_t), Tracks lx (identifier_loop n lx) := by
  intro n
  induction n with
  | zero => intro lx; exact tracks_refl _
  | succ n ih =>
    intro lx
    unfold identifier_loop
    split
    · rename_i h
      obtain ⟨rest, hr⟩ := ne_nil_of_peek _ (isalnum_ne h).2
      exact tracks_trans (tracks_cons lx _ rest hr (isalnum_ne h).1) (ih _)
    · exact tracks_refl _

theorem digits_loop_tracks :
    ∀ (n : Nat) (lx : lexer_t), Tracks lx (digits_loop n lx) := by
  intro n
  induction n with
  | zero => intro lx; exact tracks_refl _
  | succ n ih =>
    intro lx
    unfold digits_loop
    split
    · rename_i h
      obtain ⟨rest, hr⟩ := ne_nil_of_peek _ (isdigit_ne h).2
      exact tracks_trans (tracks_cons lx _ rest hr (isdigit_ne h).1) (ih _)
    · exact tracks_refl _

theorem number_tracks (lx : lexer_t) : Tracks lx (number lx).2 := by
  unfold number
  dsimp only
  split
  · rename_i h
    simp only [Bool.and_eq_true, beq_iff_eq] at h
    obtain ⟨rest, hr⟩ := ne_nil_of_peek
      (digits_loop lx.current.length lx) (by rw [h.1]; decide)
    exact tracks_trans (digits_loop_tracks _ _)
      (tracks_trans (tracks_cons _ _ rest hr (by rw [h.1]; decide)) (digits_loop_tracks _ _))
  · exact digits_loop_tracks _ _

theorem match_tracks (lx : lexer_t) (d : Char) (hd : d ≠ '\n') : Tracks lx (match_ lx d).2 := by
  unfold match_
  split
  · exact tracks_refl _
  · rename_i he
    simp only [Bool.not_eq_true] at he
    split
    · exact tracks_refl _
    · rename_i hp
      simp only [bne_iff_ne, ne_eq, not_not] at hp
      obtain ⟨rest, hr⟩ := ne_nil_of_not_end he
      exact tracks_cons lx _ rest hr (by rw [hp]; exact hd)

/-- The loop of `string` reads up to the first double quote or the end of the
text: what it reads holds no double quote. -/
theorem string_loop_tracks :
    ∀ (n : Nat) (lx : lexer_t), Tracks lx (string_loop n lx) ∧
      ∃ body, lx.current = body ++ (string_loop n lx).current ∧ '"' ∉ body ∧
        (lx.current.length ≤ n →
          (string_loop n lx).current = [] ∨ peek (string_loop n lx) = '"') := by
  intro n
  induction n with
  | zero =>
    intro lx
    refine ⟨tracks_refl _, [], rfl, by simp, fun h => Or.inl ?_⟩
    exact List.length_eq_zero.mp (Nat.le_zero.mp h)
  | succ n ih =>
    intro lx
    unfold string_loop
    split
    · rename_i h
      simp only [Bool.and_eq_true, bne_iff_ne, ne_eq, Bool.not_eq_true'] at h
      obtain ⟨rest, hr⟩ := ne_nil_of_not_end h.2
      dsimp only
      obtain ⟨ht, body, hb, hq, hend⟩ := ih (advance (if (peek lx == '\n') = true
        then { lx with line := lx.line + 1, column := 0 } else lx)).2
      have hcur : (advance (if (peek lx == '\n') = true
          then { lx with line := lx.line + 1, column := 0 } else lx)).2.current = rest := by
        split <;> simp [advance, hr]
      refine ⟨tracks_trans (tracks_cons_adjusted lx _ rest hr) ht, peek lx :: body, ?_, ?_, ?_⟩
      · rw [hcur] at hb
        rw [List.cons_append, ← hb]
        exact hr
      · simp only [List.mem_cons, not_or]
        exact ⟨fun h' => h.1 h'.symm, hq⟩
      · intro hlen
        refine hend ?_
        rw [hcur]
        rw [hr] at hlen
        simpa using hlen
    · rename_i h
      refine ⟨tracks_refl _, [], rfl, by simp, fun _ => ?_⟩
      simp only [Bool.and_eq_true, bne_iff_ne, ne_eq, Bool.not_eq_true', not_and,
        Bool.not_eq_false] at h
      by_cases hp : peek lx = '"'
      · exact Or.inr hp
      · left
        have := h hp
        simpa [is_at_end] using this

theorem first_of_advance {l0 l2 : lexer_t} {c : Char} (hne : l0.current.isEmpty = false)
    (hadv : advance l0 = (c, l2)) : First l0 c l2 := by
  have hc : c = l0.current.headD NUL := (congrArg Prod.fst hadv).symm
  have hl : l2 = { l0 with current := l0.current.tail, column := l0.column + 1 } :=
    (congrArg Prod.snd hadv).symm
  subst hl
  refine ⟨?_, rfl, rfl, rfl, rfl⟩
  cases hcur : l0.current with
  | nil => simp [hcur] at hne
  | cons d rest =>
    rw [hc, hcur]
    rfl

theorem tracks_first {l0 l2 : lexer_t} {c : Char} (hf : First l0 c l2) (hc : c ≠ '\n') :
    Tracks l0 l2 := by
  refine ⟨hf.source, hf.start, [c], hf.current, ?_⟩
  simp [advance_position, hc, hf.line, hf.column]

theorem located_ite {l0 : lexer_t} {c : Prop} [Decidable c] {a b : token_t × lexer_t}
    (ha : c → Located l0 a) (hb : ¬c → Located l0 b) : Located l0 (if c then a else b) := by
  split
  · exact ha (by assumption)
  · exact hb (by assumption)

theorem located_make {l0 l3 : lexer_t} (h : Tracks l0 l3) (t : token_type_t)
    (ht : t ≠ TOKEN_STRING) : Located l0 (make_token l3 t, l3) :=
  ⟨h, fun _ => rfl, fun hs => absurd hs ht⟩

theorem located_leaf {l0 l2 l3 : lexer_t} {c : Char} (hf : First l0 c l2) (hc : c ≠ '\n')
    (h : Tracks l2 l3) (t : token_type_t) (ht : t ≠ TOKEN_STRING) :
    Located l0 (make_token l3 t, l3) :=
  located_make (tracks_trans (tracks_first hf hc) h) t ht

theorem located_error {l0 l2 l3 : lexer_t} {c : Char} (hf : First l0 c l2) (hc : c ≠ '\n')
    (h : Tracks l2 l3) (message : List Char) : Located l0 (error_token l3 message, l3) :=
  ⟨tracks_trans (tracks_first hf hc) h, fun h' => absurd rfl h', fun hs => by cases hs⟩

theorem ne_newline {c d : Char} (h : (c == d) = true) (hd : d ≠ '\n') : c ≠ '\n' := by
  rw [beq_iff_eq] at h
  rw [h]
  exact hd

theorem check_keyword_ne_string (start : List Char) (length : Nat) :
    check_keyword start length ≠ TOKEN_STRING := by
  have htable : ∀ e ∈ keywords, e.2 ≠ TOKEN_STRING := by decide
  intro h
  rcases check_keyword_in_mem keywords start length with h' | ⟨e, he, h'⟩
  · unfold check_keyword at h
    rw [h'] at h
    cases h
  · exact htable e he (h'.trans h)

theorem located_identifier {l0 l2 : lexer_t} {c : Char} (hf : First l0 c l2)
    (hc : (isalpha c || c == '_') = true) : Located l0 (identifier l2) :=
  located_leaf hf (isalpha_ne hc).1 (identifier_loop_tracks _ _) _ (check_keyword_ne_string _ _)

theorem located_number {l0 l2 : lexer_t} {c : Char} (hf : First l0 c l2)
    (hc : isdigit c = true) : Located l0 (number l2) :=
  located_leaf hf (isdigit_ne hc).1 (number_tracks l2) TOKEN_NUMBER (by decide)

theorem located_match {l0 l2 : lexer_t} {c : Char} (hf : First l0 c l2) (hc : c ≠ '\n')
    (d : Char) (hd : d ≠ '\n') (t : token_type_t) (ht : t ≠ TOKEN_STRING) :
    Located l0 (make_token (match_ l2 d).2 t, (match_ l2 d).2) :=
  located_leaf hf hc (match_tracks l2 d hd) t ht

theorem located_string {l0 l2 : lexer_t} {c : Char} (hf : First l0 c l2)
    (hc : (c == '"') = true) : Located l0 (string l2) := by
  rw [beq_iff_eq] at hc
  subst hc
  obtain ⟨ht, body, hb, hq, hend⟩ := string_loop_tracks l2.current.length l2
  have h02 := tracks_first hf (by decide)
  unfold string
  dsimp only
  split
  · exact ⟨tracks_trans h02 ht, fun h' => absurd rfl h', fun hs => by cases hs⟩
  · rename_i he
    simp only [Bool.not_eq_true] at he
    obtain ⟨rest, hr⟩ := ne_nil_of_not_end he
    have hp : peek (string_loop l2.current.length l2) = '"' := by
      rcases hend (Nat.le_refl _) with h | h
      · rw [h] at hr
        cases hr
      · exact h
    have h3 := tracks_cons _ _ rest hr (by rw [hp]; decide)
    refine ⟨tracks_trans h02 (tracks_trans ht h3), fun _ => rfl, fun _ => ⟨body, ?_, hq⟩⟩
    have hcur : (advance (string_loop l2.current.length l2)).2.current = rest := by
      simp [advance, hr]
    rw [hcur, hf.current, ← hp, ← hr, ← hb]

theorem located_newline {l0 l2 : lexer_t} {c : Char} (hf : First l0 c l2)
    (hc : (c == '\n') = true) :
    Located l0 (make_token { l2 with line := l2.line + 1, column := 1 } TOKEN_NEWLINE,
      { l2 with line := l2.line + 1, column := 1 }) := by
  rw [beq_iff_eq] at hc
  subst hc
  have ht : Tracks l0 { l2 with line := l2.line + 1, column := 1 } := by
    refine ⟨hf.source, hf.start, ['\n'], hf.current, ?_⟩
    simp [advance_position, hf.line]
  exact located_make ht TOKEN_NEWLINE (by decide)

/-- Every call of `lexer_next_token` reads its token from the cursor left by
`skip_whitespace`, keeping line and column up to date. -/
theorem lexer_next_token_located (lx : lexer_t) :
    Located { skip_whitespace lx with start := (skip_whitespace lx).current }
      (lexer_next_token lx) := by
  by_cases he0 : (skip_whitespace lx).current = []
  · rw [lexer_next_token_at_end lx he0]
    have h := located_make (tracks_refl { skip_whitespace lx with start := [] }) TOKEN_EOF
      (by decide)
    rw [he0]
    exact h
  have he : (skip_whitespace lx).current.isEmpty = false := by
    cases hc : (skip_whitespace lx).current with
    | nil => exact absurd hc he0
    | cons _ _ => rfl
  unfold lexer_next_token
  simp only [is_at_end, he, Bool.false_eq_true, if_false]
  have hne : ({ skip_whitespace lx with
      start := (skip_whitespace lx).current } : lexer_t).current.isEmpty = false := he
  generalize ({ skip_whitespace lx with start := (skip_whitespace lx).current } : lexer_t) = l0
    at hne ⊢
  rcases hadv : advance l0 with ⟨c, l2⟩
  dsimp only
  have hf := first_of_advance hne hadv
  clear hadv he he0 hne
  refine located_ite (fun hc => located_identifier hf hc) (fun _ => ?_)
  refine located_ite (fun hc => located_number hf hc) (fun _ => ?_)
  refine located_ite (fun hc => located_leaf hf (ne_newline hc (by decide)) (tracks_refl _) _
    (by decide)) (fun _ => ?_)
  refine located_ite (fun hc => located_leaf hf (ne_newline hc (by decide)) (tracks_refl _) _
    (by decide)) (fun _ => ?_)
  refine located_ite (fun hc => located_leaf hf (ne_newline hc (by decide)) (tracks_refl _) _
    (by decide)) (fun _ => ?_)
  refine located_ite (fun hc => located_leaf hf (ne_newline hc (by decide)) (tracks_refl _) _
    (by decide)) (fun _ => ?_)
  refine located_ite (fun hc => located_leaf hf (ne_newline hc (by decide)) (tracks_refl _) _
    (by decide)) (fun _ => ?_)
  refine located_ite (fun hc => located_leaf hf (ne_newline hc (by decide)) (tracks_refl _) _
    (by decide)) (fun _ => ?_)
  refine located_ite (fun hc => located_leaf hf (ne_newline hc (by decide)) (tracks_refl _) _
    (by decide)) (fun _ => ?_)
  refine located_ite (fun hc => located_leaf hf (ne_newline hc (by decide)) (tracks_refl _) _
    (by decide)) (fun _ => ?_)
  refine located_ite (fun hc => located_leaf hf (ne_newline hc (by decide)) (tracks_refl _) _
    (by decide)) (fun _ => ?_)
  refine located_ite (fun hc => located_leaf hf (ne_newline hc (by decide)) (tracks_refl _) _
    (by decide)) (fun _ => ?_)
  refine located_ite (fun hc => located_ite
    (fun _ => located_match hf (ne_newline hc (by decide)) _ (by decide) _ (by decide))
    (fun _ => located_match hf (ne_newline hc (by decide)) _ (by decide) _ (by decide)))
    (fun _ => ?_)
  refine located_ite (fun hc => located_leaf hf (ne_newline hc (by decide)) (tracks_refl _) _
    (by decide)) (fun _ => ?_)
  refine located_ite (fun hc => located_leaf hf (ne_newline hc (by decide)) (tracks_refl _) _
    (by decide)) (fun _ => ?_)
  refine located_ite (fun hc => located_leaf hf (ne_newline hc (by decide)) (tracks_refl _) _
    (by decide)) (fun _ => ?_)
  refine located_ite (fun hc => located_leaf hf (ne_newline hc (by decide)) (tracks_refl _) _
    (by decide)) (fun _ => ?_)
  refine located_ite (fun hc => located_match hf (ne_newline hc (by decide)) _ (by decide) _
    (by split <;> decide)) (fun _ => ?_)
  refine located_ite (fun hc => located_match hf (ne_newline hc (by decide)) _ (by decide) _
    (by split <;> decide)) (fun _ => ?_)
  refine located_ite (fun hc => located_match hf (ne_newline hc (by decide)) _ (by decide) _
    (by split <;> decide)) (fun _ => ?_)
  refine located_ite (fun hc => located_match hf (ne_newline hc (by decide)) _ (by decide) _
    (by split <;> decide)) (fun _ => ?_)
  refine located_ite (fun hc => located_ite
    (fun _ => located_match hf (ne_newline hc (by decide)) _ (by decide) _ (by decide))
    (fun _ => located_error hf (ne_newline hc (by decide)) (match_tracks _ _ (by decide)) _))
    (fun _ => ?_)
  refine located_ite (fun hc => located_ite
    (fun _ => located_match hf (ne_newline hc (by decide)) _ (by decide) _ (by decide))
    (fun _ => located_error hf (ne_newline hc (by decide)) (match_tracks _ _ (by decide)) _))
    (fun _ => ?_)
  refine located_ite (fun hc => located_ite
    (fun _ => located_match hf (ne_newline hc (by decide)) _ (by decide) _ (by decide))
    (fun _ => located_match hf (ne_newline hc (by decide)) _ (by decide) _ (by decide)))
    (fun _ => ?_)
  refine located_ite (fun hc => located_string hf hc) (fun _ => ?_)
  refine located_ite (fun hc => located_newline hf hc) (fun hnl => ?_)
  exact located_error hf (by simpa using hnl) (tracks_refl _) _

/-- The text and the position of a token that is no error token, seen from the
cursor at its start. -/
theorem located_token {l0 : lexer_t} {r : token_t × lexer_t} (h0 : l0.start = l0.current)
    (h : Located l0 r) (hne : r.1.type ≠ TOKEN_ERROR) :
    ∃ text, l0.current = text ++ r.2.current ∧ token_to_string r.1 = text ∧
      r.1.length = text.length ∧ r.1.start = l0.current ∧ r.1.line = r.2.line ∧
      r.1.column = r.2.column - (text.length : Int) ∧
      (r.2.line, r.2.column) = text.foldl advance_position (l0.line, l0.column) := by
  obtain ⟨⟨_, hstart, text, htext, hpos⟩, htoken, _⟩ := h
  have hs : r.2.start = text ++ r.2.current := by rw [hstart, h0, htext]
  have hlen : r.2.start.length - r.2.current.length = text.length := by
    rw [hs, List.length_append, Nat.add_sub_cancel]
  refine ⟨text, htext, ?_, ?_, ?_, ?_, ?_, hpos⟩
  · rw [htoken hne]
    simp only [token_to_string, make_token]
    rw [hlen, hs, List.take_left' rfl]
  · rw [htoken hne]
    simp only [make_token]
    exact hlen
  · rw [htoken hne]
    simp only [make_token]
    rw [hstart, h0]
  · rw [htoken hne]
    rfl
  · rw [htoken hne]
    simp only [make_token]
    rw [hlen]

theorem lexer_init_positioned (source : List Char) (filename : Option (List Char)) :
    Positioned (lexer_init source filename) := by
  refine ⟨List.suffix_refl _, ?_⟩
  simp [lexer_init, line_column]

/-- One call of `lexer_next_token` keeps the position invariant, and a token
other than NEWLINE and ERROR whose text holds no line break carries the line
and column of its first character. -/
theorem next_token_positioned (lx : lexer_t) (h : Positioned lx) :
    Positioned (after_token lx) ∧
    ((lexer_next_token lx).1.type ≠ TOKEN_NEWLINE → (lexer_next_token lx).1.type ≠ TOKEN_ERROR →
      '\n' ∉ token_to_string (lexer_next_token lx).1 →
      ((lexer_next_token lx).1.line, (lexer_next_token lx).1.column) =
        first_character (after_token lx)) := by
  have hl := lexer_next_token_located lx
  have hp1 : Positioned (skip_whitespace lx) := positioned_of_tracks h (skip_whitespace_tracks lx)
  have hp0 : Positioned { skip_whitespace lx with start := (skip_whitespace lx).current } :=
    ⟨hp1.1, hp1.2⟩
  have h0 : ({ skip_whitespace lx with start := (skip_whitespace lx).current } : lexer_t).start =
      ({ skip_whitespace lx with start := (skip_whitespace lx).current } : lexer_t).current := rfl
  generalize ({ skip_whitespace lx with start := (skip_whitespace lx).current } : lexer_t) = l0
    at hl hp0 h0
  refine ⟨positioned_of_tracks hp0 hl.tracks, fun _ hne hnl => ?_⟩
  obtain ⟨text, htext, htok, _, _, hline, hcol, hpos⟩ := located_token h0 hl hne
  rw [htok] at hnl
  rw [foldl_no_newline text hnl] at hpos
  have hfirst : first_character (after_token lx) = (l0.line, l0.column) := by
    unfold first_character after_token
    rw [hl.tracks.source, hl.tracks.start, h0]
    exact hp0.2.symm
  rw [hfirst, hline, hcol]
  have h1 : (lexer_next_token lx).2.line = l0.line := congrArg Prod.fst hpos
  have h2 : (lexer_next_token lx).2.column = l0.column + text.length := congrArg Prod.snd hpos
  rw [h1, h2]
  simp

/-- A string token starts with a double quote and ends with the first double
quote after it. -/
theorem string_token_text (lx : lexer_t) (h : (lexer_next_token lx).1.type = TOKEN_STRING) :
    ∃ body, '"' ∉ body ∧
      (lexer_next_token lx).1.start = '"' :: (body ++ '"' :: (after_token lx).current) ∧
      (lexer_next_token lx).1.length = body.length + 2 ∧
      token_to_string (lexer_next_token lx).1 = '"' :: (body ++ ['"']) := by
  have hl := lexer_next_token_located lx
  have h0 : ({ skip_whitespace lx with start := (skip_whitespace lx).current } : lexer_t).start =
      ({ skip_whitespace lx with start := (skip_whitespace lx).current } : lexer_t).current := rfl
  generalize ({ skip_whitespace lx with start := (skip_whitespace lx).current } : lexer_t) = l0
    at hl h0
  obtain ⟨body, hb, hq⟩ := hl.string h
  obtain ⟨text, htext, htok, hlen, hstart, _⟩ := located_token h0 hl (by rw [h]; decide)
  have ht : text = '"' :: (body ++ ['"']) := by
    have h1 : text ++ (lexer_next_token lx).2.current =
        ('"' :: (body ++ ['"'])) ++ (lexer_next_token lx).2.current := by
      rw [← htext, hb]
      simp
    exact List.append_cancel_right h1
  refine ⟨body, hq, ?_, ?_, ?_⟩
  · rw [hstart, hb]
    rfl
  · rw [hlen, ht]
    simp
  · rw [htok, ht]

/-- Claim C36.  The lexer keeps its position invariant: after `lexer_init` and
after every call of `lexer_next_token`, the cursor is inside the source, `line`
is one more than the number of line breaks in front of the cursor and `column`
one more than the distance from the start of the line.  Every token other than
NEWLINE and ERROR whose text holds no line break (end-of-input included, and
whatever comments, strings and line breaks came before it) carries the line
and column of its first character.  Both hold for any cursor that satisfies the
invariant, and so for every call of a scan session. -/
theorem positions_tracked :
    (∀ (source : List Char) (filename : Option (List Char)),
      Positioned (lexer_init source filename)) ∧
    (∀ lx : lexer_t, Positioned lx →
      Positioned (after_token lx) ∧
      ((nth_token 0 lx).type ≠ TOKEN_NEWLINE → (nth_token 0 lx).type ≠ TOKEN_ERROR →
        '\n' ∉ token_to_string (nth_token 0 lx) →
        ((nth_token 0 lx).line, (nth_token 0 lx).column) = first_character (after_token lx))) ∧
    (∀ (source : List Char) (filename : Option (List Char)) (k : Nat),
      Positioned (after_token^[k] (lexer_init source filename)) ∧
      ((nth_token k (lexer_init source filename)).type ≠ TOKEN_NEWLINE →
        (nth_token k (lexer_init source filename)).type ≠ TOKEN_ERROR →
        '\n' ∉ token_to_string (nth_token k (lexer_init source filename)) →
        ((nth_token k (lexer_init source filename)).line,
          (nth_token k (lexer_init source filename)).column) =
          first_character (after_token^[k + 1] (lexer_init source filename)))) := by
  have hiter : ∀ (source : List Char) (filename : Option (List Char)) (k : Nat),
      Positioned (after_token^[k] (lexer_init source filename)) := by
    intro source filename k
    induction k with
    | zero => exact lexer_init_positioned source filename
    | succ k ih =>
      rw [Function.iterate_succ_apply']
      exact (next_token_positioned _ ih).1
  refine ⟨lexer_init_positioned, fun lx h => next_token_positioned lx h, ?_⟩
  intro source filename k
  refine ⟨hiter source filename k, ?_⟩
  rw [Function.iterate_succ_apply']
  exact (next_token_positioned _ (hiter source filename k)).2

theorem positions_tracked_witness :
    ((nth_token 1 (lexer_init "a /* x\n y */ b\n\"s\" c".toList none)).line,
      (nth_token 1 (lexer_init "a /* x\n y */ b\n\"s\" c".toList none)).column) = (2, 7) ∧
    ((nth_token 3 (lexer_init "a /* x\n y */ b\n\"s\" c".toList none)).line,
      (nth_token 3 (lexer_init "a /* x\n y */ b\n\"s\" c".toList none)).column) = (3, 1) ∧
    ((nth_token 5 (lexer_init "a /* x\n y */ b\n\"s\" c".toList none)).line,
      (nth_token 5 (lexer_init "a /* x\n y */ b\n\"s\" c".toList none)).column) = (3, 6) ∧
    ((nth_token 1 (lexer_init "\"s\nt\" c".toList none)).line,
      (nth_token 1 (lexer_init "\"s\nt\" c".toList none)).column) = (2, 4) := by
  refine ⟨?_, ?_, ?_, ?_⟩
  · rw [(positions_tracked.2.2 "a /* x\n y */ b\n\"s\" c".toList none 1).2 (by decide!)
      (by decide!) (by decide!)]
    decide!
  · rw [(positions_tracked.2.2 "a /* x\n y */ b\n\"s\" c".toList none 3).2 (by decide!)
      (by decide!) (by decide!)]
    decide!
  · rw [(positions_tracked.2.2 "a /* x\n y */ b\n\"s\" c".toList none 5).2 (by decide!)
      (by decide!) (by decide!)]
    decide!
  · rw [(positions_tracked.2.2 "\"s\nt\" c".toList none 1).2 (by decide!)
      (by decide!) (by decide!)]
    decide!

/-! ### Error tokens on malformed input -/

theorem error_iff_ite {bad : Prop} {c : Prop} [Decidable c] {a b : token_t × lexer_t}
    (ha : c → ErrorIff bad a) (hb : ¬c → ErrorIff bad b) : ErrorIff bad (if c then a else b) := by
  split
  · exact ha (by assumption)
  · exact hb (by assumption)

theorem error_iff_make (l : lexer_t) (t : token_type_t) (ht : t ≠ TOKEN_ERROR) {text : List Char}
    (hbad : malformed_start text = false) :
    ErrorIff (malformed_start text = true) (make_token l t, l) :=
  ⟨⟨fun h => absurd h ht, fun h => by rw [hbad] at h; cases h⟩⟩

theorem error_iff_error (l : lexer_t) (message : List Char) {text : List Char}
    (hbad : malformed_start text = true) :
    ErrorIff (malformed_start text = true) (error_token l message, l) :=
  ⟨⟨fun _ => hbad, fun _ => rfl⟩⟩

theorem not_malformed {c : Char} (h1 : c ≠ '&') (h2 : c ≠ '|') (h3 : c ≠ '"')
    (h4 : (isalpha c || c == '_' || isdigit c || punctuation.contains c) = true)
    (rest : List Char) : malformed_start (c :: rest) = false := by
  simp only [malformed_start, h1, h2, h3, or_self, if_false, h4, Bool.not_true]

theorem not_malformed_punct {c ch : Char} (hc : (c == ch) = true)
    (h : ch ≠ '&' ∧ ch ≠ '|' ∧ ch ≠ '"' ∧ punctuation.contains ch = true) (rest : List Char) :
    malformed_start (c :: rest) = false := by
  rw [beq_iff_eq] at hc
  subst hc
  exact not_malformed h.1 h.2.1 h.2.2.1 (by rw [h.2.2.2]; simp) rest

theorem not_malformed_word {c : Char} (hc : (isalpha c || c == '_') = true) (rest : List Char) :
    malformed_start (c :: rest) = false := by
  refine not_malformed ?_ ?_ ?_ (by rw [hc]; simp) rest <;> rintro rfl <;> revert hc <;> decide

theorem not_malformed_digit {c : Char} (hc : isdigit c = true) (rest : List Char) :
    malformed_start (c :: rest) = false := by
  refine not_malformed ?_ ?_ ?_ (by rw [hc]; simp) rest <;> rintro rfl <;> revert hc <;> decide

theorem match_fst (l : lexer_t) (d : Char) :
    (match_ l d).1 = true ↔ l.current.head? = some d := by
  unfold match_
  cases hcur : l.current with
  | nil => simp [is_at_end, hcur]
  | cons e rest =>
    by_cases he : e = d
    · simp [is_at_end, peek, hcur, he]
    · simp [is_at_end, peek, hcur, he]

theorem error_iff_doubled {c ch : Char} (hc : (c == ch) = true) (hch : ch = '&' ∨ ch = '|')
    (l2 : lexer_t) (t : token_type_t) (ht : t ≠ TOKEN_ERROR) (message : List Char) :
    ErrorIff (malformed_start (c :: l2.current) = true)
      (if (match_ l2 ch).1 = true then (make_token (match_ l2 ch).2 t, (match_ l2 ch).2)
        else (error_token (match_ l2 ch).2 message, (match_ l2 ch).2)) := by
  rw [beq_iff_eq] at hc
  subst hc
  have hms : malformed_start (c :: l2.current) = (l2.current.head? != some c) := by
    rcases hch with rfl | rfl <;> simp [malformed_start]
  by_cases hm : (match_ l2 c).1 = true
  · rw [if_pos hm]
    refine error_iff_make _ _ ht ?_
    rw [hms, (match_fst l2 c).mp hm]
    simp
  · rw [if_neg hm]
    refine error_iff_error _ _ ?_
    rw [hms]
    have hne : l2.current.head? ≠ some c := fun h => hm ((match_fst l2 c).mpr h)
    simpa using hne

theorem error_iff_string {c : Char} (hc : (c == '"') = true) (l2 : lexer_t) :
    ErrorIff (malformed_start (c :: l2.current) = true) (string l2) := by
  rw [beq_iff_eq] at hc
  subst hc
  have hms : malformed_start ('"' :: l2.current) = !l2.current.contains '"' := by
    simp [malformed_start]
  obtain ⟨_, body, hb, hq, hend⟩ := string_loop_tracks l2.current.length l2
  unfold string
  dsimp only
  split
  · rename_i he
    have hnil : (string_loop l2.current.length l2).current = [] := by
      simpa [is_at_end] using he
    refine error_iff_error _ _ ?_
    rw [hms, hb, hnil, List.append_nil]
    simpa using hq
  · rename_i he
    simp only [Bool.not_eq_true] at he
    obtain ⟨rest, hr⟩ := ne_nil_of_not_end he
    have hp : peek (string_loop l2.current.length l2) = '"' := by
      rcases hend (Nat.le_refl _) with h | h
      · rw [h] at hr
        cases hr
      · exact h
    refine error_iff_make _ _ (by decide) ?_
    rw [hms]
    have hmem : '"' ∈ l2.current := by
      rw [hb, hr, hp]
      simp
    simpa using hmem

theorem malformed_other {c : Char} (n1 : ¬ (isalpha c || c == '_') = true)
    (n2 : ¬ isdigit c = true)
    (np : ∀ ch ∈ punctuation, ¬ (c == ch) = true) (rest : List Char) :
    malformed_start (c :: rest) = true := by
  have h1 : c ≠ '&' := fun h => np '&' (by decide) (by rw [h]; rfl)
  have h2 : c ≠ '|' := fun h => np '|' (by decide) (by rw [h]; rfl)
  have h3 : c ≠ '"' := fun h => np '"' (by decide) (by rw [h]; rfl)
  have hp : punctuation.contains c = false := by
    rw [Bool.eq_false_iff]
    intro h
    rw [List.contains_iff_exists_mem_beq] at h
    obtain ⟨ch, hch, hbeq⟩ := h
    have hcc : (c == ch) = true := by
      rw [beq_iff_eq] at hbeq ⊢
      exact hbeq
    exact np ch hch hcc
  simp only [Bool.not_eq_true] at n1 n2
  simp only [malformed_start, h1, h2, h3, or_self, if_false, n1, n2, hp, Bool.or_self,
    Bool.not_false]

/-- A call of `lexer_next_token` returns an error token exactly when the text
after the blanks and comments starts malformed. -/
theorem error_iff_malformed (lx : lexer_t) :
    (lexer_next_token lx).1.type = TOKEN_ERROR ↔
      malformed_start (skip_whitespace lx).current = true := by
  refine ErrorIff.iff ?_
  by_cases he0 : (skip_whitespace lx).current = []
  · rw [lexer_next_token_at_end lx he0, he0]
    exact error_iff_make _ _ (by decide) rfl
  have he : (skip_whitespace lx).current.isEmpty = false := by
    cases hc : (skip_whitespace lx).current with
    | nil => exact absurd hc he0
    | cons _ _ => rfl
  unfold lexer_next_token
  simp only [is_at_end, he, Bool.false_eq_true, if_false]
  rcases hadv : advance _ with ⟨c, l2⟩
  dsimp only
  have hf : First { skip_whitespace lx with start := (skip_whitespace lx).current } c l2 :=
    first_of_advance he hadv
  have hcur : (skip_whitespace lx).current = c :: l2.current := hf.current
  rw [hcur]
  clear hadv he he0 hcur hf
  refine error_iff_ite (fun hc => error_iff_make _ _ (check_keyword_ne_error _ _)
    (not_malformed_word hc _)) (fun n1 => ?_)
  refine error_iff_ite (fun hc => error_iff_make _ TOKEN_NUMBER (by decide)
    (not_malformed_digit hc _)) (fun n2 => ?_)
  refine error_iff_ite (fun hc => error_iff_make _ _ (by decide)
    (not_malformed_punct hc (by decide) _)) (fun p1 => ?_)
  refine error_iff_ite (fun hc => error_iff_make _ _ (by decide)
    (not_malformed_punct hc (by decide) _)) (fun p2 => ?_)
  refine error_iff_ite (fun hc => error_iff_make _ _ (by decide)
    (not_malformed_punct hc (by decide) _)) (fun p3 => ?_)
  refine error_iff_ite (fun hc => error_iff_make _ _ (by decide)
    (not_malformed_punct hc (by decide) _)) (fun p4 => ?_)
  refine error_iff_ite (fun hc => error_iff_make _ _ (by decide)
    (not_malformed_punct hc (by decide) _)) (fun p5 => ?_)
  refine error_iff_ite (fun hc => error_iff_make _ _ (by decide)
    (not_malformed_punct hc (by decide) _)) (fun p6 => ?_)
  refine error_iff_ite (fun hc => error_iff_make _ _ (by decide)
    (not_malformed_punct hc (by decide) _)) (fun p7 => ?_)
  refine error_iff_ite (fun hc => error_iff_make _ _ (by decide)
    (not_malformed_punct hc (by decide) _)) (fun p8 => ?_)
  refine error_iff_ite (fun hc => error_iff_make _ _ (by decide)
    (not_malformed_punct hc (by decide) _)) (fun p9 => ?_)
  refine error_iff_ite (fun hc => error_iff_make _ _ (by decide)
    (not_malformed_punct hc (by decide) _)) (fun p10 => ?_)
  refine error_iff_ite (fun hc => error_iff_ite
    (fun _ => error_iff_make _ _ (by decide) (not_malformed_punct hc (by decide) _))
    (fun _ => error_iff_make _ _ (by decide) (not_malformed_punct hc (by decide) _)))
    (fun p11 => ?_)
  refine error_iff_ite (fun hc => error_iff_make _ _ (by decide)
    (not_malformed_punct hc (by decide) _)) (fun p12 => ?_)
  refine error_iff_ite (fun hc => error_iff_make _ _ (by decide)
    (not_malformed_punct hc (by decide) _)) (fun p13 => ?_)
  refine error_iff_ite (fun hc => error_iff_make _ _ (by decide)
    (not_malformed_punct hc (by decide) _)) (fun p14 => ?_)
  refine error_iff_ite (fun hc => error_iff_make _ _ (by decide)
    (not_malformed_punct hc (by decide) _)) (fun p15 => ?_)
  refine error_iff_ite (fun hc => error_iff_make _ _ (by split <;> decide)
    (not_malformed_punct hc (by decide) _)) (fun p16 => ?_)
  refine error_iff_ite (fun hc => error_iff_make _ _ (by split <;> decide)
    (not_malformed_punct hc (by decide) _)) (fun p17 => ?_)
  refine error_iff_ite (fun hc => error_iff_make _ _ (by split <;> decide)
    (not_malformed_punct hc (by decide) _)) (fun p18 => ?_)
  refine error_iff_ite (fun hc => error_iff_make _ _ (by split <;> decide)
    (not_malformed_punct hc (by decide) _)) (fun p19 => ?_)
  refine error_iff_ite (fun hc => error_iff_doubled hc (Or.inl rfl) _ _ (by decide) _)
    (fun p20 => ?_)
  refine error_iff_ite (fun hc => error_iff_doubled hc (Or.inr rfl) _ _ (by decide) _)
    (fun p21 => ?_)
  refine error_iff_ite (fun hc => error_iff_ite
    (fun _ => error_iff_make _ _ (by decide) (not_malformed_punct hc (by decide) _))
    (fun _ => error_iff_make _ _ (by decide) (not_malformed_punct hc (by decide) _)))
    (fun p22 => ?_)
  refine error_iff_ite (fun hc => error_iff_string hc _) (fun p23 => ?_)
  refine error_iff_ite (fun hc => error_iff_make _ TOKEN_NEWLINE (by decide)
    (not_malformed_punct hc (by decide) _)) (fun p24 => ?_)
  refine error_iff_error _ _ (malformed_other n1 n2 ?_ _)
  intro ch hch
  simp only [punctuation, List.mem_cons, List.mem_singleton, List.not_mem_nil, or_false] at hch
  rcases hch with h | h | h | h | h | h | h | h | h | h | h | h | h | h | h | h | h | h | h | h |
    h | h | h | h <;> subst h <;> assumption

/-- The first end-of-input token of a scan: it comes within as many calls as
characters are left, plus one. -/
theorem reaches_first_eof : ∀ (n : Nat) (lx : lexer_t), lx.current.length ≤ n →
    ∃ k, k ≤ n ∧ (nth_token k lx).type = TOKEN_EOF ∧
      ∀ j, j < k → (nth_token j lx).type ≠ TOKEN_EOF ∧
        (after_token^[j + 1] lx).current.length < (after_token^[j] lx).current.length := by
  intro n
  induction n with
  | zero =>
    intro lx hlen
    refine ⟨0, Nat.le_refl _, ?_, fun j hj => absurd hj (Nat.not_lt_zero _)⟩
    rcases progress lx with h | h
    · exact h
    · omega
  | succ n ih =>
    intro lx hlen
    by_cases h0 : (lexer_next_token lx).1.type = TOKEN_EOF
    · exact ⟨0, Nat.zero_le _, h0, fun j hj => absurd hj (Nat.not_lt_zero _)⟩
    · have hp : (after_token lx).current.length < lx.current.length := by
        rcases progress lx with h | h
        · exact absurd h h0
        · exact h
      obtain ⟨k, hk, hk', hall⟩ := ih (after_token lx) (by omega)
      refine ⟨k + 1, by omega, hk', fun j hj => ?_⟩
      cases j with
      | zero => exact ⟨h0, hp⟩
      | succ j => exact hall j (by omega)

/-- Claim C20 (the lexer always makes progress).  `lexer_next_token` is a total
function (none of its loops is ended by its counter, see the section on loop
counters); each call either returns end-of-input or leaves fewer characters
behind the cursor than it found, and never moves the cursor back; so for every
source of `n` characters one of the first `n + 1` calls returns end-of-input.
End-of-input is returned only when nothing is left after the blanks and
comments that `skip_whitespace` steps over.  Malformed input yields ERROR
tokens along the way: a call returns an ERROR token exactly when the text after
the blanks and comments starts malformed (a lone `&` or `|`, a double quote
that is never closed, or a character that starts no token), and such a call
consumes at least one character like any other, so that the scan goes on
behind the malformed text.  For every source, every call before the first
end-of-input token consumes at least one character and returns an ERROR token
exactly where the text is malformed. -/
theorem lexer_makes_progress (source : List Char) (filename : Option (List Char)) :
    (∀ lx : lexer_t,
      ((lexer_next_token lx).1.type = TOKEN_EOF ∨
        (after_token lx).current.length < lx.current.length) ∧
      (after_token lx).current <:+ lx.current) ∧
    (∃ k, k < source.length + 1 ∧
      (nth_token k (lexer_init source filename)).type = TOKEN_EOF) ∧
    (∀ lx : lexer_t,
      ((lexer_next_token lx).1.type = TOKEN_EOF ↔ (skip_whitespace lx).current = []) ∧
      ((lexer_next_token lx).1.type = TOKEN_ERROR ↔
        malformed_start (skip_whitespace lx).current = true) ∧
      ((lexer_next_token lx).1.type = TOKEN_ERROR →
        (after_token lx).current.length < lx.current.length) ∧
      ∃ pre, lx.current = pre ++ (skip_whitespace lx).current ∧
        (Skipped pre ∨
          ((skip_whitespace lx).current = [] ∧
            ∃ p body, pre = p ++ '/' :: '*' :: body ∧ Skipped p ∧ ¬ ['*', '/'] <:+: body))) ∧
    (∃ k, k < source.length + 1 ∧
      (nth_token k (lexer_init source filename)).type = TOKEN_EOF ∧
      ∀ j, j < k →
        (nth_token j (lexer_init source filename)).type ≠ TOKEN_EOF ∧
        ((nth_token j (lexer_init source filename)).type = TOKEN_ERROR ↔
          malformed_start
            (skip_whitespace (after_token^[j] (lexer_init source filename))).current = true) ∧
        (after_token^[j + 1] (lexer_init source filename)).current.length <
          (after_token^[j] (lexer_init source filename)).current.length) := by
  refine ⟨fun lx => ⟨progress lx, ?_⟩, ?_, fun lx => ⟨eof_iff lx, error_iff_malformed lx, ?_,
    skip_whitespace_loop_spec _ lx (Nat.le_succ _)⟩, ?_⟩
  · by_cases h : (skip_whitespace lx).current = []
    · unfold after_token
      rw [lexer_next_token_at_end lx h]
      exact skip_whitespace_suffix lx
    · exact ((lexer_next_token_not_end lx h).suffix.trans (List.tail_suffix _)).trans
        (skip_whitespace_suffix lx)
  · obtain ⟨k, hk, hk'⟩ := reaches_eof source.length (lexer_init source filename)
      (lexer_init_length source filename)
    exact ⟨k, by omega, hk'⟩
  · intro herr
    rcases progress lx with h | h
    · rw [herr] at h
      cases h
    · exact h
  · obtain ⟨k, hk, hk', hall⟩ := reaches_first_eof source.length (lexer_init source filename)
      (lexer_init_length source filename)
    exact ⟨k, by omega, hk', fun j hj => ⟨(hall j hj).1, error_iff_malformed _, (hall j hj).2⟩⟩

theorem lexer_makes_progress_witness :
    (List.range 6).map (fun k => (nth_token k (lexer_init "a # & \"x".toList none)).type) =
      [TOKEN_IDENTIFIER, TOKEN_ERROR, TOKEN_ERROR, TOKEN_ERROR, TOKEN_EOF, TOKEN_EOF] ∧
    (nth_token 1 (lexer_init "a # & \"x".toList none)).type = TOKEN_ERROR ∧
    (after_token^[2] (lexer_init "a # & \"x".toList none)).current.length <
      (after_token^[1] (lexer_init "a # & \"x".toList none)).current.length := by
  have h := (lexer_makes_progress "a # & \"x".toList none).2.2.1
    (after_token (lexer_init "a # & \"x".toList none))
  have herr := h.2.1.mpr (by decide!)
  exact ⟨by decide!, herr, h.2.2.1 herr⟩

end Lexer

/-! ## Parser theorems on operators, literals and node kinds -/

namespace Parser

open Lexer (lexer_next_token token_to_string nth_token after_token lexer_init)

/-! ### The binary operators -/

/-- An identifier that no postfix follows, as `parse_unary` returns it. -/
theorem unary_identifier {p : parser_t} (ht : p.current.type = TOKEN_IDENTIFIER)
    (h1 : (advance p).current.type ≠ TOKEN_LEFT_PAREN)
    (h2 : (advance p).current.type ≠ TOKEN_DOT) :
    Converges parse_unary p
      (some (.identifier (token_to_string p.current) p.current.line p.current.column))
      (advance p) :=
  unary_of_call (call_converges (converges_identifier ht) (Postfixes.stop _ _ h1 h2))
    (by rw [ht]; decide) (by rw [ht]; decide)

theorem operator_ends_operand {l : level} {t : token_type_t} {op : ast_binary_op_t}
    (h : l.op t = some op) : t ≠ TOKEN_LEFT_PAREN ∧ t ≠ TOKEN_DOT := by
  constructor <;> rintro rfl <;> cases l <;> cases h

theorem tighter_none {l : level} {t : token_type_t} {op : ast_binary_op_t}
    (h : l.op t = some op) : ∀ l' : level, l' ∉ l.outer → l'.op t = none := by
  intro l' hl'
  refine op_of_one_level l l' _ op h ?_
  rintro rfl
  exact hl' (by cases l' <;> simp [level.outer])

/-- Claim C32.  Each of the eleven binary operator tokens, between two operands,
folds into a binary node with the operator tag of the table, and it is an
operator of the level of the table and of no other level.  The levels nest:
the tokens of `a == b < c + d * e`, for any five identifiers, followed by a
token that starts no postfix and no binary operator, are parsed as
EQ(a, LT(b, ADD(c, MUL(d, e)))). -/
theorem binary_operators_fold :
    (∀ e ∈ binary_operators, ∀ p : parser_t,
      p.current.type = TOKEN_IDENTIFIER →
      (advance^[1] p).current.type = e.1 →
      (advance^[2] p).current.type = TOKEN_IDENTIFIER →
      (advance^[3] p).current.type ≠ TOKEN_LEFT_PAREN →
      (advance^[3] p).current.type ≠ TOKEN_DOT →
      (∀ l : level, l.op (advance^[3] p).current.type = none) →
      Converges parse_expression p
        (some (.binary
          (some (.identifier (token_to_string p.current) p.current.line p.current.column))
          e.2.1
          (some (.identifier (token_to_string (advance^[2] p).current)
            (advance^[2] p).current.line (advance^[2] p).current.column)) 0 0))
        (advance^[3] p)) ∧
    (∀ e ∈ binary_operators, ∀ l : level,
      l.op e.1 = if l = e.2.2 then some e.2.1 else none) ∧
    (∀ p : parser_t,
      p.current.type = TOKEN_IDENTIFIER →
      (advance^[1] p).current.type = TOKEN_EQUAL_EQUAL →
      (advance^[2] p).current.type = TOKEN_IDENTIFIER →
      (advance^[3] p).current.type = TOKEN_LESS →
      (advance^[4] p).current.type = TOKEN_IDENTIFIER →
      (advance^[5] p).current.type = TOKEN_PLUS →
      (advance^[6] p).current.type = TOKEN_IDENTIFIER →
      (advance^[7] p).current.type = TOKEN_STAR →
      (advance^[8] p).current.type = TOKEN_IDENTIFIER →
      (advance^[9] p).current.type ≠ TOKEN_LEFT_PAREN →
      (advance^[9] p).current.type ≠ TOKEN_DOT →
      (∀ l : level, l.op (advance^[9] p).current.type = none) →
      Converges parse_expression p
        (some (.binary
          (some (.identifier (token_to_string p.current) p.current.line p.current.column))
          .OP_EQ
          (some (.binary
            (some (.identifier (token_to_string (advance^[2] p).current)
              (advance^[2] p).current.line (advance^[2] p).current.column))
            .OP_LT
            (some (.binary
              (some (.identifier (token_to_string (advance^[4] p).current)
                (advance^[4] p).current.line (advance^[4] p).current.column))
              .OP_ADD
              (some (.binary
                (some (.identifier (token_to_string (advance^[6] p).current)
                  (advance^[6] p).current.line (advance^[6] p).current.column))
                .OP_MUL
                (some (.identifier (token_to_string (advance^[8] p).current)
                  (advance^[8] p).current.line (advance^[8] p).current.column)) 0 0))
              0 0))
            0 0))
          0 0))
        (advance^[9] p)) := by
  have htable : ∀ e ∈ binary_operators, ∀ l : level,
      l.op e.1 = if l = e.2.2 then some e.2.1 else none := by
    intro e he l
    simp only [binary_operators, List.mem_cons, List.mem_singleton, List.not_mem_nil,
      or_false] at he
    rcases he with h | h | h | h | h | h | h | h | h | h | h <;> subst h <;> cases l <;> rfl
  refine ⟨?_, htable, ?_⟩
  · intro e he p h0 h1 h2 h3 h3' hend
    simp only [Function.iterate_succ, Function.iterate_zero, Function.comp_apply, id_eq] at *
    have hop : e.2.2.op (advance p).current.type = some e.2.1 := by
      rw [h1, htable e he e.2.2, if_pos rfl]
    have hnp := operator_ends_operand hop
    have ha := operand_of_unary e.2.2 (unary_identifier h0 hnp.1 hnp.2) (tighter_none hop)
    have hb := operand_of_unary e.2.2 (unary_identifier h2 h3 h3') (fun l' _ => hend l')
    exact expression_of_chain e.2.2 ha (Chain.cons hop hb (Chain.nil _)) (fun l' _ => hend l')
  · intro p h0 h1 h2 h3 h4 h5 h6 h7 h8 h9 h9' hend
    simp only [Function.iterate_succ, Function.iterate_zero, Function.comp_apply, id_eq] at *
    have o1 : level.equality.op (advance p).current.type = some .OP_EQ := by rw [h1]; rfl
    have o3 : level.comparison.op (advance (advance (advance p))).current.type =
        some .OP_LT := by rw [h3]; rfl
    have o5 : level.term.op (advance (advance (advance (advance (advance p))))).current.type =
        some .OP_ADD := by rw [h5]; rfl
    have o7 : level.factor.op (advance (advance (advance (advance (advance (advance
        (advance p))))))).current.type = some .OP_MUL := by rw [h7]; rfl
    have nil_fold : ∀ a : Option ast_expr_t, left_fold a [] = a := fun _ => rfl
    -- the operands
    have ua := operand_of_unary .equality
      (unary_identifier h0 (operator_ends_operand o1).1 (operator_ends_operand o1).2)
      (tighter_none o1)
    have ub := operand_of_unary .comparison
      (unary_identifier h2 (operator_ends_operand o3).1 (operator_ends_operand o3).2)
      (tighter_none o3)
    have uc := operand_of_unary .term
      (unary_identifier h4 (operator_ends_operand o5).1 (operator_ends_operand o5).2)
      (tighter_none o5)
    have ud := operand_of_unary .factor
      (unary_identifier h6 (operator_ends_operand o7).1 (operator_ends_operand o7).2)
      (tighter_none o7)
    have ue := unary_identifier h8 h9 h9'
    -- from the inside: factor, term, comparison, equality
    have f1 := factor_converges ud (Chain.cons o7 ue (Chain.nil _)) (hend .factor)
    have t1 := term_converges uc (Chain.cons o5 f1 (Chain.nil _)) (hend .term)
    have c1 := comparison_converges ub (Chain.cons o3 t1 (Chain.nil _)) (hend .comparison)
    have e1 := equality_converges ua (Chain.cons o1 c1 (Chain.nil _)) (hend .equality)
    exact expression_converges e1

theorem binary_operators_fold_witness :
    Converges parse_expression (parser_on "a == b < c + d * e")
      (some (.binary (some (.identifier ['a'] 1 1)) .OP_EQ
        (some (.binary (some (.identifier ['b'] 1 6)) .OP_LT
          (some (.binary (some (.identifier ['c'] 1 10)) .OP_ADD
            (some (.binary (some (.identifier ['d'] 1 14)) .OP_MUL
              (some (.identifier ['e'] 1 18)) 0 0)) 0 0)) 0 0)) 0 0))
      (advance^[9] (parser_on "a == b < c + d * e")) ∧
    Converges parse_expression (parser_on "a >= b")
      (some (.binary (some (.identifier ['a'] 1 1)) .OP_GTE (some (.identifier ['b'] 1 6)) 0 0))
      (advance^[3] (parser_on "a >= b")) := by
  constructor
  · have h := binary_operators_fold.2.2 (parser_on "a == b < c + d * e") (by decide!)
      (by decide!) (by decide!) (by decide!) (by decide!) (by decide!) (by decide!) (by decide!)
      (by decide!) (by decide!) (by decide!) (fun l => by cases l <;> decide!)
    have e0 : token_to_string (parser_on "a == b < c + d * e").current = ['a'] := by decide!
    have e1 : (parser_on "a == b < c + d * e").current.line = 1 := by decide!
    have e2 : (parser_on "a == b < c + d * e").current.column = 1 := by decide!
    have b0 : token_to_string (advance^[2] (parser_on "a == b < c + d * e")).current = ['b'] := by
      decide!
    have b1 : (advance^[2] (parser_on "a == b < c + d * e")).current.line = 1 := by decide!
    have b2 : (advance^[2] (parser_on "a == b < c + d * e")).current.column = 6 := by decide!
    have c0 : token_to_string (advance^[4] (parser_on "a == b < c + d * e")).current = ['c'] := by
      decide!
    have c1 : (advance^[4] (parser_on "a == b < c + d * e")).current.line = 1 := by decide!
    have c2 : (advance^[4] (parser_on "a == b < c + d * e")).current.column = 10 := by decide!
    have d0 : token_to_string (advance^[6] (parser_on "a == b < c + d * e")).current = ['d'] := by
      decide!
    have d1 : (advance^[6] (parser_on "a == b < c + d * e")).current.line = 1 := by decide!
    have d2 : (advance^[6] (parser_on "a == b < c + d * e")).current.column = 14 := by decide!
    have f0 : token_to_string (advance^[8] (parser_on "a == b < c + d * e")).current = ['e'] := by
      decide!
    have f1 : (advance^[8] (parser_on "a == b < c + d * e")).current.line = 1 := by decide!
    have f2 : (advance^[8] (parser_on "a == b < c + d * e")).current.column = 18 := by decide!
    rw [e0, e1, e2, b0, b1, b2, c0, c1, c2, d0, d1, d2, f0, f1, f2] at h
    exact h
  · have h := binary_operators_fold.1 (TOKEN_GREATER_EQUAL, .OP_GTE, .comparison) (by decide)
      (parser_on "a >= b") (by decide!) (by decide!) (by decide!) (by decide!) (by decide!)
      (fun l => by cases l <;> decide!)
    have e0 : token_to_string (parser_on "a >= b").current = ['a'] := by decide!
    have e1 : (parser_on "a >= b").current.line = 1 := by decide!
    have e2 : (parser_on "a >= b").current.column = 1 := by decide!
    have b0 : token_to_string (advance^[2] (parser_on "a >= b")).current = ['b'] := by decide!
    have b1 : (advance^[2] (parser_on "a >= b")).current.line = 1 := by decide!
    have b2 : (advance^[2] (parser_on "a >= b")).current.column = 6 := by decide!
    rw [e0, e1, e2, b0, b1, b2] at h
    exact h

/-! ### String literals -/

theorem parse_primary_string (k : Nat) (p : parser_t) (h : p.current.type = TOKEN_STRING) :
    parse_primary (k + 1) p =
      .done (some (.literal (.string ((p.current.start.drop 1).take
        (string_literal_length p.current.length))) p.current.line p.current.column))
        (advance p) := by
  have h1 : p.current.type ≠ TOKEN_NUMBER := by rw [h]; decide
  simp [parse_primary, bind_run, matchM, match_ok, match_fail, h, h1, Outcome.bind, pure_run,
    ite_run, previousM, advance_previous]

/-- Claim C34.  Every STRING token that `lexer_next_token` returns starts with a
double quote and ends with the first double quote after it: its text is a
quote, a body without any double quote, and a quote, so its length is at least
2; a backslash in the body is a character like any other.  For such a token in
the lookahead (with a length that fits `size_t`), `parse_primary` returns the
string literal whose value is exactly the body, at the token's line and
column. -/
theorem string_literal_body :
    (∀ lx : lexer_t, (nth_token 0 lx).type = TOKEN_STRING →
      ∃ body, '"' ∉ body ∧
        (nth_token 0 lx).start = '"' :: (body ++ '"' :: (after_token lx).current) ∧
        (nth_token 0 lx).length = body.length + 2 ∧
        token_to_string (nth_token 0 lx) = '"' :: (body ++ ['"'])) ∧
    (∀ (p : parser_t) (lx : lexer_t), p.current = nth_token 0 lx →
      p.current.type = TOKEN_STRING → p.current.length < 2 ^ 64 →
      ∃ body, token_to_string p.current = '"' :: (body ++ ['"']) ∧ '"' ∉ body ∧
        Converges parse_primary p
          (some (.literal (.string body) p.current.line p.current.column)) (advance p)) := by
  refine ⟨fun lx h => Lexer.string_token_text lx h, ?_⟩
  intro p lx hp ht hlen
  rw [hp] at ht
  obtain ⟨body, hq, hstart, hl, htext⟩ := Lexer.string_token_text lx ht
  rw [← hp] at ht
  refine ⟨body, by rw [hp]; exact htext, hq, 1, fun fuel hf => ?_⟩
  obtain ⟨k, rfl⟩ : ∃ k, fuel = k + 1 := ⟨fuel - 1, by omega⟩
  rw [parse_primary_string k p ht]
  have h1 : p.current.start = '"' :: (body ++ '"' :: (after_token lx).current) := by
    rw [hp]
    exact hstart
  have h2 : p.current.length = body.length + 2 := by
    rw [hp]
    exact hl
  have h3 : string_literal_length p.current.length = body.length := by
    rw [h2] at hlen ⊢
    unfold string_literal_length
    omega
  rw [h3, h1]
  simp

theorem string_literal_body_witness :
    Converges parse_primary (parser_on "\"a\\\"b\"")
      (some (.literal (.string "a\\".toList) 1 1)) (advance (parser_on "\"a\\\"b\"")) := by
  obtain ⟨body, h1, _, h3⟩ := string_literal_body.2 (parser_on "\"a\\\"b\"")
    (lexer_init "\"a\\\"b\"".toList none) (by decide!) (by decide!) (by decide!)
  have hb : body = "a\\".toList := by
    have h : token_to_string (parser_on "\"a\\\"b\"").current = "\"a\\\"".toList := by
      decide!
    rw [h] at h1
    have h2 : body ++ ['"'] = "a\\".toList ++ ['"'] := by simpa using h1.symm
    exact List.append_cancel_right h2
  rw [hb] at h3
  have e1 : (parser_on "\"a\\\"b\"").current.line = 1 := by decide!
  have e2 : (parser_on "\"a\\\"b\"").current.column = 1 := by decide!
  rw [e1, e2] at h3
  exact h3

/-! ### A unit after the duration of `wait` -/

theorem consume_fail {p : parser_t} {t : token_type_t} (m : List Char) (h : p.current.type ≠ t) :
    consume p t m = error_at_current p m := by
  simp [consume, h]

theorem finished_mono {α : Type} {f : Nat → ParseM α} (hf : ∀ n, Ext (f n) (f (n + 1)))
    {n : Nat} {p : parser_t} (h : (f n p).finished = true) :
    ∀ m, n ≤ m → f m p = f n p := by
  intro m hm
  induction m, hm using Nat.le_induction with
  | base => rfl
  | succ m _ ih => rw [(hf m).ext p (by rw [ih]; exact h), ih]

theorem unit_no_operator {t : token_type_t} (h : t ∈ unit_keywords) :
    t ≠ TOKEN_LEFT_PAREN ∧ t ≠ TOKEN_DOT ∧ t ≠ TOKEN_RIGHT_PAREN ∧ ∀ l : level, l.op t = none := by
  simp only [unit_keywords, List.mem_cons, List.mem_singleton, List.not_mem_nil, or_false] at h
  rcases h with h | h | h | h | h | h | h | h <;> subst h <;>
    exact ⟨by decide, by decide, by decide, fun l => by cases l <;> rfl⟩

theorem wait_statement {p q : parser_t} {duration : Option ast_expr_t}
    (hw : p.current.type = TOKEN_WAIT) (hp : (advance p).current.type = TOKEN_LEFT_PAREN)
    (hd : Converges parse_expression (advance (advance p)) duration q) :
    Converges parse_statement p (some (.wait duration 0 0))
      (consume q TOKEN_RIGHT_PAREN "Expected ')' after wait duration".toList) := by
  obtain ⟨n, hd⟩ := hd
  have hn : p.current.type ≠ TOKEN_NEWLINE := by rw [hw]; decide
  have hi : p.current.type ≠ TOKEN_IF := by rw [hw]; decide
  refine ⟨n + 1, fun fuel hf => ?_⟩
  obtain ⟨k, rfl⟩ : ∃ k, fuel = k + 1 := ⟨fuel - 1, by omega⟩
  simp [parse_statement, bind_run, skip_newlinesM, skip_newlines_id hn, matchM, match_fail hi,
    match_ok hw, consumeM, consume_ok _ hp, hd k (by omega), Outcome.bind, pure_run, ite_run]

/-- Claim C33.  The statement-level part of the claim holds: for `wait`, `(`, a
numeral and a unit keyword, `parse_statement` parses the numeral alone as the
duration, does not consume the unit token, and (outside panic mode) sets
`had_error` and reports `Expected ')' after wait duration` at the line and
column of the unit token.  But it returns a wait node, not a failure, and a
parse containing the statement yields no result at all: on
`robot R { task t() { wait(100ms) } }` the run of `parser_parse` never
returns, for any amount of fuel. -/
theorem wait_unit_never_returns :
    (∀ p : parser_t, p.current.type = TOKEN_WAIT →
      (advance^[1] p).current.type = TOKEN_LEFT_PAREN →
      (advance^[2] p).current.type = TOKEN_NUMBER →
      (advance^[3] p).current.type ∈ unit_keywords →
      (advance^[3] p).panic_mode = false →
      Converges parse_statement p
        (some (.wait (some (.literal (.number (strtod (advance^[2] p).current.start))
          (advance^[2] p).current.line (advance^[2] p).current.column)) 0 0))
        (error_at_current (advance^[3] p) "Expected ')' after wait duration".toList) ∧
      (error_at_current (advance^[3] p) "Expected ')' after wait duration".toList).current =
        (advance^[3] p).current ∧
      (error_at_current (advance^[3] p) "Expected ')' after wait duration".toList).had_error =
        true ∧
      (error_at_current (advance^[3] p) "Expected ')' after wait duration".toList).diagnostics =
        (advance^[3] p).diagnostics ++
          [{ filename := (advance^[3] p).lexer.filename,
             line := (advance^[3] p).current.line, column := (advance^[3] p).current.column,
             message := "Expected ')' after wait duration".toList,
             error_code := .NEUROX_ERROR_SYNTAX }]) ∧
    (∀ fuel, ∃ q, parser_parse fuel
      (parser_on "robot R \x7b task t() \x7b wait(100ms) \x7d \x7d") = .out_of_fuel q) ∧
    (advance^[11] (parser_on "robot R \x7b task t() \x7b wait(100ms) \x7d \x7d")).current.type =
      TOKEN_TYPE_MS ∧
    (parser_parse 30
      (parser_on "robot R \x7b task t() \x7b wait(100ms) \x7d \x7d")).state.diagnostics.map shown =
      [(none, 1, 30, "Expected ')' after wait duration".toList)] := by
  refine ⟨?_, never_returns (N := 11) (by decide!), by decide!, by decide!⟩
  intro p hw hp hnum hu hpanic
  simp only [Function.iterate_succ, Function.iterate_zero, Function.comp_apply, id_eq] at *
  obtain ⟨u1, u2, u3, u4⟩ := unit_no_operator hu
  have he := expression_of_primary (converges_number hnum rfl rfl rfl) u1 u2 u4
  have h := wait_statement hw hp he
  rw [consume_fail _ u3] at h
  refine ⟨h, error_at_current_eq _ _ _, ?_, ?_⟩ <;> simp [error_at_current, error_at, hpanic]

theorem wait_unit_never_returns_witness :
    Converges parse_statement (parser_on "wait(100ms)")
      (some (.wait (some (.literal (.number 100) 1 6)) 0 0))
      (error_at_current (advance^[3] (parser_on "wait(100ms)"))
        "Expected ')' after wait duration".toList) ∧
    (error_at_current (advance^[3] (parser_on "wait(100ms)"))
        "Expected ')' after wait duration".toList).diagnostics.map shown =
      [(none, 1, 9, "Expected ')' after wait duration".toList)] := by
  have h := wait_unit_never_returns.1 (parser_on "wait(100ms)") (by decide!) (by decide!)
    (by decide!) (by decide!) (by decide!)
  have e1 : strtod (advance^[2] (parser_on "wait(100ms)")).current.start = 100 := by decide!
  have e2 : (advance^[2] (parser_on "wait(100ms)")).current.line = 1 := by decide!
  have e3 : (advance^[2] (parser_on "wait(100ms)")).current.column = 6 := by decide!
  rw [e1, e2, e3] at h
  exact ⟨h.1, by decide!⟩

/-! ### The value of a number literal -/

theorem assign_identifier {p q r : parser_t} {name : List Char} {line column : Int}
    {rhs : Option ast_expr_t}
    (hn : p.current.type ≠ TOKEN_NEWLINE) (hi : p.current.type ≠ TOKEN_IF)
    (hw : p.current.type ≠ TOKEN_WAIT)
    (hl : Converges parse_expression p (some (.identifier name line column)) q)
    (he : q.current.type = TOKEN_EQUAL)
    (hr : Converges parse_expression (advance q) rhs r) :
    Converges parse_statement p (some (.assign name rhs 0 0)) r := by
  obtain ⟨n, hl⟩ := hl
  obtain ⟨m, hr⟩ := hr
  refine ⟨max n m + 1, fun fuel hf => ?_⟩
  obtain ⟨k, rfl⟩ : ∃ k, fuel = k + 1 := ⟨fuel - 1, by omega⟩
  simp [parse_statement, bind_run, skip_newlinesM, skip_newlines_id hn, matchM, match_fail hi,
    match_fail hw, match_ok he, hl k (by omega), hr k (by omega), Outcome.bind, pure_run,
    ite_run]

/-- An assignment of a number to an identifier: the value of the literal is what
`strtod` reads from the start of the NUMBER token in the source buffer. -/
theorem assign_number {p : parser_t} {name : List Char} {v : ℚ} {l c : Int}
    (h0 : p.current.type = TOKEN_IDENTIFIER) (hname : token_to_string p.current = name)
    (h1 : (advance p).current.type = TOKEN_EQUAL)
    (h2 : (advance (advance p)).current.type = TOKEN_NUMBER)
    (hv : strtod (advance (advance p)).current.start = v)
    (hl : (advance (advance p)).current.line = l)
    (hc : (advance (advance p)).current.column = c)
    (h3 : (advance (advance (advance p))).current.type ≠ TOKEN_LEFT_PAREN)
    (h4 : (advance (advance (advance p))).current.type ≠ TOKEN_DOT)
    (h5 : ∀ lv : level, lv.op (advance (advance (advance p))).current.type = none) :
    Converges parse_statement p (some (.assign name (some (.literal (.number v) l c)) 0 0))
      (advance (advance (advance p))) := by
  have hid : Converges parse_primary p
      (some (.identifier name p.current.line p.current.column)) (advance p) :=
    converges_identifier_at h0 hname rfl rfl
  have n1 := no_operator_of_mem (t := (advance p).current.type) (by rw [h1]; decide)
  exact assign_identifier (by rw [h0]; decide) (by rw [h0]; decide) (by rw [h0]; decide)
    (expression_of_primary hid n1.1 n1.2.1 n1.2.2) h1
    (expression_of_primary (converges_number h2 hv hl hc) h3 h4 h5)

/-- Claim C35 is refuted by the code.  The value of a number literal is what
`strtod` reads from the start of the token in the source buffer, and `strtod`
does not stop at the end of the token: it reads an exponent or a hexadecimal
form that follows.  In `x = 1e3` the NUMBER token is `1` and the literal's value
is 1000, not 1; in `x = 0x10` the token is `0` and the value is 16, not 0.  The
value depends on the characters after the token: the token `1` of `x = 1` has
the value 1. -/
theorem number_value_reads_past_token :
    (∀ (k : Nat) (p : parser_t), p.current.type = TOKEN_NUMBER →
      parse_primary (k + 1) p =
        .done (some (.literal (.number (strtod p.current.start)) p.current.line
          p.current.column)) (advance p)) ∧
    (token_to_string (advance^[2] (parser_on "x = 1e3")).current = "1".toList ∧
      (advance^[2] (parser_on "x = 1e3")).current.type = TOKEN_NUMBER ∧
      strtod "1".toList = 1 ∧
      Converges parse_statement (parser_on "x = 1e3")
        (some (.assign "x".toList (some (.literal (.number 1000) 1 5)) 0 0))
        (advance^[3] (parser_on "x = 1e3"))) ∧
    (token_to_string (advance^[2] (parser_on "x = 0x10")).current = "0".toList ∧
      (advance^[2] (parser_on "x = 0x10")).current.type = TOKEN_NUMBER ∧
      strtod "0".toList = 0 ∧
      Converges parse_statement (parser_on "x = 0x10")
        (some (.assign "x".toList (some (.literal (.number 16) 1 5)) 0 0))
        (advance^[3] (parser_on "x = 0x10"))) ∧
    (token_to_string (advance^[2] (parser_on "x = 1")).current = "1".toList ∧
      Converges parse_statement (parser_on "x = 1")
        (some (.assign "x".toList (some (.literal (.number 1) 1 5)) 0 0))
        (advance^[3] (parser_on "x = 1"))) := by
  refine ⟨parse_primary_number, ⟨by decide!, by decide!, by decide!, ?_⟩,
    ⟨by decide!, by decide!, by decide!, ?_⟩, ⟨by decide!, ?_⟩⟩
  · exact assign_number (p := parser_on "x = 1e3") (by decide!) (by decide!) (by decide!)
      (by decide!) (by decide!) (by decide!) (by decide!) (by decide!) (by decide!)
      (fun lv => by cases lv <;> decide!)
  · exact assign_number (p := parser_on "x = 0x10") (by decide!) (by decide!) (by decide!)
      (by decide!) (by decide!) (by decide!) (by decide!) (by decide!) (by decide!)
      (fun lv => by cases lv <;> decide!)
  · exact assign_number (p := parser_on "x = 1") (by decide!) (by decide!) (by decide!)
      (by decide!) (by decide!) (by decide!) (by decide!) (by decide!) (by decide!)
      (fun lv => by cases lv <;> decide!)

/-! ### A statement that starts with `=` -/

theorem primary_null {p : parser_t} (h1 : p.current.type ≠ TOKEN_NUMBER)
    (h2 : p.current.type ≠ TOKEN_STRING) (h3 : p.current.type ≠ TOKEN_IDENTIFIER)
    (h4 : p.current.type ≠ TOKEN_LEFT_PAREN) :
    Converges parse_primary p none (error p "Expected expression".toList) := by
  refine ⟨1, fun fuel hf => ?_⟩
  obtain ⟨k, rfl⟩ : ∃ k, fuel = k + 1 := ⟨fuel - 1, by omega⟩
  simp [parse_primary, bind_run, matchM, match_fail, h1, h2, h3, h4, errorM, Outcome.bind,
    pure_run, ite_run]

theorem null_assignment {p q : parser_t}
    (hn : p.current.type ≠ TOKEN_NEWLINE) (hi : p.current.type ≠ TOKEN_IF)
    (hw : p.current.type ≠ TOKEN_WAIT) (hl : Converges parse_expression p none q)
    (he : q.current.type = TOKEN_EQUAL) :
    ∃ n, ∀ fuel, n ≤ fuel → parse_statement fuel p = .null_deref (advance q) := by
  obtain ⟨n, hl⟩ := hl
  refine ⟨n + 1, fun fuel hf => ?_⟩
  obtain ⟨k, rfl⟩ : ∃ k, fuel = k + 1 := ⟨fuel - 1, by omega⟩
  simp [parse_statement, bind_run, skip_newlinesM, skip_newlines_id hn, matchM, match_fail hi,
    match_fail hw, match_ok he, hl k (by omega), Outcome.bind, null_derefM, ite_run]

/-- Claim C38 is refuted by the code.  When a statement starts with `=`,
`parse_expression` reports `Expected expression` and returns null without
consuming the `=`; `parse_statement` then matches the `=` and reads the type tag
of the null node: for every sufficient amount of fuel the call ends at that read
through the null pointer, in the state after the `=`.  More generally this
happens whenever the expression at the start of a statement is null and `=`
follows.  A whole parse of `robot R { task t() { = 1 } }` ends the same way. -/
theorem assignment_reads_null_target :
    (∀ p q : parser_t, p.current.type ≠ TOKEN_NEWLINE → p.current.type ≠ TOKEN_IF →
      p.current.type ≠ TOKEN_WAIT → Converges parse_expression p none q →
      q.current.type = TOKEN_EQUAL →
      ∃ n, ∀ fuel, n ≤ fuel → parse_statement fuel p = .null_deref (advance q)) ∧
    (∀ p : parser_t, p.current.type = TOKEN_EQUAL →
      ∃ n, ∀ fuel, n ≤ fuel → parse_statement fuel p =
        .null_deref (advance (error p "Expected expression".toList))) ∧
    (∀ fuel, 30 ≤ fuel →
      (parser_parse fuel (parser_on "robot R \x7b task t() \x7b = 1 \x7d \x7d")).is_null_deref =
        true) := by
  refine ⟨fun p q hn hi hw hl he => null_assignment hn hi hw hl he, ?_, ?_⟩
  · intro p he
    have hc : (error p "Expected expression".toList).current.type = TOKEN_EQUAL := by
      rw [error, error_at_current_eq]
      exact he
    have hnull := primary_null (p := p) (by rw [he]; decide) (by rw [he]; decide)
      (by rw [he]; decide) (by rw [he]; decide)
    have hu := unary_of_call (call_converges hnull
      (Postfixes.stop _ _ (by rw [hc]; decide) (by rw [hc]; decide)))
      (by rw [he]; decide) (by rw [he]; decide)
    have hx := expression_of_unary hu (fun l => by rw [hc]; cases l <;> rfl)
    exact null_assignment (by rw [he]; decide) (by rw [he]; decide) (by rw [he]; decide) hx hc
  · intro fuel hf
    have h30 : (parser_parse 30
        (parser_on "robot R \x7b task t() \x7b = 1 \x7d \x7d")).is_null_deref = true := by
      decide!
    have hfin : (parser_parse 30
        (parser_on "robot R \x7b task t() \x7b = 1 \x7d \x7d")).finished = true := by
      decide!
    rw [finished_mono ext_parser_parse hfin fuel hf]
    exact h30

theorem assignment_reads_null_target_witness :
    ∃ n, ∀ fuel, n ≤ fuel → parse_statement fuel (parser_on "= 1") =
      .null_deref (advance (error (parser_on "= 1") "Expected expression".toList)) :=
  assignment_reads_null_target.2.1 (parser_on "= 1") (by decide!)

/-! ### The robot name on a source without a robot -/

/-- Claim C39 is refuted by the code.  `parser_init` does not set the `previous`
slot: its priming `advance` copies into it whatever was in the `current` slot of
the struct before.  `parser_parse` builds the robot from the text of the token
in the `previous` slot after the two calls of `consume`, whether they found
their tokens or not.  When the source does not start with a line break, `robot`
or an identifier (the empty source, for one), neither call consumes anything,
and the name is copied out of the unset token. -/
theorem robot_name_from_unset_token :
    (∀ (k : Nat) (p : parser_t),
      parser_parse (k + 1) p =
        (do
          consumeM TOKEN_LEFT_BRACE "Expected '\x7b' after robot name"
          skip_newlinesM
          let robot ← parser_parse_loop k (ast_robot_create (token_to_string (robot_name_token p)))
          consumeM TOKEN_RIGHT_BRACE "Expected '\x7d' after robot body"
          if ← had_errorM then pure none else pure (some robot) : ParseM (Option ast_robot_t))
        (consume (consume (skip_newlines p) TOKEN_ROBOT "Expected 'robot' keyword".toList)
          TOKEN_IDENTIFIER "Expected robot name".toList)) ∧
    (∀ (memory : parser_t) (lexer : lexer_t),
      (parser_init memory lexer).previous = memory.current) ∧
    (∀ (memory : parser_t) (lexer : lexer_t),
      (parser_init memory lexer).current.type ≠ TOKEN_NEWLINE →
      (parser_init memory lexer).current.type ≠ TOKEN_ROBOT →
      (parser_init memory lexer).current.type ≠ TOKEN_IDENTIFIER →
      robot_name_token (parser_init memory lexer) = memory.current) ∧
    (∀ (memory : parser_t) (filename : Option (List Char)),
      robot_name_token (parser_init memory (lexer_init [] filename)) = memory.current) := by
  have hprev : ∀ (memory : parser_t) (lexer : lexer_t),
      (parser_init memory lexer).previous = memory.current := by
    intro memory lexer
    rw [parser_init, advance_previous]
  have hslot : ∀ (memory : parser_t) (lexer : lexer_t),
      (parser_init memory lexer).current.type ≠ TOKEN_NEWLINE →
      (parser_init memory lexer).current.type ≠ TOKEN_ROBOT →
      (parser_init memory lexer).current.type ≠ TOKEN_IDENTIFIER →
      robot_name_token (parser_init memory lexer) = memory.current := by
    intro memory lexer h1 h2 h3
    have h3' : (error_at_current (parser_init memory lexer)
        "Expected 'robot' keyword".toList).current.type ≠ TOKEN_IDENTIFIER := by
      rw [error_at_current, error_at_current_eq]
      exact h3
    rw [robot_name_token, skip_newlines_id h1, consume_fail _ h2, consume_fail _ h3',
      error_at_current, error_at_previous, error_at_current, error_at_previous]
    exact hprev memory lexer
  refine ⟨?_, hprev, hslot, ?_⟩
  · intro k p
    rfl
  · intro memory filename
    have hs : (Lexer.skip_whitespace (lexer_init [] filename)).current = [] := rfl
    have hcur : (parser_init memory (lexer_init [] filename)).current.type = TOKEN_EOF := by
      rw [parser_init, advance_token _ _ _ (Lexer.lexer_next_token_at_end _ hs)
        (by simp [Lexer.make_token])]
      rfl
    exact hslot memory _ (by rw [hcur]; decide) (by rw [hcur]; decide) (by rw [hcur]; decide)

theorem robot_name_from_unset_token_witness :
    robot_name_token (parser_init (parser_memory
      { type := TOKEN_STAR, start := "junk".toList, length := 4, line := 7, column := 9 })
      (lexer_init "\x7b".toList none)) =
      { type := TOKEN_STAR, start := "junk".toList, length := 4, line := 7, column := 9 } :=
  robot_name_from_unset_token.2.2.1 _ _ (by decide!) (by decide!) (by decide!)

/-! ### The node kinds that the parser builds -/

theorem yields_any {α : Type} (x : ParseM α) : Yields (fun _ => True) x := ⟨fun _ _ _ _ => trivial⟩

theorem yields_pure {α : Type} {G : α → Prop} {a : α} (h : G a) : Yields G (pure a : ParseM α) :=
  ⟨fun p b q hb => by
    rw [pure_run] at hb
    cases hb
    exact h⟩

theorem yields_oof {α : Type} {G : α → Prop} : Yields G (out_of_fuelM : ParseM α) :=
  ⟨fun p b q hb => by cases hb⟩

theorem yields_null {α : Type} {G : α → Prop} : Yields G (null_derefM : ParseM α) :=
  ⟨fun p b q hb => by cases hb⟩

theorem yields_bind {α β : Type} {H : α → Prop} {G : β → Prop} {x : ParseM α} {f : α → ParseM β}
    (hx : Yields H x) (hf : ∀ a, H a → Yields G (f a)) : Yields G (x >>= f) := by
  refine ⟨fun p b q h => ?_⟩
  rw [bind_run] at h
  obtain ⟨a, p1, h1, h2⟩ := bind_done h
  exact (hf a (hx.post p a p1 h1)).post p1 b q h2

theorem yields_ite {α : Type} {G : α → Prop} (c : Prop) [Decidable c] {a b : ParseM α}
    (ha : Yields G a) (hb : Yields G b) : Yields G (if c then a else b) := by
  split <;> assumption

theorem core_args_append (args : List (Option ast_expr_t)) (arg : Option ast_expr_t)
    (h1 : core_expr_args args = true) (h2 : core_expr arg = true) :
    core_expr_args (args ++ [arg]) = true := by
  induction args with
  | nil => simp [core_expr_args, h2]
  | cons a rest ih =>
    simp only [core_expr_args, Bool.and_eq_true] at h1
    simp [core_expr_args, h1.1, ih h1.2]

theorem core_statements_append (statements : List (Option ast_stmt_t)) (stmt : Option ast_stmt_t)
    (h1 : core_stmt_statements statements = true) (h2 : core_stmt stmt = true) :
    core_stmt_statements (statements ++ [stmt]) = true := by
  induction statements with
  | nil => simp [core_stmt_statements, h2]
  | cons a rest ih =>
    simp only [core_stmt_statements, Bool.and_eq_true] at h1
    simp [core_stmt_statements, h1.1, ih h1.2]

theorem yields_expression (n : Nat) :
    Yields (fun e => core_expr e = true) (parse_primary n) ∧
    (∀ a, core_expr_args a = true →
      Yields (fun l => core_expr_args l = true) (parse_call_args n a)) ∧
    (∀ e, core_expr e = true → Yields (fun e => core_expr e = true) (parse_call_loop n e)) ∧
    Yields (fun e => core_expr e = true) (parse_call n) ∧
    Yields (fun e => core_expr e = true) (parse_unary n) ∧
    (∀ e, core_expr e = true → Yields (fun e => core_expr e = true) (parse_factor_loop n e)) ∧
    Yields (fun e => core_expr e = true) (parse_factor n) ∧
    (∀ e, core_expr e = true → Yields (fun e => core_expr e = true) (parse_term_loop n e)) ∧
    Yields (fun e => core_expr e = true) (parse_term n) ∧
    (∀ e, core_expr e = true →
      Yields (fun e => core_expr e = true) (parse_comparison_loop n e)) ∧
    Yields (fun e => core_expr e = true) (parse_comparison n) ∧
    (∀ e, core_expr e = true → Yields (fun e => core_expr e = true) (parse_equality_loop n e)) ∧
    Yields (fun e => core_expr e = true) (parse_equality n) ∧
    Yields (fun e => core_expr e = true) (parse_expression n) := by
  induction n with
  | zero =>
    refine ⟨?_, ?_, ?_, ?_, ?_, ?_, ?_, ?_, ?_, ?_, ?_, ?_, ?_, ?_⟩ <;> intros <;>
      first
      | (rw [parse_primary]; exact yields_oof)
      | (rw [parse_call_args]; exact yields_oof)
      | (rw [parse_call_loop]; exact yields_oof)
      | (rw [parse_call]; exact yields_oof)
      | (rw [parse_unary]; exact yields_oof)
      | (rw [parse_factor_loop]; exact yields_oof)
      | (rw [parse_factor]; exact yields_oof)
      | (rw [parse_term_loop]; exact yields_oof)
      | (rw [parse_term]; exact yields_oof)
      | (rw [parse_comparison_loop]; exact yields_oof)
      | (rw [parse_comparison]; exact yields_oof)
      | (rw [parse_equality_loop]; exact yields_oof)
      | (rw [parse_equality]; exact yields_oof)
      | (rw [parse_expression]; exact yields_oof)
  | succ n ih =>
    obtain ⟨h1, h2, h3, h4, h5, h6, h7, h8, h9, h10, h11, h12, h13, h14⟩ := ih
    refine ⟨?_, ?_, ?_, ?_, ?_, ?_, ?_, ?_, ?_, ?_, ?_, ?_, ?_, ?_⟩
    · rw [parse_primary]
      refine yields_bind (yields_any _) (fun _ _ => yields_ite _ ?_ ?_)
      · exact yields_bind (yields_any _) (fun _ _ => yields_pure (by simp [core_expr, core_expr_node]))
      refine yields_bind (yields_any _) (fun _ _ => yields_ite _ ?_ ?_)
      · exact yields_bind (yields_any _) (fun _ _ => yields_pure (by simp [core_expr, core_expr_node]))
      refine yields_bind (yields_any _) (fun _ _ => yields_ite _ ?_ ?_)
      · exact yields_bind (yields_any _) (fun _ _ => yields_pure (by simp [core_expr, core_expr_node]))
      refine yields_bind (yields_any _) (fun _ _ => yields_ite _ ?_ ?_)
      · exact yields_bind h14 (fun e he => yields_bind (yields_any _) (fun _ _ => yields_pure he))
      · exact yields_bind (yields_any _) (fun _ _ => yields_pure rfl)
    · intro args hargs
      rw [parse_call_args]
      refine yields_bind h14 (fun e he => ?_)
      refine yields_bind (yields_any _) (fun _ _ => yields_ite _ ?_ ?_)
      · exact h2 _ (core_args_append _ _ hargs he)
      · exact yields_pure (core_args_append _ _ hargs he)
    · intro e he
      rw [parse_call_loop]
      refine yields_bind (yields_any _) (fun _ _ => yields_ite _ ?_ ?_)
      · refine yields_bind (H := fun l => core_expr_args l = true) ?_ (fun l hl => ?_)
        · refine yields_bind (yields_any _) (fun _ _ => yields_ite _ ?_ ?_)
          · exact h2 _ rfl
          · exact yields_pure rfl
        · refine yields_bind (yields_any _) (fun _ _ => ?_)
          exact h3 _ (by simp [core_expr, core_expr_node, hl]; exact he)
      · refine yields_bind (yields_any _) (fun _ _ => yields_ite _ ?_ ?_)
        · refine yields_bind (yields_any _) (fun _ _ => ?_)
          refine yields_bind (yields_any _) (fun _ _ => ?_)
          exact h3 _ (by simp [core_expr, core_expr_node]; exact he)
        · exact yields_pure he
    · rw [parse_call]
      exact yields_bind h1 (fun e he => h3 e he)
    · rw [parse_unary]
      refine yields_bind (yields_any _) (fun _ _ => yields_ite _ ?_ ?_)
      · refine yields_bind (yields_any _) (fun _ _ => ?_)
        refine yields_bind h5 (fun e he => yields_pure ?_)
        simp [core_expr, core_expr_node]
        exact he
      · exact h4
    · intro e he
      rw [parse_factor_loop]
      refine yields_bind (yields_any _) (fun _ _ => yields_ite _ ?_ ?_)
      · refine yields_bind (yields_any _) (fun op _ => ?_)
        refine yields_bind h5 (fun r hr => ?_)
        refine h6 _ ?_
        have he' : core_expr e = true := he
        have hr' : core_expr r = true := hr
        simp only [core_expr, core_expr_node, he', hr', Bool.and_true]
        split_ifs <;> decide
      · exact yields_pure he
    · rw [parse_factor]
      exact yields_bind h5 (fun e he => h6 e he)
    · intro e he
      rw [parse_term_loop]
      refine yields_bind (yields_any _) (fun _ _ => yields_ite _ ?_ ?_)
      · refine yields_bind (yields_any _) (fun op _ => ?_)
        refine yields_bind h7 (fun r hr => ?_)
        refine h8 _ ?_
        have he' : core_expr e = true := he
        have hr' : core_expr r = true := hr
        simp only [core_expr, core_expr_node, he', hr', Bool.and_true]
        split_ifs <;> decide
      · exact yields_pure he
    · rw [parse_term]
      exact yields_bind h7 (fun e he => h8 e he)
    · intro e he
      rw [parse_comparison_loop]
      refine yields_bind (yields_any _) (fun _ _ => yields_ite _ ?_ ?_)
      · refine yields_bind (yields_any _) (fun op _ => ?_)
        refine yields_bind h9 (fun r hr => ?_)
        refine h10 _ ?_
        have he' : core_expr e = true := he
        have hr' : core_expr r = true := hr
        simp only [core_expr, core_expr_node, he', hr', Bool.and_true]
        split_ifs <;> decide
      · exact yields_pure he
    · rw [parse_comparison]
      exact yields_bind h9 (fun e he => h10 e he)
    · intro e he
      rw [parse_equality_loop]
      refine yields_bind (yields_any _) (fun _ _ => yields_ite _ ?_ ?_)
      · refine yields_bind (yields_any _) (fun op _ => ?_)
        refine yields_bind h11 (fun r hr => ?_)
        refine h12 _ ?_
        have he' : core_expr e = true := he
        have hr' : core_expr r = true := hr
        simp only [core_expr, core_expr_node, he', hr', Bool.and_true]
        split_ifs <;> decide
      · exact yields_pure he
    · rw [parse_equality]
      exact yields_bind h11 (fun e he => h12 e he)
    · rw [parse_expression]
      exact h13

theorem yields_parse_expression (n : Nat) :
    Yields (fun e => core_expr e = true) (parse_expression n) :=
  (yields_expression n).2.2.2.2.2.2.2.2.2.2.2.2.2

theorem yields_statement (n : Nat) :
    (∀ l, core_stmt_statements l = true →
      Yields (fun l => core_stmt_statements l = true) (parse_block_loop n l)) ∧
    Yields (fun s => core_stmt_node s = true) (parse_block n) ∧
    Yields (fun s => core_stmt s = true) (parse_if_statement n) ∧
    Yields (fun s => core_stmt s = true) (parse_statement n) := by
  induction n with
  | zero =>
    refine ⟨?_, ?_, ?_, ?_⟩ <;> intros <;>
      first
      | (rw [parse_block_loop]; exact yields_oof)
      | (rw [parse_block]; exact yields_oof)
      | (rw [parse_if_statement]; exact yields_oof)
      | (rw [parse_statement]; exact yields_oof)
  | succ n ih =>
    obtain ⟨h1, h2, h3, h4⟩ := ih
    have hx := yields_parse_expression n
    refine ⟨?_, ?_, ?_, ?_⟩
    · intro l hl
      rw [parse_block_loop]
      refine yields_bind (yields_any _) (fun _ _ => ?_)
      refine yields_bind (yields_any _) (fun _ _ => yields_ite _ ?_ ?_)
      · refine yields_bind h4 (fun s hs => ?_)
        refine yields_bind (yields_any _) (fun _ _ => ?_)
        exact h1 _ (core_statements_append _ _ hl hs)
      · exact yields_pure hl
    · rw [parse_block]
      refine yields_bind (yields_any _) (fun _ _ => ?_)
      refine yields_bind (h1 [] rfl) (fun l hl => yields_pure ?_)
      simp only [core_stmt_node]
      exact hl
    · rw [parse_if_statement]
      refine yields_bind hx (fun c hc => ?_)
      refine yields_bind (yields_any _) (fun _ _ => ?_)
      refine yields_bind (yields_any _) (fun _ _ => ?_)
      refine yields_bind h2 (fun t ht => ?_)
      refine yields_bind (yields_any _) (fun _ _ => ?_)
      refine yields_bind (H := fun s => core_stmt s = true) ?_ (fun e he => yields_pure ?_)
      · refine yields_bind (yields_any _) (fun _ _ => yields_ite _ ?_ ?_)
        · refine yields_bind (yields_any _) (fun _ _ => ?_)
          refine yields_bind (yields_any _) (fun _ _ => ?_)
          refine yields_bind h2 (fun b hb => ?_)
          refine yields_bind (yields_any _) (fun _ _ => yields_pure ?_)
          simp only [core_stmt]
          exact hb
        · exact yields_pure rfl
      · have hc' : core_expr c = true := hc
        have ht' : core_stmt_node t = true := ht
        have he' : core_stmt e = true := he
        simp [core_stmt, core_stmt_node, hc', ht', he']
    · rw [parse_statement]
      refine yields_bind (yields_any _) (fun _ _ => ?_)
      refine yields_bind (yields_any _) (fun _ _ => yields_ite _ h3 ?_)
      refine yields_bind (yields_any _) (fun _ _ => yields_ite _ ?_ ?_)
      · refine yields_bind (yields_any _) (fun _ _ => ?_)
        refine yields_bind hx (fun d hd => ?_)
        refine yields_bind (yields_any _) (fun _ _ => yields_pure ?_)
        simp only [core_stmt, core_stmt_node]
        exact hd
      · refine yields_bind hx (fun e he => ?_)
        refine yields_bind (yields_any _) (fun _ _ => yields_ite _ ?_ ?_)
        · split
          · exact yields_null
          · refine yields_bind hx (fun v hv => yields_pure ?_)
            simp only [core_stmt, core_stmt_node]
            exact hv
          · refine yields_bind hx (fun v hv => yields_pure ?_)
            simp only [core_stmt, core_stmt_node]
            exact hv
          · exact yields_bind (yields_any _) (fun _ _ => yields_pure rfl)
        · refine yields_pure ?_
          simp only [core_stmt, core_stmt_node]
          exact he

theorem yields_declaration (n : Nat) :
    Yields (fun d => ∀ decl, d = some decl → core_decl decl = true) (parse_declaration n) := by
  cases n with
  | zero => rw [parse_declaration]; exact yields_oof
  | succ n =>
    rw [parse_declaration]
    refine yields_bind (yields_any _) (fun _ _ => ?_)
    refine yields_bind (yields_any _) (fun _ _ => yields_ite _ ?_ ?_)
    · rw [parse_motor_decl]
      refine yields_bind (yields_any _) (fun _ _ => ?_)
      refine yields_bind (yields_any _) (fun _ _ => ?_)
      refine yields_bind (yields_any _) (fun _ _ => ?_)
      refine yields_bind (yields_any _) (fun _ _ => ?_)
      refine yields_bind (yields_any _) (fun _ _ => yields_pure ?_)
      intro decl hd
      cases hd
      rfl
    refine yields_bind (yields_any _) (fun _ _ => yields_ite _ ?_ ?_)
    · rw [parse_sensor_decl]
      refine yields_bind (yields_any _) (fun _ _ => ?_)
      refine yields_bind (yields_any _) (fun _ _ => ?_)
      refine yields_bind (yields_any _) (fun _ _ => ?_)
      refine yields_bind (yields_any _) (fun _ _ => ?_)
      refine yields_bind (yields_any _) (fun _ _ => ?_)
      refine yields_bind (yields_any _) (fun _ _ => yields_pure ?_)
      intro decl hd
      cases hd
      rfl
    refine yields_bind (yields_any _) (fun _ _ => yields_ite _ ?_ ?_)
    · cases n with
      | zero => rw [parse_task_decl]; exact yields_oof
      | succ n =>
        rw [parse_task_decl]
        refine yields_bind (yields_any _) (fun _ _ => ?_)
        refine yields_bind (yields_any _) (fun _ _ => ?_)
        refine yields_bind (yields_any _) (fun _ _ => ?_)
        refine yields_bind (yields_any _) (fun _ _ => ?_)
        refine yields_bind (yields_any _) (fun _ _ => ?_)
        refine yields_bind (yields_any _) (fun _ _ => ?_)
        refine yields_bind (yields_any _) (fun _ _ => ?_)
        refine yields_bind (yields_statement n).2.1 (fun b hb => ?_)
        refine yields_bind (yields_any _) (fun _ _ => yields_pure ?_)
        intro decl hd
        cases hd
        simp only [core_decl, core_stmt]
        exact hb
    refine yields_bind (yields_any _) (fun _ _ => yields_ite _ ?_ ?_)
    · cases n with
      | zero => rw [parse_schedule_decl]; exact yields_oof
      | succ n =>
        rw [parse_schedule_decl]
        refine yields_bind (yields_any _) (fun _ _ => ?_)
        refine yields_bind (yields_any _) (fun _ _ => ?_)
        refine yields_bind (yields_any _) (fun _ _ => ?_)
        refine yields_bind (yields_parse_expression n) (fun f hf => ?_)
        refine yields_bind (yields_any _) (fun _ _ => ?_)
        refine yields_bind (yields_any _) (fun _ _ => ?_)
        refine yields_bind (yields_any _) (fun _ _ => ?_)
        refine yields_bind (yields_statement n).2.1 (fun b hb => ?_)
        refine yields_bind (yields_any _) (fun _ _ => yields_pure ?_)
        intro decl hd
        cases hd
        have hf' : core_expr f = true := hf
        have hb' : core_stmt_node b = true := hb
        simp [core_decl, core_stmt, hf', hb']
    · refine yields_bind (yields_any _) (fun _ _ => yields_pure ?_)
      intro decl hd
      cases hd

theorem yields_parse_loop (n : Nat) :
    ∀ robot : ast_robot_t, robot.declarations.all core_decl = true →
      Yields (fun r => r.declarations.all core_decl = true) (parser_parse_loop n robot) := by
  induction n with
  | zero => intro r _; rw [parser_parse_loop]; exact yields_oof
  | succ n ih =>
    intro robot hr
    rw [parser_parse_loop]
    refine yields_bind (yields_any _) (fun _ _ => ?_)
    refine yields_bind (yields_any _) (fun _ _ => yields_ite _ ?_ ?_)
    · refine yields_bind (yields_declaration n) (fun d hd => ?_)
      refine yields_bind (yields_any _) (fun _ _ => ?_)
      refine ih _ ?_
      cases d with
      | none => exact hr
      | some decl =>
        simp only [List.all_append, List.all_cons, List.all_nil, Bool.and_true, Bool.and_eq_true]
        exact ⟨hr, hd decl rfl⟩
    · exact yields_pure hr

theorem yields_parser_parse (n : Nat) :
    Yields (fun r => ∀ robot, r = some robot → robot.declarations.all core_decl = true)
      (parser_parse n) := by
  cases n with
  | zero => rw [parser_parse]; exact yields_oof
  | succ n =>
    rw [parser_parse]
    refine yields_bind (yields_any _) (fun _ _ => ?_)
    refine yields_bind (yields_any _) (fun _ _ => ?_)
    refine yields_bind (yields_any _) (fun _ _ => ?_)
    refine yields_bind (yields_any _) (fun _ _ => ?_)
    refine yields_bind (yields_any _) (fun _ _ => ?_)
    refine yields_bind (yields_any _) (fun _ _ => ?_)
    refine yields_bind (yields_parse_loop n _ rfl) (fun r hr => ?_)
    refine yields_bind (yields_any _) (fun _ _ => ?_)
    refine yields_bind (yields_any _) (fun _ _ => yields_ite _ ?_ ?_)
    · exact yields_pure (fun robot h => by cases h)
    · refine yields_pure (fun robot h => ?_)
      cases h
      exact hr

theorem core_of_value {α : Type} {G : α → Bool} {x : ParseM α}
    (h : Yields (fun a => G a = true) x) (p : parser_t) : (x p).value.all G = true := by
  cases hx : x p with
  | done a q => exact h.post p a q hx
  | out_of_fuel q => rfl
  | null_deref q => rfl

/-- Claim C37.  Whatever the fuel and the parser state, what the parsing
functions return holds only node kinds that the grammar of the parser builds:
an expression from `parse_expression` holds no AND or OR binary node, no unit
node and no boolean literal at any depth; a statement from `parse_statement`
holds no return statement and only such expressions; and every declaration of
a robot returned by `parser_parse` is a motor, a sensor, a task or a schedule,
with such a frequency and body.  The statement is not vacuous: the last three
conjuncts show a parse that returns a robot with one declaration of each
kind, and that `a && b` and `true` leave no AND node and no boolean literal. -/
theorem only_grammar_nodes :
    (∀ (fuel : Nat) (p : parser_t), (parse_expression fuel p).value.all core_expr = true) ∧
    (∀ (fuel : Nat) (p : parser_t), (parse_statement fuel p).value.all core_stmt = true) ∧
    (∀ (fuel : Nat) (p : parser_t), (parser_parse fuel p).declarations.all core_decl = true) ∧
    (∀ (fuel : Nat) (p : parser_t) (robot : ast_robot_t) (q : parser_t),
      parser_parse fuel p = .done (some robot) q →
      ∀ decl ∈ robot.declarations,
        decl.type = .DECL_MOTOR ∨ decl.type = .DECL_SENSOR ∨ decl.type = .DECL_TASK ∨
          decl.type = .DECL_SCHEDULE) ∧
    (parser_parse 30 (parser_on
      "robot R \x7b motor m on P\n sensor s on Q\n task t() \x7b x = -f(1).y \x7d\n schedule k @ 10 \x7b if a == 1 \x7b wait(5) \x7d \x7d \x7d")).declarations.map
        ast_decl_t.type = [.DECL_MOTOR, .DECL_SENSOR, .DECL_TASK, .DECL_SCHEDULE] ∧
    (parse_expression 30 (parser_on "a && b")).value.map (Option.map ast_expr_t.type) =
      some (some .EXPR_IDENTIFIER) ∧
    (parse_expression 30 (parser_on "true")).value.map (Option.map ast_expr_t.type) =
      some (some .EXPR_IDENTIFIER) := by
  refine ⟨fun fuel p => core_of_value (yields_parse_expression fuel) p,
    fun fuel p => core_of_value (yields_statement fuel).2.2.2 p, ?_, ?_,
    by decide!, by decide!, by decide!⟩
  · intro fuel p
    cases h : parser_parse fuel p with
    | done r q =>
      cases r with
      | none => rfl
      | some robot => exact (yields_parser_parse fuel).post p _ q h robot rfl
    | out_of_fuel q => rfl
    | null_deref q => rfl
  · intro fuel p robot q h decl hd
    have hall := (yields_parser_parse fuel).post p _ q h robot rfl
    have hdecl := List.all_eq_true.mp hall decl hd
    cases decl <;> first | (simp [core_decl] at hdecl; done) | simp [ast_decl_t.type]

end Parser

/-! ## Theorems on the safety monitor -/

namespace Safety

open nrx_safety_state_t nrx_fault_code_t nrx_limit_type_t

theorem estop_state (g : safety_t) : (nrx_safety_estop g).state = NRX_SAFETY_ESTOP := by
  unfold nrx_safety_estop
  dsimp only
  split <;> rfl

theorem fault_state (g : safety_t) (fault : nrx_fault_code_t) (message : Option (List Char)) :
    (nrx_safety_fault g fault message).state =
      if fault = NRX_FAULT_ESTOP ∨ fault = NRX_FAULT_WATCHDOG then NRX_SAFETY_ESTOP
      else NRX_SAFETY_FAULT := by
  unfold nrx_safety_fault
  dsimp only
  by_cases h : fault = NRX_FAULT_ESTOP ∨ fault = NRX_FAULT_WATCHDOG
  · rw [if_pos h, if_pos h, estop_state]
  · rw [if_neg h, if_neg h]
    split <;> rfl

theorem check_limit_loop_spec (limits : List nrx_limit_t) (type : nrx_limit_type_t) (value : ℚ)
    (g : safety_t) :
    ((check_limit_loop limits type value g).1 = true ∧
      (check_limit_loop limits type value g).2 = g) ∨
    ((check_limit_loop limits type value g).1 = false ∧
      (check_limit_loop limits type value g).2.state = NRX_SAFETY_FAULT) := by
  induction limits with
  | nil => exact Or.inl ⟨rfl, rfl⟩
  | cons limit rest ih =>
    unfold check_limit_loop
    split
    · split
      · refine Or.inr ⟨rfl, ?_⟩
        rw [fault_state]
        rfl
      · exact ih
    · exact ih

theorem update_state (g : safety_t) (now : Nat) :
    nrx_safety_update g now = g ∨ (nrx_safety_update g now).state = NRX_SAFETY_ESTOP := by
  unfold nrx_safety_update
  dsimp only
  split
  · exact Or.inl rfl
  · split
    · split
      · exact Or.inr (by rw [fault_state]; rfl)
      · exact Or.inl rfl
    · exact Or.inl rfl

theorem watchdog_enable_state (g : safety_t) (enable : Bool) (now : Nat) :
    (nrx_safety_watchdog_enable g enable now).state = g.state := by
  unfold nrx_safety_watchdog_enable
  dsimp only
  split <;> rfl

theorem run_keeps_estop (g : safety_t) (c : safety_call) (h : g.state = NRX_SAFETY_ESTOP)
    (hc : c.raises_no_other_fault g = true) : (c.run g).state = NRX_SAFETY_ESTOP := by
  cases c with
  | fault code message =>
    have hf : code = NRX_FAULT_ESTOP ∨ code = NRX_FAULT_WATCHDOG := by
      simpa [safety_call.raises_no_other_fault] using hc
    simp only [safety_call.run]
    rw [fault_state, if_pos hf]
  | clear_fault =>
    simp only [safety_call.run, nrx_safety_clear_fault]
    rw [if_neg (by simp [h])]
    exact h
  | check_limit type value =>
    simp only [safety_call.run, nrx_safety_check_limit]
    simp only [safety_call.raises_no_other_fault, nrx_safety_check_limit] at hc
    rcases check_limit_loop_spec g.config.limits type value g with h1 | h1
    · rw [h1.2]
      exact h
    · rw [h1.1] at hc
      cases hc
  | update now =>
    simp only [safety_call.run]
    rcases update_state g now with h1 | h1
    · rw [h1]
      exact h
    · exact h1
  | watchdog_feed now => exact h
  | watchdog_enable enable now =>
    simp only [safety_call.run]
    rw [watchdog_enable_state]
    exact h

/-- Claim C40 is refuted by the code.  `nrx_safety_fault` overwrites the state
with FAULT before anything else and restores the emergency stop only for the
codes ESTOP and WATCHDOG: called with any other code in an emergency stop, it
leaves the monitor in FAULT, and `nrx_safety_clear_fault`, whose guard no longer
applies, then puts it back to NORMAL.  A limit check that fails does the same,
because it raises LIMIT_EXCEEDED through `nrx_safety_fault`.  The rest of the
claim holds: a sequence of calls none of which raises such a fault (clearing,
updating, feeding or switching the watchdog, faults with the codes ESTOP and
WATCHDOG, limit checks that pass) leaves the state at ESTOP. -/
theorem estop_not_latched :
    (∀ (g : safety_t) (fault : nrx_fault_code_t) (message : Option (List Char)),
      fault ≠ NRX_FAULT_ESTOP → fault ≠ NRX_FAULT_WATCHDOG →
      (nrx_safety_fault (nrx_safety_estop g) fault message).state = NRX_SAFETY_FAULT ∧
      nrx_safety_is_estopped (nrx_safety_fault (nrx_safety_estop g) fault message) = false ∧
      (nrx_safety_clear_fault
        (nrx_safety_fault (nrx_safety_estop g) fault message)).state = NRX_SAFETY_NORMAL) ∧
    (∀ (g : safety_t) (type : nrx_limit_type_t) (value : ℚ),
      (nrx_safety_check_limit (nrx_safety_estop g) type value).1 = false →
      (nrx_safety_check_limit (nrx_safety_estop g) type value).2.state = NRX_SAFETY_FAULT) ∧
    (run_calls (nrx_safety_estop (nrx_safety_init none 0))
      [.fault NRX_FAULT_SENSOR none]).state = NRX_SAFETY_FAULT ∧
    (run_calls (nrx_safety_estop (nrx_safety_init none 0))
      [.fault NRX_FAULT_SENSOR none, .clear_fault]).state = NRX_SAFETY_NORMAL ∧
    (run_calls (nrx_safety_estop (nrx_safety_set_limit (nrx_safety_init none 0)
      NRX_LIMIT_SPEED 0 1)) [.check_limit NRX_LIMIT_SPEED 2]).state = NRX_SAFETY_FAULT ∧
    (∀ (calls : List safety_call) (g : safety_t), g.state = NRX_SAFETY_ESTOP →
      raise_no_other_fault g calls = true →
      (run_calls g calls).state = NRX_SAFETY_ESTOP ∧
      nrx_safety_is_estopped (run_calls g calls) = true) := by
  refine ⟨?_, ?_, by decide!, by decide!, by decide!, ?_⟩
  · intro g fault message h1 h2
    have hs : (nrx_safety_fault (nrx_safety_estop g) fault message).state = NRX_SAFETY_FAULT := by
      rw [fault_state, if_neg (by simp [h1, h2])]
    refine ⟨hs, by simp [nrx_safety_is_estopped, hs], ?_⟩
    simp [nrx_safety_clear_fault, hs]
  · intro g type value h
    rcases check_limit_loop_spec (nrx_safety_estop g).config.limits type value
      (nrx_safety_estop g) with h1 | h1
    · rw [nrx_safety_check_limit, h1.1] at h
      cases h
    · exact h1.2
  · intro calls
    induction calls with
    | nil =>
      intro g h _
      exact ⟨h, by simp [run_calls, nrx_safety_is_estopped, h]⟩
    | cons c calls ih =>
      intro g h hall
      simp only [raise_no_other_fault, Bool.and_eq_true] at hall
      exact ih (c.run g) (run_keeps_estop g c h hall.1) hall.2

theorem estop_not_latched_witness :
    (run_calls (nrx_safety_estop (nrx_safety_init none 0))
      [.clear_fault, .update 5000000, .watchdog_enable true 5000000, .update 9000000,
       .check_limit NRX_LIMIT_SPEED 3, .fault NRX_FAULT_WATCHDOG none]).state =
      NRX_SAFETY_ESTOP ∧
    nrx_safety_is_estopped (nrx_safety_fault (nrx_safety_estop (nrx_safety_init none 0))
      NRX_FAULT_MOTOR none) = false :=
  ⟨(estop_not_latched.2.2.2.2.2
      [.clear_fault, .update 5000000, .watchdog_enable true 5000000, .update 9000000,
       .check_limit NRX_LIMIT_SPEED 3, .fault NRX_FAULT_WATCHDOG none]
      (nrx_safety_estop (nrx_safety_init none 0)) (by decide) (by
        decide!)).1,
   (estop_not_latched.1 (nrx_safety_init none 0) NRX_FAULT_MOTOR none (by decide)
      (by decide)).2.1⟩

end Safety

end NeuroX
